import Mathlib

/-!
# DENCLUE: a shallow embedding of the data set, the grid index, the density functions, the
path search and the clustering phases

The C++ sources (`dataset.cpp`, `hypercube.cpp`, `hyperspace.cpp`,
`denclue_functions.cpp`, and the phases of `main` and `printOutput` of `denclue.cpp`) are
embedded as executable Lean definitions.

Conventions of the embedding.

* A `double` is an exact rational number (`ℚ`): rounding of binary floating point,
  infinities and NaN are not represented.
* A `std::string` is a `List Char`.  `ostream << double` is `fmtDouble` (the `%g`
  conversion with six significant digits that the default stream flags select) and
  `atof` is `atof` (decimal grammar only).
* A `std::map<string, T>` is an association list kept sorted by key (`strLt`), so
  that traversal order is the order of the C++ container.
* `new double[n]` returns storage whose contents the program does not choose; a
  definition whose result can show such contents takes them as an argument (`fresh`).
  Where the program overwrites the whole array, the definition starts from zeros and a
  theorem states that the contents do not matter.
* Dereferencing a past-the-end iterator, or the result of a failed `map::find`, has
  no defined behaviour; the definitions that can do so return `Option`/`Run` values
  and yield `none`/`Run.undefined` there.
* A recursion or loop that the C++ does not bound takes a bound `fuel`; `none` or
  `Run.noFuel` means that the bound was reached, and theorems about results are stated
  for every bound from the first sufficient one on.
* The functions `expl` and `sqrt` of the C library have no exact rational values; they
  are parameters (`ℚ → ℚ`) of the definitions that use their values.  A comparison of a
  distance or of a norm is decided on its square.
-/

namespace Denclue

/-! ## Text: `ostream << double`, `atof`, `stringstream` -/

/-- Constants::EOL. -/
def EOL : Char := '\n'

/-- Constants::CSV_SEPARATOR. -/
def CSV_SEPARATOR : Char := ','

/-- The decimal digit character of `n % 10`. -/
def digitChar (n : Nat) : Char :=
  match n % 10 with
  | 0 => '0' | 1 => '1' | 2 => '2' | 3 => '3' | 4 => '4'
  | 5 => '5' | 6 => '6' | 7 => '7' | 8 => '8' | _ => '9'

/-- The last `k` decimal digits of `n`, most significant first. -/
def digitsFixed : Nat → Nat → List Char
  | 0, _ => []
  | k + 1, n => digitsFixed k (n / 10) ++ [digitChar n]

/-- Decimal digits of `n` without leading zeros (`fuel` bounds the number of digits). -/
def natDigits : Nat → Nat → List Char
  | 0, _ => []
  | fuel + 1, n => if n < 10 then [digitChar n] else natDigits fuel (n / 10) ++ [digitChar n]

/-- Bring a positive rational into `[1, 10)` by dividing by ten, counting the steps. -/
def scaleDown : Nat → ℚ → Int → ℚ × Int
  | 0, a, e => (a, e)
  | fuel + 1, a, e => if 10 ≤ a then scaleDown fuel (a / 10) (e + 1) else (a, e)

/-- Bring a positive rational into `[1, 10)` by multiplying by ten, counting the steps. -/
def scaleUp : Nat → ℚ → Int → ℚ × Int
  | 0, a, e => (a, e)
  | fuel + 1, a, e => if a < 1 then scaleUp fuel (a * 10) (e - 1) else (a, e)

/-- Round a non-negative rational to the nearest natural number, ties to even. -/
def roundHalfEven (a : ℚ) : Nat :=
  let f := ⌊a⌋.toNat
  let r := a - f
  if r < 1 / 2 then f
  else if 1 / 2 < r then f + 1
  else if f % 2 = 0 then f else f + 1

/-- Drop the trailing `'0'` characters of a digit string. -/
def stripZeros (ds : List Char) : List Char :=
  (ds.reverse.dropWhile (fun c => c == '0')).reverse

/-- Six significant digits `m` (with `100000 ≤ m < 1000000`) and the decimal exponent `e`
of a positive rational: `a ≈ m * 10 ^ (e - 5)`. -/
def sigDigits (a : ℚ) : Nat × Int :=
  let fuel := a.num.natAbs + a.den
  let (b, e) := if 10 ≤ a then scaleDown fuel a 0 else scaleUp fuel a 0
  let m := roundHalfEven (b * 100000)
  if m = 1000000 then (100000, e + 1) else (m, e)

/-- The text of a positive rational under `%g` with precision 6. -/
def fmtPos (a : ℚ) : List Char :=
  let (m, e) := sigDigits a
  let ds := digitsFixed 6 m
  if -4 ≤ e ∧ e < 6 then
    if 0 ≤ e then
      let ip := ds.take (e.toNat + 1)
      let fp := stripZeros (ds.drop (e.toNat + 1))
      if fp = [] then ip else ip ++ '.' :: fp
    else
      '0' :: '.' :: (List.replicate ((-e).toNat - 1) '0' ++ stripZeros ds)
  else
    let fp := stripZeros (ds.drop 1)
    let mant := if fp = [] then ds.take 1 else ds.take 1 ++ '.' :: fp
    let ex := e.natAbs
    let exDigits := if ex < 10 then ['0', digitChar ex] else natDigits (ex + 1) ex
    mant ++ 'e' :: (if e < 0 then '-' else '+') :: exDigits

/-- The text that `ostream << double` writes with the default flags. -/
def fmtDouble (x : ℚ) : List Char :=
  if x = 0 then ['0']
  else if x < 0 then '-' :: fmtPos (-x)
  else fmtPos x

/-- The function `isspace` of the C locale. -/
def isSpace (c : Char) : Bool :=
  c == ' ' || c == '\t' || c == '\n' || c == '\x0b' || c == '\x0c' || c == '\r'

/-- The function `isdigit`. -/
def isDigit (c : Char) : Bool :=
  c == '0' || c == '1' || c == '2' || c == '3' || c == '4' ||
  c == '5' || c == '6' || c == '7' || c == '8' || c == '9'

/-- The value of a decimal digit character. -/
def digitVal (c : Char) : Nat :=
  if c == '1' then 1 else if c == '2' then 2 else if c == '3' then 3
  else if c == '4' then 4 else if c == '5' then 5 else if c == '6' then 6
  else if c == '7' then 7 else if c == '8' then 8 else if c == '9' then 9 else 0

/-- The value of a string of decimal digits. -/
def digitsVal (ds : List Char) : Nat :=
  ds.foldl (fun acc c => 10 * acc + digitVal c) 0

/-- An optional sign: whether it is `'-'`, and the rest of the text. -/
def readSign : List Char → Bool × List Char
  | '-' :: t => (true, t)
  | '+' :: t => (false, t)
  | s => (false, s)

/-- The exponent part of a decimal number (`e`, optional sign, digits), 0 when absent. -/
def readExponent : List Char → Int
  | c :: t =>
    if c == 'e' || c == 'E' then
      let (neg, r) := readSign t
      let ds := r.takeWhile isDigit
      if neg then -(digitsVal ds : Int) else (digitsVal ds : Int)
    else 0
  | [] => 0

/-- The function `atof` on decimal text: leading white space, optional sign, digits with an
optional point, optional exponent; the longest such prefix is converted and text that does
not start with a number gives 0. -/
def atof (s : List Char) : ℚ :=
  let (neg, r) := readSign (s.dropWhile isSpace)
  let ip := r.takeWhile isDigit
  let r1 := r.dropWhile isDigit
  let fp := match r1 with
    | '.' :: t => t.takeWhile isDigit
    | _ => []
  let r2 := match r1 with
    | '.' :: t => t.dropWhile isDigit
    | _ => r1
  if ip = [] ∧ fp = [] then 0
  else
    let mant : ℚ := (digitsVal (ip ++ fp) : ℚ) / (10 : ℚ) ^ fp.length
    let ex := readExponent r2
    let v := if 0 ≤ ex then mant * (10 : ℚ) ^ ex.toNat else mant / (10 : ℚ) ^ (-ex).toNat
    if neg then -v else v

/-- The extraction `stringstream >> str`: skip white space, then read up to the next white
space.  Returns the word read and the text left unread in the stream. -/
def extractWord (buf : List Char) : List Char × List Char :=
  let r := buf.dropWhile isSpace
  (r.takeWhile (fun c => !isSpace c), r.dropWhile (fun c => !isSpace c))

/-! ## `std::map<string, T>` -/

/-- The order `operator<` of `std::string`: lexicographic on the character codes. -/
def strLt : List Char → List Char → Bool
  | [], [] => false
  | [], _ :: _ => true
  | _ :: _, [] => false
  | a :: as, b :: bs =>
    if a.toNat < b.toNat then true
    else if b.toNat < a.toNat then false
    else strLt as bs

/-- A `std::map<string, T>`: the entries in increasing order of the key. -/
abbrev StrMap (α : Type) := List (List Char × α)

namespace StrMap

/-- The member `find`: the value stored under `k`, `none` for `end()`. -/
def find {α : Type} : StrMap α → List Char → Option α
  | [], _ => none
  | (k', v) :: rest, k => if k' = k then some v else find rest k

/-- The test `count(k) > 0`. -/
def contains {α : Type} (m : StrMap α) (k : List Char) : Bool := (m.find k).isSome

/-- The member `insert`: a new entry at its place in the order; an existing key keeps its
value. -/
def insert {α : Type} : StrMap α → List Char → α → StrMap α
  | [], k, v => [(k, v)]
  | (k', v') :: rest, k, v =>
    if k' = k then (k', v') :: rest
    else if strLt k k' then (k, v) :: (k', v') :: rest
    else (k', v') :: insert rest k v

/-- The assignment `m[k] = v`: insert the entry or overwrite the value. -/
def assign {α : Type} : StrMap α → List Char → α → StrMap α
  | [], k, v => [(k, v)]
  | (k', v') :: rest, k, v =>
    if k' = k then (k', v) :: rest
    else if strLt k k' then (k, v) :: (k', v') :: rest
    else (k', v') :: assign rest k v

/-- The member `erase` for a key. -/
def erase {α : Type} (m : StrMap α) (k : List Char) : StrMap α :=
  m.filter (fun kv => !decide (kv.1 = k))

/-- The keys, in traversal order. -/
def keys {α : Type} (m : StrMap α) : List (List Char) := m.map Prod.fst

end StrMap

/-! ## DatasetEntity (dataset.h, dataset.cpp) -/

/-- A dataset entity: the array `attributes` (its length is `num_dimensions`) and the
density. -/
structure DatasetEntity where
  attributes : List ℚ
  density : ℚ
  deriving DecidableEq, Repr

/-- The contents of a freshly allocated `double` array, by index. -/
abbrev Junk := Nat → ℚ

namespace DatasetEntity

/-- The constructor `DatasetEntity(dimension)`: `attributes = new double[dimension]` is not
initialised (its contents are `fresh`), the density is 0. -/
def new (dimension : Nat) (fresh : Junk) : DatasetEntity :=
  { attributes := (List.range dimension).map fresh, density := 0 }

/-- The member `getNumOfDimensions`. -/
def getNumOfDimensions (e : DatasetEntity) : Nat := e.attributes.length

/-- The member `getComponentValue`.  (For an index out of range the C++ prints a diagnostic
and reads outside the array; that read is given the value 0 here.) -/
def getComponentValue (e : DatasetEntity) (component_index : Nat) : ℚ :=
  e.attributes.getD component_index 0

/-- The member `setDensity`. -/
def setDensity (e : DatasetEntity) (density : ℚ) : DatasetEntity :=
  { e with density := density }

/-- The member `getDensity`. -/
def getDensity (e : DatasetEntity) : ℚ := e.density

/-- The `do ... while` loop of `buildEntityFromString`, one character of the input per step.
`buf` is the unread text of `string_output`, `idx` is `curr_component_index`.  The loop ends
when the input is exhausted (`string_input.eof()`), without storing the text collected since
the last separator. -/
def buildLoop (num_dimensions : Nat) : List Char → List Char → Nat → List ℚ → List ℚ
  | [], _, _, attrs => attrs
  | c :: rest, buf, idx, attrs =>
    if num_dimensions ≤ idx then attrs
    else if c == CSV_SEPARATOR || c == EOL then
      let w := extractWord buf
      buildLoop num_dimensions rest w.2 (idx + 1) (attrs.set idx (atof w.1))
    else
      buildLoop num_dimensions rest (buf ++ [c]) idx attrs

/-- The member `buildEntityFromString`: a component is stored each time the separator or the
end of line is read. -/
def buildEntityFromString (e : DatasetEntity) (input : List Char) : DatasetEntity :=
  { e with attributes := buildLoop e.attributes.length input [] 0 e.attributes }

/-- The values of a list written to a stream with `','` before each one but the first. -/
def writeCsv : List ℚ → List Char
  | [] => []
  | [x] => fmtDouble x
  | x :: y :: rest => fmtDouble x ++ ',' :: writeCsv (y :: rest)

/-- The member `getStringRepresentation`. -/
def getStringRepresentation (e : DatasetEntity) : List Char :=
  writeCsv e.attributes

/-- The componentwise differences computed by `operator-`, for the first
`dimension_output` components. -/
def componentDifferences (a b : DatasetEntity) : List ℚ :=
  (List.range (min a.getNumOfDimensions b.getNumOfDimensions)).map
    (fun i => a.getComponentValue i - b.getComponentValue i)

/-- The componentwise sums computed by `operator+`. -/
def componentSums (a b : DatasetEntity) : List ℚ :=
  (List.range (min a.getNumOfDimensions b.getNumOfDimensions)).map
    (fun i => a.getComponentValue i + b.getComponentValue i)

/-- The member `operator-` with the contents of its fresh result array made explicit: the
differences are written as text, ended by `EOL`, and the result is built from that text. -/
def subFresh (fresh : Junk) (a b : DatasetEntity) : DatasetEntity :=
  (DatasetEntity.new (min a.getNumOfDimensions b.getNumOfDimensions) fresh).buildEntityFromString
    (writeCsv (componentDifferences a b) ++ [EOL])

/-- The member `operator-`.  The text it parses has one field per component and ends with
`EOL`, so every component of the fresh array is overwritten (`subFresh_eq`). -/
def sub (a b : DatasetEntity) : DatasetEntity := subFresh (fun _ => 0) a b

/-- The member `operator+` with the contents of its fresh result array made explicit. -/
def addFresh (fresh : Junk) (a b : DatasetEntity) : DatasetEntity :=
  (DatasetEntity.new (min a.getNumOfDimensions b.getNumOfDimensions) fresh).buildEntityFromString
    (writeCsv (componentSums a b) ++ [EOL])

/-- The member `operator+`. -/
def add (a b : DatasetEntity) : DatasetEntity := addFresh (fun _ => 0) a b

/-- The member `operator*`: a copy with every component multiplied by `scalar`. -/
def scale (e : DatasetEntity) (scalar : ℚ) : DatasetEntity :=
  { e with attributes := e.attributes.map (fun x => x * scalar) }

/-- The sum `component_squares_sum` of `getEuclideanNorm`; the norm is its square root. -/
def component_squares_sum (e : DatasetEntity) : ℚ :=
  (e.attributes.map (fun x => x ^ 2)).sum

/-- The squared value of `distanceBetween`: the squared norm of the difference. -/
def distanceSquared (entity1 entity2 : DatasetEntity) : ℚ :=
  (sub entity1 entity2).component_squares_sum

/-- The test `distanceBetween(entity1, entity2) < bound`, decided on the squares. -/
def distanceLt (entity1 entity2 : DatasetEntity) (bound : ℚ) : Bool :=
  decide (0 < bound) && decide (distanceSquared entity1 entity2 < bound ^ 2)

/-- The test `distanceBetween(entity1, entity2) <= bound`, decided on the squares. -/
def distanceLe (entity1 entity2 : DatasetEntity) (bound : ℚ) : Bool :=
  decide (0 ≤ bound) && decide (distanceSquared entity1 entity2 ≤ bound ^ 2)

end DatasetEntity

/-! ## Dataset (dataset.h, dataset.cpp) -/

/-- The conversion `(char) x` of a `double` constant that is outside the range of `char`.
C++ leaves it undefined; it is taken the way GCC folds the constant, saturating to the range
of a signed `char`. -/
def charOfDouble (x : ℚ) : Int :=
  let t : Int := if 0 ≤ x then ⌊x⌋ else ⌈x⌉
  max (-128) (min 127 t)

/-- The finite `double` (IEEE 754 binary64) whose eight bytes all equal the byte `c`, which
is what `memset` with fill value `c` leaves in each element of a `double` array.  (The byte
`0xff`, whose pattern is a NaN, has no value here.) -/
def doubleOfFill (c : Int) : ℚ :=
  let b : Nat := (c % 256).toNat
  let bits : Nat := b * 0x0101010101010101
  let sign : Nat := bits / 2 ^ 63
  let ex : Nat := (bits / 2 ^ 52) % 2048
  let man : Nat := bits % 2 ^ 52
  let mag : ℚ :=
    if ex = 0 then (man : ℚ) / 2 ^ 1074
    else if 1075 ≤ ex then ((2 ^ 52 + man : Nat) : ℚ) * 2 ^ (ex - 1075)
    else ((2 ^ 52 + man : Nat) : ℚ) / 2 ^ (1075 - ex)
  if sign = 1 then -mag else mag

/-- A data set: its dimension, its entities, the component sums and the bounds. -/
structure Dataset where
  dimensions : Nat
  entities : List DatasetEntity
  sum : List ℚ
  upper_bound : List ℚ
  lower_bound : List ℚ
  deriving DecidableEq, Repr

namespace Dataset

/-- The constructor `Dataset(dimensions)`: `sum` is zeroed; `upper_bound` is filled by
`memset` with the byte `(char)(((unsigned)0xffff) * -1.0)` and `lower_bound` with the byte
`(char)(((unsigned)0xffff) * 1.0)`. -/
def new (dimensions : Nat) : Dataset :=
  { dimensions := dimensions
    entities := []
    sum := List.replicate dimensions 0
    upper_bound := List.replicate dimensions (doubleOfFill (charOfDouble (65535 * -1)))
    lower_bound := List.replicate dimensions (doubleOfFill (charOfDouble (65535 * 1))) }

/-- The body of the loop of `addEntity` for component `i`. -/
def addComponent (entity : DatasetEntity) (ds : Dataset) (i : Nat) : Dataset :=
  let v := entity.getComponentValue i
  let ub := if v > ds.upper_bound.getD i 0 then v else ds.upper_bound.getD i 0
  let lb := if v < ds.lower_bound.getD i 0 then v else ds.lower_bound.getD i 0
  { ds with
    sum := ds.sum.set i (ds.sum.getD i 0 + v)
    upper_bound := ds.upper_bound.set i (⌈ub⌉ : ℚ)
    lower_bound := ds.lower_bound.set i (⌊lb⌋ : ℚ) }

/-- The member `addEntity`: append the entity, then update sum and bounds of each of its
components, rounding the bounds with `ceill` and `floorl`. -/
def addEntity (ds : Dataset) (entity : DatasetEntity) : Dataset :=
  (List.range entity.getNumOfDimensions).foldl (addComponent entity)
    { ds with entities := ds.entities ++ [entity] }

/-- The member `retrieveUpperBound`. -/
def retrieveUpperBound (ds : Dataset) : List ℚ :=
  (List.range ds.dimensions).map (fun i => ds.upper_bound.getD i 0)

/-- The member `retrieveLowerBound`. -/
def retrieveLowerBound (ds : Dataset) : List ℚ :=
  (List.range ds.dimensions).map (fun i => ds.lower_bound.getD i 0)

/-- The member `getEntity` for a valid index. -/
def getEntity (ds : Dataset) (index : Nat) : Option DatasetEntity := ds.entities.get? index

/-- A data set filled by `addEntity` from a list of entities, in order. -/
def ofEntities (dimensions : Nat) (es : List DatasetEntity) : Dataset :=
  es.foldl addEntity (Dataset.new dimensions)

end Dataset

/-! ## HyperCube (hypercube.h, hypercube.cpp) -/

/-- One cell of the grid. -/
structure HyperCube where
  dimensions : Nat
  edge_length : ℚ
  hypercube_key : List Char
  objects : List DatasetEntity
  neighbors : List (List Char)
  entities_sum : List ℚ
  deriving DecidableEq, Repr

namespace HyperCube

/-- The static member `getKeyFromArray`: the first `dimension` upper bounds as text, joined
by `','`.  (The parameter `edge_length` of the C++ is not used by it.) -/
def getKeyFromArray (upper_bounds : List ℚ) (dimension : Nat) : List Char :=
  DatasetEntity.writeCsv ((List.range dimension).map (fun i => upper_bounds.getD i 0))

/-- The `while` loop of `getArrayFromKey`: a value is stored each time the separator is read
and when the input is exhausted. -/
def arrayLoop (dimension : Nat) : List Char → List Char → Nat → List ℚ → List ℚ
  | [], buf, i, arr =>
    if dimension ≤ i then arr else arr.set i (atof (extractWord buf).1)
  | c :: rest, buf, i, arr =>
    if dimension ≤ i then arr
    else if c == CSV_SEPARATOR then
      arrayLoop dimension rest (extractWord buf).2 (i + 1) (arr.set i (atof (extractWord buf).1))
    else arrayLoop dimension rest (buf ++ [c]) i arr

/-- The static member `getArrayFromKey` with the contents of its fresh result array made
explicit. -/
def getArrayFromKeyFresh (fresh : Junk) (str_key : List Char) (dimension : Nat) : List ℚ :=
  arrayLoop dimension str_key [] 0 ((List.range dimension).map fresh)

/-- The static member `getArrayFromKey`.  A key built by `getKeyFromArray` for the same
dimension has `dimension` fields, which overwrite the whole fresh array
(`getArrayFromKeyFresh_getKeyFromArray`). -/
def getArrayFromKey (str_key : List Char) (dimension : Nat) : List ℚ :=
  getArrayFromKeyFresh (fun _ => 0) str_key dimension

/-- The constructor `HyperCube(dimensions, upper_bounds, edge_length)`. -/
def new (dimensions : Nat) (upper_bounds : List ℚ) (edge_length : ℚ) : HyperCube :=
  { dimensions := dimensions
    edge_length := edge_length
    hypercube_key := getKeyFromArray upper_bounds dimensions
    objects := []
    neighbors := []
    entities_sum := List.replicate dimensions 0 }

/-- The member `numObjects`. -/
def numObjects (c : HyperCube) : Nat := c.objects.length

/-- The member `isEmpty`. -/
def isEmpty (c : HyperCube) : Bool := c.numObjects == 0

/-- The test of the first loop of `addObject`: some component of the object is below the
lower bound or not below the upper bound of the cube. -/
def outside_hypercube (c : HyperCube) (object : DatasetEntity) : Bool :=
  let upper_bounds := getArrayFromKey c.hypercube_key c.dimensions
  (List.range c.dimensions).any (fun i =>
    let lower := upper_bounds.getD i 0 - c.edge_length
    let curr_comp_value := object.getComponentValue i
    decide (curr_comp_value < lower) || decide (curr_comp_value ≥ upper_bounds.getD i 0))

/-- The member `addObject`: an object outside the cube is reported and dropped; otherwise it
is appended and added to the component sums (`entities_sum` has `dimensions` entries). -/
def addObject (c : HyperCube) (object : DatasetEntity) : HyperCube :=
  if c.outside_hypercube object then c
  else
    { c with
      objects := c.objects ++ [object]
      entities_sum := (List.range c.dimensions).map
        (fun i => c.entities_sum.getD i 0 + object.getComponentValue i) }

/-- The member `retrieveObjects`. -/
def retrieveObjects (c : HyperCube) : List DatasetEntity := c.objects

/-- The member `setNeighbors`: append the keys that differ from the key of the cube. -/
def setNeighbors (c : HyperCube) (neighbors : List (List Char)) : HyperCube :=
  { c with neighbors := c.neighbors ++ neighbors.filter (fun k => !decide (k = c.hypercube_key)) }

/-- The member `getNeighbors`. -/
def getNeighbors (c : HyperCube) : List (List Char) := c.neighbors

/-- The member `removeEmptyNeighbors`: erase the neighbor keys found in `empty_neighbors`. -/
def removeEmptyNeighbors (c : HyperCube) (empty_neighbors : List (List Char)) : HyperCube :=
  { c with neighbors := c.neighbors.filter (fun k => !empty_neighbors.contains k) }

/-- The component means `*it / (num_entities * 1.0)` of `getMeanElement`.  (For an empty cube
the C++ divides zero by zero; the callers only reach non-empty cubes.) -/
def componentMeans (c : HyperCube) : List ℚ :=
  c.entities_sum.map (fun s => s / (c.numObjects : ℚ))

/-- The member `getMeanElement`: the means are written as text, joined by `','` and without
a final `EOL`, and the fresh entity `mean` (contents `fresh`) is built from that text. -/
def getMeanElement (c : HyperCube) (fresh : Junk) : DatasetEntity :=
  (DatasetEntity.new c.dimensions fresh).buildEntityFromString
    (DatasetEntity.writeCsv c.componentMeans)

/-- The member `isNeighbor`.  `fresh k true` and `fresh k false` are the contents of the
fresh arrays of `this_mean` and `neighbor_mean` when the key `k` is examined.  The result
is `none` when `cubes.find` fails for a key found among the neighbors, where the C++
dereferences `end()`. -/
def isNeighbor (c : HyperCube) (fresh : List Char → Bool → Junk) :
    List (List Char) → StrMap HyperCube → Option Bool
  | [], _ => some false
  | k :: ks, cubes =>
    if c.neighbors.contains k then
      match StrMap.find cubes k with
      | none => none
      | some neighbor_cube =>
        let this_mean := c.getMeanElement (fresh k true)
        let neighbor_mean := neighbor_cube.getMeanElement (fresh k false)
        let difference := DatasetEntity.sub this_mean neighbor_mean
        if decide (0 ≤ 2 * c.edge_length) &&
            decide (difference.component_squares_sum ≤ (2 * c.edge_length) ^ 2) then some true
        else isNeighbor c fresh ks cubes
    else isNeighbor c fresh ks cubes

end HyperCube

/-! ## HyperSpace (hyperspace.h, hyperspace.cpp) -/

/-- The grid: parameters, bounds, the cube map and the keys of the high populated cubes. -/
structure HyperSpace where
  dimension : Nat
  sigma : ℚ
  xi : ℚ
  upper_bounds : List ℚ
  lower_bounds : List ℚ
  hypercubes : StrMap HyperCube
  high_populated_keys : List (List Char)
  deriving DecidableEq, Repr

namespace HyperSpace

/-- The member `hypercubeEdgeLenght`. -/
def hypercubeEdgeLenght (hs : HyperSpace) : ℚ := 2 * hs.sigma

/-- The member `minimumObjectsInHypercubes`. -/
def minimumObjectsInHypercubes (hs : HyperSpace) : ℚ := hs.xi / ((2 * hs.dimension : Nat) : ℚ)

/-- The constructor `HyperSpace(up_bound, lw_bound, sigma, xi, num_dimensions)`: the upper
bounds are rounded up to a multiple of the edge length. -/
def new (up_bound lw_bound : List ℚ) (sigma xi : ℚ) (num_dimensions : Nat) : HyperSpace :=
  let edge_length := 2 * sigma
  { dimension := num_dimensions
    sigma := sigma
    xi := xi
    upper_bounds := (List.range num_dimensions).map
      (fun i => edge_length * (⌈up_bound.getD i 0 / edge_length⌉ : ℚ))
    lower_bounds := (List.range num_dimensions).map (fun i => lw_bound.getD i 0)
    hypercubes := []
    high_populated_keys := [] }

/-- The step "generate next neighbor" of `createHyperCubes`: from the last index down,
`-1` becomes `0`, `0` becomes `1`, and `1` becomes `-1` with a carry. -/
def nextNeighbor (neighbor : List Int) : List Int :=
  (neighbor.reverse.foldl
    (fun (acc : List Int × Bool) v =>
      if acc.2 then
        (if v = -1 then ((0 : Int) :: acc.1, false)
         else if v = 0 then ((1 : Int) :: acc.1, false)
         else if v = 1 then ((-1 : Int) :: acc.1, true)
         else (v :: acc.1, true))
      else (v :: acc.1, false))
    ([], true)).1

/-- The offsets visited by the neighbor loop of `createHyperCubes`: `count` of them, from the
one with every entry `-1`. -/
def neighborOffsets : Nat → List Int → List (List Int)
  | 0, _ => []
  | count + 1, neighbor => neighbor :: neighborOffsets count (nextNeighbor neighbor)

/-- The inner loop of the neighbor generation: `outside_space` is set as soon as a
component of the offset leaves the space at the upper or at the lower side. -/
def outside_space (hs : HyperSpace) (upp_bounds low_bounds : List ℚ) (neighbor : List Int) :
    Bool :=
  (List.range hs.dimension).any (fun dimension =>
    (decide (upp_bounds.getD dimension 0 = hs.upper_bounds.getD dimension 0) &&
        decide (neighbor.getD dimension 0 > 0)) ||
    (decide (upp_bounds.getD dimension 0 = hs.lower_bounds.getD dimension 0) &&
        decide (neighbor.getD dimension 0 < 0)) ||
    (decide (low_bounds.getD dimension 0 = hs.lower_bounds.getD dimension 0) &&
        decide (neighbor.getD dimension 0 < 0)) ||
    (decide (low_bounds.getD dimension 0 = hs.upper_bounds.getD dimension 0) &&
        decide (neighbor.getD dimension 0 > 0)))

/-- The list `neighbors_keys` built by `createHyperCubes` for the cube with key
`curr_cube_key`: for each of the `3 ^ dimension` offsets that stays inside the space, the
key of the shifted upper bounds, unless it equals `curr_cube_key`. -/
def neighbors_keys (hs : HyperSpace) (curr_cube_key : List Char) : List (List Char) :=
  let upp_bounds := HyperCube.getArrayFromKey curr_cube_key hs.dimension
  let low_bounds := (List.range hs.dimension).map
    (fun i => upp_bounds.getD i 0 - hs.hypercubeEdgeLenght)
  (neighborOffsets (3 ^ hs.dimension) (List.replicate hs.dimension (-1))).filterMap
    (fun neighbor =>
      if outside_space hs upp_bounds low_bounds neighbor then none
      else
        let next_upp_bounds := (List.range hs.dimension).map
          (fun dimension =>
            upp_bounds.getD dimension 0 + (neighbor.getD dimension 0 : ℚ) * hs.hypercubeEdgeLenght)
        let neighbor_str_key := HyperCube.getKeyFromArray next_upp_bounds hs.dimension
        if neighbor_str_key = curr_cube_key then none else some neighbor_str_key)

/-- The cube that `createHyperCubes` instantiates for `curr_cube_key`, with its neighbors
assigned. -/
def instantiate (hs : HyperSpace) (curr_cube_key : List Char) : HyperCube :=
  (HyperCube.new hs.dimension (HyperCube.getArrayFromKey curr_cube_key hs.dimension)
    hs.hypercubeEdgeLenght).setNeighbors (neighbors_keys hs curr_cube_key)

/-- The member `createHyperCubes`: instantiate the cube of the key, insert it, and recurse
into every neighbor key that is not in the map yet.  `fuel` bounds the depth of the
recursion; `none` means that the bound was reached.  (The parameters `num_partitions` and
`edge_length` of the C++ are not used by it.) -/
def createHyperCubes : Nat → HyperSpace → List Char → Option HyperSpace
  | 0, _, _ => none
  | fuel + 1, hs, upp_bounds_str =>
    (neighbors_keys hs upp_bounds_str).foldlM
      (fun (h : HyperSpace) (k : List Char) =>
        if StrMap.contains h.hypercubes k then some h else createHyperCubes fuel h k)
      { hs with hypercubes :=
          StrMap.insert hs.hypercubes upp_bounds_str (instantiate hs upp_bounds_str) }

/-- The member `determineSpatialRegions`: start `createHyperCubes` at the cube whose lower
bounds are the lower bounds of the space. -/
def determineSpatialRegions (fuel : Nat) (hs : HyperSpace) : Option HyperSpace :=
  let initial_upp_bounds := (List.range hs.dimension).map
    (fun i => hs.lower_bounds.getD i 0 + hs.hypercubeEdgeLenght)
  createHyperCubes fuel hs (HyperCube.getKeyFromArray initial_upp_bounds hs.dimension)

/-- The key that `insertEntity` computes for an entity: the upper bounds
`edge * (floor(value / edge) + 1)` as text. -/
def entityKey (hs : HyperSpace) (entity : DatasetEntity) : List Char :=
  HyperCube.getKeyFromArray
    ((List.range hs.dimension).map (fun i =>
      hs.hypercubeEdgeLenght * ((⌊entity.getComponentValue i / hs.hypercubeEdgeLenght⌋ : ℚ) + 1)))
    hs.dimension

/-- The member `insertEntity`: add the entity to the cube of its key, or report
"HyperCube not found" and leave the space unchanged. -/
def insertEntity (hs : HyperSpace) (entity : DatasetEntity) : HyperSpace :=
  match StrMap.find hs.hypercubes (entityKey hs entity) with
  | some cube =>
    { hs with hypercubes :=
        StrMap.assign hs.hypercubes (entityKey hs entity) (cube.addObject entity) }
  | none => hs

/-- The third loop of `removeLowPopulatedHypercubes`: each cube, in the order of the map,
is erased unless `isNeighbor` holds for it against the map as it is at that moment. -/
def eraseUnconnected (fresh : List Char → List Char → Bool → Junk)
    (high_populated_keys : List (List Char)) :
    List (List Char × HyperCube) → StrMap HyperCube → Option (StrMap HyperCube)
  | [], cubes => some cubes
  | (k, c) :: rest, cubes =>
    match c.isNeighbor (fresh k) high_populated_keys cubes with
    | none => none
    | some true => eraseUnconnected fresh high_populated_keys rest cubes
    | some false => eraseUnconnected fresh high_populated_keys rest (StrMap.erase cubes k)

/-- The keys that the first loop of `removeLowPopulatedHypercubes` stores in
`high_populated_keys`: those of the cubes with at least `minimumObjectsInHypercubes`
objects, in the order of the map. -/
def highPopulated (hs : HyperSpace) : List (List Char) :=
  (hs.hypercubes.filter
    (fun kv => decide ((kv.2.numObjects : ℚ) ≥ hs.minimumObjectsInHypercubes))).map Prod.fst

/-- The keys `deleted_keys` of the first loop: those of the empty cubes. -/
def deleted_keys (hs : HyperSpace) : List (List Char) :=
  (hs.hypercubes.filter (fun kv => kv.2.isEmpty)).map Prod.fst

/-- The map after the first two loops of `removeLowPopulatedHypercubes`: the empty cubes are
erased, and their keys are removed from the neighbor lists of the others. -/
def withoutEmpty (hs : HyperSpace) : StrMap HyperCube :=
  (hs.hypercubes.filter (fun kv => !kv.2.isEmpty)).map
    (fun kv => (kv.1, kv.2.removeEmptyNeighbors (deleted_keys hs)))

/-- The member `removeLowPopulatedHypercubes`.  First loop: `highPopulated` becomes
`high_populated_keys` and the empty cubes are erased.  Second loop: the erased keys are
removed from every neighbor list.  Third loop: `eraseUnconnected`.  `fresh` gives the
contents of the fresh arrays of the mean elements (by examined cube, tested key and side);
the result is `none` where the C++ dereferences `end()`. -/
def removeLowPopulatedHypercubes (fresh : List Char → List Char → Bool → Junk)
    (hs : HyperSpace) : Option HyperSpace :=
  (eraseUnconnected fresh (highPopulated hs) (withoutEmpty hs) (withoutEmpty hs)).map
    (fun m => { hs with hypercubes := m, high_populated_keys := highPopulated hs })

/-- The member `getNumEntities`: the number of objects over all cubes of the map. -/
def getNumEntities (hs : HyperSpace) : Nat :=
  (hs.hypercubes.map (fun kv => kv.2.numObjects)).sum

end HyperSpace

/-! ## HyperSpace::EntityIterator (hyperspace.h, hyperspace.cpp) -/

/-- An iterator over the entities of the high populated cubes: the position in
`high_populated_keys` and the position in the object list of the cube of that key.  At the
end the second position is past the last object of the last cube. -/
structure EntityIterator where
  cube_keys_iterator : Nat
  entities_iterator : Nat
  deriving DecidableEq, Repr

namespace EntityIterator

/-- The expression `space->hypercubes.find(*cube_keys_iterator)->second.retrieveObjects()`
for the key at position `i`; `none` when there is no such key or the map has no such cube. -/
def objectsAt (hs : HyperSpace) (i : Nat) : Option (List DatasetEntity) :=
  match hs.high_populated_keys.get? i with
  | none => none
  | some k => (StrMap.find hs.hypercubes k).map HyperCube.retrieveObjects

/-- The member `begin`: the first object of the cube of the first key. -/
def begin (hs : HyperSpace) : Option EntityIterator :=
  (objectsAt hs 0).map (fun _ => { cube_keys_iterator := 0, entities_iterator := 0 })

/-- The member `end`. -/
def isEnd (hs : HyperSpace) (it : EntityIterator) : Bool :=
  it.cube_keys_iterator == hs.high_populated_keys.length

/-- The member `operator*` (and `operator->`): the entity under the cursor; `none` when the
cursor is not on an object. -/
def deref (hs : HyperSpace) (it : EntityIterator) : Option DatasetEntity :=
  match objectsAt hs it.cube_keys_iterator with
  | none => none
  | some objects => objects.get? it.entities_iterator

/-- The member `operator++`: step to the next object; after the last object of a cube, step
to the next key and, unless that is the end, to the first object of its cube.  `none` when
the cursor is not on an object or the cube of the next key is missing. -/
def next (hs : HyperSpace) (it : EntityIterator) : Option EntityIterator :=
  match objectsAt hs it.cube_keys_iterator with
  | none => none
  | some objects =>
    if objects.length ≤ it.entities_iterator then none
    else if it.entities_iterator + 1 = objects.length then
      if it.cube_keys_iterator + 1 = hs.high_populated_keys.length then
        some { cube_keys_iterator := it.cube_keys_iterator + 1
               entities_iterator := it.entities_iterator + 1 }
      else
        (objectsAt hs (it.cube_keys_iterator + 1)).map
          (fun _ => { cube_keys_iterator := it.cube_keys_iterator + 1, entities_iterator := 0 })
    else some { it with entities_iterator := it.entities_iterator + 1 }

end EntityIterator

/-! ## DenclueFunctions::pathBetweenExists (denclue_functions.cpp) -/

/-- The outcome of running a loop of the program with a bound on the number of steps. -/
inductive Run (α : Type) where
  | value (a : α)
  | undefined
  | noFuel
  deriving DecidableEq, Repr

/-- The variables of the loop of `pathBetweenExists`.  The vector `curr_path` is kept with
its last element first: `push_back` is `::`, `back()` is the head, `pop_back` is the tail. -/
structure PathState where
  usedEntities : StrMap Bool
  curr_path : List EntityIterator
  iter : EntityIterator
  deriving DecidableEq, Repr

/-- How a part of the loop body of `pathBetweenExists` ends: with `continue` (or at the end
of the body), by going on with the statements below it, or with `return`. -/
inductive Flow where
  | again (st : PathState)
  | below (st : PathState)
  | stop (r : Run Bool)
  deriving DecidableEq, Repr

namespace DenclueFunctions

/-- The read `usedEntities[key]`: the stored flag, and the map, in which a missing key has
been inserted with the flag `false`. -/
def readUsed (usedEntities : StrMap Bool) (key : List Char) : StrMap Bool × Bool :=
  match StrMap.find usedEntities key with
  | some b => (usedEntities, b)
  | none => (StrMap.insert usedEntities key false, false)

/-- The unsigned subtraction `hs.getNumEntities() - 2`. -/
def numEntitiesMinusTwo (hs : HyperSpace) : Nat :=
  (hs.getNumEntities % 2 ^ 32 + 2 ^ 32 - 2) % 2 ^ 32

/-- The `do ... while (isUsed)` loop: move the cursor forward until it is at the end
(`true` in the result) or on an entity that is not marked as used. -/
def findUnused (hs : HyperSpace) :
    Nat → StrMap Bool → EntityIterator → Run (StrMap Bool × EntityIterator × Bool)
  | 0, _, _ => Run.noFuel
  | fuel + 1, usedEntities, cursor =>
    match EntityIterator.next hs cursor with
    | none => Run.undefined
    | some moved =>
      if EntityIterator.isEnd hs moved then Run.value (usedEntities, moved, true)
      else
        match EntityIterator.deref hs moved with
        | none => Run.undefined
        | some entity =>
          if (readUsed usedEntities entity.getStringRepresentation).2 then
            findUnused hs fuel (readUsed usedEntities entity.getStringRepresentation).1 moved
          else
            Run.value ((readUsed usedEntities entity.getStringRepresentation).1, moved, false)

/-- The block `if( iter.end() ) { ... }` of the loop, entered with the cursor at the end:
give up when the path is empty or has `getNumEntities() - 2` elements or more; otherwise mark
the last element of the path as unused and remove it, give up when the path is then empty,
move the cursor of the new last element forward to an unused entity and make it the loop
cursor; if that reached the end, `continue`, else remove this element too and go on below. -/
def backtrack (hs : HyperSpace) (fuel : Nat) (st : PathState) : Flow :=
  match st.curr_path with
  | [] => Flow.stop (Run.value false)
  | back :: path1 =>
    if st.curr_path.length < numEntitiesMinusTwo hs then
      match EntityIterator.deref hs back with
      | none => Flow.stop Run.undefined
      | some last =>
        match path1 with
        | [] => Flow.stop (Run.value false)
        | back1 :: path2 =>
          match findUnused hs fuel
              (StrMap.assign st.usedEntities last.getStringRepresentation false) back1 with
          | Run.noFuel => Flow.stop Run.noFuel
          | Run.undefined => Flow.stop Run.undefined
          | Run.value (used2, moved, reachedEnd) =>
            if reachedEnd then
              Flow.again { usedEntities := used2, curr_path := moved :: path2, iter := moved }
            else
              Flow.below { usedEntities := used2, curr_path := path2, iter := moved }
    else Flow.stop (Run.value false)

/-- The entity `curr_path_end`: `attractor1` for the empty path, else the entity under the
last cursor of the path. -/
def curr_path_end (attractor1 : DatasetEntity) (hs : HyperSpace) :
    List EntityIterator → Option DatasetEntity
  | [] => some attractor1
  | back :: _ => EntityIterator.deref hs back

/-- The statements of the loop body below the block `if( iter.end() )`: skip an entity that
is marked as used; add the entity to the path when its density is at least `xi` and it is
at distance `< sigma` from the end of the path (from `attractor1` for the empty path), then
`return true` when it is at distance `< sigma` from `attractor2`, else restart the cursor;
otherwise move the cursor forward. -/
def extend (attractor1 attractor2 : DatasetEntity) (hs : HyperSpace) (xi sigma : ℚ)
    (st : PathState) : Flow :=
  match EntityIterator.deref hs st.iter with
  | none => Flow.stop Run.undefined
  | some curr_entity =>
    if StrMap.find st.usedEntities curr_entity.getStringRepresentation = some true then
      match EntityIterator.next hs st.iter with
      | none => Flow.stop Run.undefined
      | some moved => Flow.again { st with iter := moved }
    else
      match curr_path_end attractor1 hs st.curr_path with
      | none => Flow.stop Run.undefined
      | some path_end =>
        if decide (curr_entity.getDensity ≥ xi) &&
            DatasetEntity.distanceLt path_end curr_entity sigma then
          if DatasetEntity.distanceLt curr_entity attractor2 sigma then
            Flow.stop (Run.value true)
          else
            match EntityIterator.begin hs with
            | none => Flow.stop Run.undefined
            | some first =>
              Flow.again
                { usedEntities :=
                    StrMap.assign st.usedEntities curr_entity.getStringRepresentation true
                  curr_path := st.iter :: st.curr_path
                  iter := first }
        else
          match EntityIterator.next hs st.iter with
          | none => Flow.stop Run.undefined
          | some moved => Flow.again { st with iter := moved }

/-- One iteration of the `while` loop of `pathBetweenExists`: the loop condition
`usedEntities.size() <= hs.getNumEntities()`, the block for the cursor at the end, and the
statements below it. -/
def loopBody (attractor1 attractor2 : DatasetEntity) (hs : HyperSpace) (xi sigma : ℚ)
    (fuel : Nat) (st : PathState) : Flow :=
  if st.usedEntities.length ≤ hs.getNumEntities % 2 ^ 32 then
    if EntityIterator.isEnd hs st.iter then
      match backtrack hs fuel st with
      | Flow.below st1 => extend attractor1 attractor2 hs xi sigma st1
      | flow => flow
    else extend attractor1 attractor2 hs xi sigma st
  else Flow.stop (Run.value false)

/-- The `while` loop of `pathBetweenExists`; `fuel` bounds the number of iterations (and of
steps of the inner loop), and `Run.noFuel` means that the bound was reached. -/
def pathLoop (attractor1 attractor2 : DatasetEntity) (hs : HyperSpace) (xi sigma : ℚ) :
    Nat → PathState → Run Bool
  | 0, _ => Run.noFuel
  | fuel + 1, st =>
    match loopBody attractor1 attractor2 hs xi sigma fuel st with
    | Flow.stop r => r
    | Flow.again st1 => pathLoop attractor1 attractor2 hs xi sigma fuel st1
    | Flow.below st1 => pathLoop attractor1 attractor2 hs xi sigma fuel st1

/-- The member `pathBetweenExists`: mark both attractors as used; answer `true` when they
are at distance `<= sigma`; otherwise run the backtracking loop from `begin()`. -/
def pathBetweenExists (fuel : Nat) (attractor1 attractor2 : DatasetEntity) (hs : HyperSpace)
    (xi sigma : ℚ) (usedEntities : StrMap Bool) : Run Bool :=
  let used := StrMap.assign
    (StrMap.assign usedEntities attractor1.getStringRepresentation true)
    attractor2.getStringRepresentation true
  if DatasetEntity.distanceLe attractor1 attractor2 sigma then Run.value true
  else
    match EntityIterator.begin hs with
    | none => Run.undefined
    | some first =>
      pathLoop attractor1 attractor2 hs xi sigma fuel
        { usedEntities := used, curr_path := [], iter := first }

/-- The map `usedEntities` that `main` passes: both attractors marked as used. -/
def freshUsed (p q : DatasetEntity) : StrMap Bool :=
  StrMap.assign (StrMap.assign [] q.getStringRepresentation true) p.getStringRepresentation true

end DenclueFunctions

/-! ## The pipeline of `main` up to pruning (denclue.cpp) -/

/-- The entity with the given components and density 0, as `main` builds it from a complete
input line. -/
def point (attributes : List ℚ) : DatasetEntity := { attributes := attributes, density := 0 }

/-- The space that `main` builds for a data set: the constructor applied to the bounds of the
data set, then `determineSpatialRegions`. -/
def gridOf (fuel : Nat) (ds : Dataset) (sigma xi : ℚ) : Option HyperSpace :=
  HyperSpace.determineSpatialRegions fuel
    (HyperSpace.new ds.retrieveUpperBound ds.retrieveLowerBound sigma xi ds.dimensions)

/-- The space after `main` has routed every entity of the data set with `insertEntity`. -/
def routed (fuel : Nat) (ds : Dataset) (sigma xi : ℚ) : Option HyperSpace :=
  (gridOf fuel ds sigma xi).map (fun hs => ds.entities.foldl HyperSpace.insertEntity hs)

/-- An entity with the given components whose stored density is 1. -/
def dense (attributes : List ℚ) : DatasetEntity := { attributes := attributes, density := 1 }

/-- Fresh arrays that hold zeros. -/
def zeroFresh : List Char → List Char → Bool → Junk := fun _ _ _ _ => 0

/-- The space after routing and `removeLowPopulatedHypercubes`. -/
def pruned (fresh : List Char → List Char → Bool → Junk) (fuel : Nat) (ds : Dataset)
    (sigma xi : ℚ) : Option HyperSpace :=
  (routed fuel ds sigma xi).bind (HyperSpace.removeLowPopulatedHypercubes fresh)

/-- The call of `pathBetweenExists` that `main` makes for two attractors: `usedEntities`
holds the two attractors. -/
def pathTest (fuel : Nat) (hs : HyperSpace) (p q : DatasetEntity) (xi sigma : ℚ) : Run Bool :=
  DenclueFunctions.pathBetweenExists fuel p q hs xi sigma (DenclueFunctions.freshUsed p q)

/-- The entities that an `EntityIterator` yields from `begin()` to `end()`: the objects of
the cubes of `high_populated_keys`, in that order. -/
def HyperSpace.iterated (hs : HyperSpace) : List DatasetEntity :=
  hs.high_populated_keys.flatMap (fun k =>
    match StrMap.find hs.hypercubes k with
    | some c => c.objects
    | none => [])

/-- The relation "at distance `< sigma`" between two entities, as `pathBetweenExists`
tests it. -/
def Near (sigma : ℚ) (a b : DatasetEntity) : Prop := DatasetEntity.distanceLt a b sigma = true

/-- The path under construction, last element first, with the entities its cursors are on:
every cursor is on its entity, every entity has density at least `xi` and is at distance
`< sigma` from the one before it on the path (from `p` for the first one). -/
def GoodPath (p : DatasetEntity) (hs : HyperSpace) (xi sigma : ℚ) :
    List EntityIterator → List DatasetEntity → Prop
  | [], [] => True
  | it :: path, e :: es =>
    EntityIterator.deref hs it = some e ∧ e.getDensity ≥ xi ∧ Near sigma (es.headD p) e ∧
      GoodPath p hs xi sigma path es
  | _, _ => False

/-- The invariant of the loop of `pathBetweenExists` in a state whose path is intact: the
path is a `GoodPath`, its entities are marked as used and have pairwise different text. -/
def GoodState (p : DatasetEntity) (hs : HyperSpace) (xi sigma : ℚ) (st : PathState) : Prop :=
  ∃ es : List DatasetEntity, GoodPath p hs xi sigma st.curr_path es ∧
    (∀ e ∈ es, StrMap.find st.usedEntities e.getStringRepresentation = some true) ∧
    (es.map DatasetEntity.getStringRepresentation).Nodup

/-- The state after a backtracking step whose cursor ran to the end: the loop cursor and the
last cursor of the path are at the end. -/
def BrokenState (hs : HyperSpace) (st : PathState) : Prop :=
  EntityIterator.isEnd hs st.iter = true ∧
    ∃ back rest, st.curr_path = back :: rest ∧ EntityIterator.deref hs back = none

/-- What a `true` answer of `pathBetweenExists` promises when the attractors are not within
`sigma`: pairwise different iterated entities of density at least `xi` that link `p` to `q`
by steps of length `< sigma`. -/
def DensePath (p q : DatasetEntity) (hs : HyperSpace) (xi sigma : ℚ) : Prop :=
  ∃ vs : List DatasetEntity, vs ≠ [] ∧ vs.Nodup ∧
    (∀ v ∈ vs, v ∈ hs.iterated ∧ v.getDensity ≥ xi) ∧
    List.Chain' (Near sigma) (p :: vs ++ [q])

/-! ## Example inputs -/

/-- The one-dimensional data set with the two points `0` and `1`. -/
def dataUnit : Dataset := Dataset.ofEntities 1 [point [0], point [1]]

/-- The one-dimensional data set with the single point `-5.5`. -/
def dataNegative : Dataset := Dataset.ofEntities 1 [point [-11 / 2]]

/-- The one-dimensional data set with the single point `0.5`. -/
def dataSingle : Dataset := Dataset.ofEntities 1 [point [1 / 2]]

/-- The two-dimensional data set of scenario S1: three points near the origin and three
points near `(5, 5)`. -/
def dataTwoGroups : Dataset :=
  Dataset.ofEntities 2
    [point [0, 0], point [1 / 10, 1 / 10], point [2 / 10, 0],
     point [5, 5], point [51 / 10, 5], point [5, 51 / 10]]

/-- The cube `[0, 1) x [0, 1)` of edge 1 after `addObject` of the point `(0.5, 0.25)`. -/
def cubeOnePoint : HyperCube := (HyperCube.new 2 [1, 1] 1).addObject (point [1 / 2, 1 / 4])

/-- A one-dimensional cube of edge 1 that holds the given values as entities of stored
density 1. -/
def unitCube (key : List Char) (neighbors : List (List Char)) (values : List ℚ) : HyperCube :=
  { dimensions := 1
    edge_length := 1
    hypercube_key := key
    objects := values.map (fun v => dense [v])
    neighbors := neighbors
    entities_sum := [values.sum] }

/-- The pruned space of the points `0.55` and `1.375` for `sigma = 0.5`, `xi = 0.2`. -/
def spaceTwo : HyperSpace :=
  { dimension := 1, sigma := 1 / 2, xi := 1 / 5, upper_bounds := [2], lower_bounds := [0]
    hypercubes := [(['1'], unitCube ['1'] [['2']] [11 / 20]),
                   (['2'], unitCube ['2'] [['1']] [11 / 8])]
    high_populated_keys := [['1'], ['2']] }

/-- The pruned space of the points `0.55`, `1.375`, `2.9` and `2.95` for `sigma = 0.5`,
`xi = 0.2`. -/
def spaceFour : HyperSpace :=
  { dimension := 1, sigma := 1 / 2, xi := 1 / 5, upper_bounds := [3], lower_bounds := [0]
    hypercubes := [(['1'], unitCube ['1'] [['2']] [11 / 20]),
                   (['2'], unitCube ['2'] [['1'], ['3']] [11 / 8]),
                   (['3'], unitCube ['3'] [['2']] [29 / 10, 59 / 20])]
    high_populated_keys := [['1'], ['2'], ['3']] }

/-- The pruned space of the points `2.1`, `2.2`, `2.3`, `3.8` and `3.4` for `sigma = 0.5`,
`xi = 0.2`. -/
def spaceFive : HyperSpace :=
  { dimension := 1, sigma := 1 / 2, xi := 1 / 5, upper_bounds := [4], lower_bounds := [2]
    hypercubes := [(['3'], unitCube ['3'] [['4']] [21 / 10, 22 / 10, 23 / 10]),
                   (['4'], unitCube ['4'] [['3']] [38 / 10, 34 / 10])]
    high_populated_keys := [['3'], ['4']] }

/-- The space of `dataSingle` for `sigma = 0.5`, `xi = 2` after routing: one cube, which
holds the point. -/
def spaceSingle : HyperSpace :=
  { dimension := 1, sigma := 1 / 2, xi := 2, upper_bounds := [1], lower_bounds := [0]
    hypercubes := [(['1'],
      { dimensions := 1, edge_length := 1, hypercube_key := ['1'], objects := [point [1 / 2]]
        neighbors := [], entities_sum := [1 / 2] })]
    high_populated_keys := [] }

/-! ## Auxiliary definitions for the statements and proofs -/

/-- The characters that `fmtDouble` writes. -/
def isNumChar (c : Char) : Bool :=
  isDigit c || c == '.' || c == 'e' || c == '-' || c == '+'

/-- The value that a number has after it has been written as text and read back. -/
def textValue (x : ℚ) : ℚ := atof (fmtDouble x)

/-- Store the values `vals` in consecutive entries of an array, from entry `idx`. -/
def storeFrom : List ℚ → Nat → List ℚ → List ℚ
  | attrs, _, [] => attrs
  | attrs, idx, v :: vs => storeFrom (attrs.set idx v) (idx + 1) vs

namespace Dataset

/-- The upper bound that `addEntity` stores for a component with value `v` and old bound
`old`. -/
def nextUpper (v old : ℚ) : ℚ := (⌈if v > old then v else old⌉ : ℚ)

/-- The lower bound that `addEntity` stores for a component with value `v` and old bound
`old`. -/
def nextLower (v old : ℚ) : ℚ := (⌊if v < old then v else old⌋ : ℚ)

/-- The property of the bounds that `addEntity` maintains: both arrays have `d` entries and
enclose every entity of `seen`; when `rounded` holds, the bounds are integers. -/
def Encloses (d : Nat) (ds : Dataset) (seen : List DatasetEntity) (rounded : Prop) : Prop :=
  ds.upper_bound.length = d ∧ ds.lower_bound.length = d ∧
  ∀ i, i < d →
    (∀ e ∈ seen, ds.lower_bound.getD i 0 ≤ e.getComponentValue i ∧
      e.getComponentValue i ≤ ds.upper_bound.getD i 0) ∧
    (rounded → (∃ z : ℤ, ds.lower_bound.getD i 0 = z) ∧ ∃ z : ℤ, ds.upper_bound.getD i 0 = z)

end Dataset

namespace HyperSpace

/-- No cube that the third loop of `removeLowPopulatedHypercubes` examines has a high
populated key among its neighbors, so that no mean element is computed. -/
def untested (hs : HyperSpace) : Bool :=
  (withoutEmpty hs).all (fun kv =>
    (highPopulated hs).all (fun k => !kv.2.neighbors.contains k))

end HyperSpace

namespace DenclueFunctions

/-- The keys whose flag in `usedEntities` is `true`. -/
def usedSet (used : StrMap Bool) : Finset (List Char) :=
  (used.map Prod.fst).toFinset.filter (fun k => StrMap.find used k = some true)

/-- The number of keys whose flag in `usedEntities` is `true`. -/
def usedCount (used : StrMap Bool) : Nat := (usedSet used).card

/-- The position of a cursor in the order of iteration, as a number. -/
def rank (hs : HyperSpace) (it : EntityIterator) : Nat :=
  it.cube_keys_iterator * (hs.getNumEntities + 1) + it.entities_iterator

/-- A bound above the rank of every cursor that is on an object. -/
def rankBound (hs : HyperSpace) : Nat :=
  hs.high_populated_keys.length * (hs.getNumEntities + 1)

/-- The quantity that decreases with every iteration of the loop of `pathBetweenExists`:
in lexicographic order, the room left for used entities that are not on the path, the room
left on the path, and the distance of the cursor from the end. -/
def loopMeasure (hs : HyperSpace) (st : PathState) : Nat :=
  ((hs.getNumEntities % 2 ^ 32 + 1 - (usedCount st.usedEntities - st.curr_path.length)) *
      (hs.getNumEntities % 2 ^ 32 + 2) +
    (hs.getNumEntities % 2 ^ 32 + 1 - st.curr_path.length)) * (rankBound hs + 1) +
  (rankBound hs - rank hs st.iter)

end DenclueFunctions

/-! ## More example inputs -/

/-- The one-dimensional data set with the single point `1234567.9`. -/
def dataLarge : Dataset := Dataset.ofEntities 1 [point [12345679 / 10]]

/-- The one-dimensional data set with the single point `1.5`. -/
def dataMidpoint : Dataset := Dataset.ofEntities 1 [point [3 / 2]]

/-- The digits of the mantissa that `atof` converts: those of the integer part followed by
those of the fraction part. -/
def atofDigits (s : List Char) : List Char :=
  (readSign (s.dropWhile isSpace)).2.takeWhile isDigit ++
    (match (readSign (s.dropWhile isSpace)).2.dropWhile isDigit with
      | '.' :: t => t.takeWhile isDigit
      | _ => [])

/-! ## DenclueFunctions: influence, density, gradient, attractor (denclue_functions.cpp)

The functions `expl` and `sqrt` of the C library are parameters of the definitions that use
their values.  Comparisons of a distance or a norm are taken on its square, as in
`distanceLt`. -/

namespace DenclueFunctions

/-- The function `calculateInfluence`: 0 when `distanceBetween` is 0, else
`expl(-distance^2 / (2 * sigma^2))`.  The square of the distance is `distanceSquared`. -/
def calculateInfluence (expl : ℚ → ℚ) (entity_one entity_two : DatasetEntity) (sigma : ℚ) : ℚ :=
  if DatasetEntity.distanceSquared entity_one entity_two = 0 then 0
  else expl (-(DatasetEntity.distanceSquared entity_one entity_two) / (2 * sigma ^ 2))

/-- The loop of `calculateDensity`: until the cursor is at the end, add the influence of
the entity under the cursor and move the cursor.  `fuel` bounds the number of iterations. -/
def densityLoop (expl : ℚ → ℚ) (hs : HyperSpace) (entity : DatasetEntity) (sigma : ℚ) :
    Nat → EntityIterator → ℚ → Run ℚ
  | 0, _, _ => Run.noFuel
  | fuel + 1, iter, density =>
    if EntityIterator.isEnd hs iter then Run.value density
    else
      match EntityIterator.deref hs iter with
      | none => Run.undefined
      | some other =>
        match EntityIterator.next hs iter with
        | none => Run.undefined
        | some moved =>
          densityLoop expl hs entity sigma fuel moved
            (density + calculateInfluence expl entity other sigma)

/-- The function `calculateDensity`. -/
def calculateDensity (expl : ℚ → ℚ) (fuel : Nat) (hs : HyperSpace) (entity : DatasetEntity)
    (iter : EntityIterator) (sigma : ℚ) : Run ℚ :=
  densityLoop expl hs entity sigma fuel iter 0

/-- The loop of `calculateGradient`: until the cursor is at the end, add to each component
of the gradient the difference of the components times the influence, and move the
cursor. -/
def gradientLoop (expl : ℚ → ℚ) (hs : HyperSpace) (entity : DatasetEntity) (sigma : ℚ) :
    Nat → EntityIterator → List ℚ → Run (List ℚ)
  | 0, _, _ => Run.noFuel
  | fuel + 1, iter, gradient =>
    if EntityIterator.isEnd hs iter then Run.value gradient
    else
      match EntityIterator.deref hs iter with
      | none => Run.undefined
      | some other_entity =>
        match EntityIterator.next hs iter with
        | none => Run.undefined
        | some moved =>
          gradientLoop expl hs entity sigma fuel moved
            ((List.range entity.getNumOfDimensions).map (fun i =>
              gradient.getD i 0 +
                (other_entity.getComponentValue i - entity.getComponentValue i) *
                  calculateInfluence expl entity other_entity sigma))

/-- The function `calculateGradient`: the loop, started from the zero vector. -/
def calculateGradient (expl : ℚ → ℚ) (fuel : Nat) (hs : HyperSpace) (entity : DatasetEntity)
    (iter : EntityIterator) (sigma : ℚ) : Run (List ℚ) :=
  gradientLoop expl hs entity sigma fuel iter (List.replicate entity.getNumOfDimensions 0)

/-- The entity `grad_entity` of `getDensityAttractor`: built from the text of the gradient,
ended by `EOL`.  (The gradient has one value per component, so the fresh array is
overwritten.) -/
def gradEntity (dimension : Nat) (curr_gradient : List ℚ) : DatasetEntity :=
  (DatasetEntity.new dimension (fun _ => 0)).buildEntityFromString
    (DatasetEntity.writeCsv curr_gradient ++ [EOL])

/-- The `do ... while` loop of `getDensityAttractor` with `n` iterations left before
`--MAX_ITERATIONS` reaches 0, entered with `curr_attractor`.  The result `none` is the
failure of `assert( grad_entity_norm > 0 )`, with which the program aborts.  `fuel` bounds
the loops of `calculateGradient` and `calculateDensity`. -/
def climb (sqrt expl : ℚ → ℚ) (fuel : Nat) (hs : HyperSpace) (entity : DatasetEntity)
    (initial_iter : EntityIterator) (sigma : ℚ) : Nat → DatasetEntity → Run (Option DatasetEntity)
  | 0, curr_attractor => Run.value (some curr_attractor)
  | n + 1, last_attractor =>
    match calculateGradient expl fuel hs last_attractor initial_iter sigma with
    | Run.noFuel => Run.noFuel
    | Run.undefined => Run.undefined
    | Run.value curr_gradient =>
      if (gradEntity entity.getNumOfDimensions curr_gradient).component_squares_sum ≤ 0 then
        Run.value none
      else
        match EntityIterator.begin hs with
        | none => Run.undefined
        | some density_iter =>
          match calculateDensity expl fuel hs
              (DatasetEntity.add last_attractor
                ((gradEntity entity.getNumOfDimensions curr_gradient).scale
                  (1 / sqrt (gradEntity entity.getNumOfDimensions
                    curr_gradient).component_squares_sum)))
              density_iter sigma with
          | Run.noFuel => Run.noFuel
          | Run.undefined => Run.undefined
          | Run.value curr_density =>
            if curr_density < last_attractor.getDensity then Run.value (some last_attractor)
            else
              climb sqrt expl fuel hs entity initial_iter sigma n
                ((DatasetEntity.add last_attractor
                  ((gradEntity entity.getNumOfDimensions curr_gradient).scale
                    (1 / sqrt (gradEntity entity.getNumOfDimensions
                      curr_gradient).component_squares_sum))).setDensity curr_density)

/-- The function `getDensityAttractor`: `MAX_ITERATIONS` starts at 1000 and is decremented
before each iteration, so the body runs at most 999 times. -/
def getDensityAttractor (sqrt expl : ℚ → ℚ) (fuel : Nat) (entity : DatasetEntity)
    (hs : HyperSpace) (iter : EntityIterator) (sigma : ℚ) : Run (Option DatasetEntity) :=
  climb sqrt expl fuel hs entity iter sigma 999 entity

end DenclueFunctions

/-! ## Definitions for the statements about density and gradient -/

/-- The objects of the cube of a key of the map, none for a key without a cube. -/
def HyperSpace.objectsOf (hs : HyperSpace) (k : List Char) : List DatasetEntity :=
  match StrMap.find hs.hypercubes k with
  | some c => c.objects
  | none => []

/-- Every key of `high_populated_keys` has a cube in the map, and that cube has an object:
the condition under which an `EntityIterator` can run from `begin()` to `end()`. -/
def HyperSpace.iterable (hs : HyperSpace) : Bool :=
  hs.high_populated_keys.all (fun k =>
    match StrMap.find hs.hypercubes k with
    | some c => !c.objects.isEmpty
    | none => false)

/-- The retained set: the objects of all the cubes of the map, in the order of the map. -/
def HyperSpace.retained (hs : HyperSpace) : List DatasetEntity :=
  hs.hypercubes.flatMap (fun kv => kv.2.objects)

/-- The entities that a cursor has not passed yet, the one under it included. -/
def EntityIterator.remaining (hs : HyperSpace) (it : EntityIterator) : List DatasetEntity :=
  ((hs.high_populated_keys.drop it.cube_keys_iterator).flatMap hs.objectsOf).drop
    it.entities_iterator

/-- A cursor that is at the end or on an object. -/
def EntityIterator.Valid (hs : HyperSpace) (it : EntityIterator) : Prop :=
  EntityIterator.isEnd hs it = true ∨ ∃ e, EntityIterator.deref hs it = some e

/-- A rational function with the properties of the exponential function that the theorems
use (positive, and at most 1 on non-positive arguments), to stand for `expl` in examples:
the second Taylor polynomial, inverted on the non-positive arguments. -/
def expSample (t : ℚ) : ℚ :=
  if t ≤ 0 then 1 / (1 - t + t ^ 2 / 2) else 1 + t + t ^ 2 / 2

/-- The integer square root of `n`, rounded down, for `n < 4 ^ k`: one binary digit of the
root per step. -/
def natRoot : Nat → Nat → Nat
  | 0, _ => 0
  | k + 1, n =>
    if (2 * natRoot k (n / 4) + 1) * (2 * natRoot k (n / 4) + 1) ≤ n then
      2 * natRoot k (n / 4) + 1
    else 2 * natRoot k (n / 4)

/-- A rational square root to stand for `sqrt` in examples: the root rounded down to a
multiple of `1 / (den * 10 ^ 6)`, exact on squares (for arguments whose numerator times
denominator is below `4 ^ 64 / 10 ^ 12`). -/
def sqrtSample (s : ℚ) : ℚ :=
  (natRoot 64 (s.num.toNat * s.den * 10 ^ 12) : ℚ) / ((s.den : ℚ) * 10 ^ 6)

/-- The pruned space of the points `0.5`, `1` and `1.5` for `sigma = 0.5`, `xi = 1`. -/
def spaceSym : HyperSpace :=
  { dimension := 1, sigma := 1 / 2, xi := 1, upper_bounds := [2], lower_bounds := [0]
    hypercubes := [(['1'], { dimensions := 1, edge_length := 1, hypercube_key := ['1']
                             objects := [point [1 / 2]], neighbors := [['2']]
                             entities_sum := [1 / 2] }),
                   (['2'], { dimensions := 1, edge_length := 1, hypercube_key := ['2']
                             objects := [point [1], point [3 / 2]], neighbors := [['1']]
                             entities_sum := [5 / 2] })]
    high_populated_keys := [['1'], ['2']] }

/-- The pruned space of the points `0.2`, `0.4`, `1.2`, `1.4` and `2.5` for `sigma = 0.5`,
`xi = 4`: the cubes `1` and `2` are high populated, the cube `3` is not. -/
def spaceLow : HyperSpace :=
  { dimension := 1, sigma := 1 / 2, xi := 4, upper_bounds := [3], lower_bounds := [0]
    hypercubes := [(['1'], { dimensions := 1, edge_length := 1, hypercube_key := ['1']
                             objects := [point [1 / 5], point [2 / 5]], neighbors := [['2']]
                             entities_sum := [3 / 5] }),
                   (['2'], { dimensions := 1, edge_length := 1, hypercube_key := ['2']
                             objects := [point [6 / 5], point [7 / 5]]
                             neighbors := [['1'], ['3']]
                             entities_sum := [13 / 5] }),
                   (['3'], { dimensions := 1, edge_length := 1, hypercube_key := ['3']
                             objects := [point [5 / 2]], neighbors := [['2']]
                             entities_sum := [5 / 2] })]
    high_populated_keys := [['1'], ['2']] }

namespace DenclueFunctions

/-- The sum of the influences on `x` of the entities of a list. -/
def influenceSum (expl : ℚ → ℚ) (x : DatasetEntity) (sigma : ℚ) (ys : List DatasetEntity) : ℚ :=
  (ys.map (fun y => calculateInfluence expl x y sigma)).sum

/-- The vector whose `i`-th component is the sum over the entities `y` of a list of
`(y[i] - x[i]) * calculateInfluence(x, y, sigma)`. -/
def gradientSum (expl : ℚ → ℚ) (x : DatasetEntity) (sigma : ℚ) (ys : List DatasetEntity) :
    List ℚ :=
  (List.range x.getNumOfDimensions).map (fun i =>
    (ys.map (fun y =>
      (y.getComponentValue i - x.getComponentValue i) * calculateInfluence expl x y sigma)).sum)

end DenclueFunctions


/-! ## The first loop of `removeLowPopulatedHypercubes` (hyperspace.cpp)

`HyperSpace.removeLowPopulatedHypercubes` above gives the outcome of the first loop in closed
form (`highPopulated`, `deleted_keys`, `withoutEmpty`).  The loop itself: -/

/-- The first loop of `removeLowPopulatedHypercubes` over the entries of the map that are
still to be visited.  The state is `high_populated_keys`, `deleted_keys` and the map: the key
of a cube with at least `minimumObjectsInHypercubes` objects is pushed on
`high_populated_keys`; an empty cube has its key pushed on `deleted_keys` and is erased. -/
def HyperSpace.firstLoop (hs : HyperSpace) :
    List (List Char × HyperCube) → List (List Char) × List (List Char) × StrMap HyperCube →
      List (List Char) × List (List Char) × StrMap HyperCube
  | [], state => state
  | (k, c) :: rest, (high, deleted, cubes) =>
    if c.isEmpty then
      HyperSpace.firstLoop hs rest
        (if (c.numObjects : ℚ) ≥ hs.minimumObjectsInHypercubes then high ++ [k] else high,
          deleted ++ [k], StrMap.erase cubes k)
    else
      HyperSpace.firstLoop hs rest
        (if (c.numObjects : ℚ) ≥ hs.minimumObjectsInHypercubes then high ++ [k] else high,
          deleted, cubes)

/-! ## The iterates of the hill climbing of `getDensityAttractor` -/

namespace DenclueFunctions

/-- One pass of the body of the loop of `getDensityAttractor`, from `last_attractor` up to
`curr_attractor.setDensity(curr_density)`: the new `curr_attractor`, or `none` when
`assert( grad_entity_norm > 0 )` fails. -/
def climbStep (sqrt expl : ℚ → ℚ) (fuel : Nat) (hs : HyperSpace) (entity : DatasetEntity)
    (initial_iter : EntityIterator) (sigma : ℚ) (last_attractor : DatasetEntity) :
    Run (Option DatasetEntity) :=
  match calculateGradient expl fuel hs last_attractor initial_iter sigma with
  | Run.noFuel => Run.noFuel
  | Run.undefined => Run.undefined
  | Run.value curr_gradient =>
    if (gradEntity entity.getNumOfDimensions curr_gradient).component_squares_sum ≤ 0 then
      Run.value none
    else
      match EntityIterator.begin hs with
      | none => Run.undefined
      | some density_iter =>
        match calculateDensity expl fuel hs
            (DatasetEntity.add last_attractor
              ((gradEntity entity.getNumOfDimensions curr_gradient).scale
                (1 / sqrt (gradEntity entity.getNumOfDimensions
                  curr_gradient).component_squares_sum)))
            density_iter sigma with
        | Run.noFuel => Run.noFuel
        | Run.undefined => Run.undefined
        | Run.value curr_density =>
          Run.value (some ((DatasetEntity.add last_attractor
            ((gradEntity entity.getNumOfDimensions curr_gradient).scale
              (1 / sqrt (gradEntity entity.getNumOfDimensions
                curr_gradient).component_squares_sum))).setDensity curr_density))

/-- The iterates of the climb: `Reaches ... j x z` when `j` passes of the body lead from `x`
to `z` and none of them finds a density below the density stored on the iterate it starts
from (`reachedTop` stays false in each). -/
def Reaches (sqrt expl : ℚ → ℚ) (fuel : Nat) (hs : HyperSpace) (entity : DatasetEntity)
    (initial_iter : EntityIterator) (sigma : ℚ) : Nat → DatasetEntity → DatasetEntity → Prop
  | 0, x, z => z = x
  | j + 1, x, z =>
    ∃ y, climbStep sqrt expl fuel hs entity initial_iter sigma x = Run.value (some y) ∧
      ¬ (y.getDensity < x.getDensity) ∧
      Reaches sqrt expl fuel hs entity initial_iter sigma j y z

/-- The pass of the body from `x` finds a lower density: `reachedTop` becomes true. -/
def TopAt (sqrt expl : ℚ → ℚ) (fuel : Nat) (hs : HyperSpace) (entity : DatasetEntity)
    (initial_iter : EntityIterator) (sigma : ℚ) (x : DatasetEntity) : Prop :=
  ∃ y, climbStep sqrt expl fuel hs entity initial_iter sigma x = Run.value (some y) ∧
    y.getDensity < x.getDensity

end DenclueFunctions

/-! ## The phases of `main` after the densities (denclue.cpp) -/

/-- The map `clusters` of `main`: the members of each cluster under the text of its
attractor. -/
abbrev Clusters := StrMap (List DatasetEntity)

/-- The end of the body of the first loop over the entities, for an attractor that passes
the density test: a cluster is inserted for the text of the attractor unless there is one,
and the entity is pushed on its members. -/
def addToCluster (clusters : Clusters) (curr_attractor entity : DatasetEntity) : Clusters :=
  StrMap.assign
    (if StrMap.contains clusters curr_attractor.getStringRepresentation then clusters
      else StrMap.insert clusters curr_attractor.getStringRepresentation [])
    curr_attractor.getStringRepresentation
    (((StrMap.find
      (if StrMap.contains clusters curr_attractor.getStringRepresentation then clusters
        else StrMap.insert clusters curr_attractor.getStringRepresentation [])
      curr_attractor.getStringRepresentation).getD []) ++ [entity])

/-- The body of the first loop over the entities once `curr_attractor` is known: an
attractor of density below `xi` is ignored. -/
def groupEntity (xi : ℚ) (clusters : Clusters) (entity curr_attractor : DatasetEntity) :
    Clusters :=
  if curr_attractor.getDensity < xi then clusters
  else addToCluster clusters curr_attractor entity

/-- The loop of `main` that determines the density attractors, from the cursor
`iter_entities`.  The result `Run.value none` is the failure of the assertion of
`getDensityAttractor`.  `fuel` bounds this loop and the loops of the functions called. -/
def phaseALoop (sqrt expl : ℚ → ℚ) (fuel : Nat) (hs : HyperSpace) (sigma xi : ℚ) :
    Nat → EntityIterator → Clusters → Run (Option Clusters)
  | 0, _, _ => Run.noFuel
  | n + 1, iter_entities, clusters =>
    if EntityIterator.isEnd hs iter_entities then Run.value (some clusters)
    else
      match EntityIterator.begin hs with
      | none => Run.undefined
      | some attractor_entity_iter =>
        match EntityIterator.deref hs iter_entities with
        | none => Run.undefined
        | some entity =>
          match DenclueFunctions.getDensityAttractor sqrt expl fuel entity hs
              attractor_entity_iter sigma with
          | Run.noFuel => Run.noFuel
          | Run.undefined => Run.undefined
          | Run.value none => Run.value none
          | Run.value (some curr_attractor) =>
            match EntityIterator.next hs iter_entities with
            | none => Run.undefined
            | some moved =>
              phaseALoop sqrt expl fuel hs sigma xi n moved
                (groupEntity xi clusters entity curr_attractor)

/-- The first phase of clustering in `main`: the loop from `iter_entities.begin()` with an
empty map. -/
def phaseA (sqrt expl : ℚ → ℚ) (fuel : Nat) (hs : HyperSpace) (sigma xi : ℚ) :
    Run (Option Clusters) :=
  match EntityIterator.begin hs with
  | none => Run.undefined
  | some first => phaseALoop sqrt expl fuel hs sigma xi fuel first []

/-- The entity that `main` builds from the key of a cluster: a fresh entity filled from the
text of the key ended by `EOL`.  (The key of an attractor of the same dimension has one
field per component, so the fresh array is overwritten.) -/
def attractorOfKey (dimension : Nat) (key : List Char) : DatasetEntity :=
  (DatasetEntity.new dimension (fun _ => 0)).buildEntityFromString (key ++ [EOL])

/-- The inner loop of the merging phase of `main` for the cluster under `outer_iter` (key
`outer_key`, members `members`), over the clusters after it: a cluster whose attractor has
a path to that of the outer cluster has its members appended to `members` and is erased.
Returns the members of the outer cluster and the clusters left after it. -/
def mergeLoop (fuel : Nat) (hs : HyperSpace) (dimension : Nat) (xi sigma : ℚ)
    (outer_key : List Char) :
    List DatasetEntity → List (List Char × List DatasetEntity) →
      Run (List DatasetEntity × List (List Char × List DatasetEntity))
  | members, [] => Run.value (members, [])
  | members, (inner_key, inner_members) :: rest =>
    match pathTest fuel hs (attractorOfKey dimension outer_key)
        (attractorOfKey dimension inner_key) xi sigma with
    | Run.noFuel => Run.noFuel
    | Run.undefined => Run.undefined
    | Run.value canMerge =>
      if canMerge then
        mergeLoop fuel hs dimension xi sigma outer_key (members ++ inner_members) rest
      else
        match mergeLoop fuel hs dimension xi sigma outer_key members rest with
        | Run.noFuel => Run.noFuel
        | Run.undefined => Run.undefined
        | Run.value (merged, left) => Run.value (merged, (inner_key, inner_members) :: left)

/-- The outer loop of the merging phase of `main` from `outer_iter`, with `n` bounding the
number of clusters still to visit. -/
def phaseBLoop (fuel : Nat) (hs : HyperSpace) (dimension : Nat) (xi sigma : ℚ) :
    Nat → List (List Char × List DatasetEntity) → Run Clusters
  | _, [] => Run.value []
  | 0, _ :: _ => Run.noFuel
  | n + 1, (outer_key, members) :: rest =>
    match mergeLoop fuel hs dimension xi sigma outer_key members rest with
    | Run.noFuel => Run.noFuel
    | Run.undefined => Run.undefined
    | Run.value (merged, left) =>
      match phaseBLoop fuel hs dimension xi sigma n left with
      | Run.noFuel => Run.noFuel
      | Run.undefined => Run.undefined
      | Run.value tail => Run.value ((outer_key, merged) :: tail)

/-- The merging phase of `main`.  The outer loop visits each cluster that is left at most
once, so the number of clusters bounds it. -/
def phaseB (fuel : Nat) (hs : HyperSpace) (dimension : Nat) (xi sigma : ℚ)
    (clusters : Clusters) : Run Clusters :=
  phaseBLoop fuel hs dimension xi sigma clusters.length clusters

/-- The text of `operator<<` for an entity: the components in parentheses, joined by `','`,
then the density in brackets. -/
def entityText (entity : DatasetEntity) : List Char :=
  '(' :: (DatasetEntity.writeCsv entity.attributes ++
    [')', ' ', 'D', 'E', 'N', 'S', 'I', 'T', 'Y', ' ', '['] ++
    fmtDouble entity.getDensity ++ [']'])

/-- The text `output_str` that `printOutput` writes for one cluster: the line with the
number and the key, then one line per member, each after a tab. -/
def clusterText (ind_cluster : Nat) (key : List Char) (members : List DatasetEntity) :
    List Char :=
  ['C', 'l', 'u', 's', 't', 'e', 'r', ' '] ++ natDigits (ind_cluster + 1) ind_cluster ++
    ['\t', 'A', 't', 't', 'r', 'a', 'c', 't', 'o', 'r', ' '] ++ key ++ [EOL] ++
    members.flatMap (fun entity => '\t' :: (entityText entity ++ [EOL]))

/-- The loop of `printOutput` with the current value of `ind_cluster`: the texts written to
the output file, one per cluster with a member. -/
def printLoop : Nat → List (List Char × List DatasetEntity) → List (List Char)
  | _, [] => []
  | ind_cluster, (key, members) :: rest =>
    if members.isEmpty then printLoop ind_cluster rest
    else clusterText (ind_cluster + 1) key members :: printLoop (ind_cluster + 1) rest

/-- The function `printOutput`: the texts written to the output file, in that order. -/
def printOutput (clusters : Clusters) : List (List Char) :=
  printLoop 0 clusters

/-! ## Definitions for the statements about the clusters -/

/-- What the first phase does with a list of entities, in terms of `getDensityAttractor`
and `groupEntity` alone. -/
def groupList (sqrt expl : ℚ → ℚ) (fuel : Nat) (hs : HyperSpace) (sigma xi : ℚ) :
    List DatasetEntity → Clusters → Run (Option Clusters)
  | [], clusters => Run.value (some clusters)
  | entity :: rest, clusters =>
    match DenclueFunctions.getDensityAttractor sqrt expl fuel entity hs
        { cube_keys_iterator := 0, entities_iterator := 0 } sigma with
    | Run.noFuel => Run.noFuel
    | Run.undefined => Run.undefined
    | Run.value none => Run.value none
    | Run.value (some curr_attractor) =>
      groupList sqrt expl fuel hs sigma xi rest (groupEntity xi clusters entity curr_attractor)

/-- The keys of a map are in strictly increasing order of `std::string`. -/
def StrMap.Sorted {α : Type} (m : StrMap α) : Prop :=
  List.Pairwise (fun a b => strLt a.1 b.1 = true) m

/-- The pruned space of the points `0.5` and `1.5` for `sigma = 0.5`, `xi = 1`. -/
def spaceOsc : HyperSpace :=
  { dimension := 1, sigma := 1 / 2, xi := 1, upper_bounds := [2], lower_bounds := [0]
    hypercubes := [(['1'], { dimensions := 1, edge_length := 1, hypercube_key := ['1']
                             objects := [point [1 / 2]], neighbors := [['2']]
                             entities_sum := [1 / 2] }),
                   (['2'], { dimensions := 1, edge_length := 1, hypercube_key := ['2']
                             objects := [point [3 / 2]], neighbors := [['1']]
                             entities_sum := [3 / 2] })]
    high_populated_keys := [['1'], ['2']] }

/-- The pruned space of the points `0.2`, `0.4`, `1.2` and `1.4` for `sigma = 0.5`,
`xi = 1`. -/
def spaceQuad : HyperSpace :=
  { dimension := 1, sigma := 1 / 2, xi := 1, upper_bounds := [2], lower_bounds := [0]
    hypercubes := [(['1'], { dimensions := 1, edge_length := 1, hypercube_key := ['1']
                             objects := [point [1 / 5], point [2 / 5]], neighbors := [['2']]
                             entities_sum := [3 / 5] }),
                   (['2'], { dimensions := 1, edge_length := 1, hypercube_key := ['2']
                             objects := [point [6 / 5], point [7 / 5]], neighbors := [['1']]
                             entities_sum := [13 / 5] })]
    high_populated_keys := [['1'], ['2']] }

/-- The cube `[0, 1) x [0, 1)` of edge 1 with the neighbor `"2,2"`, holding the point
`(0.05, 0.05)`. -/
def cubeNear : HyperCube :=
  ((HyperCube.new 2 [1, 1] 1).setNeighbors [['2', ',', '2']]).addObject (point [1 / 20, 1 / 20])

/-- The cube `[1, 2) x [1, 2)` of edge 1 with the neighbor `"1,1"`, holding the point
`(1.95, 1.95)`. -/
def cubeFar : HyperCube :=
  ((HyperCube.new 2 [2, 2] 1).setNeighbors [['1', ',', '1']]).addObject (point [39 / 20, 39 / 20])

/-- The space of the points `0.2`, `0.4`, `1.2` and `3.5` for `sigma = 0.5`, `xi = 2` after
routing: the cube `[2, 3)` is empty. -/
def spaceGap : HyperSpace :=
  { dimension := 1, sigma := 1 / 2, xi := 2, upper_bounds := [4], lower_bounds := [0]
    hypercubes := [(['1'], { dimensions := 1, edge_length := 1, hypercube_key := ['1']
                             objects := [point [1 / 5], point [2 / 5]], neighbors := [['2']]
                             entities_sum := [3 / 5] }),
                   (['2'], { dimensions := 1, edge_length := 1, hypercube_key := ['2']
                             objects := [point [6 / 5]], neighbors := [['1'], ['3']]
                             entities_sum := [6 / 5] }),
                   (['3'], { dimensions := 1, edge_length := 1, hypercube_key := ['3']
                             objects := [], neighbors := [['2'], ['4']]
                             entities_sum := [0] }),
                   (['4'], { dimensions := 1, edge_length := 1, hypercube_key := ['4']
                             objects := [point [7 / 2]], neighbors := [['3']]
                             entities_sum := [7 / 2] })]
    high_populated_keys := [] }

/-- The space `spaceGap` after `removeLowPopulatedHypercubes`, with fresh arrays holding
zeros. -/
def spaceGapPruned : HyperSpace :=
  { spaceGap with
    hypercubes := [(['1'], { dimensions := 1, edge_length := 1, hypercube_key := ['1']
                             objects := [point [1 / 5], point [2 / 5]], neighbors := [['2']]
                             entities_sum := [3 / 5] }),
                   (['2'], { dimensions := 1, edge_length := 1, hypercube_key := ['2']
                             objects := [point [6 / 5]], neighbors := [['1']]
                             entities_sum := [6 / 5] })]
    high_populated_keys := [['1'], ['2'], ['4']] }

/-! ## The traversal of the entities with an `EntityIterator` -/

/-- The loop `for( it.begin() ; !it.end() ; it++ )` from the cursor `it`: the entities under
the cursor at the successive iterations, in that order.  `fuel` bounds the number of
iterations. -/
def EntityIterator.traverse (hs : HyperSpace) : Nat → EntityIterator → Run (List DatasetEntity)
  | 0, _ => Run.noFuel
  | fuel + 1, it =>
    if EntityIterator.isEnd hs it then Run.value []
    else
      match EntityIterator.deref hs it with
      | none => Run.undefined
      | some entity =>
        match EntityIterator.next hs it with
        | none => Run.undefined
        | some moved =>
          match EntityIterator.traverse hs fuel moved with
          | Run.noFuel => Run.noFuel
          | Run.undefined => Run.undefined
          | Run.value visited => Run.value (entity :: visited)

/-! ## The states of the loop of `pathBetweenExists` -/

/-- The variables of the loop of `pathBetweenExists` after `n` iterations from the state
`st`; `none` when the function has returned, or has no defined behaviour, before that. -/
def DenclueFunctions.pathStateAfter (attractor1 attractor2 : DatasetEntity) (hs : HyperSpace)
    (xi sigma : ℚ) (fuel : Nat) : Nat → PathState → Option PathState
  | 0, st => some st
  | n + 1, st =>
    match DenclueFunctions.loopBody attractor1 attractor2 hs xi sigma fuel st with
    | Flow.stop _ => none
    | Flow.again st1 =>
      DenclueFunctions.pathStateAfter attractor1 attractor2 hs xi sigma fuel n st1
    | Flow.below st1 =>
      DenclueFunctions.pathStateAfter attractor1 attractor2 hs xi sigma fuel n st1

/-! ## Definitions for the statements about the grid and the clusters -/

/-- No cube of the map has the key under which it is stored, or its own `hypercube_key`, in
its list of neighbors. -/
def HyperSpace.NoSelfNeighbor (hs : HyperSpace) : Prop :=
  ∀ kv ∈ hs.hypercubes, kv.1 ∉ kv.2.neighbors ∧ kv.2.hypercube_key ∉ kv.2.neighbors

/-- The one-dimensional data set with the two points `1000005` and `1000015`. -/
def dataTie : Dataset := Dataset.ofEntities 1 [point [1000005], point [1000015]]

/-- The one-dimensional data set with the two points `1234560` and `1234620`. -/
def dataStride : Dataset := Dataset.ofEntities 1 [point [1234560], point [1234620]]

/-- The two-dimensional data set with the two points `(0, 0)` and `(3, 3)`. -/
def dataSquare : Dataset := Dataset.ofEntities 2 [point [0, 0], point [3, 3]]

/-- The upper corner of the cube of a key, as `createHyperCubes` reads it from the key. -/
def HyperSpace.corner (hs : HyperSpace) (key : List Char) : List ℚ :=
  HyperCube.getArrayFromKey key hs.dimension

/-- The upper corner of the cube of the key `b` differs from the one of the key `a` by an
offset that is `-l`, `0` or `+l` in every component, and not by the zero offset. -/
abbrev HyperSpace.OffsetApart (hs : HyperSpace) (a b : List Char) : Prop :=
  hs.corner b ≠ hs.corner a ∧
  ∀ i ∈ List.range hs.dimension,
    (hs.corner b).getD i 0 - (hs.corner a).getD i 0 = -hs.hypercubeEdgeLenght ∨
    (hs.corner b).getD i 0 - (hs.corner a).getD i 0 = 0 ∨
    (hs.corner b).getD i 0 - (hs.corner a).getD i 0 = hs.hypercubeEdgeLenght

/-- The list of neighbors of every cube of the map holds keys of the map, each once, and it
holds the key of a cube of the map exactly when the upper corners are an offset apart. -/
abbrev HyperSpace.CandidateNeighbors (hs : HyperSpace) : Prop :=
  ∀ a ∈ hs.hypercubes, a.2.neighbors.Nodup ∧
    (∀ k ∈ a.2.neighbors, StrMap.contains hs.hypercubes k = true) ∧
    ∀ b ∈ hs.hypercubes, (b.1 ∈ a.2.neighbors ↔ hs.OffsetApart a.1 b.1)

/-- The key of `b` is in the list of neighbors of `a` exactly when the key of `a` is in the
list of neighbors of `b`, for the cubes of a map. -/
abbrev StrMap.AdjacencySymmetric (m : StrMap HyperCube) : Prop :=
  ∀ a ∈ m, ∀ b ∈ m, (b.1 ∈ a.2.neighbors ↔ a.1 ∈ b.2.neighbors)

/-- Every key in a list of neighbors is a key of the map. -/
abbrev StrMap.NeighborsInMap (m : StrMap HyperCube) : Prop :=
  ∀ a ∈ m, ∀ k ∈ a.2.neighbors, StrMap.contains m k = true

/-- The entity with the coordinate `0.123456` and its density in `spaceQuad` for
`sigma = 0.5`, computed with `expSample`. -/
def seedSix : DatasetEntity :=
  (point [123456 / 1000000]).setDensity
    (DenclueFunctions.influenceSum expSample (point [123456 / 1000000]) (1 / 2)
      spaceQuad.iterated)
/-! # Theorems -/

/-! ## The tests on squares are the tests on the Euclidean distance -/

/-- The test `distanceLt` is the comparison `distanceBetween(a, b) < bound` of the C++, where
the distance is the square root of `distanceSquared`. -/
theorem DatasetEntity.distanceLt_iff_sqrt (a b : DatasetEntity) (bound : ℚ) :
    DatasetEntity.distanceLt a b bound = true ↔
      Real.sqrt ((DatasetEntity.distanceSquared a b : ℚ) : ℝ) < (bound : ℝ) := by
  unfold DatasetEntity.distanceLt
  simp only [Bool.and_eq_true, decide_eq_true_eq]
  constructor
  · rintro ⟨h0, h1⟩
    have h0' : (0 : ℝ) < (bound : ℝ) := by exact_mod_cast h0
    rw [Real.sqrt_lt' h0']
    exact_mod_cast h1
  · intro h
    have h0' : (0 : ℝ) < (bound : ℝ) := lt_of_le_of_lt (Real.sqrt_nonneg _) h
    refine ⟨by exact_mod_cast h0', ?_⟩
    have h1 := (Real.sqrt_lt' h0').mp h
    exact_mod_cast h1

/-- The test `distanceLe` is the comparison `distanceBetween(a, b) <= bound` of the C++. -/
theorem DatasetEntity.distanceLe_iff_sqrt (a b : DatasetEntity) (bound : ℚ) :
    DatasetEntity.distanceLe a b bound = true ↔
      Real.sqrt ((DatasetEntity.distanceSquared a b : ℚ) : ℝ) ≤ (bound : ℝ) := by
  unfold DatasetEntity.distanceLe
  simp only [Bool.and_eq_true, decide_eq_true_eq]
  rw [Real.sqrt_le_iff]
  constructor
  · rintro ⟨h0, h1⟩
    exact ⟨by exact_mod_cast h0, by exact_mod_cast h1⟩
  · rintro ⟨h0, h1⟩
    exact ⟨by exact_mod_cast h0, by exact_mod_cast h1⟩

/-! ## Lists updated index by index -/

/-- Reading a list after `set`. -/
theorem getD_set_eq (l : List ℚ) (i j : Nat) (a : ℚ) :
    (l.set i a).getD j 0 = if i = j ∧ i < l.length then a else l.getD j 0 := by
  simp only [List.getD_eq_getElem?_getD, List.getElem?_set]
  by_cases h : i = j
  · subst h
    by_cases h2 : i < l.length
    · simp [h2]
    · simp [h2, List.getElem?_eq_none (Nat.le_of_not_lt h2)]
  · simp [h]

/-- A loop `for i < n` that replaces entry `i` by `g i` of its old value: the length is kept
and exactly the entries below `n` are replaced. -/
theorem foldl_set_range (g : Nat → ℚ → ℚ) (l : List ℚ) (n : Nat) :
    ((List.range n).foldl (fun acc i => acc.set i (g i (acc.getD i 0))) l).length = l.length ∧
    ∀ j, ((List.range n).foldl (fun acc i => acc.set i (g i (acc.getD i 0))) l).getD j 0 =
      if j < n ∧ j < l.length then g j (l.getD j 0) else l.getD j 0 := by
  induction n with
  | zero => simp
  | succ n ih =>
    obtain ⟨hlen, hget⟩ := ih
    rw [List.range_succ, List.foldl_append]
    simp only [List.foldl_cons, List.foldl_nil]
    refine ⟨by rw [List.length_set, hlen], fun j => ?_⟩
    rw [getD_set_eq, hlen, hget n, hget j]
    by_cases hjn : n = j
    · subst hjn
      by_cases hl : n < l.length
      · simp [hl]
      · simp [hl]
    · by_cases hj : j < n
      · have : j < n + 1 := Nat.lt_succ_of_lt hj
        simp [hjn, hj, this]
      · have : ¬ j < n + 1 := fun h => hjn (by omega)
        simp [hjn, hj, this]

namespace Dataset

theorem foldl_addComponent_upper (e : DatasetEntity) (n : Nat) (ds : Dataset) :
    ((List.range n).foldl (addComponent e) ds).upper_bound =
      (List.range n).foldl
        (fun acc i => acc.set i (nextUpper (e.getComponentValue i) (acc.getD i 0)))
        ds.upper_bound := by
  induction n with
  | zero => simp
  | succ n ih =>
    rw [List.range_succ, List.foldl_append, List.foldl_append]
    simp only [List.foldl_cons, List.foldl_nil]
    rw [← ih]
    rfl

theorem foldl_addComponent_lower (e : DatasetEntity) (n : Nat) (ds : Dataset) :
    ((List.range n).foldl (addComponent e) ds).lower_bound =
      (List.range n).foldl
        (fun acc i => acc.set i (nextLower (e.getComponentValue i) (acc.getD i 0)))
        ds.lower_bound := by
  induction n with
  | zero => simp
  | succ n ih =>
    rw [List.range_succ, List.foldl_append, List.foldl_append]
    simp only [List.foldl_cons, List.foldl_nil]
    rw [← ih]
    rfl

/-- The upper bounds after `addEntity`: the length is kept and each component of the entity
replaces its bound by `nextUpper`. -/
theorem addEntity_upper (ds : Dataset) (e : DatasetEntity) :
    (ds.addEntity e).upper_bound.length = ds.upper_bound.length ∧
    ∀ j, (ds.addEntity e).upper_bound.getD j 0 =
      if j < e.getNumOfDimensions ∧ j < ds.upper_bound.length then
        nextUpper (e.getComponentValue j) (ds.upper_bound.getD j 0)
      else ds.upper_bound.getD j 0 := by
  unfold addEntity
  rw [foldl_addComponent_upper]
  exact foldl_set_range (fun i old => nextUpper (e.getComponentValue i) old) _ _

/-- The lower bounds after `addEntity`. -/
theorem addEntity_lower (ds : Dataset) (e : DatasetEntity) :
    (ds.addEntity e).lower_bound.length = ds.lower_bound.length ∧
    ∀ j, (ds.addEntity e).lower_bound.getD j 0 =
      if j < e.getNumOfDimensions ∧ j < ds.lower_bound.length then
        nextLower (e.getComponentValue j) (ds.lower_bound.getD j 0)
      else ds.lower_bound.getD j 0 := by
  unfold addEntity
  rw [foldl_addComponent_lower]
  exact foldl_set_range (fun i old => nextLower (e.getComponentValue i) old) _ _

theorem le_nextUpper (v old : ℚ) : v ≤ nextUpper v old ∧ old ≤ nextUpper v old := by
  unfold nextUpper
  split
  · rename_i h
    exact ⟨Int.le_ceil v, le_trans (le_of_lt h) (Int.le_ceil v)⟩
  · rename_i h
    exact ⟨le_trans (not_lt.mp h) (Int.le_ceil old), Int.le_ceil old⟩

theorem nextLower_le (v old : ℚ) : nextLower v old ≤ v ∧ nextLower v old ≤ old := by
  unfold nextLower
  split
  · rename_i h
    exact ⟨Int.floor_le v, le_trans (Int.floor_le v) (le_of_lt h)⟩
  · rename_i h
    exact ⟨le_trans (Int.floor_le old) (not_lt.mp h), Int.floor_le old⟩

theorem encloses_addEntity (d : Nat) (ds : Dataset) (seen : List DatasetEntity) (r : Prop)
    (e : DatasetEntity) (he : e.getNumOfDimensions = d) (h : Encloses d ds seen r) :
    Encloses d (ds.addEntity e) (seen ++ [e]) True := by
  obtain ⟨hu, hl, hb⟩ := h
  obtain ⟨hul, hug⟩ := addEntity_upper ds e
  obtain ⟨hll, hlg⟩ := addEntity_lower ds e
  refine ⟨by rw [hul, hu], by rw [hll, hl], fun i hi => ?_⟩
  have hu' : (ds.addEntity e).upper_bound.getD i 0 =
      nextUpper (e.getComponentValue i) (ds.upper_bound.getD i 0) := by
    rw [hug i, if_pos ⟨by rw [he]; exact hi, by rw [hu]; exact hi⟩]
  have hl' : (ds.addEntity e).lower_bound.getD i 0 =
      nextLower (e.getComponentValue i) (ds.lower_bound.getD i 0) := by
    rw [hlg i, if_pos ⟨by rw [he]; exact hi, by rw [hl]; exact hi⟩]
  rw [hu', hl']
  refine ⟨fun x hx => ?_, fun _ => ⟨⟨_, rfl⟩, ⟨_, rfl⟩⟩⟩
  rcases List.mem_append.mp hx with hx | hx
  · obtain ⟨h1, h2⟩ := (hb i hi).1 x hx
    exact ⟨le_trans (nextLower_le _ _).2 h1, le_trans h2 (le_nextUpper _ _).2⟩
  · rw [List.mem_singleton.mp hx]
    exact ⟨(nextLower_le _ _).1, (le_nextUpper _ _).1⟩

theorem encloses_foldl (d : Nat) (es : List DatasetEntity)
    (hes : ∀ e ∈ es, e.getNumOfDimensions = d) :
    ∀ (ds : Dataset) (seen : List DatasetEntity) (r : Prop), Encloses d ds seen r →
      Encloses d (es.foldl addEntity ds) (seen ++ es) (r ∨ es ≠ []) := by
  induction es with
  | nil =>
    intro ds seen r h
    obtain ⟨hu, hl, hb⟩ := h
    refine ⟨hu, hl, fun i hi => ⟨?_, fun hr => ?_⟩⟩
    · simpa using (hb i hi).1
    · exact (hb i hi).2 (hr.resolve_right (fun h => h rfl))
  | cons e es ih =>
    intro ds seen r h
    have h1 := encloses_addEntity d ds seen r e (hes e (List.mem_cons_self _ _)) h
    have h2 := ih (fun x hx => hes x (List.mem_cons_of_mem _ hx)) (ds.addEntity e)
      (seen ++ [e]) True h1
    obtain ⟨hu, hl, hb⟩ := h2
    refine ⟨hu, hl, fun i hi => ⟨?_, fun _ => (hb i hi).2 (Or.inl trivial)⟩⟩
    have := (hb i hi).1
    simpa [List.append_assoc] using this

theorem encloses_new (d : Nat) : Encloses d (Dataset.new d) [] False := by
  refine ⟨by simp [Dataset.new], by simp [Dataset.new], fun i _ => ⟨?_, fun h => h.elim⟩⟩
  intro e he
  cases he

end Dataset

/-- C9 (bounding-box integrity).  For a data set of dimension `d` filled by `addEntity` with a
non-empty sequence `es` of `d`-dimensional entities (any prefix of the insertions is such a
sequence), every component `i < d` of every inserted entity lies between `lower_bound[i]`
and `upper_bound[i]`, and both bounds are integers. -/
theorem bounding_box_integrity (d : Nat) (es : List DatasetEntity)
    (hdim : ∀ e ∈ es, e.getNumOfDimensions = d) (hne : es ≠ []) (i : Nat) (hi : i < d) :
    (∀ e ∈ es,
      (Dataset.ofEntities d es).lower_bound.getD i 0 ≤ e.getComponentValue i ∧
      e.getComponentValue i ≤ (Dataset.ofEntities d es).upper_bound.getD i 0) ∧
    (∃ z : ℤ, (Dataset.ofEntities d es).lower_bound.getD i 0 = z) ∧
    (∃ z : ℤ, (Dataset.ofEntities d es).upper_bound.getD i 0 = z) := by
  have h := Dataset.encloses_foldl d es hdim (Dataset.new d) [] False (Dataset.encloses_new d)
  obtain ⟨_, _, hb⟩ := h
  refine ⟨?_, (hb i hi).2 (Or.inr hne)⟩
  have := (hb i hi).1
  simpa using this

/-- Witness for `bounding_box_integrity`: the two points `(-5.5, 3)` and `(-0.5, 3.5)` in
dimension 2, component 0. -/
theorem bounding_box_integrity_witness :
    (∀ e ∈ [point [-11 / 2, 3], point [-1 / 2, 7 / 2]],
      (Dataset.ofEntities 2 [point [-11 / 2, 3], point [-1 / 2, 7 / 2]]).lower_bound.getD 0 0
        ≤ e.getComponentValue 0 ∧
      e.getComponentValue 0 ≤
        (Dataset.ofEntities 2 [point [-11 / 2, 3], point [-1 / 2, 7 / 2]]).upper_bound.getD 0 0) ∧
    (∃ z : ℤ,
      (Dataset.ofEntities 2 [point [-11 / 2, 3], point [-1 / 2, 7 / 2]]).lower_bound.getD 0 0 = z) ∧
    (∃ z : ℤ,
      (Dataset.ofEntities 2 [point [-11 / 2, 3], point [-1 / 2, 7 / 2]]).upper_bound.getD 0 0 = z) :=
  bounding_box_integrity 2 [point [-11 / 2, 3], point [-1 / 2, 7 / 2]]
    (by decide) (by decide) 0 (by decide)

/-! ## The text of a number has no separator, end of line or white space -/

theorem digitChar_isNumChar (n : Nat) : isNumChar (digitChar n) = true := by
  unfold digitChar
  split <;> decide

theorem digitsFixed_isNumChar (k n : Nat) : ∀ c ∈ digitsFixed k n, isNumChar c = true := by
  induction k generalizing n with
  | zero => intro c hc; cases hc
  | succ k ih =>
    intro c hc
    simp only [digitsFixed, List.mem_append, List.mem_singleton] at hc
    rcases hc with hc | hc
    · exact ih _ c hc
    · rw [hc]; exact digitChar_isNumChar n

theorem natDigits_isNumChar (fuel n : Nat) : ∀ c ∈ natDigits fuel n, isNumChar c = true := by
  induction fuel generalizing n with
  | zero => intro c hc; cases hc
  | succ fuel ih =>
    intro c hc
    unfold natDigits at hc
    split at hc
    · rw [List.mem_singleton.mp hc]; exact digitChar_isNumChar n
    · rcases List.mem_append.mp hc with hc | hc
      · exact ih _ c hc
      · rw [List.mem_singleton.mp hc]; exact digitChar_isNumChar n

theorem mem_stripZeros {ds : List Char} {c : Char} (h : c ∈ stripZeros ds) : c ∈ ds := by
  unfold stripZeros at h
  rw [List.mem_reverse] at h
  exact List.mem_reverse.mp ((List.dropWhile_sublist _).subset h)

theorem fmtPos_isNumChar (a : ℚ) : ∀ c ∈ fmtPos a, isNumChar c = true := by
  intro c hc
  unfold fmtPos at hc
  have hd : ∀ c ∈ digitsFixed 6 (sigDigits a).1, isNumChar c = true := digitsFixed_isNumChar _ _
  simp only at hc
  split at hc
  · split at hc
    · split at hc
      · exact hd c (List.mem_of_mem_take hc)
      · rcases List.mem_append.mp hc with hc | hc
        · exact hd c (List.mem_of_mem_take hc)
        · rcases List.mem_cons.mp hc with hc | hc
          · rw [hc]; decide
          · exact hd c (List.mem_of_mem_drop (mem_stripZeros hc))
    · rcases List.mem_cons.mp hc with hc | hc
      · rw [hc]; decide
      · rcases List.mem_cons.mp hc with hc | hc
        · rw [hc]; decide
        · rcases List.mem_append.mp hc with hc | hc
          · rw [List.eq_of_mem_replicate hc]; decide
          · exact hd c (mem_stripZeros hc)
  · rcases List.mem_append.mp hc with hc | hc
    · split at hc
      · exact hd c (List.mem_of_mem_take hc)
      · rcases List.mem_append.mp hc with hc | hc
        · exact hd c (List.mem_of_mem_take hc)
        · rcases List.mem_cons.mp hc with hc | hc
          · rw [hc]; decide
          · exact hd c (List.mem_of_mem_drop (mem_stripZeros hc))
    · rcases List.mem_cons.mp hc with hc | hc
      · rw [hc]; decide
      · rcases List.mem_cons.mp hc with hc | hc
        · rw [hc]; split <;> decide
        · split at hc
          · rcases List.mem_cons.mp hc with hc | hc
            · rw [hc]; decide
            · rw [List.mem_singleton.mp hc]; exact digitChar_isNumChar _
          · exact natDigits_isNumChar _ _ c hc

/-- Every character of the text of a number is a digit, a point, an `e` or a sign. -/
theorem fmtDouble_isNumChar (x : ℚ) : ∀ c ∈ fmtDouble x, isNumChar c = true := by
  intro c hc
  unfold fmtDouble at hc
  split at hc
  · rw [List.mem_singleton.mp hc]; decide
  · split at hc
    · rcases List.mem_cons.mp hc with hc | hc
      · rw [hc]; decide
      · exact fmtPos_isNumChar _ c hc
    · exact fmtPos_isNumChar _ c hc

theorem isNumChar_not_sep {c : Char} (h : isNumChar c = true) :
    (c == CSV_SEPARATOR || c == EOL) = false := by
  have h1 : c ≠ CSV_SEPARATOR := fun e => by rw [e] at h; exact absurd h (by decide)
  have h2 : c ≠ EOL := fun e => by rw [e] at h; exact absurd h (by decide)
  simp [h1, h2]

theorem isNumChar_not_comma {c : Char} (h : isNumChar c = true) :
    (c == CSV_SEPARATOR) = false := by
  by_contra hne
  have hc : c = CSV_SEPARATOR := by simpa using hne
  rw [hc] at h
  exact absurd h (by decide)

theorem isNumChar_not_space {c : Char} (h : isNumChar c = true) : isSpace c = false := by
  by_contra hne
  have hs : isSpace c = true := by simpa using hne
  unfold isSpace at hs
  simp only [Bool.or_eq_true, beq_iff_eq] at hs
  rcases hs with ((((hc | hc) | hc) | hc) | hc) | hc <;> rw [hc] at h <;>
    exact absurd h (by decide)

/-- A word without white space is extracted whole, and nothing is left in the stream. -/
theorem extractWord_of_isNumChar (w : List Char) (hw : ∀ c ∈ w, isNumChar c = true) :
    extractWord w = (w, []) := by
  have hns : ∀ c ∈ w, (!isSpace c) = true := fun c hc => by
    rw [isNumChar_not_space (hw c hc)]; rfl
  have h1 : w.dropWhile isSpace = w := by
    cases w with
    | nil => rfl
    | cons c t =>
      rw [List.dropWhile_cons, isNumChar_not_space (hw c (List.mem_cons_self _ _))]
      simp
  unfold extractWord
  simp only [h1]
  rw [List.takeWhile_eq_self_iff.mpr hns, List.dropWhile_eq_nil_iff.mpr hns]

theorem length_storeFrom (vals : List ℚ) : ∀ (attrs : List ℚ) (idx : Nat),
    (storeFrom attrs idx vals).length = attrs.length := by
  induction vals with
  | nil => intro attrs idx; rfl
  | cons v vs ih => intro attrs idx; simp [storeFrom, ih]

theorem getD_storeFrom (vals : List ℚ) : ∀ (attrs : List ℚ) (idx j : Nat),
    idx + vals.length ≤ attrs.length →
    (storeFrom attrs idx vals).getD j 0 =
      if idx ≤ j ∧ j < idx + vals.length then vals.getD (j - idx) 0 else attrs.getD j 0 := by
  induction vals with
  | nil =>
    intro attrs idx j _
    rw [storeFrom, if_neg (by simp only [List.length_nil]; omega)]
  | cons v vs ih =>
    intro attrs idx j hlen
    simp only [List.length_cons] at hlen
    rw [storeFrom, ih (attrs.set idx v) (idx + 1) j (by rw [List.length_set]; omega), getD_set_eq]
    by_cases h1 : idx + 1 ≤ j
    · have h2 : idx ≤ j := by omega
      have h3 : ¬ idx = j := by omega
      have h4 : j - idx = (j - (idx + 1)) + 1 := by omega
      by_cases h5 : j < idx + 1 + vs.length
      · have h6 : j < idx + (vs.length + 1) := by omega
        simp [h1, h2, h3, h5, h6, h4]
      · have h6 : ¬ j < idx + (vs.length + 1) := by omega
        simp [h1, h2, h3, h5, h6]
    · by_cases h2 : idx = j
      · subst h2
        have h3 : idx < attrs.length := by omega
        simp [h3]
      · have h3 : ¬ idx ≤ j := by omega
        simp [h1, h2, h3]

/-- Storing as many values as the array has entries, from entry 0, gives those values. -/
theorem storeFrom_zero_eq (vals attrs : List ℚ) (h : attrs.length = vals.length) :
    storeFrom attrs 0 vals = vals := by
  apply List.ext_getElem?
  intro j
  have hl := length_storeFrom vals attrs 0
  have hg := getD_storeFrom vals attrs 0 j (by omega)
  by_cases hj : j < vals.length
  · have h1 : j < (storeFrom attrs 0 vals).length := by omega
    simp only [List.getD_eq_getElem?_getD, Nat.zero_le, true_and, Nat.zero_add, hj, if_true,
      Nat.sub_zero] at hg
    rw [List.getElem?_eq_getElem h1, List.getElem?_eq_getElem hj] at hg ⊢
    simpa using hg
  · rw [List.getElem?_eq_none (by omega), List.getElem?_eq_none (by omega)]

namespace DatasetEntity

/-- Reading a number and then a separator or an end of line stores the number: the loop of
`buildEntityFromString` on the text `w`, the character `c0`, and `rest`. -/
theorem buildLoop_word (dims : Nat) (w : List Char) (hw : ∀ c ∈ w, isNumChar c = true)
    (c0 : Char) (hc0 : (c0 == CSV_SEPARATOR || c0 == EOL) = true) (rest : List Char)
    (idx : Nat) (attrs : List ℚ) (hidx : idx < dims) :
    ∀ buf, buildLoop dims (w ++ c0 :: rest) buf idx attrs =
      buildLoop dims rest (extractWord (buf ++ w)).2 (idx + 1)
        (attrs.set idx (atof (extractWord (buf ++ w)).1)) := by
  induction w with
  | nil =>
    intro buf
    simp only [List.nil_append, List.append_nil]
    rw [buildLoop, if_neg (by omega), if_pos hc0]
  | cons c w ih =>
    intro buf
    have hc := isNumChar_not_sep (hw c (List.mem_cons_self _ _))
    rw [List.cons_append, buildLoop, if_neg (by omega), if_neg (by simp [hc])]
    rw [ih (fun x hx => hw x (List.mem_cons_of_mem _ hx)) (buf ++ [c])]
    simp

/-- Text without separator and end of line stores nothing. -/
theorem buildLoop_noSep (dims : Nat) (w : List Char) (hw : ∀ c ∈ w, isNumChar c = true)
    (idx : Nat) (attrs : List ℚ) : ∀ buf, buildLoop dims w buf idx attrs = attrs := by
  induction w with
  | nil => intro buf; rfl
  | cons c w ih =>
    intro buf
    have hc := isNumChar_not_sep (hw c (List.mem_cons_self _ _))
    rw [buildLoop]
    split
    · rfl
    · rw [if_neg (by simp [hc])]
      exact ih (fun x hx => hw x (List.mem_cons_of_mem _ hx)) _

/-- The loop of `buildEntityFromString` on numbers joined by `','` and ended by `EOL`:
every number is stored, at consecutive entries. -/
theorem buildLoop_writeCsv_eol (dims : Nat) : ∀ (xs : List ℚ) (idx : Nat) (attrs : List ℚ),
    xs ≠ [] → idx + xs.length ≤ dims →
    buildLoop dims (writeCsv xs ++ [EOL]) [] idx attrs =
      storeFrom attrs idx (xs.map textValue) := by
  intro xs
  induction xs with
  | nil => intro idx attrs h; exact absurd rfl h
  | cons x rest ih =>
    intro idx attrs _ hlen
    simp only [List.length_cons] at hlen
    cases rest with
    | nil =>
      rw [writeCsv, buildLoop_word dims _ (fmtDouble_isNumChar x) EOL (by decide) [] idx attrs
        (by omega) [], List.nil_append, extractWord_of_isNumChar _ (fmtDouble_isNumChar x)]
      rfl
    | cons y rest =>
      have h1 : writeCsv (x :: y :: rest) ++ [EOL] =
          fmtDouble x ++ CSV_SEPARATOR :: (writeCsv (y :: rest) ++ [EOL]) := by
        simp [writeCsv, CSV_SEPARATOR]
      rw [h1, buildLoop_word dims _ (fmtDouble_isNumChar x) CSV_SEPARATOR (by decide) _ idx attrs
        (by omega) [], List.nil_append, extractWord_of_isNumChar _ (fmtDouble_isNumChar x)]
      simp only [List.length_cons] at hlen
      rw [ih (idx + 1) _ (by simp) (by simp only [List.length_cons]; omega)]
      rfl

/-- The loop of `buildEntityFromString` on numbers joined by `','` with no `EOL` at the end:
every number but the last is stored; the last one is collected and never stored. -/
theorem buildLoop_writeCsv (dims : Nat) : ∀ (xs : List ℚ) (idx : Nat) (attrs : List ℚ),
    idx + xs.length ≤ dims →
    buildLoop dims (writeCsv xs) [] idx attrs =
      storeFrom attrs idx (xs.dropLast.map textValue) := by
  intro xs
  induction xs with
  | nil => intro idx attrs _; rfl
  | cons x rest ih =>
    intro idx attrs hlen
    simp only [List.length_cons] at hlen
    cases rest with
    | nil =>
      rw [writeCsv, buildLoop_noSep dims _ (fmtDouble_isNumChar x)]
      rfl
    | cons y rest =>
      rw [writeCsv]
      change buildLoop dims (fmtDouble x ++ CSV_SEPARATOR :: writeCsv (y :: rest)) [] idx attrs = _
      rw [buildLoop_word dims _ (fmtDouble_isNumChar x) CSV_SEPARATOR (by decide) _ idx
        attrs (by simp only [List.length_cons] at hlen; omega) [], List.nil_append,
        extractWord_of_isNumChar _ (fmtDouble_isNumChar x)]
      simp only [List.length_cons] at hlen
      rw [ih (idx + 1) _ (by simp only [List.length_cons]; omega)]
      rfl

theorem length_componentDifferences (a b : DatasetEntity) :
    (componentDifferences a b).length = min a.getNumOfDimensions b.getNumOfDimensions := by
  simp [componentDifferences]

/-- The result of `operator-` with any contents of the fresh array: each difference, after
it has been written as text and read back. -/
theorem subFresh_attributes (fresh : Junk) (a b : DatasetEntity) :
    (subFresh fresh a b).attributes = (componentDifferences a b).map textValue := by
  unfold subFresh buildEntityFromString
  simp only
  by_cases h : componentDifferences a b = []
  · have h0 : min a.getNumOfDimensions b.getNumOfDimensions = 0 := by
      rw [← length_componentDifferences, h]; rfl
    rw [h, h0]
    rfl
  · have hl : (DatasetEntity.new (min a.getNumOfDimensions b.getNumOfDimensions) fresh).attributes.length
        = (componentDifferences a b).length := by
      simp [DatasetEntity.new, componentDifferences]
    rw [buildLoop_writeCsv_eol _ _ 0 _ h (by rw [hl]; omega)]
    exact storeFrom_zero_eq _ _ (by rw [hl, List.length_map])

/-- The contents of the fresh array of `operator-` do not matter. -/
theorem subFresh_eq (fresh : Junk) (a b : DatasetEntity) : subFresh fresh a b = sub a b := by
  have h1 := subFresh_attributes fresh a b
  have h2 := subFresh_attributes (fun _ => 0) a b
  have hd : ∀ f, (subFresh f a b).density = 0 := fun f => rfl
  unfold sub
  cases hx : subFresh fresh a b with
  | mk at1 d1 =>
    cases hy : subFresh (fun _ => 0) a b with
    | mk at2 d2 =>
      rw [hx] at h1
      rw [hy] at h2
      have e1 := hd fresh
      have e2 := hd (fun _ => 0)
      rw [hx] at e1
      rw [hy] at e2
      simp only at h1 h2 e1 e2
      rw [h1, h2, e1, e2]

end DatasetEntity

namespace HyperCube

/-- The mean element that `getMeanElement` returns: of the component means, all but the last
are stored (after passing through text); the other entries keep the contents `fresh` of the
fresh array. -/
theorem getMeanElement_attributes (c : HyperCube) (fresh : Junk)
    (h : c.entities_sum.length ≤ c.dimensions) :
    (c.getMeanElement fresh).attributes =
      storeFrom ((List.range c.dimensions).map fresh) 0
        (c.componentMeans.dropLast.map textValue) := by
  unfold getMeanElement DatasetEntity.buildEntityFromString
  simp only
  rw [DatasetEntity.buildLoop_writeCsv]
  · rfl
  · simp [DatasetEntity.new, componentMeans]
    exact h

/-- The last component of the mean element is never assigned: it is the last entry of the
fresh array. -/
theorem getMeanElement_last (c : HyperCube) (fresh : Junk)
    (h : c.entities_sum.length = c.dimensions) (hd : 0 < c.dimensions) :
    (c.getMeanElement fresh).getComponentValue (c.dimensions - 1) = fresh (c.dimensions - 1) := by
  unfold DatasetEntity.getComponentValue
  rw [getMeanElement_attributes c fresh (le_of_eq h), getD_storeFrom]
  · have hlen : (c.componentMeans.dropLast.map textValue).length = c.dimensions - 1 := by
      simp [componentMeans, h]
    rw [hlen, if_neg (by omega)]
    simp [List.getD_eq_getElem?_getD, List.getElem?_map, List.getElem?_range (by omega :
      c.dimensions - 1 < c.dimensions)]
  · simp [componentMeans, h]

end HyperCube

namespace HyperCube

/-- Reading a number and then the separator stores the number: the loop of
`getArrayFromKey` on the text `w`, a `','`, and `rest`. -/
theorem arrayLoop_word (dims : Nat) (w : List Char) (hw : ∀ c ∈ w, isNumChar c = true)
    (rest : List Char) (idx : Nat) (arr : List ℚ) (hidx : idx < dims) :
    ∀ buf, arrayLoop dims (w ++ CSV_SEPARATOR :: rest) buf idx arr =
      arrayLoop dims rest (extractWord (buf ++ w)).2 (idx + 1)
        (arr.set idx (atof (extractWord (buf ++ w)).1)) := by
  induction w with
  | nil =>
    intro buf
    simp only [List.nil_append, List.append_nil]
    rw [arrayLoop, if_neg (by omega), if_pos (by decide)]
  | cons c w ih =>
    intro buf
    have hc := isNumChar_not_comma (hw c (List.mem_cons_self _ _))
    rw [List.cons_append, arrayLoop, if_neg (by omega), if_neg (by simp [hc])]
    rw [ih (fun x hx => hw x (List.mem_cons_of_mem _ hx)) (buf ++ [c])]
    simp

/-- Reading a number up to the end of the key stores the number. -/
theorem arrayLoop_last (dims : Nat) (w : List Char) (hw : ∀ c ∈ w, isNumChar c = true)
    (idx : Nat) (arr : List ℚ) (hidx : idx < dims) :
    ∀ buf, arrayLoop dims w buf idx arr = arr.set idx (atof (extractWord (buf ++ w)).1) := by
  induction w with
  | nil =>
    intro buf
    rw [arrayLoop, if_neg (by omega), List.append_nil]
  | cons c w ih =>
    intro buf
    have hc := isNumChar_not_comma (hw c (List.mem_cons_self _ _))
    rw [arrayLoop, if_neg (by omega), if_neg (by simp [hc])]
    rw [ih (fun x hx => hw x (List.mem_cons_of_mem _ hx)) (buf ++ [c])]
    simp

/-- The loop of `getArrayFromKey` on numbers joined by `','`: every number is stored, at
consecutive entries. -/
theorem arrayLoop_writeCsv (dims : Nat) : ∀ (xs : List ℚ) (idx : Nat) (arr : List ℚ),
    xs ≠ [] → idx + xs.length ≤ dims →
    arrayLoop dims (DatasetEntity.writeCsv xs) [] idx arr =
      storeFrom arr idx (xs.map textValue) := by
  intro xs
  induction xs with
  | nil => intro idx arr h; exact absurd rfl h
  | cons x rest ih =>
    intro idx arr _ hlen
    simp only [List.length_cons] at hlen
    cases rest with
    | nil =>
      rw [DatasetEntity.writeCsv, arrayLoop_last dims _ (fmtDouble_isNumChar x) idx arr
        (by omega) [], List.nil_append, extractWord_of_isNumChar _ (fmtDouble_isNumChar x)]
      rfl
    | cons y rest =>
      rw [DatasetEntity.writeCsv]
      change arrayLoop dims
        (fmtDouble x ++ CSV_SEPARATOR :: DatasetEntity.writeCsv (y :: rest)) [] idx arr = _
      rw [arrayLoop_word dims _ (fmtDouble_isNumChar x) _ idx arr
        (by simp only [List.length_cons] at hlen; omega) [], List.nil_append,
        extractWord_of_isNumChar _ (fmtDouble_isNumChar x)]
      simp only [List.length_cons] at hlen
      rw [ih (idx + 1) _ (by simp) (by simp only [List.length_cons]; omega)]
      rfl

/-- The upper bounds read back from a key built by `getKeyFromArray` for the same dimension:
each bound after it has passed through text, whatever the fresh array held. -/
theorem getArrayFromKeyFresh_getKeyFromArray (fresh : Junk) (upper_bounds : List ℚ)
    (dimension : Nat) :
    getArrayFromKeyFresh fresh (getKeyFromArray upper_bounds dimension) dimension =
      ((List.range dimension).map (fun i => upper_bounds.getD i 0)).map textValue := by
  unfold getArrayFromKeyFresh getKeyFromArray
  cases dimension with
  | zero => rfl
  | succ d =>
    rw [arrayLoop_writeCsv _ _ 0 _ (by simp [List.range_succ]) (by simp)]
    exact storeFrom_zero_eq _ _ (by simp)

/-- The contents of the fresh array of `getArrayFromKey` do not matter for a key built by
`getKeyFromArray` for the same dimension. -/
theorem getArrayFromKey_getKeyFromArray (upper_bounds : List ℚ) (dimension : Nat) :
    getArrayFromKey (getKeyFromArray upper_bounds dimension) dimension =
      ((List.range dimension).map (fun i => upper_bounds.getD i 0)).map textValue :=
  getArrayFromKeyFresh_getKeyFromArray _ _ _

end HyperCube

/-! ## `std::map` reads after writes -/

namespace StrMap

theorem find_assign {α : Type} (m : StrMap α) (k k' : List Char) (v : α) :
    find (assign m k v) k' = if k = k' then some v else find m k' := by
  induction m with
  | nil =>
    simp only [assign, find]
  | cons kv rest ih =>
    obtain ⟨k0, v0⟩ := kv
    simp only [assign]
    split
    · rename_i h0
      subst h0
      simp only [find]
      split <;> rfl
    · rename_i h0
      split
      · simp only [find]
      · simp only [find, ih]
        split
        · rename_i h1
          rw [if_neg (fun h => h0 (h1.trans h.symm))]
        · rfl

theorem find_insert_of_ne {α : Type} (m : StrMap α) (k k' : List Char) (v : α) (h : k ≠ k') :
    find (insert m k v) k' = find m k' := by
  induction m with
  | nil => simp [insert, find, h]
  | cons kv rest ih =>
    obtain ⟨k0, v0⟩ := kv
    simp only [insert]
    split
    · rfl
    · split
      · simp [find, h]
      · simp only [find, ih]

end StrMap

namespace EntityIterator

theorem deref_of_isEnd (hs : HyperSpace) (it : EntityIterator) (h : isEnd hs it = true) :
    deref hs it = none := by
  unfold isEnd at h
  have h1 : it.cube_keys_iterator = hs.high_populated_keys.length := by simpa using h
  unfold deref objectsAt
  rw [h1, List.get?_eq_none.mpr (le_refl _)]

theorem mem_iterated_of_deref (hs : HyperSpace) (it : EntityIterator) (e : DatasetEntity)
    (h : deref hs it = some e) : e ∈ hs.iterated := by
  unfold deref objectsAt at h
  split at h
  · cases h
  · rename_i objects hobj
    split at hobj
    · cases hobj
    · rename_i k hk
      cases hf : StrMap.find hs.hypercubes k with
      | none => rw [hf] at hobj; cases hobj
      | some c =>
        rw [hf] at hobj
        simp only [Option.map_some', Option.some.injEq] at hobj
        unfold HyperSpace.iterated
        refine List.mem_flatMap.mpr ⟨k, List.get?_mem hk, ?_⟩
        rw [hf]
        simp only
        rw [← hobj] at h
        exact List.get?_mem h

end EntityIterator

namespace DenclueFunctions

theorem find_readUsed (used : StrMap Bool) (key k : List Char) (b : Bool)
    (h : StrMap.find used k = some b) : StrMap.find (readUsed used key).1 k = some b := by
  unfold readUsed
  split
  · exact h
  · rename_i hnone
    simp only
    rw [StrMap.find_insert_of_ne _ _ _ _ (fun e => by rw [e, h] at hnone; cases hnone)]
    exact h

/-- The inner loop keeps every flag that is stored, and reports the end only at the end. -/
theorem findUnused_spec (hs : HyperSpace) : ∀ (fuel : Nat) (used : StrMap Bool)
    (cursor : EntityIterator) (used2 : StrMap Bool) (moved : EntityIterator) (atEnd : Bool),
    findUnused hs fuel used cursor = Run.value (used2, moved, atEnd) →
    (∀ k b, StrMap.find used k = some b → StrMap.find used2 k = some b) ∧
    (atEnd = true → EntityIterator.isEnd hs moved = true) := by
  intro fuel
  induction fuel with
  | zero => intro used cursor used2 moved atEnd h; simp [findUnused] at h
  | succ fuel ih =>
    intro used cursor used2 moved atEnd h
    unfold findUnused at h
    split at h
    · cases h
    · rename_i moved1 _
      split at h
      · rename_i hend
        simp only [Run.value.injEq, Prod.mk.injEq] at h
        obtain ⟨h1, h2, _⟩ := h
        subst h1 h2
        exact ⟨fun k b hk => hk, fun _ => hend⟩
      · split at h
        · cases h
        · rename_i entity _
          split at h
          · obtain ⟨h1, h2⟩ := ih _ _ _ _ _ h
            exact ⟨fun k b hk => h1 k b (find_readUsed _ _ _ _ hk), h2⟩
          · simp only [Run.value.injEq, Prod.mk.injEq] at h
            obtain ⟨h1, _, h3⟩ := h
            subst h1
            refine ⟨fun k b hk => find_readUsed _ _ _ _ hk, fun ht => ?_⟩
            rw [← h3] at ht
            cases ht

theorem goodPath_head (p : DatasetEntity) (hs : HyperSpace) (xi sigma : ℚ)
    (path : List EntityIterator) (es : List DatasetEntity) (h : GoodPath p hs xi sigma path es) :
    curr_path_end p hs path = some (es.headD p) := by
  cases path with
  | nil =>
    cases es with
    | nil => rfl
    | cons e es => exact absurd h (by simp [GoodPath])
  | cons it path =>
    cases es with
    | nil => exact absurd h (by simp [GoodPath])
    | cons e es => exact h.1

theorem goodPath_members (p : DatasetEntity) (hs : HyperSpace) (xi sigma : ℚ) :
    ∀ (path : List EntityIterator) (es : List DatasetEntity), GoodPath p hs xi sigma path es →
      ∀ e ∈ es, e ∈ hs.iterated ∧ e.getDensity ≥ xi := by
  intro path
  induction path with
  | nil =>
    intro es h e he
    cases es with
    | nil => cases he
    | cons e0 es => exact absurd h (by simp [GoodPath])
  | cons it path ih =>
    intro es h e he
    cases es with
    | nil => cases he
    | cons e0 es =>
      obtain ⟨h1, h2, _, h4⟩ := h
      rcases List.mem_cons.mp he with he | he
      · subst he
        exact ⟨EntityIterator.mem_iterated_of_deref hs it _ h1, h2⟩
      · exact ih es h4 e he

theorem goodPath_chain (p : DatasetEntity) (hs : HyperSpace) (xi sigma : ℚ) :
    ∀ (path : List EntityIterator) (es : List DatasetEntity) (e : DatasetEntity),
      GoodPath p hs xi sigma path es → Near sigma (es.headD p) e →
      List.Chain' (flip (Near sigma)) (e :: es ++ [p]) := by
  intro path
  induction path with
  | nil =>
    intro es e h hn
    cases es with
    | nil => exact List.chain'_pair.mpr hn
    | cons e0 es => exact absurd h (by simp [GoodPath])
  | cons it path ih =>
    intro es e h hn
    cases es with
    | nil => exact absurd h (by simp [GoodPath])
    | cons e0 es =>
      obtain ⟨_, _, h3, h4⟩ := h
      exact List.chain'_cons.mpr ⟨hn, ih es e0 h4 h3⟩

/-- A good path whose last entity is within `sigma` of `q` is a dense path from `p` to `q`. -/
theorem densePath_of_goodPath (p q : DatasetEntity) (hs : HyperSpace) (xi sigma : ℚ)
    (path : List EntityIterator) (es : List DatasetEntity) (it : EntityIterator)
    (e : DatasetEntity) (h : GoodPath p hs xi sigma (it :: path) (e :: es))
    (hnd : ((e :: es).map DatasetEntity.getStringRepresentation).Nodup)
    (hq : Near sigma e q) : DensePath p q hs xi sigma := by
  refine ⟨(e :: es).reverse, by simp, List.nodup_reverse.mpr (List.Nodup.of_map _ hnd), ?_, ?_⟩
  · intro v hv
    exact goodPath_members p hs xi sigma _ _ h v (List.mem_reverse.mp hv)
  · have hc : List.Chain' (flip (Near sigma)) (q :: (e :: es ++ [p])) :=
      List.chain'_cons.mpr ⟨hq, goodPath_chain p hs xi sigma path es e h.2.2.2 h.2.2.1⟩
    have := List.chain'_reverse.mpr hc
    simpa [List.reverse_cons, List.reverse_append] using this

/-- The statements below the `if( iter.end() )` block keep a good state good, never end by
going on below, and return `true` only with a dense path. -/
theorem extend_spec (p q : DatasetEntity) (hs : HyperSpace) (xi sigma : ℚ) (st : PathState)
    (hg : GoodState p hs xi sigma st) :
    (∀ st1, extend p q hs xi sigma st = Flow.again st1 → GoodState p hs xi sigma st1) ∧
    (∀ st1, extend p q hs xi sigma st ≠ Flow.below st1) ∧
    (extend p q hs xi sigma st = Flow.stop (Run.value true) → DensePath p q hs xi sigma) := by
  obtain ⟨es, hpath, hmark, hnd⟩ := hg
  have hkeep : ∀ it, GoodState p hs xi sigma { st with iter := it } :=
    fun it => ⟨es, hpath, hmark, hnd⟩
  unfold extend
  cases hd : EntityIterator.deref hs st.iter with
  | none => simp
  | some curr_entity =>
    simp only
    by_cases hu : StrMap.find st.usedEntities curr_entity.getStringRepresentation = some true
    · rw [if_pos hu]
      cases hn : EntityIterator.next hs st.iter with
      | none => simp
      | some moved =>
        simp only
        refine ⟨fun st1 h => ?_, fun st1 h => (by cases h), fun h => (by cases h)⟩
        cases h
        exact hkeep moved
    · rw [if_neg hu, goodPath_head p hs xi sigma _ _ hpath]
      simp only
      have hfresh : curr_entity.getStringRepresentation ∉
          es.map DatasetEntity.getStringRepresentation := by
        intro hmem
        obtain ⟨e', he', heq⟩ := List.mem_map.mp hmem
        exact hu (heq ▸ hmark e' he')
      by_cases hc : (decide (curr_entity.getDensity ≥ xi) &&
          DatasetEntity.distanceLt (es.headD p) curr_entity sigma) = true
      · rw [if_pos hc]
        simp only [Bool.and_eq_true, decide_eq_true_eq] at hc
        have hgp : GoodPath p hs xi sigma (st.iter :: st.curr_path) (curr_entity :: es) :=
          ⟨hd, hc.1, hc.2, hpath⟩
        have hnd' : ((curr_entity :: es).map DatasetEntity.getStringRepresentation).Nodup := by
          simp only [List.map_cons]
          exact List.nodup_cons.mpr ⟨hfresh, hnd⟩
        by_cases hq : DatasetEntity.distanceLt curr_entity q sigma = true
        · rw [if_pos hq]
          refine ⟨fun st1 h => (by cases h), fun st1 h => (by cases h), fun _ => ?_⟩
          exact densePath_of_goodPath p q hs xi sigma _ _ _ _ hgp hnd' hq
        · rw [if_neg hq]
          cases hb : EntityIterator.begin hs with
          | none => simp
          | some first =>
            simp only
            refine ⟨fun st1 h => ?_, fun st1 h => (by cases h), fun h => (by cases h)⟩
            cases h
            refine ⟨curr_entity :: es, hgp, fun e he => ?_, hnd'⟩
            simp only [StrMap.find_assign]
            rcases List.mem_cons.mp he with he | he
            · rw [he, if_pos rfl]
            · split
              · rfl
              · exact hmark e he
      · rw [if_neg hc]
        cases hn : EntityIterator.next hs st.iter with
        | none => simp
        | some moved =>
          simp only
          refine ⟨fun st1 h => ?_, fun st1 h => (by cases h), fun h => (by cases h)⟩
          cases h
          exact hkeep moved

/-- The `if( iter.end() )` block in a good state: `continue` leaves a broken state, going on
below leaves a good state, and it never returns `true`. -/
theorem backtrack_spec (p : DatasetEntity) (hs : HyperSpace) (xi sigma : ℚ) (fuel : Nat)
    (st : PathState) (hg : GoodState p hs xi sigma st) :
    (∀ st1, backtrack hs fuel st = Flow.again st1 → BrokenState hs st1) ∧
    (∀ st1, backtrack hs fuel st = Flow.below st1 → GoodState p hs xi sigma st1) ∧
    backtrack hs fuel st ≠ Flow.stop (Run.value true) := by
  obtain ⟨es, hpath, hmark, hnd⟩ := hg
  unfold backtrack
  cases hp : st.curr_path with
  | nil => simp
  | cons back path1 =>
    simp only
    split
    · rw [hp] at hpath
      cases es with
      | nil => exact absurd hpath (by simp [GoodPath])
      | cons last es1 =>
        obtain ⟨hd, _, _, hpath1⟩ := hpath
        rw [hd]
        simp only
        cases path1 with
        | nil => simp
        | cons back1 path2 =>
          simp only
          cases es1 with
          | nil => exact absurd hpath1 (by simp [GoodPath])
          | cons e1 es2 =>
            obtain ⟨_, _, _, hpath2⟩ := hpath1
            cases hf : findUnused hs fuel
                (StrMap.assign st.usedEntities last.getStringRepresentation false) back1 with
            | noFuel => simp
            | undefined => simp
            | value r =>
              obtain ⟨used2, moved, atEnd⟩ := r
              obtain ⟨hkeep, hend⟩ := findUnused_spec hs fuel _ _ _ _ _ hf
              simp only
              cases atEnd with
              | true =>
                simp only [if_true]
                refine ⟨fun st1 h => ?_, fun st1 h => (by cases h), fun h => (by cases h)⟩
                cases h
                exact ⟨hend rfl, moved, path2, rfl,
                  EntityIterator.deref_of_isEnd hs moved (hend rfl)⟩
              | false =>
                simp only [Bool.false_eq_true, if_false]
                refine ⟨fun st1 h => (by cases h), fun st1 h => ?_, fun h => (by cases h)⟩
                cases h
                refine ⟨es2, hpath2, fun e he => ?_, ?_⟩
                · apply hkeep
                  rw [StrMap.find_assign]
                  have hne : last.getStringRepresentation ≠ e.getStringRepresentation := by
                    intro heq
                    simp only [List.map_cons, List.nodup_cons, List.mem_cons, List.mem_map,
                      not_or] at hnd
                    exact hnd.1.2 ⟨e, he, heq.symm⟩
                  rw [if_neg hne]
                  exact hmark e (List.mem_cons_of_mem _ (List.mem_cons_of_mem _ he))
                · simp only [List.map_cons, List.nodup_cons] at hnd
                  exact hnd.2.2
    · simp

/-- The `if( iter.end() )` block in a broken state returns `false` or is undefined. -/
theorem backtrack_broken (hs : HyperSpace) (fuel : Nat) (st : PathState)
    (hb : BrokenState hs st) :
    backtrack hs fuel st = Flow.stop (Run.value false) ∨
      backtrack hs fuel st = Flow.stop Run.undefined := by
  obtain ⟨_, back, rest, hp, hd⟩ := hb
  unfold backtrack
  rw [hp]
  simp only
  split
  · rw [hd]; exact Or.inr rfl
  · exact Or.inl rfl

end DenclueFunctions

namespace HyperSpace

theorem foldlM_option_mono {α β : Type} (f g : β → α → Option β)
    (hfg : ∀ b a r, f b a = some r → g b a = some r) :
    ∀ (l : List α) (b r : β), l.foldlM f b = some r → l.foldlM g b = some r := by
  intro l
  induction l with
  | nil => intro b r h; exact h
  | cons a l ih =>
    intro b r h
    simp only [List.foldlM_cons, Option.bind_eq_bind] at h ⊢
    cases hf : f b a with
    | none => rw [hf] at h; cases h
    | some b1 =>
      rw [hf] at h
      rw [hfg b a b1 hf]
      exact ih b1 r h

/-- A grid that `createHyperCubes` completes within `fuel` nested calls is the same for any
larger bound. -/
theorem createHyperCubes_succ : ∀ (fuel : Nat) (hs : HyperSpace) (key : List Char)
    (r : HyperSpace), createHyperCubes fuel hs key = some r →
      createHyperCubes (fuel + 1) hs key = some r := by
  intro fuel
  induction fuel with
  | zero => intro hs key r h; simp [createHyperCubes] at h
  | succ fuel ih =>
    intro hs key r h
    rw [createHyperCubes] at h ⊢
    refine foldlM_option_mono _ _ (fun b a r1 h1 => ?_) _ _ _ h
    split at h1
    · rename_i hc
      rw [if_pos hc]
      exact h1
    · rename_i hc
      rw [if_neg hc]
      exact ih b a r1 h1

theorem createHyperCubes_add (fuel : Nat) (hs : HyperSpace) (key : List Char) (r : HyperSpace)
    (h : createHyperCubes fuel hs key = some r) :
    ∀ k, createHyperCubes (fuel + k) hs key = some r := by
  intro k
  induction k with
  | zero => exact h
  | succ k ih => exact createHyperCubes_succ _ _ _ _ ih

end HyperSpace

theorem gridOf_add (fuel : Nat) (ds : Dataset) (sigma xi : ℚ) (hs : HyperSpace)
    (h : gridOf fuel ds sigma xi = some hs) : ∀ k, gridOf (fuel + k) ds sigma xi = some hs :=
  fun k => HyperSpace.createHyperCubes_add _ _ _ _ h k

theorem routed_add (fuel : Nat) (ds : Dataset) (sigma xi : ℚ) (hs : HyperSpace)
    (h : routed fuel ds sigma xi = some hs) : ∀ k, routed (fuel + k) ds sigma xi = some hs := by
  intro k
  unfold routed at h ⊢
  cases hg : gridOf fuel ds sigma xi with
  | none => rw [hg] at h; cases h
  | some g =>
    rw [hg] at h
    rw [gridOf_add _ _ _ _ _ hg k]
    exact h

theorem pruned_add (fresh : List Char → List Char → Bool → Junk) (fuel : Nat) (ds : Dataset)
    (sigma xi : ℚ) (hs : HyperSpace) (h : pruned fresh fuel ds sigma xi = some hs) :
    ∀ k, pruned fresh (fuel + k) ds sigma xi = some hs := by
  intro k
  unfold pruned at h ⊢
  cases hg : routed fuel ds sigma xi with
  | none => rw [hg] at h; cases h
  | some g =>
    rw [hg] at h
    rw [routed_add _ _ _ _ _ hg k]
    exact h

namespace DenclueFunctions

theorem findUnused_succ (hs : HyperSpace) : ∀ (fuel : Nat) (used : StrMap Bool)
    (cursor : EntityIterator) (r : Run (StrMap Bool × EntityIterator × Bool)),
    findUnused hs fuel used cursor = r → r ≠ Run.noFuel →
      findUnused hs (fuel + 1) used cursor = r := by
  intro fuel
  induction fuel with
  | zero =>
    intro used cursor r h hr
    exact absurd h.symm hr
  | succ fuel ih =>
    intro used cursor r h hr
    rw [findUnused] at h ⊢
    split
    · rename_i hn
      rw [hn] at h
      exact h
    · rename_i moved hn
      rw [hn] at h
      simp only at h ⊢
      split
      · rename_i he
        rw [if_pos he] at h
        exact h
      · rename_i he
        rw [if_neg he] at h
        split
        · rename_i hd
          rw [hd] at h
          exact h
        · rename_i entity hd
          rw [hd] at h
          simp only at h ⊢
          split
          · rename_i hu
            rw [if_pos hu] at h
            exact ih _ _ _ h hr
          · rename_i hu
            rw [if_neg hu] at h
            exact h

theorem backtrack_succ (hs : HyperSpace) (fuel : Nat) (st : PathState) (fl : Flow)
    (h : backtrack hs fuel st = fl) (hr : fl ≠ Flow.stop Run.noFuel) :
    backtrack hs (fuel + 1) st = fl := by
  unfold backtrack at h ⊢
  split
  · rename_i hp
    rw [hp] at h
    exact h
  · rename_i back path1 hp
    rw [hp] at h
    simp only at h ⊢
    split
    · rename_i hlt
      rw [if_pos (by rw [hp] at hlt; exact hlt)] at h
      split
      · rename_i hd
        rw [hd] at h
        exact h
      · rename_i last hd
        rw [hd] at h
        simp only at h ⊢
        split
        · exact h
        · rename_i back1 path2
          simp only at h
          cases hf : findUnused hs fuel
              (StrMap.assign st.usedEntities last.getStringRepresentation false) back1 with
          | noFuel =>
            rw [hf] at h
            exact absurd h.symm hr
          | undefined =>
            rw [hf] at h
            rw [findUnused_succ hs fuel _ _ _ hf (by simp)]
            exact h
          | value r =>
            rw [hf] at h
            rw [findUnused_succ hs fuel _ _ _ hf (by simp)]
            exact h
    · rename_i hlt
      rw [if_neg (by rw [hp] at hlt; exact hlt)] at h
      exact h

theorem loopBody_succ (p q : DatasetEntity) (hs : HyperSpace) (xi sigma : ℚ) (fuel : Nat)
    (st : PathState) (fl : Flow) (h : loopBody p q hs xi sigma fuel st = fl)
    (hr : fl ≠ Flow.stop Run.noFuel) :
    loopBody p q hs xi sigma (fuel + 1) st = fl := by
  unfold loopBody at h ⊢
  split
  · rename_i hc
    rw [if_pos hc] at h
    split
    · rename_i he
      rw [if_pos he] at h
      cases hb : backtrack hs fuel st with
      | again st1 =>
        rw [hb] at h
        rw [backtrack_succ hs fuel st _ hb (by simp)]
        exact h
      | below st1 =>
        rw [hb] at h
        rw [backtrack_succ hs fuel st _ hb (by simp)]
        exact h
      | stop r =>
        rw [hb] at h
        simp only at h
        have hne : Flow.stop r ≠ Flow.stop Run.noFuel := by rw [h]; exact hr
        rw [backtrack_succ hs fuel st _ hb hne]
        exact h
    · rename_i he
      rw [if_neg he] at h
      exact h
  · rename_i hc
    rw [if_neg hc] at h
    exact h

theorem extend_ne_noFuel (p q : DatasetEntity) (hs : HyperSpace) (xi sigma : ℚ)
    (st : PathState) : extend p q hs xi sigma st ≠ Flow.stop Run.noFuel := by
  unfold extend
  split
  · simp
  · split
    · split <;> simp
    · split
      · simp
      · split
        · split
          · simp
          · split <;> simp
        · split <;> simp

/-- A run of the loop that ends within `fuel` iterations ends the same way for any larger
bound. -/
theorem pathLoop_succ (p q : DatasetEntity) (hs : HyperSpace) (xi sigma : ℚ) :
    ∀ (fuel : Nat) (st : PathState) (r : Run Bool),
      pathLoop p q hs xi sigma fuel st = r → r ≠ Run.noFuel →
        pathLoop p q hs xi sigma (fuel + 1) st = r := by
  intro fuel
  induction fuel with
  | zero =>
    intro st r h hr
    exact absurd h.symm hr
  | succ fuel ih =>
    intro st r h hr
    rw [pathLoop] at h ⊢
    cases hb : loopBody p q hs xi sigma fuel st with
    | stop r1 =>
      rw [hb] at h
      simp only at h
      have hne : Flow.stop r1 ≠ Flow.stop Run.noFuel := by rw [h]; simpa using hr
      rw [loopBody_succ p q hs xi sigma fuel st _ hb hne]
      exact h
    | again st1 =>
      rw [hb] at h
      rw [loopBody_succ p q hs xi sigma fuel st _ hb (by simp)]
      exact ih st1 r h hr
    | below st1 =>
      rw [hb] at h
      rw [loopBody_succ p q hs xi sigma fuel st _ hb (by simp)]
      exact ih st1 r h hr

theorem pathBetweenExists_succ (fuel : Nat) (p q : DatasetEntity) (hs : HyperSpace)
    (xi sigma : ℚ) (used : StrMap Bool) (r : Run Bool)
    (h : pathBetweenExists fuel p q hs xi sigma used = r) (hr : r ≠ Run.noFuel) :
    pathBetweenExists (fuel + 1) p q hs xi sigma used = r := by
  unfold pathBetweenExists at h ⊢
  simp only at h ⊢
  split
  · rename_i hd
    rw [if_pos hd] at h
    exact h
  · rename_i hd
    rw [if_neg hd] at h
    split
    · rename_i hb
      rw [hb] at h
      exact h
    · rename_i first hb
      rw [hb] at h
      exact pathLoop_succ p q hs xi sigma fuel _ r h hr

end DenclueFunctions

/-- A path test that ends within `fuel` iterations ends the same way for any larger bound. -/
theorem pathTest_add (fuel : Nat) (hs : HyperSpace) (p q : DatasetEntity) (xi sigma : ℚ)
    (r : Run Bool) (h : pathTest fuel hs p q xi sigma = r) (hr : r ≠ Run.noFuel) :
    ∀ k, pathTest (fuel + k) hs p q xi sigma = r := by
  intro k
  induction k with
  | zero => exact h
  | succ k ih => exact DenclueFunctions.pathBetweenExists_succ _ _ _ _ _ _ _ _ ih hr

/-! ## Pruning without a test of the means -/

namespace HyperCube

theorem isNeighbor_untested (c : HyperCube) (fresh : List Char → Bool → Junk)
    (cubes : StrMap HyperCube) : ∀ (keys : List (List Char)),
    (∀ k ∈ keys, c.neighbors.contains k = false) → c.isNeighbor fresh keys cubes = some false := by
  intro keys
  induction keys with
  | nil => intro _; rfl
  | cons k ks ih =>
    intro h
    have hk : c.neighbors.contains k = false := h k (List.mem_cons_self _ _)
    rw [isNeighbor]
    simp only [hk, Bool.false_eq_true, if_false]
    exact ih (fun x hx => h x (List.mem_cons_of_mem _ hx))

end HyperCube

namespace HyperSpace

theorem eraseUnconnected_untested (fresh fresh' : List Char → List Char → Bool → Junk)
    (keys : List (List Char)) : ∀ (l : List (List Char × HyperCube)) (cubes : StrMap HyperCube),
    (∀ kv ∈ l, ∀ k ∈ keys, kv.2.neighbors.contains k = false) →
    eraseUnconnected fresh keys l cubes = eraseUnconnected fresh' keys l cubes := by
  intro l
  induction l with
  | nil => intro cubes _; rfl
  | cons kv l ih =>
    intro cubes h
    obtain ⟨k, c⟩ := kv
    have hc := h (k, c) (List.mem_cons_self _ _)
    simp only [eraseUnconnected]
    rw [HyperCube.isNeighbor_untested c (fresh k) cubes keys hc,
      HyperCube.isNeighbor_untested c (fresh' k) cubes keys hc]
    exact ih _ (fun x hx => h x (List.mem_cons_of_mem _ hx))

/-- When no mean element is computed, the contents of fresh arrays do not matter to
`removeLowPopulatedHypercubes`. -/
theorem removeLowPopulatedHypercubes_untested (fresh fresh' : List Char → List Char → Bool → Junk)
    (hs : HyperSpace) (h : untested hs = true) :
    removeLowPopulatedHypercubes fresh hs = removeLowPopulatedHypercubes fresh' hs := by
  unfold removeLowPopulatedHypercubes
  rw [eraseUnconnected_untested fresh fresh' (highPopulated hs) (withoutEmpty hs) (withoutEmpty hs)]
  intro kv hkv k hk
  unfold untested at h
  have h1 := List.all_eq_true.mp h kv hkv
  have h2 := List.all_eq_true.mp h1 k hk
  simpa using h2

end HyperSpace

/-! ## The loop of `pathBetweenExists` halts -/

namespace StrMap

theorem find_mem {α : Type} (m : StrMap α) (k : List Char) (v : α) (h : find m k = some v) :
    (k, v) ∈ m := by
  induction m with
  | nil => cases h
  | cons kv rest ih =>
    obtain ⟨k0, v0⟩ := kv
    simp only [find] at h
    split at h
    · rename_i hk
      cases h
      rw [hk]
      exact List.mem_cons_self _ _
    · exact List.mem_cons_of_mem _ (ih h)

theorem find_insert_self {α : Type} (m : StrMap α) (k : List Char) (v : α)
    (h : find m k = none) : find (insert m k v) k = some v := by
  induction m with
  | nil => simp [insert, find]
  | cons kv rest ih =>
    obtain ⟨k0, v0⟩ := kv
    simp only [find] at h
    split at h
    · cases h
    · rename_i hk
      simp only [insert, if_neg hk]
      split
      · simp [find]
      · simp only [find, if_neg hk]
        exact ih h

end StrMap

namespace DenclueFunctions

theorem mem_usedSet (used : StrMap Bool) (k : List Char) :
    k ∈ usedSet used ↔ StrMap.find used k = some true := by
  unfold usedSet
  rw [Finset.mem_filter, List.mem_toFinset]
  constructor
  · exact fun h => h.2
  · intro h
    exact ⟨List.mem_map.mpr ⟨(k, true), StrMap.find_mem used k true h, rfl⟩, h⟩

theorem usedCount_assign_true (used : StrMap Bool) (k : List Char)
    (h : StrMap.find used k ≠ some true) :
    usedCount (StrMap.assign used k true) = usedCount used + 1 := by
  unfold usedCount
  have hs : usedSet (StrMap.assign used k true) = insert k (usedSet used) := by
    ext x
    rw [Finset.mem_insert, mem_usedSet, mem_usedSet, StrMap.find_assign]
    by_cases hx : k = x
    · simp [hx]
    · rw [if_neg hx]
      constructor
      · exact fun h1 => Or.inr h1
      · rintro (h1 | h1)
        · exact absurd h1.symm hx
        · exact h1
  rw [hs, Finset.card_insert_of_not_mem]
  rw [mem_usedSet]
  exact h

theorem usedCount_assign_false (used : StrMap Bool) (k : List Char)
    (h : StrMap.find used k = some true) :
    usedCount (StrMap.assign used k false) + 1 = usedCount used := by
  unfold usedCount
  have hs : usedSet (StrMap.assign used k false) = (usedSet used).erase k := by
    ext x
    rw [Finset.mem_erase, mem_usedSet, mem_usedSet, StrMap.find_assign]
    by_cases hx : k = x
    · simp [hx]
    · rw [if_neg hx]
      constructor
      · exact fun h1 => ⟨fun e => hx e.symm, h1⟩
      · exact fun h1 => h1.2
  have hk : k ∈ usedSet used := (mem_usedSet used k).mpr h
  rw [hs, Finset.card_erase_of_mem hk]
  have : 0 < (usedSet used).card := Finset.card_pos.mpr ⟨k, hk⟩
  omega

theorem usedCount_congr (used used' : StrMap Bool)
    (h : ∀ k, StrMap.find used' k = some true ↔ StrMap.find used k = some true) :
    usedCount used' = usedCount used := by
  unfold usedCount
  congr 1
  ext x
  rw [mem_usedSet, mem_usedSet]
  exact h x

theorem usedCount_le_length (used : StrMap Bool) : usedCount used ≤ used.length := by
  unfold usedCount usedSet
  calc ((used.map Prod.fst).toFinset.filter _).card
      ≤ (used.map Prod.fst).toFinset.card := Finset.card_filter_le _ _
    _ ≤ (used.map Prod.fst).length := List.toFinset_card_le _
    _ = used.length := List.length_map _ _

theorem length_le_usedCount (used : StrMap Bool) (es : List DatasetEntity)
    (hnd : (es.map DatasetEntity.getStringRepresentation).Nodup)
    (hmark : ∀ e ∈ es, StrMap.find used e.getStringRepresentation = some true) :
    es.length ≤ usedCount used := by
  unfold usedCount
  have hsub : (es.map DatasetEntity.getStringRepresentation).toFinset ⊆ usedSet used := by
    intro k hk
    rw [List.mem_toFinset] at hk
    obtain ⟨e, he, rfl⟩ := List.mem_map.mp hk
    exact (mem_usedSet used _).mpr (hmark e he)
  have := Finset.card_le_card hsub
  rw [List.toFinset_card_of_nodup hnd, List.length_map] at this
  exact this

theorem find_readUsed_true (used : StrMap Bool) (key k : List Char) :
    StrMap.find (readUsed used key).1 k = some true ↔ StrMap.find used k = some true := by
  unfold readUsed
  split
  · rfl
  · rename_i hnone
    simp only
    by_cases hk : key = k
    · subst hk
      rw [StrMap.find_insert_self _ _ _ hnone, hnone]
      simp
    · rw [StrMap.find_insert_of_ne _ _ _ _ hk]

theorem goodPath_length (p : DatasetEntity) (hs : HyperSpace) (xi sigma : ℚ) :
    ∀ (path : List EntityIterator) (es : List DatasetEntity),
      GoodPath p hs xi sigma path es → path.length = es.length := by
  intro path
  induction path with
  | nil =>
    intro es h
    cases es with
    | nil => rfl
    | cons e es => exact absurd h (by simp [GoodPath])
  | cons it path ih =>
    intro es h
    cases es with
    | nil => exact absurd h (by simp [GoodPath])
    | cons e es =>
      simp only [List.length_cons]
      rw [ih es h.2.2.2]

/-- In a good state the path is not longer than the number of keys marked as used. -/
theorem goodState_length_le (p : DatasetEntity) (hs : HyperSpace) (xi sigma : ℚ)
    (st : PathState) (hg : GoodState p hs xi sigma st) :
    st.curr_path.length ≤ usedCount st.usedEntities := by
  obtain ⟨es, hpath, hmark, hnd⟩ := hg
  rw [goodPath_length p hs xi sigma _ _ hpath]
  exact length_le_usedCount _ es hnd hmark

/-! ### The rank of a cursor -/

theorem objectsAt_length_le (hs : HyperSpace) (i : Nat) (objects : List DatasetEntity)
    (h : EntityIterator.objectsAt hs i = some objects) :
    i < hs.high_populated_keys.length ∧ objects.length ≤ hs.getNumEntities := by
  unfold EntityIterator.objectsAt at h
  split at h
  · cases h
  · rename_i k hk
    refine ⟨(List.get?_eq_some.mp hk).1, ?_⟩
    cases hf : StrMap.find hs.hypercubes k with
    | none => rw [hf] at h; cases h
    | some c =>
      rw [hf] at h
      simp only [Option.map_some', Option.some.injEq] at h
      rw [← h]
      unfold HyperSpace.getNumEntities
      exact List.le_sum_of_mem
        (List.mem_map.mpr ⟨(k, c), StrMap.find_mem _ _ _ hf, rfl⟩)

theorem rank_lt_of_deref (hs : HyperSpace) (it : EntityIterator) (e : DatasetEntity)
    (h : EntityIterator.deref hs it = some e) : rank hs it < rankBound hs := by
  unfold EntityIterator.deref at h
  split at h
  · cases h
  · rename_i objects hobj
    obtain ⟨h1, h2⟩ := objectsAt_length_le hs _ _ hobj
    have h3 : it.entities_iterator < objects.length := (List.get?_eq_some.mp h).1
    unfold rank rankBound
    calc it.cube_keys_iterator * (hs.getNumEntities + 1) + it.entities_iterator
        < it.cube_keys_iterator * (hs.getNumEntities + 1) + (hs.getNumEntities + 1) := by omega
      _ = (it.cube_keys_iterator + 1) * (hs.getNumEntities + 1) := by ring
      _ ≤ hs.high_populated_keys.length * (hs.getNumEntities + 1) :=
          Nat.mul_le_mul_right _ h1

theorem rank_lt_next (hs : HyperSpace) (it moved : EntityIterator)
    (h : EntityIterator.next hs it = some moved) : rank hs it < rank hs moved := by
  unfold EntityIterator.next at h
  split at h
  · cases h
  · rename_i objects hobj
    obtain ⟨_, h2⟩ := objectsAt_length_le hs _ _ hobj
    split at h
    · cases h
    · rename_i hlt
      have hlt' : it.entities_iterator < objects.length := by omega
      split at h
      · split at h
        · simp only [Option.some.injEq] at h
          rw [← h]
          unfold rank
          simp only
          have : (it.cube_keys_iterator + 1) * (hs.getNumEntities + 1) =
              it.cube_keys_iterator * (hs.getNumEntities + 1) + (hs.getNumEntities + 1) := by
            ring
          omega
        · cases ho : EntityIterator.objectsAt hs (it.cube_keys_iterator + 1) with
          | none => rw [ho] at h; cases h
          | some o =>
            rw [ho] at h
            simp only [Option.map_some', Option.some.injEq] at h
            rw [← h]
            unfold rank
            simp only
            have : (it.cube_keys_iterator + 1) * (hs.getNumEntities + 1) =
                it.cube_keys_iterator * (hs.getNumEntities + 1) + (hs.getNumEntities + 1) := by
              ring
            omega
      · simp only [Option.some.injEq] at h
        rw [← h]
        unfold rank
        simp only
        omega

/-! ### The inner loop -/

/-- The inner loop changes no flag to or from `true`. -/
theorem findUnused_true (hs : HyperSpace) : ∀ (fuel : Nat) (used : StrMap Bool)
    (cursor : EntityIterator) (used2 : StrMap Bool) (moved : EntityIterator) (atEnd : Bool),
    findUnused hs fuel used cursor = Run.value (used2, moved, atEnd) →
    ∀ k, StrMap.find used2 k = some true ↔ StrMap.find used k = some true := by
  intro fuel
  induction fuel with
  | zero => intro used cursor used2 moved atEnd h; simp [findUnused] at h
  | succ fuel ih =>
    intro used cursor used2 moved atEnd h k
    unfold findUnused at h
    split at h
    · cases h
    · split at h
      · cases h
        exact Iff.rfl
      · split at h
        · cases h
        · split at h
          · rw [ih _ _ _ _ _ h k, find_readUsed_true]
          · cases h
            exact find_readUsed_true _ _ _

/-- The inner loop ends within as many steps as the cursor is away from the end. -/
theorem findUnused_ne_noFuel (hs : HyperSpace) : ∀ (fuel : Nat) (used : StrMap Bool)
    (cursor : EntityIterator), rankBound hs - rank hs cursor < fuel →
    findUnused hs fuel used cursor ≠ Run.noFuel := by
  intro fuel
  induction fuel with
  | zero => intro used cursor h; omega
  | succ fuel ih =>
    intro used cursor h
    unfold findUnused
    cases hn : EntityIterator.next hs cursor with
    | none => simp
    | some moved =>
      simp only
      split
      · simp
      · cases hd : EntityIterator.deref hs moved with
        | none => simp
        | some entity =>
          simp only
          split
          · apply ih
            have h1 := rank_lt_next hs cursor moved hn
            have h2 := rank_lt_of_deref hs moved entity hd
            omega
          · simp

/-! ### One iteration -/

/-- A `continue` of the statements below the `if( iter.end() )` block either moved the cursor
forward, or added one entity to the path and marked it. -/
theorem extend_step (p q : DatasetEntity) (hs : HyperSpace) (xi sigma : ℚ)
    (st st1 : PathState) (h : extend p q hs xi sigma st = Flow.again st1) :
    (st1.usedEntities = st.usedEntities ∧ st1.curr_path = st.curr_path ∧
      rank hs st.iter < rank hs st1.iter ∧ rank hs st.iter < rankBound hs) ∨
    (usedCount st1.usedEntities = usedCount st.usedEntities + 1 ∧
      st1.curr_path.length = st.curr_path.length + 1) := by
  unfold extend at h
  cases hd : EntityIterator.deref hs st.iter with
  | none => rw [hd] at h; cases h
  | some curr_entity =>
    rw [hd] at h
    simp only at h
    have hskip : ∀ moved, EntityIterator.next hs st.iter = some moved →
        Flow.again { st with iter := moved } = Flow.again st1 →
        (st1.usedEntities = st.usedEntities ∧ st1.curr_path = st.curr_path ∧
          rank hs st.iter < rank hs st1.iter ∧ rank hs st.iter < rankBound hs) := by
      intro moved hn he
      cases he
      exact ⟨rfl, rfl, rank_lt_next hs _ _ hn, rank_lt_of_deref hs _ _ hd⟩
    by_cases hu : StrMap.find st.usedEntities curr_entity.getStringRepresentation = some true
    · rw [if_pos hu] at h
      cases hn : EntityIterator.next hs st.iter with
      | none => rw [hn] at h; cases h
      | some moved =>
        rw [hn] at h
        exact Or.inl (hskip moved hn h)
    · rw [if_neg hu] at h
      cases he : curr_path_end p hs st.curr_path with
      | none => rw [he] at h; cases h
      | some path_end =>
        rw [he] at h
        simp only at h
        split at h
        · split at h
          · cases h
          · cases hb : EntityIterator.begin hs with
            | none => rw [hb] at h; cases h
            | some first =>
              rw [hb] at h
              cases h
              exact Or.inr ⟨usedCount_assign_true _ _ hu, rfl⟩
        · cases hn : EntityIterator.next hs st.iter with
          | none => rw [hn] at h; cases h
          | some moved =>
            rw [hn] at h
            exact Or.inl (hskip moved hn h)

/-- A backtracking step that goes on below removed two elements from the path and one
mark. -/
theorem backtrack_step (p : DatasetEntity) (hs : HyperSpace) (xi sigma : ℚ) (fuel : Nat)
    (st st1 : PathState) (hg : GoodState p hs xi sigma st)
    (h : backtrack hs fuel st = Flow.below st1) :
    usedCount st1.usedEntities + 1 = usedCount st.usedEntities ∧
      st1.curr_path.length + 2 = st.curr_path.length := by
  obtain ⟨es, hpath, hmark, hnd⟩ := hg
  unfold backtrack at h
  cases hp : st.curr_path with
  | nil => rw [hp] at h; cases h
  | cons back path1 =>
    rw [hp] at h hpath
    simp only at h
    split at h
    · cases es with
      | nil => exact absurd hpath (by simp [GoodPath])
      | cons last es1 =>
        obtain ⟨hd, _, _, hpath1⟩ := hpath
        rw [hd] at h
        simp only at h
        cases path1 with
        | nil => cases h
        | cons back1 path2 =>
          simp only at h
          cases hf : findUnused hs fuel
              (StrMap.assign st.usedEntities last.getStringRepresentation false) back1 with
          | noFuel => rw [hf] at h; cases h
          | undefined => rw [hf] at h; cases h
          | value r =>
            obtain ⟨used2, moved, atEnd⟩ := r
            rw [hf] at h
            simp only at h
            cases atEnd with
            | true => simp at h
            | false =>
              simp only [Bool.false_eq_true, if_false] at h
              cases h
              refine ⟨?_, by simp only [List.length_cons]⟩
              rw [usedCount_congr _ used2 (findUnused_true hs fuel _ _ _ _ _ hf)]
              exact usedCount_assign_false _ _ (hmark last (List.mem_cons_self _ _))
    · cases h

/-- The block `if( iter.end() )` runs to its end when the bound exceeds the number of
positions of a cursor. -/
theorem backtrack_ne_noFuel (hs : HyperSpace) (fuel : Nat) (st : PathState)
    (hfuel : rankBound hs < fuel) : backtrack hs fuel st ≠ Flow.stop Run.noFuel := by
  unfold backtrack
  split
  · simp
  · split
    · split
      · simp
      · split
        · simp
        · rename_i back1 path2
          split
          · rename_i hf
            exact absurd hf (findUnused_ne_noFuel hs fuel _ _ (by omega))
          · simp
          · split <;> simp
    · simp

/-- Lexicographic order on triples, encoded in a number. -/
theorem lex_lt (n B a b c a' b' c' : Nat) (hb' : b' ≤ n + 1) (hc' : c' ≤ B)
    (h : a' < a ∨ (a' = a ∧ b' < b) ∨ (a' = a ∧ b' = b ∧ c' < c)) :
    (a' * (n + 2) + b') * (B + 1) + c' < (a * (n + 2) + b) * (B + 1) + c := by
  have key : ∀ x y : Nat, x < y → x * (B + 1) + c' < y * (B + 1) + c := by
    intro x y hxy
    have h1 : (x + 1) * (B + 1) ≤ y * (B + 1) := Nat.mul_le_mul_right _ hxy
    have h2 : (x + 1) * (B + 1) = x * (B + 1) + (B + 1) := by ring
    omega
  rcases h with h | ⟨rfl, h⟩ | ⟨rfl, rfl, h⟩
  · apply key
    have h1 : (a' + 1) * (n + 2) ≤ a * (n + 2) := Nat.mul_le_mul_right _ h
    have h2 : (a' + 1) * (n + 2) = a' * (n + 2) + (n + 2) := by ring
    omega
  · apply key
    omega
  · omega

/-- The statements below the `if( iter.end() )` block decrease the measure of a good state
that passed the loop condition. -/
theorem extend_loopMeasure (p q : DatasetEntity) (hs : HyperSpace) (xi sigma : ℚ)
    (st st1 : PathState) (hg : GoodState p hs xi sigma st)
    (hcond : usedCount st.usedEntities ≤ hs.getNumEntities % 2 ^ 32)
    (h : extend p q hs xi sigma st = Flow.again st1) :
    loopMeasure hs st1 < loopMeasure hs st := by
  have hlen := goodState_length_le p hs xi sigma st hg
  unfold loopMeasure
  apply lex_lt
  · omega
  · omega
  · rcases extend_step p q hs xi sigma st st1 h with ⟨h1, h2, h3, h4⟩ | ⟨h1, h2⟩
    · rw [h1, h2]
      right; right
      exact ⟨rfl, rfl, by omega⟩
    · rw [h1, h2]
      right; left
      exact ⟨by omega, by omega⟩

/-- A backtracking step followed by the statements below it decreases the measure. -/
theorem backtrack_loopMeasure (p q : DatasetEntity) (hs : HyperSpace) (xi sigma : ℚ)
    (fuel : Nat) (st stm st1 : PathState) (hg : GoodState p hs xi sigma st)
    (hgm : GoodState p hs xi sigma stm)
    (hcond : usedCount st.usedEntities ≤ hs.getNumEntities % 2 ^ 32)
    (hb : backtrack hs fuel st = Flow.below stm)
    (h : extend p q hs xi sigma stm = Flow.again st1) :
    loopMeasure hs st1 < loopMeasure hs st := by
  have hlen := goodState_length_le p hs xi sigma st hg
  have hlenm := goodState_length_le p hs xi sigma stm hgm
  obtain ⟨hu, hl⟩ := backtrack_step p hs xi sigma fuel st stm hg hb
  unfold loopMeasure
  apply lex_lt
  · omega
  · omega
  · left
    rcases extend_step p q hs xi sigma stm st1 h with ⟨h1, h2, _, _⟩ | ⟨h1, h2⟩
    · rw [h1, h2]
      omega
    · rw [h1, h2]
      omega

/-! ### The loop -/

/-- From a broken state the loop ends with the next iteration. -/
theorem pathLoop_broken (p q : DatasetEntity) (hs : HyperSpace) (xi sigma : ℚ) (fuel : Nat)
    (st : PathState) (hb : BrokenState hs st) :
    pathLoop p q hs xi sigma (fuel + 1) st = Run.value false ∨
      pathLoop p q hs xi sigma (fuel + 1) st = Run.undefined := by
  unfold pathLoop loopBody
  by_cases hc : st.usedEntities.length ≤ hs.getNumEntities % 2 ^ 32
  · rw [if_pos hc, if_pos hb.1]
    rcases backtrack_broken hs fuel st hb with h | h <;> rw [h] <;> simp
  · rw [if_neg hc]
    exact Or.inl rfl

/-- From a good state the loop ends within a number of iterations that the measure of the
state bounds. -/
theorem pathLoop_halts (p q : DatasetEntity) (hs : HyperSpace) (xi sigma : ℚ) :
    ∀ (fuel : Nat) (st : PathState), GoodState p hs xi sigma st →
      loopMeasure hs st + rankBound hs + 2 ≤ fuel →
      pathLoop p q hs xi sigma fuel st ≠ Run.noFuel := by
  intro fuel
  induction fuel with
  | zero => intro st _ h; omega
  | succ fuel ih =>
    intro st hg hfuel
    have hext : ∀ stm st1, GoodState p hs xi sigma stm →
        loopMeasure hs st1 < loopMeasure hs st →
        extend p q hs xi sigma stm = Flow.again st1 →
        pathLoop p q hs xi sigma fuel st1 ≠ Run.noFuel := by
      intro stm st1 hgm hlt he
      exact ih st1 ((extend_spec p q hs xi sigma stm hgm).1 st1 he) (by omega)
    unfold pathLoop loopBody
    by_cases hc : st.usedEntities.length ≤ hs.getNumEntities % 2 ^ 32
    · rw [if_pos hc]
      have hcond : usedCount st.usedEntities ≤ hs.getNumEntities % 2 ^ 32 :=
        le_trans (usedCount_le_length _) hc
      by_cases hend : EntityIterator.isEnd hs st.iter = true
      · rw [if_pos hend]
        obtain ⟨b1, b2, _⟩ := backtrack_spec p hs xi sigma fuel st hg
        cases hbt : backtrack hs fuel st with
        | again st1 =>
          simp only
          cases fuel with
          | zero => omega
          | succ fuel =>
            rcases pathLoop_broken p q hs xi sigma fuel st1 (b1 st1 hbt) with h | h <;>
              rw [h] <;> simp
        | below stm =>
          simp only
          have hgm := b2 stm hbt
          cases he : extend p q hs xi sigma stm with
          | again st1 =>
            simp only
            exact hext stm st1 hgm
              (backtrack_loopMeasure p q hs xi sigma fuel st stm st1 hg hgm hcond hbt he) he
          | below st1 => exact absurd he ((extend_spec p q hs xi sigma stm hgm).2.1 st1)
          | stop r =>
            simp only
            intro hr
            rw [hr] at he
            exact extend_ne_noFuel p q hs xi sigma stm he
        | stop r =>
          simp only
          intro hr
          rw [hr] at hbt
          exact backtrack_ne_noFuel hs fuel st (by omega) hbt
      · rw [if_neg hend]
        cases he : extend p q hs xi sigma st with
        | again st1 =>
          simp only
          exact hext st st1 hg (extend_loopMeasure p q hs xi sigma st st1 hg hcond he) he
        | below st1 => exact absurd he ((extend_spec p q hs xi sigma st hg).2.1 st1)
        | stop r =>
          simp only
          intro hr
          rw [hr] at he
          exact extend_ne_noFuel p q hs xi sigma st he
    · rw [if_neg hc]
      simp

end DenclueFunctions

/-- The loop of `pathBetweenExists` never runs forever: for every space, pair of attractors,
`xi`, `sigma` and map of used entities there is a number of iterations within which the call
has returned a Boolean or has dereferenced a cursor that is on no object. -/
theorem pathBetweenExists_halts (p q : DatasetEntity) (hs : HyperSpace) (xi sigma : ℚ)
    (usedEntities : StrMap Bool) :
    ∃ fuel, ∀ k, DenclueFunctions.pathBetweenExists (fuel + k) p q hs xi sigma usedEntities
      ≠ Run.noFuel := by
  unfold DenclueFunctions.pathBetweenExists
  simp only
  split
  · exact ⟨0, fun k => by simp⟩
  · cases hb : EntityIterator.begin hs with
    | none => exact ⟨0, fun k => by simp⟩
    | some first =>
      simp only
      refine ⟨DenclueFunctions.loopMeasure hs
          { usedEntities := StrMap.assign
              (StrMap.assign usedEntities p.getStringRepresentation true)
              q.getStringRepresentation true
            curr_path := []
            iter := first } + DenclueFunctions.rankBound hs + 2, fun k =>
        DenclueFunctions.pathLoop_halts p q hs xi sigma _ _ ⟨[], trivial, ?_, List.nodup_nil⟩
          (Nat.le_add_right _ k)⟩
      intro e he
      cases he

/-! ## The example spaces are what the pipeline builds -/

set_option maxRecDepth 100000 in
theorem spaceTwo_pruned : ∀ k, pruned zeroFresh (2 + k)
    (Dataset.ofEntities 1 [dense [11 / 20], dense [11 / 8]]) (1 / 2) (1 / 5) = some spaceTwo :=
  pruned_add _ _ _ _ _ _ (by decide!)

set_option maxRecDepth 100000 in
theorem spaceFour_pruned : ∀ k, pruned zeroFresh (3 + k)
    (Dataset.ofEntities 1 [dense [11 / 20], dense [11 / 8], dense [29 / 10], dense [59 / 20]])
    (1 / 2) (1 / 5) = some spaceFour :=
  pruned_add _ _ _ _ _ _ (by decide!)

set_option maxRecDepth 100000 in
theorem spaceFive_pruned : ∀ k, pruned zeroFresh (2 + k)
    (Dataset.ofEntities 1
      [dense [21 / 10], dense [22 / 10], dense [23 / 10], dense [38 / 10], dense [34 / 10]])
    (1 / 2) (1 / 5) = some spaceFive :=
  pruned_add _ _ _ _ _ _ (by decide!)

set_option maxRecDepth 100000 in
theorem spaceSingle_routed : ∀ k, routed (1 + k) dataSingle (1 / 2) 2 = some spaceSingle :=
  routed_add _ _ _ _ _ (by decide!)

/-- Pruning of `spaceSingle` with any contents of fresh arrays. -/
theorem spaceSingle_pruned (fresh : List Char → List Char → Bool → Junk) (k : Nat) :
    pruned fresh (1 + k) dataSingle (1 / 2) 2 =
      some { spaceSingle with hypercubes := [], high_populated_keys := [['1']] } := by
  unfold pruned
  rw [spaceSingle_routed k, Option.some_bind,
    HyperSpace.removeLowPopulatedHypercubes_untested fresh zeroFresh spaceSingle (by decide!)]
  decide!

/-! ## Claims that fail on the code -/

set_option maxRecDepth 100000 in
/-- C1 (grid coverage) fails.  For the data set `{0, 1}` in dimension 1 and `sigma = 0.5`
(edge 1) the grid built by `determineSpatialRegions`, for every bound of at least 1 on the
recursion, is the single cube with key `1` (the cell `[0, 1)`); `insertEntity` computes the key `2` for the
point `1`, which is not a key of the map. -/
theorem grid_misses_point_on_upper_bound : ∀ k,
    (gridOf (1 + k) dataUnit (1 / 2) 2).map (fun hs =>
      (StrMap.keys hs.hypercubes, HyperSpace.entityKey hs (point [1]),
        StrMap.contains hs.hypercubes (HyperSpace.entityKey hs (point [1])))) =
    some ([['1']], ['2'], false) := by
  intro k
  have h : ∃ hs, gridOf 1 dataUnit (1 / 2) 2 = some hs ∧
      (StrMap.keys hs.hypercubes, HyperSpace.entityKey hs (point [1]),
        StrMap.contains hs.hypercubes (HyperSpace.entityKey hs (point [1]))) =
      ([['1']], ['2'], false) := by
    have h1 : (gridOf 1 dataUnit (1 / 2) 2).map (fun hs =>
        (StrMap.keys hs.hypercubes, HyperSpace.entityKey hs (point [1]),
          StrMap.contains hs.hypercubes (HyperSpace.entityKey hs (point [1])))) =
        some ([['1']], ['2'], false) := by decide!
    cases hg : gridOf 1 dataUnit (1 / 2) 2 with
    | none => rw [hg] at h1; cases h1
    | some hs =>
      rw [hg] at h1
      exact ⟨hs, rfl, by simpa using h1⟩
  obtain ⟨hs, hg, hv⟩ := h
  rw [gridOf_add _ _ _ _ _ hg k]
  simp only [Option.map_some', hv]

set_option maxRecDepth 100000 in
/-- C2 (high populated cubes survive pruning) fails.  For the data set of scenario S1
(`sigma = 1`, `xi = 2`), with any contents of fresh arrays and any bound of at least 9 on
the recursion, the keys `2,2` and `6,6` are in `high_populated_keys` after `removeLowPopulatedHypercubes`,
and neither is a key of the cube map, which is empty. -/
theorem high_populated_cubes_erased (fresh : List Char → List Char → Bool → Junk) (k : Nat) :
    (pruned fresh (9 + k) dataTwoGroups 1 2).map (fun hs =>
      (hs.high_populated_keys, StrMap.keys hs.hypercubes)) =
    some ([['2', ',', '2'], ['6', ',', '6']], []) := by
  have h1 : ∃ hs, routed 9 dataTwoGroups 1 2 = some hs ∧ HyperSpace.untested hs = true ∧
      (HyperSpace.removeLowPopulatedHypercubes zeroFresh hs).map (fun hs =>
        (hs.high_populated_keys, StrMap.keys hs.hypercubes)) =
      some ([['2', ',', '2'], ['6', ',', '6']], []) := by
    have h2 : (routed 9 dataTwoGroups 1 2).map (fun hs => (HyperSpace.untested hs,
        (HyperSpace.removeLowPopulatedHypercubes zeroFresh hs).map (fun hs =>
          (hs.high_populated_keys, StrMap.keys hs.hypercubes)))) =
        some (true, some ([['2', ',', '2'], ['6', ',', '6']], [])) := by decide!
    cases hr : routed 9 dataTwoGroups 1 2 with
    | none => rw [hr] at h2; cases h2
    | some hs =>
      rw [hr] at h2
      simp only [Option.map_some', Option.some.injEq, Prod.mk.injEq] at h2
      exact ⟨hs, rfl, h2.1, h2.2⟩
  obtain ⟨hs, hr, hu, hv⟩ := h1
  unfold pruned
  rw [routed_add _ _ _ _ _ hr k, Option.some_bind,
    HyperSpace.removeLowPopulatedHypercubes_untested fresh zeroFresh hs hu]
  exact hv

set_option maxRecDepth 100000 in
/-- C3 (mean consistency) fails.  For the cube `[0, 1) x [0, 1)` holding the single point
`(0.5, 0.25)` the component sums divided by the number of points are `(0.5, 0.25)`, but the
last component of the entity returned by `getMeanElement` is the last entry of its fresh
array, whatever that holds; with zeros there it is `0`. -/
theorem mean_last_component_unassigned :
    cubeOnePoint.numObjects = 1 ∧ cubeOnePoint.componentMeans = [1 / 2, 1 / 4] ∧
    (∀ fresh : Junk, (cubeOnePoint.getMeanElement fresh).attributes = [1 / 2, fresh 1]) ∧
    (cubeOnePoint.getMeanElement (fun _ => 0)).getComponentValue 1 = 0 := by
  have hm : cubeOnePoint.componentMeans = [1 / 2, 1 / 4] := by decide!
  have hd : cubeOnePoint.dimensions = 2 := by decide!
  have ht : textValue (1 / 2) = 1 / 2 := by decide!
  have hall : ∀ fresh : Junk,
      (cubeOnePoint.getMeanElement fresh).attributes = [1 / 2, fresh 1] := by
    intro fresh
    have hr : List.range 2 = [0, 1] := by decide
    rw [HyperCube.getMeanElement_attributes cubeOnePoint fresh (by decide!), hm, hd, hr]
    simp only [List.dropLast, List.map_cons, List.map_nil, storeFrom, ht, List.set_cons_zero]
  refine ⟨by decide!, hm, hall, ?_⟩
  unfold DatasetEntity.getComponentValue
  rw [hall]
  rfl

set_option maxRecDepth 100000 in
/-- C4 (path symmetry) fails.  In the pruned space of the points `0.55`, `1.375`, `2.9`,
`2.95` (`sigma = 0.5`, `xi = 0.2`, every density 1), for the attractors `p = 1` and
`q = 1.75` and every bound of at least 6 iterations, `pathBetweenExists(p, q)` returns
`false` and `pathBetweenExists(q, p)` returns `true`. -/
theorem path_search_asymmetric : ∀ k,
    pathTest (6 + k) spaceFour (point [1]) (point [7 / 4]) (1 / 5) (1 / 2) = Run.value false ∧
    pathTest (6 + k) spaceFour (point [7 / 4]) (point [1]) (1 / 5) (1 / 2) = Run.value true :=
  fun k => ⟨pathTest_add _ _ _ _ _ _ _ (by decide!) (by decide) k,
    pathTest_add _ _ _ _ _ _ _ (by decide!) (by decide) k⟩

set_option maxRecDepth 100000 in
/-- C5 (path search completeness) fails.  In the pruned space of the points `0.55` and
`1.375` (`sigma = 0.5`, `xi = 0.2`, both of density 1), the attractors `p = 1` and
`q = 1.75` are at distance `> sigma`, the iterated point `1.375` differs from both, has
density `>= xi` and is at distance `< sigma` from `p` and from `q`, and yet
`pathBetweenExists(p, q)` returns `false` for every bound of at least 2 iterations. -/
theorem path_search_misses_path : ∀ k,
    pathTest (2 + k) spaceTwo (point [1]) (point [7 / 4]) (1 / 5) (1 / 2) = Run.value false ∧
    DatasetEntity.distanceLe (point [1]) (point [7 / 4]) (1 / 2) = false ∧
    dense [11 / 8] ∈ spaceTwo.iterated ∧ (dense [11 / 8]).getDensity ≥ 1 / 5 ∧
    dense [11 / 8] ≠ point [1] ∧ dense [11 / 8] ≠ point [7 / 4] ∧
    DatasetEntity.distanceLt (point [1]) (dense [11 / 8]) (1 / 2) = true ∧
    DatasetEntity.distanceLt (dense [11 / 8]) (point [7 / 4]) (1 / 2) = true :=
  fun k => ⟨pathTest_add _ _ _ _ _ _ _ (by decide!) (by decide) k,
    by decide!, by decide!, by decide!, by decide!, by decide!, by decide!, by decide!⟩

set_option maxRecDepth 100000 in
/-- C7 (path search termination with a Boolean) fails.  In the pruned space of the points
`2.1`, `2.2`, `2.3`, `3.8`, `3.4` (`sigma = 0.5`, `xi = 0.2`, every density 1), for the
attractors `p = 3` and `q = 0` and every bound of at least 16 iterations, the loop of
`pathBetweenExists` does not return: after the backtracking step has moved the last cursor
of the path to the end, the next iteration dereferences that cursor. -/
theorem path_search_dereferences_end : ∀ k,
    pathTest (16 + k) spaceFive (point [3]) (point [0]) (1 / 5) (1 / 2) = Run.undefined :=
  fun k => pathTest_add _ _ _ _ _ _ _ (by decide!) (by decide) k

set_option maxRecDepth 100000 in
/-- C8 (prune idempotence) fails.  For the data set with the single point `0.5`
(`sigma = 0.5`, `xi = 2`), with any contents of fresh arrays and any bound of at least 1 on
the recursion, `high_populated_keys` is `["1"]` after one call of `removeLowPopulatedHypercubes` and empty
after a second call. -/
theorem prune_twice_differs (fresh fresh' : List Char → List Char → Bool → Junk) (k : Nat) :
    (pruned fresh (1 + k) dataSingle (1 / 2) 2).map (fun hs => hs.high_populated_keys) =
      some [['1']] ∧
    ((pruned fresh (1 + k) dataSingle (1 / 2) 2).bind
      (HyperSpace.removeLowPopulatedHypercubes fresh')).map (fun hs => hs.high_populated_keys) =
      some [] := by
  rw [spaceSingle_pruned fresh k]
  refine ⟨rfl, ?_⟩
  rw [Option.some_bind, HyperSpace.removeLowPopulatedHypercubes_untested fresh' zeroFresh _
    (by decide!)]
  decide!

set_option maxRecDepth 100000 in
/-- C10 (exact bounds) fails.  After `addEntity` of the single point `-5.5` the lower bound
is `floor(-5.5) = -6`, but the upper bound is `0`, not `ceil(-5.5) = -5`: the initial
contents of `upper_bound` are not below the data. -/
theorem upper_bound_of_negative_data :
    dataNegative.retrieveLowerBound = [-6] ∧ dataNegative.retrieveUpperBound = [0] ∧
    (⌈(-11 / 2 : ℚ)⌉ : ℚ) = -5 := by decide!

/-- The value of `atof` is zero exactly when the mantissa digits have the value zero. -/
theorem atof_eq_zero_iff (s : List Char) : atof s = 0 ↔ digitsVal (atofDigits s) = 0 := by
  unfold atof atofDigits
  rcases hrs : readSign (s.dropWhile isSpace) with ⟨neg, r⟩
  simp only
  by_cases hnil : List.takeWhile isDigit r = [] ∧
      (match List.dropWhile isDigit r with
        | '.' :: t => List.takeWhile isDigit t
        | _ => []) = []
  · rw [if_pos hnil, hnil.1, hnil.2]
    simp [digitsVal]
  · rw [if_neg hnil]
    have h10 : ∀ n : Nat, ((10 : ℚ) ^ n) ≠ 0 := fun n => pow_ne_zero n (by norm_num)
    constructor
    · intro h
      by_contra hd
      have hd' : (digitsVal (List.takeWhile isDigit r ++
          (match List.dropWhile isDigit r with
            | '.' :: t => List.takeWhile isDigit t
            | _ => [])) : ℚ) ≠ 0 := by exact_mod_cast hd
      have hm := div_ne_zero hd' (h10 (match List.dropWhile isDigit r with
            | '.' :: t => List.takeWhile isDigit t
            | _ => []).length)
      split at h
      · split at h
        · exact mul_ne_zero hm (h10 _) (neg_eq_zero.mp h)
        · exact div_ne_zero hm (h10 _) (neg_eq_zero.mp h)
      · split at h
        · exact mul_ne_zero hm (h10 _) h
        · exact div_ne_zero hm (h10 _) h
    · intro h
      rw [h]
      simp

theorem isDigit_iff (c : Char) : isDigit c = true ↔
    c = '0' ∨ c = '1' ∨ c = '2' ∨ c = '3' ∨ c = '4' ∨ c = '5' ∨ c = '6' ∨ c = '7' ∨
      c = '8' ∨ c = '9' := by
  unfold isDigit
  simp only [Bool.or_eq_true, beq_iff_eq, or_assoc]

theorem isDigit_digitChar (n : Nat) : isDigit (digitChar n) = true := by
  unfold digitChar
  split <;> decide

theorem digitVal_digitChar (n : Nat) : digitVal (digitChar n) = n % 10 := by
  have h : n % 10 < 10 := Nat.mod_lt _ (by norm_num)
  unfold digitChar
  generalize n % 10 = k at h ⊢
  interval_cases k <;> decide

theorem isDigit_not_space {c : Char} (h : isDigit c = true) : isSpace c = false := by
  rcases (isDigit_iff c).mp h with h | h | h | h | h | h | h | h | h | h <;> subst h <;> decide

theorem readSign_of_isDigit {c : Char} (h : isDigit c = true) (t : List Char) :
    readSign (c :: t) = (false, c :: t) := by
  rcases (isDigit_iff c).mp h with h | h | h | h | h | h | h | h | h | h <;> subst h <;> rfl

theorem takeWhile_append_of_all {α : Type} (p : α → Bool) (xs ys : List α)
    (h : ∀ x ∈ xs, p x = true) :
    (xs ++ ys).takeWhile p = xs ++ ys.takeWhile p := by
  induction xs with
  | nil => rfl
  | cons x xs ih =>
    rw [List.cons_append, List.takeWhile_cons, if_pos (h x (List.mem_cons_self _ _)),
      ih (fun y hy => h y (List.mem_cons_of_mem _ hy)), List.cons_append]

theorem dropWhile_append_of_all {α : Type} (p : α → Bool) (xs ys : List α)
    (h : ∀ x ∈ xs, p x = true) :
    (xs ++ ys).dropWhile p = ys.dropWhile p := by
  induction xs with
  | nil => rfl
  | cons x xs ih =>
    rw [List.cons_append, List.dropWhile_cons, if_pos (h x (List.mem_cons_self _ _)),
      ih (fun y hy => h y (List.mem_cons_of_mem _ hy))]

/-- The digits before the point are among the mantissa digits of `atof`. -/
theorem mem_atofDigits_of_prefix (ds rest : List Char) (hds : ∀ c ∈ ds, isDigit c = true) :
    ∀ c ∈ ds, c ∈ atofDigits (ds ++ rest) := by
  intro c hc
  cases ds with
  | nil => cases hc
  | cons d ds =>
    have hd := hds d (List.mem_cons_self _ _)
    unfold atofDigits
    rw [List.cons_append, List.dropWhile_cons, if_neg (by simp [isDigit_not_space hd]),
      readSign_of_isDigit hd]
    simp only
    rw [← List.cons_append, takeWhile_append_of_all isDigit _ _ hds]
    exact List.mem_append_left _ (List.mem_append_left _ hc)

/-- The digits after the point are among the mantissa digits of `atof`. -/
theorem mem_atofDigits_of_fraction (ds fs rest : List Char) (hne : ds ≠ [])
    (hds : ∀ c ∈ ds, isDigit c = true) (hfs : ∀ c ∈ fs, isDigit c = true) :
    ∀ c ∈ fs, c ∈ atofDigits (ds ++ '.' :: (fs ++ rest)) := by
  intro c hc
  cases ds with
  | nil => exact absurd rfl hne
  | cons d ds =>
    have hd := hds d (List.mem_cons_self _ _)
    unfold atofDigits
    rw [List.cons_append, List.dropWhile_cons, if_neg (by simp [isDigit_not_space hd]),
      readSign_of_isDigit hd]
    simp only
    rw [← List.cons_append, dropWhile_append_of_all isDigit _ _ hds,
      List.dropWhile_cons, if_neg (by decide)]
    simp only
    rw [takeWhile_append_of_all isDigit _ _ hfs]
    exact List.mem_append_right _ (List.mem_append_left _ hc)

theorem digitsVal_foldl_eq_zero (l : List Char) : ∀ acc : Nat,
    l.foldl (fun acc c => 10 * acc + digitVal c) acc = 0 ↔
      acc = 0 ∧ ∀ c ∈ l, digitVal c = 0 := by
  induction l with
  | nil => intro acc; simp
  | cons x xs ih =>
    intro acc
    rw [List.foldl_cons, ih]
    constructor
    · rintro ⟨h1, h2⟩
      refine ⟨by omega, fun c hc => ?_⟩
      rcases List.mem_cons.mp hc with rfl | hc
      · omega
      · exact h2 c hc
    · rintro ⟨h1, h2⟩
      refine ⟨?_, fun c hc => h2 c (List.mem_cons_of_mem _ hc)⟩
      have := h2 x (List.mem_cons_self _ _)
      omega

theorem digitsVal_eq_zero_iff (l : List Char) :
    digitsVal l = 0 ↔ ∀ c ∈ l, digitVal c = 0 := by
  unfold digitsVal
  rw [digitsVal_foldl_eq_zero]
  simp

/-- A text with a digit of nonzero value in its mantissa has a nonzero value. -/
theorem atof_ne_zero_of_mem (s : List Char) (c : Char) (hc : c ∈ atofDigits s)
    (hv : digitVal c ≠ 0) : atof s ≠ 0 := by
  intro h
  exact hv ((digitsVal_eq_zero_iff _).mp ((atof_eq_zero_iff s).mp h) c hc)


/-! ### The six significant digits -/

theorem scaleDown_range : ∀ (fuel : Nat) (a : ℚ) (e : Int), 1 ≤ a → a < 10 ^ (fuel + 1) →
    1 ≤ (scaleDown fuel a e).1 ∧ (scaleDown fuel a e).1 < 10 := by
  intro fuel
  induction fuel with
  | zero =>
    intro a e h1 h2
    simp only [scaleDown]
    exact ⟨h1, by simpa using h2⟩
  | succ fuel ih =>
    intro a e h1 h2
    unfold scaleDown
    split
    · rename_i h10
      apply ih
      · linarith
      · rw [pow_succ] at h2
        linarith
    · rename_i h10
      exact ⟨h1, not_le.mp h10⟩

theorem scaleUp_range : ∀ (fuel : Nat) (a : ℚ) (e : Int), 0 < a → a < 10 →
    1 ≤ a * 10 ^ fuel → 1 ≤ (scaleUp fuel a e).1 ∧ (scaleUp fuel a e).1 < 10 := by
  intro fuel
  induction fuel with
  | zero =>
    intro a e h0 h1 h2
    simp only [scaleUp]
    exact ⟨by simpa using h2, h1⟩
  | succ fuel ih =>
    intro a e h0 h1 h2
    unfold scaleUp
    split
    · rename_i hlt
      apply ih
      · linarith
      · linarith
      · rw [pow_succ] at h2
        linarith
    · rename_i hlt
      exact ⟨not_lt.mp hlt, h1⟩

theorem roundHalfEven_range (x : ℚ) (h1 : 100000 ≤ x) (h2 : x < 1000000) :
    100000 ≤ roundHalfEven x ∧ roundHalfEven x ≤ 1000000 := by
  have hf1 : (100000 : Int) ≤ ⌊x⌋ := Int.le_floor.mpr (by exact_mod_cast h1)
  have hf2 : ⌊x⌋ < (1000000 : Int) := Int.floor_lt.mpr (by exact_mod_cast h2)
  unfold roundHalfEven
  simp only
  split
  · omega
  · split
    · omega
    · split <;> omega

theorem num_bounds (a : ℚ) (h : 0 < a) :
    a < 10 ^ (a.num.natAbs + a.den + 1) ∧ 1 ≤ a * 10 ^ (a.num.natAbs + a.den) := by
  have hnum : 0 < a.num := Rat.num_pos.mpr h
  have hden : (1 : ℚ) ≤ (a.den : ℚ) := by exact_mod_cast a.den_pos
  have heq : a * (a.den : ℚ) = (a.num : ℚ) := Rat.mul_den_eq_num a
  have hnat : ((a.num.natAbs : Nat) : ℚ) = (a.num : ℚ) := by
    have h1 : ((a.num.natAbs : Nat) : Int) = a.num := Int.natAbs_of_nonneg hnum.le
    have h2 : (((a.num.natAbs : Nat) : Int) : ℚ) = (a.num : ℚ) := by rw [h1]
    rw [← h2]
    exact (Int.cast_natCast _).symm
  have hpow : ∀ n : Nat, (n : ℚ) < 10 ^ n := by
    intro n
    have : n < 10 ^ n := Nat.lt_pow_self (by norm_num) n
    exact_mod_cast this
  have hmono : ∀ n m : Nat, n ≤ m → (10 : ℚ) ^ n ≤ 10 ^ m :=
    fun n m hnm => pow_le_pow_right₀ (by norm_num) hnm
  constructor
  · calc a ≤ a * (a.den : ℚ) := by nlinarith
      _ = ((a.num.natAbs : Nat) : ℚ) := by rw [heq, hnat]
      _ < 10 ^ a.num.natAbs := hpow _
      _ ≤ 10 ^ (a.num.natAbs + a.den + 1) := hmono _ _ (by omega)
  · have h1 : (1 : ℚ) ≤ (a.num : ℚ) := by exact_mod_cast hnum
    calc (1 : ℚ) ≤ a * (a.den : ℚ) := by rw [heq]; exact h1
      _ ≤ a * 10 ^ a.den := by
          apply mul_le_mul_of_nonneg_left (hpow _).le h.le
      _ ≤ a * 10 ^ (a.num.natAbs + a.den) := by
          apply mul_le_mul_of_nonneg_left (hmono _ _ (by omega)) h.le

/-- The six significant digits of a positive number form a number of exactly six digits. -/
theorem sigDigits_range (a : ℚ) (h : 0 < a) :
    100000 ≤ (sigDigits a).1 ∧ (sigDigits a).1 < 1000000 := by
  obtain ⟨hb1, hb2⟩ := num_bounds a h
  have hb : 1 ≤ (if 10 ≤ a then scaleDown (a.num.natAbs + a.den) a 0
      else scaleUp (a.num.natAbs + a.den) a 0).1 ∧
      (if 10 ≤ a then scaleDown (a.num.natAbs + a.den) a 0
        else scaleUp (a.num.natAbs + a.den) a 0).1 < 10 := by
    split
    · rename_i h10
      exact scaleDown_range _ a 0 (by linarith) hb1
    · rename_i h10
      exact scaleUp_range _ a 0 h (not_le.mp h10) hb2
  unfold sigDigits
  simp only
  rcases hs : (if 10 ≤ a then scaleDown (a.num.natAbs + a.den) a 0
      else scaleUp (a.num.natAbs + a.den) a 0) with ⟨b, e⟩
  rw [hs] at hb
  simp only at hb ⊢
  obtain ⟨hr1, hr2⟩ := roundHalfEven_range (b * 100000) (by linarith) (by linarith)
  split
  · simp
  · rename_i hm
    simp only
    omega


/-! ### The text of a positive number -/

theorem digitsFixed_six (m : Nat) : digitsFixed 6 m =
    [digitChar (m / 10 / 10 / 10 / 10 / 10), digitChar (m / 10 / 10 / 10 / 10),
      digitChar (m / 10 / 10 / 10), digitChar (m / 10 / 10), digitChar (m / 10), digitChar m] := by
  simp only [digitsFixed, List.nil_append, List.cons_append]

theorem isDigit_digitsFixed (k n : Nat) : ∀ c ∈ digitsFixed k n, isDigit c = true := by
  induction k generalizing n with
  | zero => intro c hc; cases hc
  | succ k ih =>
    intro c hc
    simp only [digitsFixed, List.mem_append, List.mem_singleton] at hc
    rcases hc with hc | rfl
    · exact ih _ c hc
    · exact isDigit_digitChar n

theorem mem_dropWhile_of_neg {α : Type} (p : α → Bool) (l : List α) (c : α) (hc : c ∈ l)
    (hp : p c = false) : c ∈ l.dropWhile p := by
  induction l with
  | nil => cases hc
  | cons x xs ih =>
    rw [List.dropWhile_cons]
    split
    · rename_i hx
      rcases List.mem_cons.mp hc with rfl | h
      · rw [hp] at hx
        cases hx
      · exact ih h
    · exact hc

theorem mem_stripZeros_of_ne (ds : List Char) (c : Char) (hc : c ∈ ds)
    (h0 : (c == '0') = false) : c ∈ stripZeros ds := by
  unfold stripZeros
  rw [List.mem_reverse]
  exact mem_dropWhile_of_neg _ _ c (List.mem_reverse.mpr hc) h0

/-- The text of a number under `fmtPos` starts with a digit. -/
theorem fmtPos_head (a : ℚ) : ∃ c rest, fmtPos a = c :: rest ∧ isDigit c = true := by
  unfold fmtPos
  rcases sigDigits a with ⟨m, e⟩
  simp only [digitsFixed_six, List.take_succ_cons, List.take_zero]
  split
  · split
    · split
      · exact ⟨_, _, rfl, isDigit_digitChar _⟩
      · exact ⟨_, _, rfl, isDigit_digitChar _⟩
    · exact ⟨'0', _, rfl, by decide⟩
  · split
    · exact ⟨_, _, rfl, isDigit_digitChar _⟩
    · exact ⟨_, _, rfl, isDigit_digitChar _⟩

/-- The text of a positive number has a digit of nonzero value in its mantissa. -/
theorem fmtPos_mantissa (a : ℚ) (h : 0 < a) :
    ∃ c ∈ atofDigits (fmtPos a), digitVal c ≠ 0 := by
  obtain ⟨hm1, hm2⟩ := sigDigits_range a h
  unfold fmtPos
  rcases hs : sigDigits a with ⟨m, e⟩
  rw [hs] at hm1 hm2
  simp only at hm1 hm2 ⊢
  have hv : digitVal (digitChar (m / 10 / 10 / 10 / 10 / 10)) ≠ 0 := by
    rw [digitVal_digitChar]
    omega
  have hds := isDigit_digitsFixed 6 m
  have hmem : digitChar (m / 10 / 10 / 10 / 10 / 10) ∈ digitsFixed 6 m := by
    rw [digitsFixed_six]
    exact List.mem_cons_self _ _
  have hne0 : (digitChar (m / 10 / 10 / 10 / 10 / 10) == '0') = false := by
    by_contra hc
    rw [Bool.not_eq_false, beq_iff_eq] at hc
    rw [hc] at hv
    exact hv (by decide)
  have htake : ∀ n, digitChar (m / 10 / 10 / 10 / 10 / 10) ∈ (digitsFixed 6 m).take (n + 1) := by
    intro n
    rw [digitsFixed_six, List.take_succ_cons]
    exact List.mem_cons_self _ _
  have htd : ∀ n, ∀ c ∈ (digitsFixed 6 m).take n, isDigit c = true :=
    fun n c hc => hds c (List.mem_of_mem_take hc)
  refine ⟨digitChar (m / 10 / 10 / 10 / 10 / 10), ?_, hv⟩
  split
  · split
    · split
      · have := mem_atofDigits_of_prefix ((digitsFixed 6 m).take (e.toNat + 1)) []
          (htd _) _ (htake _)
        rwa [List.append_nil] at this
      · exact mem_atofDigits_of_prefix _ _ (htd _) _ (htake _)
    · have hfs : ∀ c ∈ List.replicate ((-e).toNat - 1) '0' ++ stripZeros (digitsFixed 6 m),
          isDigit c = true := by
        intro c hc
        rcases List.mem_append.mp hc with hc | hc
        · rw [(List.mem_replicate.mp hc).2]
          decide
        · exact hds c (mem_stripZeros hc)
      have := mem_atofDigits_of_fraction ['0'] _ [] (by simp) (by simp [isDigit]) hfs
        (digitChar (m / 10 / 10 / 10 / 10 / 10))
        (List.mem_append_right _ (mem_stripZeros_of_ne _ _ hmem hne0))
      simpa using this
  · split
    · exact mem_atofDigits_of_prefix _ _ (htd _) _ (htake 0)
    · rw [List.append_assoc]
      exact mem_atofDigits_of_prefix _ _ (htd _) _ (htake 0)


/-! ### The value read back from the text of a number -/

theorem atof_minus (c : Char) (rest : List Char) (hc : isDigit c = true) :
    atof ('-' :: c :: rest) = -atof (c :: rest) := by
  unfold atof
  rw [List.dropWhile_cons, if_neg (by decide), List.dropWhile_cons,
    if_neg (by simp [isDigit_not_space hc]), readSign_of_isDigit hc]
  simp only [readSign]
  split
  · simp
  · simp

theorem fmtDouble_of_pos (a : ℚ) (h : 0 < a) : fmtDouble a = fmtPos a := by
  unfold fmtDouble
  rw [if_neg (ne_of_gt h), if_neg (not_lt.mpr h.le)]

theorem fmtDouble_of_neg (a : ℚ) (h : a < 0) : fmtDouble a = '-' :: fmtPos (-a) := by
  unfold fmtDouble
  rw [if_neg (ne_of_lt h), if_pos h]

theorem textValue_zero : textValue 0 = 0 := by decide!

theorem textValue_of_neg (a : ℚ) (h : a < 0) : textValue a = -textValue (-a) := by
  unfold textValue
  rw [fmtDouble_of_neg a h, fmtDouble_of_pos (-a) (by linarith)]
  obtain ⟨c, rest, hf, hc⟩ := fmtPos_head (-a)
  rw [hf]
  exact atof_minus c rest hc

/-- Writing and reading back commutes with the change of sign. -/
theorem textValue_neg (a : ℚ) : textValue (-a) = -textValue a := by
  rcases lt_trichotomy a 0 with h | h | h
  · rw [textValue_of_neg a h, neg_neg]
  · rw [h, neg_zero, textValue_zero, neg_zero]
  · rw [textValue_of_neg (-a) (by linarith), neg_neg]

/-- Writing and reading back gives zero only for zero. -/
theorem textValue_eq_zero_iff (a : ℚ) : textValue a = 0 ↔ a = 0 := by
  have hpos : ∀ b : ℚ, 0 < b → textValue b ≠ 0 := by
    intro b hb
    unfold textValue
    rw [fmtDouble_of_pos b hb]
    obtain ⟨c, hc, hv⟩ := fmtPos_mantissa b hb
    exact atof_ne_zero_of_mem _ c hc hv
  constructor
  · intro h
    rcases lt_trichotomy a 0 with ha | ha | ha
    · rw [textValue_of_neg a ha, neg_eq_zero] at h
      exact absurd h (hpos (-a) (by linarith))
    · exact ha
    · exact absurd h (hpos a ha)
  · intro h
    rw [h, textValue_zero]

/-! ## The cube: `addObject` -/

namespace HyperCube

/-- The first loop of `addObject` leaves `outside_hypercube` unset exactly when every
component of the object is inside the bounds read from the key. -/
theorem outside_hypercube_eq_false (c : HyperCube) (p : DatasetEntity) :
    c.outside_hypercube p = false ↔
      ∀ i, i < c.dimensions →
        (getArrayFromKey c.hypercube_key c.dimensions).getD i 0 - c.edge_length ≤
          p.getComponentValue i ∧
        p.getComponentValue i < (getArrayFromKey c.hypercube_key c.dimensions).getD i 0 := by
  unfold outside_hypercube
  simp only [List.any_eq_false, List.mem_range, Bool.or_eq_true, decide_eq_true_eq, not_or,
    not_lt, ge_iff_le, not_le]

/-- The member `addObject` changes neither the key, nor the dimension, nor the edge, nor the
neighbors of the cube. -/
theorem addObject_frame (c : HyperCube) (p : DatasetEntity) :
    (c.addObject p).hypercube_key = c.hypercube_key ∧
    (c.addObject p).dimensions = c.dimensions ∧
    (c.addObject p).edge_length = c.edge_length ∧
    (c.addObject p).neighbors = c.neighbors := by
  unfold addObject
  split <;> exact ⟨rfl, rfl, rfl, rfl⟩

/-- The objects of a cube after `addObject` are the old ones, or the old ones and the new
object, which is then inside the bounds. -/
theorem mem_addObject (c : HyperCube) (p q : DatasetEntity)
    (h : q ∈ (c.addObject p).objects) :
    q ∈ c.objects ∨ (q = p ∧ c.outside_hypercube p = false) := by
  unfold addObject at h
  split at h
  · exact Or.inl h
  · rename_i hout
    simp only [List.mem_append, List.mem_singleton] at h
    rcases h with h | h
    · exact Or.inl h
    · exact Or.inr ⟨h, by simpa using hout⟩

/-- A sequence of `addObject` calls keeps key, dimension and edge, and every object it
leaves in the cube was there before or passed the test of the bounds. -/
theorem foldl_addObject (ps : List DatasetEntity) : ∀ (c : HyperCube),
    (ps.foldl addObject c).hypercube_key = c.hypercube_key ∧
    (ps.foldl addObject c).dimensions = c.dimensions ∧
    (ps.foldl addObject c).edge_length = c.edge_length ∧
    ∀ q ∈ (ps.foldl addObject c).objects, q ∈ c.objects ∨ c.outside_hypercube q = false := by
  induction ps with
  | nil => intro c; exact ⟨rfl, rfl, rfl, fun q hq => Or.inl hq⟩
  | cons p ps ih =>
    intro c
    obtain ⟨h1, h2, h3, h4⟩ := ih (c.addObject p)
    obtain ⟨f1, f2, f3, _⟩ := addObject_frame c p
    refine ⟨h1.trans f1, h2.trans f2, h3.trans f3, fun q hq => ?_⟩
    rcases h4 q hq with h | h
    · rcases mem_addObject c p q h with h | ⟨rfl, h⟩
      · exact Or.inl h
      · exact Or.inr h
    · right
      unfold outside_hypercube at h ⊢
      rw [f1, f2, f3] at h
      exact h

end HyperCube

/-- C11 (cube membership).  For every cube, starting without objects, and every sequence of
`addObject` calls, every point `p` in the object list of the cube satisfies
`upper[i] - l <= p[i] < upper[i]` for every `i < d`, where `upper` is the upper corner of the
cube as `addObject` reads it from the key of the cube and `l` is the edge length. -/
theorem cube_membership (c : HyperCube) (h0 : c.objects = []) (ps : List DatasetEntity)
    (p : DatasetEntity) (hp : p ∈ (ps.foldl HyperCube.addObject c).objects)
    (i : Nat) (hi : i < c.dimensions) :
    (HyperCube.getArrayFromKey c.hypercube_key c.dimensions).getD i 0 - c.edge_length ≤
      p.getComponentValue i ∧
    p.getComponentValue i < (HyperCube.getArrayFromKey c.hypercube_key c.dimensions).getD i 0 := by
  rcases (HyperCube.foldl_addObject ps c).2.2.2 p hp with h | h
  · rw [h0] at h
    cases h
  · exact (HyperCube.outside_hypercube_eq_false c p).mp h i hi

set_option maxRecDepth 100000 in
theorem cube_membership_witness :
    point [1 / 2, 1 / 4] ∈
      ([point [1 / 2, 1 / 4], point [3, 0]].foldl HyperCube.addObject
        (HyperCube.new 2 [1, 1] 1)).objects ∧
    ((HyperCube.getArrayFromKey (HyperCube.new 2 [1, 1] 1).hypercube_key 2).getD 0 0 - 1 ≤
      (point [1 / 2, 1 / 4]).getComponentValue 0 ∧
    (point [1 / 2, 1 / 4]).getComponentValue 0 <
      (HyperCube.getArrayFromKey (HyperCube.new 2 [1, 1] 1).hypercube_key 2).getD 0 0) :=
  ⟨by decide!, cube_membership (HyperCube.new 2 [1, 1] 1) rfl [point [1 / 2, 1 / 4], point [3, 0]]
    (point [1 / 2, 1 / 4]) (by decide!) 0 (by decide)⟩

/-- C12 (the contract of `addObject`).  With `upper` the upper corner read from the key of
the cube and `l` its edge: `addObject` accepts `p` (the object list becomes the old list with
`p` appended) if and only if `upper[i] - l <= p[i] < upper[i]` for every `i < d`; when it
accepts, `entities_sum[i]` grows by `p[i]` for every `i < d`; when it rejects, the object
list, `entities_sum` and the neighbor list are unchanged (the whole cube is). -/
theorem addObject_contract (c : HyperCube) (p : DatasetEntity) :
    ((c.addObject p).objects = c.objects ++ [p] ↔
      ∀ i, i < c.dimensions →
        (HyperCube.getArrayFromKey c.hypercube_key c.dimensions).getD i 0 - c.edge_length ≤
          p.getComponentValue i ∧
        p.getComponentValue i <
          (HyperCube.getArrayFromKey c.hypercube_key c.dimensions).getD i 0) ∧
    ((c.addObject p).objects = c.objects ++ [p] →
      (∀ i, i < c.dimensions → (c.addObject p).entities_sum.getD i 0 =
        c.entities_sum.getD i 0 + p.getComponentValue i) ∧
      (c.addObject p).neighbors = c.neighbors) ∧
    ((c.addObject p).objects ≠ c.objects ++ [p] →
      (c.addObject p).objects = c.objects ∧ (c.addObject p).entities_sum = c.entities_sum ∧
      (c.addObject p).neighbors = c.neighbors ∧ c.addObject p = c) := by
  have hne : c.objects ≠ c.objects ++ [p] := by
    intro h
    have := congrArg List.length h
    simp at this
  rw [← HyperCube.outside_hypercube_eq_false]
  unfold HyperCube.addObject
  by_cases hout : c.outside_hypercube p = true
  · rw [if_pos hout]
    refine ⟨⟨fun h => absurd h hne, fun h => ?_⟩, fun h => absurd h hne,
      fun _ => ⟨rfl, rfl, rfl, rfl⟩⟩
    rw [hout] at h
    cases h
  · rw [if_neg hout]
    refine ⟨⟨fun _ => by simpa using hout, fun _ => rfl⟩, fun _ => ⟨fun i hi => ?_, rfl⟩,
      fun h => absurd rfl h⟩
    simp only
    rw [List.getD_eq_getElem?_getD, List.getElem?_map, List.getElem?_range hi]
    rfl


/-! ## The grid: keys of more than six digits, and the recursion above the box -/

namespace StrMap

theorem contains_insert_self {α : Type} (m : StrMap α) (k : List Char) (v : α) :
    contains (insert m k v) k = true := by
  unfold contains
  induction m with
  | nil => simp [insert, find]
  | cons kv rest ih =>
    obtain ⟨k0, v0⟩ := kv
    simp only [insert]
    split
    · rename_i hk
      simp [find, hk]
    · rename_i hk
      split
      · simp [find]
      · simp only [find, if_neg hk]
        exact ih

theorem contains_insert_of_contains {α : Type} (m : StrMap α) (k k' : List Char) (v : α)
    (h : contains m k' = true) : contains (insert m k v) k' = true := by
  unfold contains at h ⊢
  induction m with
  | nil => simp [find] at h
  | cons kv rest ih =>
    obtain ⟨k0, v0⟩ := kv
    simp only [insert]
    split
    · exact h
    · split
      · simp only [find]
        split
        · rfl
        · exact h
      · simp only [find] at h ⊢
        split
        · rfl
        · rename_i hk'
          rw [if_neg hk'] at h
          exact ih h

end StrMap

namespace HyperSpace

/-- A fold of the recursive calls of `createHyperCubes` keeps a property of the space that
every call keeps. -/
theorem foldlM_keeps (P : HyperSpace → Prop) (f : HyperSpace → List Char → Option HyperSpace)
    (hf : ∀ h k r, P h → f h k = some r → P r) :
    ∀ (l : List (List Char)) (h r : HyperSpace), P h → l.foldlM f h = some r → P r := by
  intro l
  induction l with
  | nil =>
    intro h r hp hr
    simp only [List.foldlM, pure, Option.some.injEq] at hr
    exact hr ▸ hp
  | cons k ks ih =>
    intro h r hp hr
    simp only [List.foldlM, bind, Option.bind] at hr
    cases hk : f h k with
    | none => rw [hk] at hr; cases hr
    | some h1 =>
      rw [hk] at hr
      exact ih h1 r (hf h k h1 hp hk) hr

/-- A call of `createHyperCubes` that returns has not removed a cube from the map. -/
theorem createHyperCubes_keeps (k' : List Char) : ∀ (fuel : Nat) (hs : HyperSpace)
    (key : List Char) (r : HyperSpace), createHyperCubes fuel hs key = some r →
    StrMap.contains hs.hypercubes k' = true → StrMap.contains r.hypercubes k' = true := by
  intro fuel
  induction fuel with
  | zero => intro hs key r h; simp [createHyperCubes] at h
  | succ fuel ih =>
    intro hs key r h hk
    unfold createHyperCubes at h
    refine foldlM_keeps (fun x => StrMap.contains x.hypercubes k' = true) _ ?_ _ _ r ?_ h
    · intro x k y hx hy
      simp only at hy
      split at hy
      · cases hy
        exact hx
      · exact ih x k y hy hx
    · exact StrMap.contains_insert_of_contains _ _ _ _ hk

/-- A call of `createHyperCubes` that returns has put the cube of its key in the map. -/
theorem createHyperCubes_contains (fuel : Nat) (hs : HyperSpace) (key : List Char)
    (r : HyperSpace) (h : createHyperCubes fuel hs key = some r) :
    StrMap.contains r.hypercubes key = true := by
  cases fuel with
  | zero => simp [createHyperCubes] at h
  | succ fuel =>
    unfold createHyperCubes at h
    refine foldlM_keeps (fun x => StrMap.contains x.hypercubes key = true) _ ?_ _ _ r ?_ h
    · intro x k y hx hy
      simp only at hy
      split at hy
      · cases hy
        exact hx
      · exact createHyperCubes_keeps key fuel x k y hy hx
    · exact StrMap.contains_insert_self _ _ _

end HyperSpace

set_option maxRecDepth 100000 in
/-- C13 (routing puts a point in the cube of its key) fails.  For the data set of the single
point `1234567.9` in dimension 1 and `sigma = 0.5` (edge 1) the grid is the single cube with
key `1.23457e+06`, which is the grid key of the point (the text of `1234568`); the bounds
that `addObject` reads from that key are `[1234569, 1234570)`, so `insertEntity` rejects the
point and leaves the space as it was. -/
theorem routing_rejects_point_of_long_key : ∀ k, ∃ hs,
    gridOf (1 + k) dataLarge (1 / 2) 1 = some hs ∧
    StrMap.keys hs.hypercubes = [['1', '.', '2', '3', '4', '5', '7', 'e', '+', '0', '6']] ∧
    HyperSpace.entityKey hs (point [12345679 / 10]) =
      ['1', '.', '2', '3', '4', '5', '7', 'e', '+', '0', '6'] ∧
    StrMap.contains hs.hypercubes (HyperSpace.entityKey hs (point [12345679 / 10])) = true ∧
    HyperCube.getArrayFromKey (HyperSpace.entityKey hs (point [12345679 / 10])) 1 = [1234570] ∧
    (HyperSpace.insertEntity hs (point [12345679 / 10])).hypercubes.map
      (fun kv => kv.2.objects) = [[]] ∧
    HyperSpace.insertEntity hs (point [12345679 / 10]) = hs := by
  intro k
  have h1 : (gridOf 1 dataLarge (1 / 2) 1).map (fun hs => decide (
      StrMap.keys hs.hypercubes = [['1', '.', '2', '3', '4', '5', '7', 'e', '+', '0', '6']] ∧
      HyperSpace.entityKey hs (point [12345679 / 10]) =
        ['1', '.', '2', '3', '4', '5', '7', 'e', '+', '0', '6'] ∧
      StrMap.contains hs.hypercubes (HyperSpace.entityKey hs (point [12345679 / 10])) = true ∧
      HyperCube.getArrayFromKey (HyperSpace.entityKey hs (point [12345679 / 10])) 1 =
        [1234570] ∧
      (HyperSpace.insertEntity hs (point [12345679 / 10])).hypercubes.map
        (fun kv => kv.2.objects) = [[]] ∧
      HyperSpace.insertEntity hs (point [12345679 / 10]) = hs)) = some true := by
    decide!
  cases hg : gridOf 1 dataLarge (1 / 2) 1 with
  | none => rw [hg] at h1; cases h1
  | some hs =>
    rw [hg] at h1
    simp only [Option.map_some', Option.some.injEq, decide_eq_true_eq] at h1
    exact ⟨hs, gridOf_add _ _ _ _ _ hg k, h1⟩

set_option maxRecDepth 100000 in
/-- C14 (the grid construction ends with the covering cubes) fails.  For the data set of the
single point `1.5` in dimension 1 and `sigma = 1` (edge 2) the bounds of the space are
`[1, 2]`, so the claim asks for the single cube with upper corner `3`.  The recursion of
`createHyperCubes` has not ended within 40 nested calls, and whenever it ends the map holds
the cube with key `5`, `[3, 5)`, which lies above the box. -/
theorem grid_recursion_leaves_box :
    (gridOf 40 dataMidpoint 1 1 = none) ∧
    (HyperSpace.new dataMidpoint.retrieveUpperBound dataMidpoint.retrieveLowerBound 1 1
      dataMidpoint.dimensions).upper_bounds = [2] ∧
    (HyperSpace.new dataMidpoint.retrieveUpperBound dataMidpoint.retrieveLowerBound 1 1
      dataMidpoint.dimensions).lower_bounds = [1] ∧
    ∀ fuel, (gridOf fuel dataMidpoint 1 1).all
      (fun hs => StrMap.contains hs.hypercubes ['5']) = true := by
  refine ⟨by decide!, by decide!, by decide!, fun fuel => ?_⟩
  cases hg : gridOf fuel dataMidpoint 1 1 with
  | none => rfl
  | some r =>
    simp only [Option.all_some]
    unfold gridOf HyperSpace.determineSpatialRegions at hg
    cases fuel with
    | zero => simp [HyperSpace.createHyperCubes] at hg
    | succ fuel =>
      have hkey : HyperCube.getKeyFromArray
          ((List.range (HyperSpace.new dataMidpoint.retrieveUpperBound
              dataMidpoint.retrieveLowerBound 1 1 dataMidpoint.dimensions).dimension).map
            (fun i => (HyperSpace.new dataMidpoint.retrieveUpperBound
              dataMidpoint.retrieveLowerBound 1 1 dataMidpoint.dimensions).lower_bounds.getD i 0 +
              (HyperSpace.new dataMidpoint.retrieveUpperBound
                dataMidpoint.retrieveLowerBound 1 1
                dataMidpoint.dimensions).hypercubeEdgeLenght))
          (HyperSpace.new dataMidpoint.retrieveUpperBound dataMidpoint.retrieveLowerBound 1 1
            dataMidpoint.dimensions).dimension = ['3'] := by decide!
      simp only at hg
      rw [hkey] at hg
      unfold HyperSpace.createHyperCubes at hg
      have hn : HyperSpace.neighbors_keys
          (HyperSpace.new dataMidpoint.retrieveUpperBound dataMidpoint.retrieveLowerBound 1 1
            dataMidpoint.dimensions) ['3'] = [['5']] := by decide!
      rw [hn] at hg
      simp only [List.foldlM, bind, Option.bind] at hg
      have hc : StrMap.contains (StrMap.insert
          (HyperSpace.new dataMidpoint.retrieveUpperBound dataMidpoint.retrieveLowerBound 1 1
            dataMidpoint.dimensions).hypercubes ['3']
          (HyperSpace.instantiate (HyperSpace.new dataMidpoint.retrieveUpperBound
            dataMidpoint.retrieveLowerBound 1 1 dataMidpoint.dimensions) ['3'])) ['5'] = false := by
        decide!
      rw [hc] at hg
      simp only [Bool.false_eq_true, if_false] at hg
      cases h5 : HyperSpace.createHyperCubes fuel _ ['5'] with
      | none => rw [h5] at hg; cases hg
      | some r5 =>
        rw [h5] at hg
        simp only [pure, Option.some.injEq] at hg
        rw [← hg]
        exact HyperSpace.createHyperCubes_contains fuel _ ['5'] r5 h5

set_option maxRecDepth 100000 in
/-- C16 (no dense cube means no clusters) fails.  For the data set of scenario S2 (the six
points of S1, `sigma = 1`, `xi = 100`), with any contents of fresh arrays and any bound of
at least 9 on the recursion, `high_populated_keys` and the cube map are empty after
`removeLowPopulatedHypercubes`; the member `begin`, which `main` calls next, dereferences
`high_populated_keys.begin()`, which is `end()` of the empty vector, and has no defined
result. -/
theorem begin_without_dense_cube (fresh : List Char → List Char → Bool → Junk) (k : Nat) :
    (pruned fresh (9 + k) dataTwoGroups 1 100).map (fun hs =>
      (hs.high_populated_keys, StrMap.keys hs.hypercubes, EntityIterator.begin hs)) =
    some ([], [], none) := by
  have h1 : ∃ hs, routed 9 dataTwoGroups 1 100 = some hs ∧ HyperSpace.untested hs = true ∧
      (HyperSpace.removeLowPopulatedHypercubes zeroFresh hs).map (fun hs =>
        (hs.high_populated_keys, StrMap.keys hs.hypercubes, EntityIterator.begin hs)) =
      some ([], [], none) := by
    have h2 : (routed 9 dataTwoGroups 1 100).map (fun hs => decide (
        HyperSpace.untested hs = true ∧
        (HyperSpace.removeLowPopulatedHypercubes zeroFresh hs).map (fun hs => decide (
          hs.high_populated_keys = [] ∧ StrMap.keys hs.hypercubes = [] ∧
          EntityIterator.begin hs = none)) = some true)) = some true := by decide!
    cases hr : routed 9 dataTwoGroups 1 100 with
    | none => rw [hr] at h2; cases h2
    | some hs =>
      rw [hr] at h2
      simp only [Option.map_some', Option.some.injEq, decide_eq_true_eq] at h2
      refine ⟨hs, rfl, h2.1, ?_⟩
      cases hp : HyperSpace.removeLowPopulatedHypercubes zeroFresh hs with
      | none => rw [hp] at h2; simp at h2
      | some r =>
        rw [hp] at h2
        simp only [Option.map_some', Option.some.injEq, decide_eq_true_eq] at h2
        simp only [Option.map_some', h2.2.1, h2.2.2.1, h2.2.2.2]
  obtain ⟨hs, hr, hu, hv⟩ := h1
  unfold pruned
  rw [routed_add _ _ _ _ _ hr k, Option.some_bind,
    HyperSpace.removeLowPopulatedHypercubes_untested fresh zeroFresh hs hu]
  exact hv


/-! ## The traversal of an `EntityIterator` -/

namespace EntityIterator

theorem objectsAt_some (hs : HyperSpace) (i : Nat) (objs : List DatasetEntity)
    (h : objectsAt hs i = some objs) :
    ∃ (hi : i < hs.high_populated_keys.length),
      hs.objectsOf (hs.high_populated_keys.get ⟨i, hi⟩) = objs := by
  unfold objectsAt at h
  split at h
  · cases h
  · rename_i k hk
    obtain ⟨hi, hget⟩ := List.get?_eq_some.mp hk
    refine ⟨hi, ?_⟩
    unfold HyperSpace.objectsOf
    rw [hget]
    cases hf : StrMap.find hs.hypercubes k with
    | none => rw [hf] at h; cases h
    | some c =>
      rw [hf] at h
      simpa [HyperCube.retrieveObjects] using h

theorem objectsAt_of_iterable (hs : HyperSpace) (hit : hs.iterable = true) (i : Nat)
    (hi : i < hs.high_populated_keys.length) :
    ∃ objs, objectsAt hs i = some objs ∧ objs ≠ [] := by
  unfold HyperSpace.iterable at hit
  rw [List.all_eq_true] at hit
  have hk := hit (hs.high_populated_keys.get ⟨i, hi⟩) (List.get_mem _ _ _)
  unfold objectsAt
  rw [List.get?_eq_get hi]
  simp only
  cases hf : StrMap.find hs.hypercubes (hs.high_populated_keys.get ⟨i, hi⟩) with
  | none => rw [hf] at hk; cases hk
  | some c =>
    rw [hf] at hk
    refine ⟨c.objects, rfl, ?_⟩
    intro hnil
    simp only [hnil, List.isEmpty_nil, Bool.not_true] at hk
    cases hk

theorem remaining_of_isEnd (hs : HyperSpace) (it : EntityIterator)
    (h : isEnd hs it = true) : remaining hs it = [] := by
  unfold isEnd at h
  unfold remaining
  rw [beq_iff_eq] at h
  rw [h, List.drop_length]
  simp

theorem remaining_eq (hs : HyperSpace) (it : EntityIterator) (objs : List DatasetEntity)
    (h : objectsAt hs it.cube_keys_iterator = some objs)
    (hlt : it.entities_iterator ≤ objs.length) :
    remaining hs it = objs.drop it.entities_iterator ++
      (hs.high_populated_keys.drop (it.cube_keys_iterator + 1)).flatMap hs.objectsOf := by
  obtain ⟨hi, hobj⟩ := objectsAt_some hs _ _ h
  unfold remaining
  rw [List.drop_eq_getElem_cons hi, List.flatMap_cons]
  have : hs.objectsOf hs.high_populated_keys[it.cube_keys_iterator] = objs := hobj
  rw [this, List.drop_append_of_le_length hlt]

/-- Moving a cursor that is on an object, in a space that can be iterated: the move is
defined, leaves the cursor at the end or on an object, and passes exactly that object. -/
theorem next_remaining (hs : HyperSpace) (hit : hs.iterable = true) (it : EntityIterator)
    (y : DatasetEntity) (h : deref hs it = some y) :
    ∃ moved, next hs it = some moved ∧ Valid hs moved ∧
      remaining hs it = y :: remaining hs moved := by
  unfold deref at h
  cases ho : objectsAt hs it.cube_keys_iterator with
  | none => rw [ho] at h; cases h
  | some objs =>
    rw [ho] at h
    simp only at h
    obtain ⟨hlt, hy⟩ := List.get?_eq_some.mp h
    obtain ⟨hi, _⟩ := objectsAt_some hs _ _ ho
    have hdrop : objs.drop it.entities_iterator = y :: objs.drop (it.entities_iterator + 1) := by
      rw [List.drop_eq_getElem_cons hlt]
      congr 1
    have hrem := remaining_eq hs it objs ho hlt.le
    unfold next
    rw [ho]
    simp only
    rw [if_neg (by omega)]
    by_cases hlast : it.entities_iterator + 1 = objs.length
    · rw [if_pos hlast]
      have hd1 : objs.drop (it.entities_iterator + 1) = [] := by
        rw [hlast, List.drop_length]
      by_cases hend : it.cube_keys_iterator + 1 = hs.high_populated_keys.length
      · rw [if_pos hend]
        refine ⟨_, rfl, Or.inl (by simp [isEnd, hend]), ?_⟩
        rw [hrem, hdrop, hd1, remaining_of_isEnd hs _ (by simp [isEnd, hend]), hend,
          List.drop_length]
        rfl
      · rw [if_neg hend]
        obtain ⟨objs1, ho1, hne1⟩ := objectsAt_of_iterable hs hit (it.cube_keys_iterator + 1)
          (by omega)
        rw [ho1]
        refine ⟨_, rfl, Or.inr ?_, ?_⟩
        · cases objs1 with
          | nil => exact absurd rfl hne1
          | cons o os =>
            refine ⟨o, ?_⟩
            unfold deref
            simp only [ho1]
            rfl
        · rw [hrem, hdrop, hd1]
          unfold remaining
          simp only [List.drop_zero, List.nil_append, List.cons_append]
    · rw [if_neg hlast]
      refine ⟨_, rfl, Or.inr ?_, ?_⟩
      · have hlt2 : it.entities_iterator + 1 < objs.length := by omega
        refine ⟨objs.get ⟨it.entities_iterator + 1, hlt2⟩, ?_⟩
        unfold deref
        simp only [ho]
        exact List.get?_eq_get hlt2
      · rw [hrem, hdrop, remaining_eq hs { it with entities_iterator := it.entities_iterator + 1 }
          objs ho (by simp only; omega)]
        rfl

/-- The member `begin` in a space that can be iterated and has a high populated key. -/
theorem begin_of_iterable (hs : HyperSpace) (hit : hs.iterable = true)
    (hne : hs.high_populated_keys ≠ []) :
    begin hs = some { cube_keys_iterator := 0, entities_iterator := 0 } ∧
    Valid hs { cube_keys_iterator := 0, entities_iterator := 0 } ∧
    remaining hs { cube_keys_iterator := 0, entities_iterator := 0 } = hs.iterated := by
  have hpos : 0 < hs.high_populated_keys.length := List.length_pos.mpr hne
  obtain ⟨objs, ho, hne1⟩ := objectsAt_of_iterable hs hit 0 hpos
  refine ⟨by simp [begin, ho], Or.inr ?_, ?_⟩
  · cases objs with
    | nil => exact absurd rfl hne1
    | cons o os => exact ⟨o, by simp [deref, ho]⟩
  · unfold remaining HyperSpace.iterated
    simp only [List.drop_zero]
    rfl

end EntityIterator


/-! ## The loops of `calculateDensity` and `calculateGradient` -/

namespace DenclueFunctions

/-- The loop of `calculateDensity` from a valid cursor: it ends when the bound exceeds the
number of entities left, with the sum of their influences added. -/
theorem densityLoop_eq (expl : ℚ → ℚ) (hs : HyperSpace) (hit : hs.iterable = true)
    (x : DatasetEntity) (sigma : ℚ) : ∀ (fuel : Nat) (it : EntityIterator) (acc : ℚ),
    EntityIterator.Valid hs it →
    densityLoop expl hs x sigma fuel it acc =
      if fuel ≤ (EntityIterator.remaining hs it).length then Run.noFuel
      else Run.value (acc + influenceSum expl x sigma (EntityIterator.remaining hs it)) := by
  intro fuel
  induction fuel with
  | zero => intro it acc _; simp [densityLoop]
  | succ fuel ih =>
    intro it acc hv
    unfold densityLoop
    by_cases hend : EntityIterator.isEnd hs it = true
    · rw [if_pos hend, EntityIterator.remaining_of_isEnd hs it hend]
      simp [influenceSum]
    · rw [if_neg hend]
      rcases hv with hv | ⟨y, hy⟩
      · exact absurd hv hend
      · obtain ⟨moved, hn, hvm, hrem⟩ := EntityIterator.next_remaining hs hit it y hy
        rw [hy, hn]
        simp only
        rw [ih moved _ hvm, hrem]
        simp only [List.length_cons, Nat.add_le_add_iff_right, influenceSum, List.map_cons,
          List.sum_cons, add_assoc]

/-- The body of the loop of `calculateGradient` for the entity `y`. -/
theorem gradient_foldl (expl : ℚ → ℚ) (x : DatasetEntity) (sigma : ℚ) :
    ∀ (ys : List DatasetEntity) (acc : List ℚ), acc.length = x.getNumOfDimensions →
    ys.foldl (fun g y => (List.range x.getNumOfDimensions).map (fun i =>
        g.getD i 0 + (y.getComponentValue i - x.getComponentValue i) *
          calculateInfluence expl x y sigma)) acc =
      (List.range x.getNumOfDimensions).map (fun i => acc.getD i 0 +
        (ys.map (fun y => (y.getComponentValue i - x.getComponentValue i) *
          calculateInfluence expl x y sigma)).sum) := by
  intro ys
  induction ys with
  | nil =>
    intro acc hacc
    simp only [List.foldl_nil, List.map_nil, List.sum_nil, add_zero]
    apply List.ext_getElem
    · simp [hacc]
    · intro i h1 h2
      simp only [List.getElem_map, List.getElem_range]
      rw [List.getD_eq_getElem?_getD, List.getElem?_eq_getElem h1]
      rfl
  | cons y ys ih =>
    intro acc hacc
    rw [List.foldl_cons, ih _ (by simp)]
    apply List.map_congr_left
    intro i hi
    rw [List.mem_range] at hi
    simp only [List.map_cons, List.sum_cons]
    rw [List.getD_eq_getElem?_getD, List.getElem?_map, List.getElem?_range hi]
    simp only [Option.map_some', Option.getD_some]
    ring

/-- The loop of `calculateGradient` from a valid cursor. -/
theorem gradientLoop_eq (expl : ℚ → ℚ) (hs : HyperSpace) (hit : hs.iterable = true)
    (x : DatasetEntity) (sigma : ℚ) : ∀ (fuel : Nat) (it : EntityIterator) (acc : List ℚ),
    EntityIterator.Valid hs it →
    gradientLoop expl hs x sigma fuel it acc =
      if fuel ≤ (EntityIterator.remaining hs it).length then Run.noFuel
      else Run.value ((EntityIterator.remaining hs it).foldl
        (fun g y => (List.range x.getNumOfDimensions).map (fun i =>
          g.getD i 0 + (y.getComponentValue i - x.getComponentValue i) *
            calculateInfluence expl x y sigma)) acc) := by
  intro fuel
  induction fuel with
  | zero => intro it acc _; simp [gradientLoop]
  | succ fuel ih =>
    intro it acc hv
    unfold gradientLoop
    by_cases hend : EntityIterator.isEnd hs it = true
    · rw [if_pos hend, EntityIterator.remaining_of_isEnd hs it hend]
      simp
    · rw [if_neg hend]
      rcases hv with hv | ⟨y, hy⟩
      · exact absurd hv hend
      · obtain ⟨moved, hn, hvm, hrem⟩ := EntityIterator.next_remaining hs hit it y hy
        rw [hy, hn]
        simp only
        rw [ih moved _ hvm, hrem]
        simp only [List.length_cons, Nat.add_le_add_iff_right, List.foldl_cons]

/-- The function `calculateDensity` from `begin()` in a space that can be iterated. -/
theorem calculateDensity_eq (expl : ℚ → ℚ) (hs : HyperSpace) (hit : hs.iterable = true)
    (hne : hs.high_populated_keys ≠ []) (x : DatasetEntity) (sigma : ℚ) (fuel : Nat) :
    calculateDensity expl fuel hs x { cube_keys_iterator := 0, entities_iterator := 0 } sigma =
      if fuel ≤ hs.iterated.length then Run.noFuel
      else Run.value (influenceSum expl x sigma hs.iterated) := by
  obtain ⟨_, hv, hrem⟩ := EntityIterator.begin_of_iterable hs hit hne
  unfold calculateDensity
  rw [densityLoop_eq expl hs hit x sigma fuel _ 0 hv, hrem, zero_add]

/-- The function `calculateGradient` from `begin()` in a space that can be iterated. -/
theorem calculateGradient_eq (expl : ℚ → ℚ) (hs : HyperSpace) (hit : hs.iterable = true)
    (hne : hs.high_populated_keys ≠ []) (x : DatasetEntity) (sigma : ℚ) (fuel : Nat) :
    calculateGradient expl fuel hs x { cube_keys_iterator := 0, entities_iterator := 0 } sigma =
      if fuel ≤ hs.iterated.length then Run.noFuel
      else Run.value (gradientSum expl x sigma hs.iterated) := by
  obtain ⟨_, hv, hrem⟩ := EntityIterator.begin_of_iterable hs hit hne
  unfold calculateGradient
  rw [gradientLoop_eq expl hs hit x sigma fuel _ _ hv, hrem,
    gradient_foldl expl x sigma _ _ (by simp)]
  unfold gradientSum
  congr 2
  apply List.map_congr_left
  intro i hi
  rw [List.mem_range] at hi
  rw [List.getD_eq_getElem?_getD, List.getElem?_replicate]
  simp [hi]

end DenclueFunctions


/-! ## The squared distance and the entity of the gradient -/

namespace DatasetEntity

theorem sub_attributes (a b : DatasetEntity) :
    (sub a b).attributes = (componentDifferences a b).map textValue :=
  subFresh_attributes _ a b

theorem distanceSquared_eq (a b : DatasetEntity) :
    distanceSquared a b = ((componentDifferences a b).map (fun v => textValue v ^ 2)).sum := by
  unfold distanceSquared component_squares_sum
  rw [sub_attributes, List.map_map]
  rfl

theorem componentDifferences_swap (a b : DatasetEntity) :
    componentDifferences b a = (componentDifferences a b).map (fun v => -v) := by
  unfold componentDifferences
  rw [List.map_map, Nat.min_comm]
  apply List.map_congr_left
  intro i _
  simp

/-- The squared distance does not depend on the order of the two entities. -/
theorem distanceSquared_comm (a b : DatasetEntity) :
    distanceSquared a b = distanceSquared b a := by
  rw [distanceSquared_eq, distanceSquared_eq, componentDifferences_swap a b, List.map_map]
  congr 1
  apply List.map_congr_left
  intro v _
  simp only [Function.comp_apply, textValue_neg, neg_sq]

theorem sum_sq_nonneg (l : List ℚ) : 0 ≤ (l.map (fun v => v ^ 2)).sum := by
  induction l with
  | nil => simp
  | cons x xs ih =>
    simp only [List.map_cons, List.sum_cons]
    positivity

theorem sum_sq_eq_zero_iff (l : List ℚ) :
    (l.map (fun v => v ^ 2)).sum = 0 ↔ ∀ v ∈ l, v = 0 := by
  induction l with
  | nil => simp
  | cons x xs ih =>
    simp only [List.map_cons, List.sum_cons, List.mem_cons, forall_eq_or_imp]
    have h1 := sum_sq_nonneg xs
    have h2 : 0 ≤ x ^ 2 := sq_nonneg x
    constructor
    · intro h
      have hx : x ^ 2 = 0 := by linarith
      have hxs : (xs.map (fun v => v ^ 2)).sum = 0 := by linarith
      exact ⟨pow_eq_zero_iff (by norm_num) |>.mp hx, ih.mp hxs⟩
    · rintro ⟨hx, hxs⟩
      rw [hx, ih.mpr hxs]
      norm_num

end DatasetEntity

namespace DenclueFunctions

theorem gradientLoop_length (expl : ℚ → ℚ) (hs : HyperSpace) (x : DatasetEntity) (sigma : ℚ) :
    ∀ (fuel : Nat) (it : EntityIterator) (acc g : List ℚ),
    acc.length = x.getNumOfDimensions →
    gradientLoop expl hs x sigma fuel it acc = Run.value g →
    g.length = x.getNumOfDimensions := by
  intro fuel
  induction fuel with
  | zero => intro it acc g _ h; simp [gradientLoop] at h
  | succ fuel ih =>
    intro it acc g hacc h
    unfold gradientLoop at h
    split at h
    · cases h
      exact hacc
    · split at h
      · cases h
      · split at h
        · cases h
        · exact ih _ _ g (by simp) h

theorem calculateGradient_length (expl : ℚ → ℚ) (fuel : Nat) (hs : HyperSpace)
    (x : DatasetEntity) (it : EntityIterator) (sigma : ℚ) (g : List ℚ)
    (h : calculateGradient expl fuel hs x it sigma = Run.value g) :
    g.length = x.getNumOfDimensions :=
  gradientLoop_length expl hs x sigma fuel it _ g (by simp) h

/-- The entity built from the text of a gradient with one value per component holds the
values read back from that text. -/
theorem gradEntity_attributes (d : Nat) (g : List ℚ) (h : g.length = d) :
    (gradEntity d g).attributes = g.map textValue := by
  unfold gradEntity DatasetEntity.buildEntityFromString DatasetEntity.new
  simp only [List.length_map, List.length_range]
  cases g with
  | nil =>
    simp only [List.length_nil] at h
    subst h
    rfl
  | cons v vs =>
    rw [DatasetEntity.buildLoop_writeCsv_eol d (v :: vs) 0 _ (by simp) (by omega)]
    exact storeFrom_zero_eq _ _ (by simp [← h])

/-- The squared norm of the entity of the gradient is positive exactly when some component
of the gradient is not zero. -/
theorem gradEntity_norm_pos_iff (d : Nat) (g : List ℚ) (h : g.length = d) :
    0 < (gradEntity d g).component_squares_sum ↔ ∃ v ∈ g, v ≠ 0 := by
  unfold DatasetEntity.component_squares_sum
  rw [gradEntity_attributes d g h]
  have h0 := DatasetEntity.sum_sq_nonneg (g.map textValue)
  have hz := DatasetEntity.sum_sq_eq_zero_iff (g.map textValue)
  constructor
  · intro hpos
    by_contra hall
    push_neg at hall
    have : ((g.map textValue).map (fun v => v ^ 2)).sum = 0 := by
      rw [hz]
      intro v hv
      obtain ⟨w, hw, rfl⟩ := List.mem_map.mp hv
      rw [hall w hw, textValue_zero]
    linarith
  · rintro ⟨v, hv, hne⟩
    apply lt_of_le_of_ne h0
    intro heq
    have := hz.mp heq.symm (textValue v) (List.mem_map_of_mem _ hv)
    exact hne ((textValue_eq_zero_iff v).mp this)

end DenclueFunctions


/-! ## The example spaces of the density claims -/

set_option maxRecDepth 100000 in
theorem spaceSym_pruned : ∀ k, pruned zeroFresh (2 + k)
    (Dataset.ofEntities 1 [point [1 / 2], point [1], point [3 / 2]]) (1 / 2) 1 = some spaceSym :=
  pruned_add _ _ _ _ _ _ (by decide!)

set_option maxRecDepth 100000 in
theorem spaceLow_pruned : ∀ k, pruned zeroFresh (3 + k)
    (Dataset.ofEntities 1 [point [1 / 5], point [2 / 5], point [6 / 5], point [7 / 5],
      point [5 / 2]]) (1 / 2) 4 = some spaceLow :=
  pruned_add _ _ _ _ _ _ (by decide!)

set_option maxRecDepth 100000 in
/-- In `spaceSym` the gradient at the point `1` is zero, whatever the exponential function:
the points `0.5` and `1.5` pull with the same weight in opposite directions. -/
theorem gradientSum_spaceSym (expl : ℚ → ℚ) :
    DenclueFunctions.gradientSum expl (point [1]) (1 / 2) spaceSym.iterated = [0] := by
  have hi : spaceSym.iterated = [point [1 / 2], point [1], point [3 / 2]] := by decide!
  have h1 : DatasetEntity.distanceSquared (point [1]) (point [1 / 2]) = 1 / 4 := by decide!
  have h2 : DatasetEntity.distanceSquared (point [1]) (point [1]) = 0 := by decide!
  have h3 : DatasetEntity.distanceSquared (point [1]) (point [3 / 2]) = 1 / 4 := by decide!
  have hd : (point [1]).getNumOfDimensions = 1 := rfl
  have hr : List.range 1 = [0] := by decide
  have c1 : (point [1 / 2]).getComponentValue 0 = 1 / 2 := rfl
  have c2 : (point [1]).getComponentValue 0 = 1 := rfl
  have c3 : (point [3 / 2]).getComponentValue 0 = 3 / 2 := rfl
  unfold DenclueFunctions.gradientSum DenclueFunctions.calculateInfluence
  rw [hi, hd, hr]
  simp only [List.map_cons, List.map_nil, List.sum_cons, List.sum_nil, h1, h2, h3, c1, c2, c3,
    if_true, if_neg (show (1 / 4 : ℚ) ≠ 0 by norm_num)]
  congr 1
  ring

/-! ## Density, influence and gradient -/

/-- What `calculateDensity` computes.  In every space in which every key of
`high_populated_keys` has a cube with an object in the map, and there is such a key,
`begin()` is defined and `calculateDensity(x, iter, sigma)` with `iter` positioned by
`begin()` returns, for every bound above the number of iterated entities, the sum of
`calculateInfluence(x, y, sigma)` over the entities `y` of the cubes of
`high_populated_keys`. -/
theorem density_sums_iterated (expl : ℚ → ℚ) (hs : HyperSpace) (hit : hs.iterable = true)
    (hne : hs.high_populated_keys ≠ []) (x : DatasetEntity) (sigma : ℚ) (k : Nat) :
    EntityIterator.begin hs = some { cube_keys_iterator := 0, entities_iterator := 0 } ∧
    DenclueFunctions.calculateDensity expl (hs.iterated.length + 1 + k) hs x
      { cube_keys_iterator := 0, entities_iterator := 0 } sigma =
    Run.value ((hs.iterated.map
      (fun y => DenclueFunctions.calculateInfluence expl x y sigma)).sum) := by
  refine ⟨(EntityIterator.begin_of_iterable hs hit hne).1, ?_⟩
  rw [DenclueFunctions.calculateDensity_eq expl hs hit hne x sigma, if_neg (by omega)]
  rfl

set_option maxRecDepth 100000 in
theorem density_sums_iterated_witness :
    spaceLow.iterable = true ∧ spaceLow.high_populated_keys ≠ [] ∧
    EntityIterator.begin spaceLow = some { cube_keys_iterator := 0, entities_iterator := 0 } ∧
    DenclueFunctions.calculateDensity expSample (spaceLow.iterated.length + 1 + 0) spaceLow
      (point [1 / 5]) { cube_keys_iterator := 0, entities_iterator := 0 } (1 / 2) =
    Run.value ((spaceLow.iterated.map
      (fun y => DenclueFunctions.calculateInfluence expSample (point [1 / 5]) y (1 / 2))).sum) :=
  ⟨by decide!, by decide, density_sums_iterated expSample spaceLow (by decide!) (by decide)
    (point [1 / 5]) (1 / 2) 0⟩

set_option maxRecDepth 100000 in
/-- C15 (density sums over the retained points).  `spaceLow` is the pruned space of the
points `0.2`, `0.4`, `1.2`, `1.4`, `2.5` (`sigma = 0.5`, `xi = 4`, fresh arrays holding
zeros); the cube of `2.5` is kept in the map as a neighbor of a high populated cube, but it
is not high populated itself.  For no exponential function without zeros and no bound does
`calculateDensity` at the point `0.2`, from `begin()`, return the sum of the influences over
the retained set: the cursor, documented as an iterator over all entities of all
hypercubes, runs over the cubes of `high_populated_keys` only and does not reach the point
`2.5`.  For every exponential function and every bound of at least 5 it returns the sum
over the four other points. -/
theorem density_skips_retained_cube :
    (∀ k, pruned zeroFresh (3 + k)
      (Dataset.ofEntities 1 [point [1 / 5], point [2 / 5], point [6 / 5], point [7 / 5],
        point [5 / 2]]) (1 / 2) 4 = some spaceLow) ∧
    point [5 / 2] ∈ spaceLow.retained ∧ point [5 / 2] ∉ spaceLow.iterated ∧
    (¬ ∃ (expl : ℚ → ℚ) (fuel : Nat), (∀ t, expl t ≠ 0) ∧
      DenclueFunctions.calculateDensity expl fuel spaceLow (point [1 / 5])
        { cube_keys_iterator := 0, entities_iterator := 0 } (1 / 2) =
      Run.value ((spaceLow.retained.map
        (fun y => DenclueFunctions.calculateInfluence expl (point [1 / 5]) y (1 / 2))).sum)) ∧
    spaceLow.retained =
      [point [1 / 5], point [2 / 5], point [6 / 5], point [7 / 5], point [5 / 2]] ∧
    (∀ (expl : ℚ → ℚ) (k : Nat),
      DenclueFunctions.calculateDensity expl (5 + k) spaceLow (point [1 / 5])
        { cube_keys_iterator := 0, entities_iterator := 0 } (1 / 2) =
      Run.value (([point [1 / 5], point [2 / 5], point [6 / 5], point [7 / 5]].map
        (fun y => DenclueFunctions.calculateInfluence expl (point [1 / 5]) y (1 / 2))).sum)) := by
  refine ⟨spaceLow_pruned, by decide!, by decide!, ?_, by decide!, ?_⟩
  swap
  · intro expl k
    have hi : spaceLow.iterated =
        [point [1 / 5], point [2 / 5], point [6 / 5], point [7 / 5]] := by decide!
    rw [DenclueFunctions.calculateDensity_eq expl spaceLow (by decide!) (by decide), hi,
      if_neg (by simp only [List.length_cons, List.length_nil]; omega)]
    rfl
  rintro ⟨expl, fuel, hexp, h⟩
  rw [DenclueFunctions.calculateDensity_eq expl spaceLow (by decide!) (by decide)] at h
  split at h
  · cases h
  · have hi : spaceLow.iterated =
        [point [1 / 5], point [2 / 5], point [6 / 5], point [7 / 5]] := by decide!
    have hr : spaceLow.retained =
        [point [1 / 5], point [2 / 5], point [6 / 5], point [7 / 5], point [5 / 2]] := by
      decide!
    have hd : DatasetEntity.distanceSquared (point [1 / 5]) (point [5 / 2]) = 529 / 100 := by
      decide!
    rw [hi, hr] at h
    simp only [Run.value.injEq, DenclueFunctions.influenceSum, List.map_cons, List.map_nil,
      List.sum_cons, List.sum_nil] at h
    have h5 : DenclueFunctions.calculateInfluence expl (point [1 / 5]) (point [5 / 2]) (1 / 2)
        = 0 := by linarith
    unfold DenclueFunctions.calculateInfluence at h5
    rw [hd, if_neg (by norm_num)] at h5
    exact hexp _ h5

/-- C17 (influence symmetry).  For all entities `x`, `y` and every `sigma`,
`calculateInfluence(x, y, sigma) = calculateInfluence(y, x, sigma)`, whatever the exponential
function of the library. -/
theorem influence_symmetric (expl : ℚ → ℚ) (x y : DatasetEntity) (sigma : ℚ) :
    DenclueFunctions.calculateInfluence expl x y sigma =
      DenclueFunctions.calculateInfluence expl y x sigma := by
  unfold DenclueFunctions.calculateInfluence
  rw [DatasetEntity.distanceSquared_comm x y]

/-- What `calculateGradient` computes.  In every space that can be iterated,
`calculateGradient(x, iter, sigma)` from `begin()` returns the vector with components
`sum over y of (y[i] - x[i]) * calculateInfluence(x, y, sigma)`, and the squared norm of
`grad_entity`, which `getDensityAttractor` asserts to be positive, is positive if and only
if some component of that vector is not zero. -/
theorem gradient_norm_positive_iff (expl : ℚ → ℚ) (hs : HyperSpace)
    (hit : hs.iterable = true) (hne : hs.high_populated_keys ≠ []) (x : DatasetEntity)
    (sigma : ℚ) (k : Nat) :
    DenclueFunctions.calculateGradient expl (hs.iterated.length + 1 + k) hs x
        { cube_keys_iterator := 0, entities_iterator := 0 } sigma =
      Run.value (DenclueFunctions.gradientSum expl x sigma hs.iterated) ∧
    (0 < (DenclueFunctions.gradEntity x.getNumOfDimensions
        (DenclueFunctions.gradientSum expl x sigma hs.iterated)).component_squares_sum ↔
      ∃ i, i < x.getNumOfDimensions ∧
        (hs.iterated.map (fun y => (y.getComponentValue i - x.getComponentValue i) *
          DenclueFunctions.calculateInfluence expl x y sigma)).sum ≠ 0) := by
  constructor
  · rw [DenclueFunctions.calculateGradient_eq expl hs hit hne x sigma, if_neg (by omega)]
  · rw [DenclueFunctions.gradEntity_norm_pos_iff _ _ (by simp [DenclueFunctions.gradientSum])]
    unfold DenclueFunctions.gradientSum
    constructor
    · rintro ⟨v, hv, hv0⟩
      obtain ⟨i, hi, rfl⟩ := List.mem_map.mp hv
      exact ⟨i, List.mem_range.mp hi, hv0⟩
    · rintro ⟨i, hi, hv0⟩
      exact ⟨_, List.mem_map.mpr ⟨i, List.mem_range.mpr hi, rfl⟩, hv0⟩


set_option maxRecDepth 100000 in
theorem gradient_norm_positive_iff_witness :
    spaceLow.iterable = true ∧ spaceLow.high_populated_keys ≠ [] ∧
    (DenclueFunctions.calculateGradient expSample (spaceLow.iterated.length + 1 + 0) spaceLow
        (point [1 / 5]) { cube_keys_iterator := 0, entities_iterator := 0 } (1 / 2) =
      Run.value (DenclueFunctions.gradientSum expSample (point [1 / 5]) (1 / 2)
        spaceLow.iterated) ∧
    (0 < (DenclueFunctions.gradEntity (point [1 / 5]).getNumOfDimensions
        (DenclueFunctions.gradientSum expSample (point [1 / 5]) (1 / 2)
          spaceLow.iterated)).component_squares_sum ↔
      ∃ i, i < (point [1 / 5]).getNumOfDimensions ∧
        (spaceLow.iterated.map (fun y =>
          (y.getComponentValue i - (point [1 / 5]).getComponentValue i) *
            DenclueFunctions.calculateInfluence expSample (point [1 / 5]) y (1 / 2))).sum ≠ 0)) :=
  ⟨by decide!, by decide, gradient_norm_positive_iff expSample spaceLow (by decide!) (by decide)
    (point [1 / 5]) (1 / 2) 0⟩

/-- In `spaceSym` the function `calculateGradient` at the point `1` returns the zero vector
for every bound above the three iterated entities. -/
theorem calculateGradient_spaceSym (expl : ℚ → ℚ) (fuel : Nat) :
    DenclueFunctions.calculateGradient expl fuel spaceSym (point [1])
      { cube_keys_iterator := 0, entities_iterator := 0 } (1 / 2) =
    if fuel ≤ 3 then Run.noFuel else Run.value [0] := by
  rw [DenclueFunctions.calculateGradient_eq expl spaceSym (by decide!) (by decide),
    gradientSum_spaceSym]
  rfl

namespace DenclueFunctions

/-- One iteration of the loop of `getDensityAttractor` at an iterate whose gradient has the
norm zero: the assertion fails. -/
theorem climb_zero_gradient (sqrt expl : ℚ → ℚ) (fuel : Nat) (hs : HyperSpace)
    (entity : DatasetEntity) (initial_iter : EntityIterator) (sigma : ℚ) (n : Nat)
    (x_k : DatasetEntity) (hdim : x_k.getNumOfDimensions = entity.getNumOfDimensions)
    (g : List ℚ) (hg : calculateGradient expl fuel hs x_k initial_iter sigma = Run.value g)
    (hz : (g.map (fun v => v ^ 2)).sum = 0) :
    climb sqrt expl fuel hs entity initial_iter sigma (n + 1) x_k = Run.value none := by
  have hlen : g.length = entity.getNumOfDimensions := by
    rw [← hdim]
    exact calculateGradient_length expl fuel hs x_k initial_iter sigma g hg
  have hnorm : (gradEntity entity.getNumOfDimensions g).component_squares_sum ≤ 0 := by
    apply not_lt.mp
    rw [gradEntity_norm_pos_iff _ _ hlen]
    rintro ⟨v, hv, hv0⟩
    exact hv0 ((DatasetEntity.sum_sq_eq_zero_iff g).mp hz v hv)
  unfold climb
  rw [hg]
  simp only
  rw [if_pos hnorm]

end DenclueFunctions

set_option maxRecDepth 100000 in
/-- C19 (the gradient never vanishes).  `spaceSym` is the pruned space of the points `0.5`,
`1`, `1.5` (`sigma = 0.5`, `xi = 1`).  Its iterated set holds the point `0.5`, which differs
from `x = 1`, and for no exponential function and no bound does `calculateGradient` at `x`
return a vector whose `grad_entity` has a positive norm: the pulls of `0.5` and `1.5`
cancel, the gradient is the zero vector for every bound of at least 4, and
`getDensityAttractor` for the seed `1` ends at its failed assertion `grad_entity_norm > 0`,
with any library functions. -/
theorem gradient_vanishes_between_two_points :
    (∀ k, pruned zeroFresh (2 + k)
      (Dataset.ofEntities 1 [point [1 / 2], point [1], point [3 / 2]]) (1 / 2) 1 =
        some spaceSym) ∧
    (point [1 / 2] ∈ spaceSym.iterated ∧ (point [1 / 2]).attributes ≠ (point [1]).attributes) ∧
    (¬ ∃ (expl : ℚ → ℚ) (fuel : Nat) (g : List ℚ),
      DenclueFunctions.calculateGradient expl fuel spaceSym (point [1])
        { cube_keys_iterator := 0, entities_iterator := 0 } (1 / 2) = Run.value g ∧
      0 < (DenclueFunctions.gradEntity 1 g).component_squares_sum) ∧
    (∀ (expl : ℚ → ℚ) (k : Nat),
      DenclueFunctions.calculateGradient expl (4 + k) spaceSym (point [1])
        { cube_keys_iterator := 0, entities_iterator := 0 } (1 / 2) = Run.value [0]) ∧
    (∀ (sqrt expl : ℚ → ℚ) (k : Nat),
      DenclueFunctions.getDensityAttractor sqrt expl (4 + k) (point [1]) spaceSym
        { cube_keys_iterator := 0, entities_iterator := 0 } (1 / 2) = Run.value none) := by
  have hgrad : ∀ (expl : ℚ → ℚ) (k : Nat),
      DenclueFunctions.calculateGradient expl (4 + k) spaceSym (point [1])
        { cube_keys_iterator := 0, entities_iterator := 0 } (1 / 2) = Run.value [0] := by
    intro expl k
    rw [calculateGradient_spaceSym, if_neg (by omega)]
  refine ⟨spaceSym_pruned, ⟨by decide!, by decide!⟩, ?_, hgrad, fun sqrt expl k => ?_⟩
  · rintro ⟨expl, fuel, g, hg, hpos⟩
    rw [calculateGradient_spaceSym] at hg
    split at hg
    · cases hg
    · cases hg
      have h0 : (DenclueFunctions.gradEntity 1 [0]).component_squares_sum = 0 := by decide!
      rw [h0] at hpos
      exact lt_irrefl 0 hpos
  · exact DenclueFunctions.climb_zero_gradient sqrt expl (4 + k) spaceSym (point [1]) _ (1 / 2)
      998 (point [1]) rfl [0] (hgrad expl k) (by norm_num)

namespace DenclueFunctions

/-- The loop of `getDensityAttractor` in terms of one pass of its body. -/
theorem climb_succ (sqrt expl : ℚ → ℚ) (fuel : Nat) (hs : HyperSpace) (entity : DatasetEntity)
    (it : EntityIterator) (sigma : ℚ) (n : Nat) (x : DatasetEntity) :
    climb sqrt expl fuel hs entity it sigma (n + 1) x =
      match climbStep sqrt expl fuel hs entity it sigma x with
      | Run.noFuel => Run.noFuel
      | Run.undefined => Run.undefined
      | Run.value none => Run.value none
      | Run.value (some y) =>
        if y.getDensity < x.getDensity then Run.value (some x)
        else climb sqrt expl fuel hs entity it sigma n y := by
  rw [climb]
  unfold climbStep
  cases calculateGradient expl fuel hs x it sigma with
  | noFuel => rfl
  | undefined => rfl
  | value g =>
    simp only
    by_cases hn : (gradEntity entity.getNumOfDimensions g).component_squares_sum ≤ 0
    · rw [if_pos hn, if_pos hn]
    · rw [if_neg hn, if_neg hn]
      cases EntityIterator.begin hs with
      | none => rfl
      | some first =>
        simp only
        cases calculateDensity expl fuel hs (DatasetEntity.add x
            ((gradEntity entity.getNumOfDimensions g).scale
              (1 / sqrt (gradEntity entity.getNumOfDimensions g).component_squares_sum)))
            first sigma with
        | noFuel => rfl
        | undefined => rfl
        | value d => rfl

/-- A pass that finds a lower density ends the loop with the iterate it started from. -/
theorem climb_of_topAt (sqrt expl : ℚ → ℚ) (fuel : Nat) (hs : HyperSpace)
    (entity : DatasetEntity) (it : EntityIterator) (sigma : ℚ) (n : Nat) (x : DatasetEntity)
    (h : TopAt sqrt expl fuel hs entity it sigma x) :
    climb sqrt expl fuel hs entity it sigma (n + 1) x = Run.value (some x) := by
  obtain ⟨y, hy, hlt⟩ := h
  rw [climb_succ, hy]
  simp only
  rw [if_pos hlt]

/-- The loop entered at the seed with `j + m` passes left goes on, after `j` passes that
do not lower the density, with `m` passes left. -/
theorem climb_of_reaches (sqrt expl : ℚ → ℚ) (fuel : Nat) (hs : HyperSpace)
    (entity : DatasetEntity) (it : EntityIterator) (sigma : ℚ) (m : Nat) :
    ∀ (j : Nat) (x z : DatasetEntity), Reaches sqrt expl fuel hs entity it sigma j x z →
      climb sqrt expl fuel hs entity it sigma (j + m) x =
        climb sqrt expl fuel hs entity it sigma m z := by
  intro j
  induction j with
  | zero =>
    intro x z h
    have hz : z = x := h
    rw [hz, Nat.zero_add]
  | succ j ih =>
    intro x z h
    obtain ⟨y, hy, hge, hr⟩ := h
    rw [show j + 1 + m = (j + m) + 1 by omega, climb_succ, hy]
    simp only
    rw [if_neg hge]
    exact ih y z hr

/-- The iterate after `j` passes is determined by the seed. -/
theorem reaches_unique (sqrt expl : ℚ → ℚ) (fuel : Nat) (hs : HyperSpace)
    (entity : DatasetEntity) (it : EntityIterator) (sigma : ℚ) :
    ∀ (j : Nat) (x z z' : DatasetEntity), Reaches sqrt expl fuel hs entity it sigma j x z →
      Reaches sqrt expl fuel hs entity it sigma j x z' → z = z' := by
  intro j
  induction j with
  | zero =>
    intro x z z' h h'
    have hz : z = x := h
    have hz' : z' = x := h'
    rw [hz, hz']
  | succ j ih =>
    intro x z z' h h'
    obtain ⟨y, hy, _, hr⟩ := h
    obtain ⟨y', hy', _, hr'⟩ := h'
    rw [hy] at hy'
    cases hy'
    exact ih y z z' hr hr'

/-- An iterate of a climb that ends by a lower density at its `j`-th iterate comes no later
than that iterate, and the rest of the climb runs from it. -/
theorem reaches_before_top (sqrt expl : ℚ → ℚ) (fuel : Nat) (hs : HyperSpace)
    (entity : DatasetEntity) (it : EntityIterator) (sigma : ℚ) :
    ∀ (i j : Nat) (x z e : DatasetEntity), Reaches sqrt expl fuel hs entity it sigma i x z →
      Reaches sqrt expl fuel hs entity it sigma j x e →
      TopAt sqrt expl fuel hs entity it sigma e →
      i ≤ j ∧ Reaches sqrt expl fuel hs entity it sigma (j - i) z e := by
  intro i
  induction i with
  | zero =>
    intro j x z e hz he _
    have hzx : z = x := hz
    rw [hzx]
    exact ⟨Nat.zero_le _, he⟩
  | succ i ih =>
    intro j x z e hz he htop
    obtain ⟨y, hy, hge, hr⟩ := hz
    cases j with
    | zero =>
      have hex : e = x := he
      rw [hex] at htop
      obtain ⟨y', hy', hlt⟩ := htop
      rw [hy] at hy'
      cases hy'
      exact absurd hlt hge
    | succ j =>
      obtain ⟨y', hy', _, hr'⟩ := he
      rw [hy] at hy'
      cases hy'
      obtain ⟨hle, hre⟩ := ih j y z e hr hr' htop
      refine ⟨Nat.succ_le_succ hle, ?_⟩
      rw [Nat.succ_sub_succ]
      exact hre

/-- The iterate at which a climb ends by a lower density is determined by any iterate of
the climb. -/
theorem top_unique (sqrt expl : ℚ → ℚ) (fuel : Nat) (hs : HyperSpace)
    (entity : DatasetEntity) (it : EntityIterator) (sigma : ℚ) (m m' : Nat)
    (z e e' : DatasetEntity) (h : Reaches sqrt expl fuel hs entity it sigma m z e)
    (ht : TopAt sqrt expl fuel hs entity it sigma e)
    (h' : Reaches sqrt expl fuel hs entity it sigma m' z e')
    (ht' : TopAt sqrt expl fuel hs entity it sigma e') : e = e' := by
  obtain ⟨h1, _⟩ := reaches_before_top sqrt expl fuel hs entity it sigma m' m z e' e h' h ht
  obtain ⟨h2, _⟩ := reaches_before_top sqrt expl fuel hs entity it sigma m m' z e e' h h' ht'
  have hm : m = m' := Nat.le_antisymm h2 h1
  subst hm
  exact reaches_unique sqrt expl fuel hs entity it sigma m z e e' h h'

/-- The result of the loop, when it is an entity, is an iterate of the climb reached within
the number of passes allowed. -/
theorem reaches_of_climb (sqrt expl : ℚ → ℚ) (fuel : Nat) (hs : HyperSpace)
    (entity : DatasetEntity) (it : EntityIterator) (sigma : ℚ) :
    ∀ (n : Nat) (x e : DatasetEntity),
      climb sqrt expl fuel hs entity it sigma n x = Run.value (some e) →
      ∃ j, j ≤ n ∧ Reaches sqrt expl fuel hs entity it sigma j x e ∧
        (j = n ∨ (j < n ∧ TopAt sqrt expl fuel hs entity it sigma e)) := by
  intro n
  induction n with
  | zero =>
    intro x e h
    rw [climb] at h
    cases h
    exact ⟨0, Nat.le_refl _, rfl, Or.inl rfl⟩
  | succ n ih =>
    intro x e h
    rw [climb_succ] at h
    cases hs1 : climbStep sqrt expl fuel hs entity it sigma x with
    | noFuel => rw [hs1] at h; cases h
    | undefined => rw [hs1] at h; cases h
    | value r =>
      cases r with
      | none => rw [hs1] at h; cases h
      | some y =>
        rw [hs1] at h
        simp only at h
        by_cases hlt : y.getDensity < x.getDensity
        · rw [if_pos hlt] at h
          cases h
          exact ⟨0, Nat.zero_le _, rfl, Or.inr ⟨Nat.succ_pos _, y, hs1, hlt⟩⟩
        · rw [if_neg hlt] at h
          obtain ⟨j, hj, hr, hor⟩ := ih y e h
          refine ⟨j + 1, Nat.succ_le_succ hj, ⟨y, hs1, hlt, hr⟩, ?_⟩
          rcases hor with hjn | htop
          · exact Or.inl (by rw [hjn])
          · exact Or.inr ⟨Nat.succ_lt_succ htop.1, htop.2⟩

/-- The failure of the assertion comes at an iterate of the climb, before the cap. -/
theorem reaches_of_climb_none (sqrt expl : ℚ → ℚ) (fuel : Nat) (hs : HyperSpace)
    (entity : DatasetEntity) (it : EntityIterator) (sigma : ℚ) :
    ∀ (n : Nat) (x : DatasetEntity),
      climb sqrt expl fuel hs entity it sigma n x = Run.value none →
      ∃ j z, j < n ∧ Reaches sqrt expl fuel hs entity it sigma j x z ∧
        climbStep sqrt expl fuel hs entity it sigma z = Run.value none := by
  intro n
  induction n with
  | zero =>
    intro x h
    rw [climb] at h
    cases h
  | succ n ih =>
    intro x h
    rw [climb_succ] at h
    cases hs1 : climbStep sqrt expl fuel hs entity it sigma x with
    | noFuel => rw [hs1] at h; cases h
    | undefined => rw [hs1] at h; cases h
    | value r =>
      cases r with
      | none => exact ⟨0, x, Nat.succ_pos _, rfl, hs1⟩
      | some y =>
        rw [hs1] at h
        simp only at h
        by_cases hlt : y.getDensity < x.getDensity
        · rw [if_pos hlt] at h
          cases h
        · rw [if_neg hlt] at h
          obtain ⟨j, z, hj, hr, hz⟩ := ih y h
          exact ⟨j + 1, z, Nat.succ_lt_succ hj, ⟨y, hs1, hlt, hr⟩, hz⟩

end DenclueFunctions


/-! ## One pass of the hill climbing in a space that can be iterated -/

/-- A text whose first character is a digit has a non-negative value. -/
theorem atof_nonneg_of_digit (c : Char) (rest : List Char) (hc : isDigit c = true) :
    0 ≤ atof (c :: rest) := by
  unfold atof
  rw [List.dropWhile_cons, if_neg (by simp [isDigit_not_space hc]), readSign_of_isDigit hc]
  simp only
  split
  · exact le_refl _
  · rw [if_neg (by simp)]
    split
    · positivity
    · positivity

/-- Writing a positive number and reading it back gives a positive number. -/
theorem textValue_pos (a : ℚ) (h : 0 < a) : 0 < textValue a := by
  have h0 : textValue a ≠ 0 := fun h0 => (ne_of_gt h) ((textValue_eq_zero_iff a).mp h0)
  have h1 : 0 ≤ textValue a := by
    unfold textValue
    rw [fmtDouble_of_pos a h]
    obtain ⟨c, rest, hf, hc⟩ := fmtPos_head a
    rw [hf]
    exact atof_nonneg_of_digit c rest hc
  exact lt_of_le_of_ne h1 (Ne.symm h0)

namespace DatasetEntity

theorem length_componentSums (a b : DatasetEntity) :
    (componentSums a b).length = min a.getNumOfDimensions b.getNumOfDimensions := by
  simp [componentSums]

/-- The result of `operator+`: each sum, after it has been written as text and read back. -/
theorem add_attributes (a b : DatasetEntity) :
    (add a b).attributes = (componentSums a b).map textValue := by
  unfold add addFresh buildEntityFromString
  simp only
  by_cases h : componentSums a b = []
  · have h0 : min a.getNumOfDimensions b.getNumOfDimensions = 0 := by
      rw [← length_componentSums, h]; rfl
    rw [h, h0]
    rfl
  · have hl : (DatasetEntity.new (min a.getNumOfDimensions b.getNumOfDimensions)
        (fun _ => 0)).attributes.length = (componentSums a b).length := by
      simp [DatasetEntity.new, componentSums]
    rw [buildLoop_writeCsv_eol _ _ 0 _ h (by rw [hl]; omega)]
    exact storeFrom_zero_eq _ _ (by rw [hl, List.length_map])

/-- The density stored on the result of `operator+` is 0. -/
theorem add_density (a b : DatasetEntity) : (add a b).density = 0 := rfl

/-- The squared distance does not read the stored density. -/
theorem distanceSquared_attributes (x y : DatasetEntity) (d : ℚ) :
    distanceSquared { attributes := x.attributes, density := d } y = distanceSquared x y := rfl

end DatasetEntity

namespace DenclueFunctions

/-- The influence does not read the stored density. -/
theorem calculateInfluence_attributes (expl : ℚ → ℚ) (x y : DatasetEntity) (d sigma : ℚ) :
    calculateInfluence expl { attributes := x.attributes, density := d } y sigma =
      calculateInfluence expl x y sigma := rfl

theorem influenceSum_attributes (expl : ℚ → ℚ) (x : DatasetEntity) (d sigma : ℚ)
    (ys : List DatasetEntity) :
    influenceSum expl { attributes := x.attributes, density := d } sigma ys =
      influenceSum expl x sigma ys := rfl

theorem gradientSum_attributes (expl : ℚ → ℚ) (x : DatasetEntity) (d sigma : ℚ)
    (ys : List DatasetEntity) :
    gradientSum expl { attributes := x.attributes, density := d } sigma ys =
      gradientSum expl x sigma ys := rfl

/-- The loop of `calculateDensity` does not read the density stored on the entity. -/
theorem densityLoop_attributes (expl : ℚ → ℚ) (hs : HyperSpace) (x : DatasetEntity)
    (d sigma : ℚ) : ∀ (fuel : Nat) (it : EntityIterator) (acc : ℚ),
    densityLoop expl hs { attributes := x.attributes, density := d } sigma fuel it acc =
      densityLoop expl hs x sigma fuel it acc := by
  intro fuel
  induction fuel with
  | zero => intro it acc; rfl
  | succ fuel ih =>
    intro it acc
    rw [densityLoop, densityLoop]
    split
    · rfl
    · cases EntityIterator.deref hs it with
      | none => rfl
      | some other =>
        cases EntityIterator.next hs it with
        | none => rfl
        | some moved =>
          simp only
          rw [ih, calculateInfluence_attributes]

/-- The new iterate of a pass carries the density that `calculateDensity` gives for it. -/
theorem climbStep_density (sqrt expl : ℚ → ℚ) (fuel : Nat) (hs : HyperSpace)
    (entity : DatasetEntity) (it : EntityIterator) (sigma : ℚ) (x y : DatasetEntity)
    (h : climbStep sqrt expl fuel hs entity it sigma x = Run.value (some y)) :
    ∃ first, EntityIterator.begin hs = some first ∧
      calculateDensity expl fuel hs y first sigma = Run.value y.getDensity := by
  unfold climbStep at h
  cases hg : calculateGradient expl fuel hs x it sigma with
  | noFuel => rw [hg] at h; cases h
  | undefined => rw [hg] at h; cases h
  | value g =>
    rw [hg] at h
    simp only at h
    split at h
    · cases h
    · cases hb : EntityIterator.begin hs with
      | none => rw [hb] at h; cases h
      | some first =>
        rw [hb] at h
        simp only at h
        refine ⟨first, rfl, ?_⟩
        cases hd : calculateDensity expl fuel hs (DatasetEntity.add x
            ((gradEntity entity.getNumOfDimensions g).scale
              (1 / sqrt (gradEntity entity.getNumOfDimensions g).component_squares_sum)))
            first sigma with
        | noFuel => rw [hd] at h; cases h
        | undefined => rw [hd] at h; cases h
        | value dens =>
          rw [hd] at h
          simp only at h
          cases h
          unfold calculateDensity at hd ⊢
          unfold DatasetEntity.setDensity DatasetEntity.getDensity
          simp only
          rw [densityLoop_attributes]
          exact hd

/-- Every iterate after the seed carries the density that `calculateDensity` gives for
it. -/
theorem reaches_density (sqrt expl : ℚ → ℚ) (fuel : Nat) (hs : HyperSpace)
    (entity : DatasetEntity) (it : EntityIterator) (sigma : ℚ) :
    ∀ (j : Nat) (x z : DatasetEntity),
      Reaches sqrt expl fuel hs entity it sigma (j + 1) x z →
      ∃ first, EntityIterator.begin hs = some first ∧
        calculateDensity expl fuel hs z first sigma = Run.value z.getDensity := by
  intro j
  induction j with
  | zero =>
    intro x z h
    obtain ⟨y, hy, _, hr⟩ := h
    have hz : z = y := hr
    rw [hz]
    exact climbStep_density sqrt expl fuel hs entity it sigma x y hy
  | succ j ih =>
    intro x z h
    obtain ⟨y, _, _, hr⟩ := h
    exact ih y z hr

/-- One pass of the body in a space that can be iterated, with enough fuel for the loops
over the entities: the gradient and the density are the sums over the iterated entities,
and the pass yields a value. -/
theorem climbStep_eq (sqrt expl : ℚ → ℚ) (hs : HyperSpace) (hit : hs.iterable = true)
    (hne : hs.high_populated_keys ≠ []) (entity : DatasetEntity) (sigma : ℚ) (k : Nat)
    (x : DatasetEntity) :
    climbStep sqrt expl (hs.iterated.length + 1 + k) hs entity
        { cube_keys_iterator := 0, entities_iterator := 0 } sigma x =
      Run.value
        (if (gradEntity entity.getNumOfDimensions
            (gradientSum expl x sigma hs.iterated)).component_squares_sum ≤ 0 then none
         else some ((DatasetEntity.add x
            ((gradEntity entity.getNumOfDimensions (gradientSum expl x sigma hs.iterated)).scale
              (1 / sqrt (gradEntity entity.getNumOfDimensions
                (gradientSum expl x sigma hs.iterated)).component_squares_sum))).setDensity
            (influenceSum expl (DatasetEntity.add x
              ((gradEntity entity.getNumOfDimensions (gradientSum expl x sigma hs.iterated)).scale
                (1 / sqrt (gradEntity entity.getNumOfDimensions
                  (gradientSum expl x sigma hs.iterated)).component_squares_sum)))
              sigma hs.iterated))) := by
  unfold climbStep
  rw [calculateGradient_eq expl hs hit hne, if_neg (by omega)]
  simp only
  split
  · rfl
  · rw [(EntityIterator.begin_of_iterable hs hit hne).1]
    simp only
    rw [calculateDensity_eq expl hs hit hne, if_neg (by omega)]

/-- The loop of `getDensityAttractor` yields a value in a space that can be iterated. -/
theorem climb_returns (sqrt expl : ℚ → ℚ) (hs : HyperSpace) (hit : hs.iterable = true)
    (hne : hs.high_populated_keys ≠ []) (entity : DatasetEntity) (sigma : ℚ) (k : Nat) :
    ∀ (n : Nat) (x : DatasetEntity), ∃ r,
      climb sqrt expl (hs.iterated.length + 1 + k) hs entity
        { cube_keys_iterator := 0, entities_iterator := 0 } sigma n x = Run.value r := by
  intro n
  induction n with
  | zero => intro x; exact ⟨some x, rfl⟩
  | succ n ih =>
    intro x
    rw [climb_succ, climbStep_eq sqrt expl hs hit hne]
    split
    · rename_i heq; cases heq
    · rename_i heq; cases heq
    · exact ⟨none, rfl⟩
    · rename_i y heq
      split
      · exact ⟨some x, rfl⟩
      · exact ih y

end DenclueFunctions


/-! ## The cap and the return rule of the hill climbing (C21, C22) -/

/-- C21 (hill-climb cap).  In a space that can be iterated, with a bound on the inner loops
above the number of iterated entities, `getDensityAttractor` returns for every seed: a value
is produced, after at most 999 passes of the body of its loop (999 gradient steps, within the
1000 of the claim).  An attractor `e` is returned only as an iterate reached in `j ≤ 999`
passes that did not lower the density, where `j = 999` or `j < 999` and one more pass found
a lower density.  The call ends at the failed assertion only at an iterate reached in fewer
than 999 passes at which the entity of the gradient has norm 0, so never when every
gradient has non-zero norm.  When 999 passes have not lowered the density, the value
returned is the latest iterate, carrying the density computed for it. -/
theorem hill_climb_cap (sqrt expl : ℚ → ℚ) (hs : HyperSpace) (hit : hs.iterable = true)
    (hne : hs.high_populated_keys ≠ []) (entity : DatasetEntity) (sigma : ℚ) (k : Nat) :
    (∃ r, DenclueFunctions.getDensityAttractor sqrt expl (hs.iterated.length + 1 + k) entity hs
      { cube_keys_iterator := 0, entities_iterator := 0 } sigma = Run.value r) ∧
    (∀ e, DenclueFunctions.getDensityAttractor sqrt expl (hs.iterated.length + 1 + k) entity hs
        { cube_keys_iterator := 0, entities_iterator := 0 } sigma = Run.value (some e) →
      ∃ j, j ≤ 999 ∧
        DenclueFunctions.Reaches sqrt expl (hs.iterated.length + 1 + k) hs entity
          { cube_keys_iterator := 0, entities_iterator := 0 } sigma j entity e ∧
        (j = 999 ∨ (j < 999 ∧
          DenclueFunctions.TopAt sqrt expl (hs.iterated.length + 1 + k) hs entity
            { cube_keys_iterator := 0, entities_iterator := 0 } sigma e))) ∧
    (DenclueFunctions.getDensityAttractor sqrt expl (hs.iterated.length + 1 + k) entity hs
        { cube_keys_iterator := 0, entities_iterator := 0 } sigma = Run.value none →
      ∃ j z, j < 999 ∧
        DenclueFunctions.Reaches sqrt expl (hs.iterated.length + 1 + k) hs entity
          { cube_keys_iterator := 0, entities_iterator := 0 } sigma j entity z ∧
        (DenclueFunctions.gradEntity entity.getNumOfDimensions
          (DenclueFunctions.gradientSum expl z sigma hs.iterated)).component_squares_sum ≤ 0) ∧
    (∀ z, DenclueFunctions.Reaches sqrt expl (hs.iterated.length + 1 + k) hs entity
        { cube_keys_iterator := 0, entities_iterator := 0 } sigma 999 entity z →
      DenclueFunctions.getDensityAttractor sqrt expl (hs.iterated.length + 1 + k) entity hs
        { cube_keys_iterator := 0, entities_iterator := 0 } sigma = Run.value (some z) ∧
      z.getDensity = DenclueFunctions.influenceSum expl z sigma hs.iterated) := by
  refine ⟨?_, ?_, ?_, ?_⟩
  · exact DenclueFunctions.climb_returns sqrt expl hs hit hne entity sigma k 999 entity
  · intro e he
    exact DenclueFunctions.reaches_of_climb sqrt expl _ hs entity _ sigma 999 entity e he
  · intro h
    obtain ⟨j, z, hj, hr, hz⟩ :=
      DenclueFunctions.reaches_of_climb_none sqrt expl _ hs entity _ sigma 999 entity h
    refine ⟨j, z, hj, hr, ?_⟩
    rw [DenclueFunctions.climbStep_eq sqrt expl hs hit hne] at hz
    by_contra hpos
    rw [if_neg hpos] at hz
    cases hz
  · intro z hz
    constructor
    · have h := DenclueFunctions.climb_of_reaches sqrt expl (hs.iterated.length + 1 + k) hs
        entity { cube_keys_iterator := 0, entities_iterator := 0 } sigma 0 999 entity z hz
      unfold DenclueFunctions.getDensityAttractor
      rw [Nat.add_zero] at h
      rw [h]
      rfl
    · obtain ⟨first, hb, hd⟩ := DenclueFunctions.reaches_density sqrt expl
        (hs.iterated.length + 1 + k) hs entity _ sigma 998 entity z hz
      rw [(EntityIterator.begin_of_iterable hs hit hne).1] at hb
      cases hb
      rw [DenclueFunctions.calculateDensity_eq expl hs hit hne, if_neg (by omega)] at hd
      exact (Run.value.inj hd).symm

set_option maxRecDepth 100000 in
theorem hill_climb_cap_witness :
    spaceLow.iterable = true ∧ spaceLow.high_populated_keys ≠ [] ∧
    ∃ r, DenclueFunctions.getDensityAttractor sqrtSample expSample
      (spaceLow.iterated.length + 1 + 0) (point [1 / 5]) spaceLow
      { cube_keys_iterator := 0, entities_iterator := 0 } (1 / 2) = Run.value r :=
  ⟨by decide!, by decide,
    (hill_climb_cap sqrtSample expSample spaceLow (by decide!) (by decide) (point [1 / 5])
      (1 / 2) 0).1⟩

/-- C22 (hill-climb return rule).  Let `x_k` be the iterate reached from the seed by `k`
passes of the body of the loop, none of which found a density below the density stored on
the iterate it started from, and let the next pass, the `(k + 1)`-th with `k + 1 ≤ 999`,
find a density below the density stored on `x_k`.  Then `getDensityAttractor` returns
`x_k`: its coordinates with the density stored on it.  For `k = 0` that is the seed with
the density stored on the seed; for `k ≥ 1` the stored density is the value of
`calculateDensity` at `x_k`. -/
theorem hill_climb_returns_previous_iterate (sqrt expl : ℚ → ℚ) (fuel : Nat)
    (hs : HyperSpace) (entity : DatasetEntity) (iter : EntityIterator) (sigma : ℚ) (k : Nat)
    (x_k : DatasetEntity) (hk : k + 1 ≤ 999)
    (hreach : DenclueFunctions.Reaches sqrt expl fuel hs entity iter sigma k entity x_k)
    (htop : DenclueFunctions.TopAt sqrt expl fuel hs entity iter sigma x_k) :
    DenclueFunctions.getDensityAttractor sqrt expl fuel entity hs iter sigma =
      Run.value (some x_k) ∧
    (k = 0 → x_k = entity) ∧
    (0 < k → ∃ first, EntityIterator.begin hs = some first ∧
      DenclueFunctions.calculateDensity expl fuel hs x_k first sigma =
        Run.value x_k.getDensity) := by
  refine ⟨?_, ?_, ?_⟩
  · unfold DenclueFunctions.getDensityAttractor
    rw [show 999 = k + ((998 - k) + 1) by omega,
      DenclueFunctions.climb_of_reaches sqrt expl fuel hs entity iter sigma _ k entity x_k
        hreach]
    exact DenclueFunctions.climb_of_topAt sqrt expl fuel hs entity iter sigma _ x_k htop
  · intro h0
    subst h0
    exact hreach
  · intro hpos
    obtain ⟨j, rfl⟩ : ∃ j, k = j + 1 := ⟨k - 1, by omega⟩
    exact DenclueFunctions.reaches_density sqrt expl fuel hs entity iter sigma j entity x_k
      hreach

set_option maxRecDepth 100000 in
theorem hill_climb_returns_previous_iterate_witness :
    1 + 1 ≤ 999 ∧
    DenclueFunctions.Reaches sqrtSample expSample 5 spaceLow (point [1 / 5])
      { cube_keys_iterator := 0, entities_iterator := 0 } (1 / 2) 1 (point [1 / 5])
      { attributes := [6 / 5], density := 9480099 / 6556745 } ∧
    DenclueFunctions.TopAt sqrtSample expSample 5 spaceLow (point [1 / 5])
      { cube_keys_iterator := 0, entities_iterator := 0 } (1 / 2)
      { attributes := [6 / 5], density := 9480099 / 6556745 } ∧
    DenclueFunctions.getDensityAttractor sqrtSample expSample 5 (point [1 / 5]) spaceLow
      { cube_keys_iterator := 0, entities_iterator := 0 } (1 / 2) =
      Run.value (some { attributes := [6 / 5], density := 9480099 / 6556745 }) := by
  have hreach : DenclueFunctions.Reaches sqrtSample expSample 5 spaceLow (point [1 / 5])
      { cube_keys_iterator := 0, entities_iterator := 0 } (1 / 2) 1 (point [1 / 5])
      { attributes := [6 / 5], density := 9480099 / 6556745 } :=
    ⟨{ attributes := [6 / 5], density := 9480099 / 6556745 }, by decide!, by decide!, rfl⟩
  have htop : DenclueFunctions.TopAt sqrtSample expSample 5 spaceLow (point [1 / 5])
      { cube_keys_iterator := 0, entities_iterator := 0 } (1 / 2)
      { attributes := [6 / 5], density := 9480099 / 6556745 } :=
    ⟨{ attributes := [1 / 5], density := 21190259 / 16982545 }, by decide!, by decide!⟩
  exact ⟨by decide, hreach, htop,
    (hill_climb_returns_previous_iterate sqrtSample expSample 5 spaceLow (point [1 / 5])
      { cube_keys_iterator := 0, entities_iterator := 0 } (1 / 2) 1
      { attributes := [6 / 5], density := 9480099 / 6556745 } (by decide) hreach htop).1⟩


/-! ## Two seeds on one orbit (C23) -/

set_option maxRecDepth 100000 in
theorem spaceOsc_pruned : ∀ k, pruned zeroFresh (2 + k)
    (Dataset.ofEntities 1 [point [1 / 2], point [3 / 2]]) (1 / 2) 1 = some spaceOsc :=
  pruned_add _ _ _ _ _ _ (by decide!)

namespace DenclueFunctions

/-- A pass of the body reads the seed only for its number of dimensions. -/
theorem climbStep_dims (sqrt expl : ℚ → ℚ) (fuel : Nat) (hs : HyperSpace)
    (a b : DatasetEntity) (h : a.getNumOfDimensions = b.getNumOfDimensions)
    (it : EntityIterator) (sigma : ℚ) (x : DatasetEntity) :
    climbStep sqrt expl fuel hs a it sigma x = climbStep sqrt expl fuel hs b it sigma x := by
  unfold climbStep
  rw [h]

theorem reaches_dims (sqrt expl : ℚ → ℚ) (fuel : Nat) (hs : HyperSpace)
    (a b : DatasetEntity) (h : a.getNumOfDimensions = b.getNumOfDimensions)
    (it : EntityIterator) (sigma : ℚ) :
    ∀ (j : Nat) (x z : DatasetEntity), Reaches sqrt expl fuel hs a it sigma j x z →
      Reaches sqrt expl fuel hs b it sigma j x z := by
  intro j
  induction j with
  | zero => intro x z hz; exact hz
  | succ j ih =>
    intro x z hz
    obtain ⟨y, hy, hge, hr⟩ := hz
    exact ⟨y, by rw [← climbStep_dims sqrt expl fuel hs a b h]; exact hy, hge, ih y z hr⟩

theorem topAt_dims (sqrt expl : ℚ → ℚ) (fuel : Nat) (hs : HyperSpace)
    (a b : DatasetEntity) (h : a.getNumOfDimensions = b.getNumOfDimensions)
    (it : EntityIterator) (sigma : ℚ) (x : DatasetEntity)
    (ht : TopAt sqrt expl fuel hs a it sigma x) : TopAt sqrt expl fuel hs b it sigma x := by
  obtain ⟨y, hy, hlt⟩ := ht
  exact ⟨y, by rw [← climbStep_dims sqrt expl fuel hs a b h]; exact hy, hlt⟩

/-- In `spaceOsc` the gradient at the coordinate `0.5` is the influence of the point `1.5`
times the difference 1 of the coordinates. -/
theorem gradientSum_spaceOsc_low (expl : ℚ → ℚ) (d : ℚ) :
    gradientSum expl { attributes := [1 / 2], density := d } (1 / 2) spaceOsc.iterated =
      [expl (-2)] := by
  have hi : spaceOsc.iterated = [point [1 / 2], point [3 / 2]] := by decide!
  have h1 : DatasetEntity.distanceSquared { attributes := [1 / 2], density := d }
      (point [1 / 2]) = 0 :=
    (DatasetEntity.distanceSquared_attributes (point [1 / 2]) _ d).trans (by decide!)
  have h2 : DatasetEntity.distanceSquared { attributes := [1 / 2], density := d }
      (point [3 / 2]) = 1 :=
    (DatasetEntity.distanceSquared_attributes (point [1 / 2]) _ d).trans (by decide!)
  have hd : DatasetEntity.getNumOfDimensions { attributes := [1 / 2], density := d } = 1 := rfl
  have hr : List.range 1 = [0] := by decide
  have c0 : DatasetEntity.getComponentValue { attributes := [1 / 2], density := d } 0 = 1 / 2 :=
    rfl
  have c1 : (point [1 / 2]).getComponentValue 0 = 1 / 2 := rfl
  have c2 : (point [3 / 2]).getComponentValue 0 = 3 / 2 := rfl
  unfold gradientSum calculateInfluence
  rw [hi, hd, hr]
  simp only [List.map_cons, List.map_nil, List.sum_cons, List.sum_nil, h1, h2, c0, c1, c2,
    if_true, if_neg (show (1 : ℚ) ≠ 0 by norm_num)]
  congr 1
  norm_num

/-- In `spaceOsc` the gradient at the coordinate `1.5` is the opposite one. -/
theorem gradientSum_spaceOsc_high (expl : ℚ → ℚ) (d : ℚ) :
    gradientSum expl { attributes := [3 / 2], density := d } (1 / 2) spaceOsc.iterated =
      [-expl (-2)] := by
  have hi : spaceOsc.iterated = [point [1 / 2], point [3 / 2]] := by decide!
  have h1 : DatasetEntity.distanceSquared { attributes := [3 / 2], density := d }
      (point [1 / 2]) = 1 :=
    (DatasetEntity.distanceSquared_attributes (point [3 / 2]) _ d).trans (by decide!)
  have h2 : DatasetEntity.distanceSquared { attributes := [3 / 2], density := d }
      (point [3 / 2]) = 0 :=
    (DatasetEntity.distanceSquared_attributes (point [3 / 2]) _ d).trans (by decide!)
  have hd : DatasetEntity.getNumOfDimensions { attributes := [3 / 2], density := d } = 1 := rfl
  have hr : List.range 1 = [0] := by decide
  have c0 : DatasetEntity.getComponentValue { attributes := [3 / 2], density := d } 0 = 3 / 2 :=
    rfl
  have c1 : (point [1 / 2]).getComponentValue 0 = 1 / 2 := rfl
  have c2 : (point [3 / 2]).getComponentValue 0 = 3 / 2 := rfl
  unfold gradientSum calculateInfluence
  rw [hi, hd, hr]
  simp only [List.map_cons, List.map_nil, List.sum_cons, List.sum_nil, h1, h2, c0, c1, c2,
    if_true, if_neg (show (1 : ℚ) ≠ 0 by norm_num)]
  congr 1
  norm_num

/-- In `spaceOsc` the density at either data point is the influence of the other one. -/
theorem influenceSum_spaceOsc (expl : ℚ → ℚ) :
    influenceSum expl (point [1 / 2]) (1 / 2) spaceOsc.iterated = expl (-2) ∧
    influenceSum expl (point [3 / 2]) (1 / 2) spaceOsc.iterated = expl (-2) := by
  have hi : spaceOsc.iterated = [point [1 / 2], point [3 / 2]] := by decide!
  have h1 : DatasetEntity.distanceSquared (point [1 / 2]) (point [1 / 2]) = 0 := by decide!
  have h2 : DatasetEntity.distanceSquared (point [1 / 2]) (point [3 / 2]) = 1 := by decide!
  have h3 : DatasetEntity.distanceSquared (point [3 / 2]) (point [1 / 2]) = 1 := by decide!
  have h4 : DatasetEntity.distanceSquared (point [3 / 2]) (point [3 / 2]) = 0 := by decide!
  unfold influenceSum calculateInfluence
  rw [hi]
  simp only [List.map_cons, List.map_nil, List.sum_cons, List.sum_nil, h1, h2, h3, h4,
    if_true, if_neg (show (1 : ℚ) ≠ 0 by norm_num)]
  norm_num

/-- The entity of a one-component gradient `[g]`, scaled by `1 / s`, added to an entity
with the one coordinate `c`: the text of `c + textValue g * (1 / s)`, read back. -/
theorem add_scaled_gradEntity (c d g s : ℚ) :
    DatasetEntity.add { attributes := [c], density := d } ((gradEntity 1 [g]).scale (1 / s)) =
      point [textValue (c + textValue g * (1 / s))] := by
  have ga : (gradEntity 1 [g]).attributes = [textValue g] := gradEntity_attributes 1 _ rfl
  have hattr := DatasetEntity.add_attributes { attributes := [c], density := d }
    ((gradEntity 1 [g]).scale (1 / s))
  have hdens := DatasetEntity.add_density { attributes := [c], density := d }
    ((gradEntity 1 [g]).scale (1 / s))
  have hsum : DatasetEntity.componentSums { attributes := [c], density := d }
      ((gradEntity 1 [g]).scale (1 / s)) = [c + textValue g * (1 / s)] := by
    unfold DatasetEntity.componentSums DatasetEntity.getNumOfDimensions
      DatasetEntity.getComponentValue DatasetEntity.scale
    simp only [ga, List.map_cons, List.map_nil, List.length_cons, List.length_nil]
    rfl
  rw [hsum] at hattr
  cases hx : DatasetEntity.add { attributes := [c], density := d }
      ((gradEntity 1 [g]).scale (1 / s)) with
  | mk at1 d1 =>
    rw [hx] at hattr hdens
    simp only at hattr hdens
    rw [hattr, hdens]
    rfl

/-- The norm of the entity of a one-component gradient. -/
theorem gradEntity_norm_one (g : ℚ) :
    (gradEntity 1 [g]).component_squares_sum = textValue g ^ 2 := by
  have ga : (gradEntity 1 [g]).attributes = [textValue g] := gradEntity_attributes 1 _ rfl
  unfold DatasetEntity.component_squares_sum
  rw [ga]
  simp

/-- In `spaceOsc` a pass of the body from the coordinate `0.5` leads to the coordinate `1.5`,
with the density `expl(-2)`. -/
theorem climbStep_spaceOsc_low (sqrt expl : ℚ → ℚ) (hsq : ∀ v : ℚ, 0 < v → sqrt (v ^ 2) = v)
    (hE : 0 < expl (-2)) (entity : DatasetEntity) (hd : entity.getNumOfDimensions = 1)
    (k : Nat) (d : ℚ) :
    climbStep sqrt expl (3 + k) spaceOsc entity
        { cube_keys_iterator := 0, entities_iterator := 0 } (1 / 2)
        { attributes := [1 / 2], density := d } =
      Run.value (some { attributes := [3 / 2], density := expl (-2) }) := by
  have hlen : 3 + k = spaceOsc.iterated.length + 1 + k := by
    rw [show spaceOsc.iterated.length = 2 by decide!]
  have ht := textValue_pos _ hE
  rw [hlen, climbStep_eq sqrt expl spaceOsc (by decide!) (by decide), hd,
    gradientSum_spaceOsc_low, gradEntity_norm_one, if_neg (not_le.mpr (pow_pos ht 2)),
    hsq _ ht, add_scaled_gradEntity]
  have hv : (1 / 2 : ℚ) + textValue (expl (-2)) * (1 / textValue (expl (-2))) = 3 / 2 := by
    field_simp
    norm_num
  rw [hv, show textValue (3 / 2) = 3 / 2 by decide!, (influenceSum_spaceOsc expl).2]
  rfl

/-- In `spaceOsc` a pass of the body from the coordinate `1.5` leads to the coordinate `0.5`,
with the density `expl(-2)`. -/
theorem climbStep_spaceOsc_high (sqrt expl : ℚ → ℚ) (hsq : ∀ v : ℚ, 0 < v → sqrt (v ^ 2) = v)
    (hE : 0 < expl (-2)) (entity : DatasetEntity) (hd : entity.getNumOfDimensions = 1)
    (k : Nat) (d : ℚ) :
    climbStep sqrt expl (3 + k) spaceOsc entity
        { cube_keys_iterator := 0, entities_iterator := 0 } (1 / 2)
        { attributes := [3 / 2], density := d } =
      Run.value (some { attributes := [1 / 2], density := expl (-2) }) := by
  have hlen : 3 + k = spaceOsc.iterated.length + 1 + k := by
    rw [show spaceOsc.iterated.length = 2 by decide!]
  have ht := textValue_pos _ hE
  rw [hlen, climbStep_eq sqrt expl spaceOsc (by decide!) (by decide), hd,
    gradientSum_spaceOsc_high, gradEntity_norm_one, textValue_neg, neg_sq,
    if_neg (not_le.mpr (pow_pos ht 2)), hsq _ ht, add_scaled_gradEntity, textValue_neg]
  have hv : (3 / 2 : ℚ) + -textValue (expl (-2)) * (1 / textValue (expl (-2))) = 1 / 2 := by
    field_simp
    norm_num
  rw [hv, show textValue (1 / 2) = 1 / 2 by decide!, (influenceSum_spaceOsc expl).1]
  rfl

/-- In `spaceOsc` the loop, entered at either data point with the density `expl(-2)`,
alternates between the two until its passes are used up. -/
theorem climb_spaceOsc (sqrt expl : ℚ → ℚ) (hsq : ∀ v : ℚ, 0 < v → sqrt (v ^ 2) = v)
    (hE : 0 < expl (-2)) (entity : DatasetEntity) (hd : entity.getNumOfDimensions = 1)
    (k : Nat) : ∀ n : Nat,
    climb sqrt expl (3 + k) spaceOsc entity
        { cube_keys_iterator := 0, entities_iterator := 0 } (1 / 2) n
        { attributes := [1 / 2], density := expl (-2) } =
      Run.value (some (if n % 2 = 0 then { attributes := [1 / 2], density := expl (-2) }
        else { attributes := [3 / 2], density := expl (-2) })) ∧
    climb sqrt expl (3 + k) spaceOsc entity
        { cube_keys_iterator := 0, entities_iterator := 0 } (1 / 2) n
        { attributes := [3 / 2], density := expl (-2) } =
      Run.value (some (if n % 2 = 0 then { attributes := [3 / 2], density := expl (-2) }
        else { attributes := [1 / 2], density := expl (-2) })) := by
  intro n
  induction n with
  | zero => exact ⟨rfl, rfl⟩
  | succ n ih =>
    have hirr : ¬ (DatasetEntity.getDensity { attributes := [3 / 2], density := expl (-2) } <
        DatasetEntity.getDensity { attributes := [1 / 2], density := expl (-2) }) :=
      lt_irrefl _
    have hirr' : ¬ (DatasetEntity.getDensity { attributes := [1 / 2], density := expl (-2) } <
        DatasetEntity.getDensity { attributes := [3 / 2], density := expl (-2) }) :=
      lt_irrefl _
    constructor
    · rw [climb_succ, climbStep_spaceOsc_low sqrt expl hsq hE entity hd]
      simp only
      rw [if_neg hirr, ih.2]
      rcases Nat.mod_two_eq_zero_or_one n with h | h
      · rw [if_pos h, if_neg (by omega)]
      · rw [if_neg (by omega), if_pos (by omega)]
    · rw [climb_succ, climbStep_spaceOsc_high sqrt expl hsq hE entity hd]
      simp only
      rw [if_neg hirr', ih.1]
      rcases Nat.mod_two_eq_zero_or_one n with h | h
      · rw [if_pos h, if_neg (by omega)]
      · rw [if_neg (by omega), if_pos (by omega)]

end DenclueFunctions

/-- C23 (attractor stability), as amended.  For a fixed space, `sigma` and library
functions, let `a` and `b` be two seeds of the same dimension whose climbs have an iterate
`z` in common (same coordinates and stored density), and let both climbs end before the
cap: the climb from `a` reaches `e_a` in `j_a < 999` passes and the next pass finds a lower
density, and likewise the climb from `b` reaches `e_b`.  Then `getDensityAttractor` returns
`e_a` for `a` and `e_b` for `b`, and the two are the same entity, so they have the same
text key. -/
theorem attractor_stable_before_cap (sqrt expl : ℚ → ℚ) (fuel : Nat) (hs : HyperSpace)
    (iter : EntityIterator) (sigma : ℚ) (a b z e_a e_b : DatasetEntity)
    (i_a i_b j_a j_b : Nat) (hdim : a.getNumOfDimensions = b.getNumOfDimensions)
    (hza : DenclueFunctions.Reaches sqrt expl fuel hs a iter sigma i_a a z)
    (hzb : DenclueFunctions.Reaches sqrt expl fuel hs b iter sigma i_b b z)
    (hea : DenclueFunctions.Reaches sqrt expl fuel hs a iter sigma j_a a e_a)
    (hta : DenclueFunctions.TopAt sqrt expl fuel hs a iter sigma e_a) (hja : j_a < 999)
    (heb : DenclueFunctions.Reaches sqrt expl fuel hs b iter sigma j_b b e_b)
    (htb : DenclueFunctions.TopAt sqrt expl fuel hs b iter sigma e_b) (hjb : j_b < 999) :
    DenclueFunctions.getDensityAttractor sqrt expl fuel a hs iter sigma =
      Run.value (some e_a) ∧
    DenclueFunctions.getDensityAttractor sqrt expl fuel b hs iter sigma =
      Run.value (some e_b) ∧
    e_a = e_b ∧ e_a.getStringRepresentation = e_b.getStringRepresentation := by
  have hra : DenclueFunctions.getDensityAttractor sqrt expl fuel a hs iter sigma =
      Run.value (some e_a) := by
    unfold DenclueFunctions.getDensityAttractor
    rw [show 999 = j_a + ((998 - j_a) + 1) by omega,
      DenclueFunctions.climb_of_reaches sqrt expl fuel hs a iter sigma _ j_a a e_a hea]
    exact DenclueFunctions.climb_of_topAt sqrt expl fuel hs a iter sigma _ e_a hta
  have hrb : DenclueFunctions.getDensityAttractor sqrt expl fuel b hs iter sigma =
      Run.value (some e_b) := by
    unfold DenclueFunctions.getDensityAttractor
    rw [show 999 = j_b + ((998 - j_b) + 1) by omega,
      DenclueFunctions.climb_of_reaches sqrt expl fuel hs b iter sigma _ j_b b e_b heb]
    exact DenclueFunctions.climb_of_topAt sqrt expl fuel hs b iter sigma _ e_b htb
  have h1 := (DenclueFunctions.reaches_before_top sqrt expl fuel hs a iter sigma i_a j_a a z
    e_a hza hea hta).2
  have h2 := (DenclueFunctions.reaches_before_top sqrt expl fuel hs b iter sigma i_b j_b b z
    e_b hzb heb htb).2
  have h2a := DenclueFunctions.reaches_dims sqrt expl fuel hs b a hdim.symm iter sigma _ z e_b
    h2
  have htba := DenclueFunctions.topAt_dims sqrt expl fuel hs b a hdim.symm iter sigma e_b htb
  have heq : e_a = e_b :=
    DenclueFunctions.top_unique sqrt expl fuel hs a iter sigma _ _ z e_a e_b h1 hta h2a htba
  exact ⟨hra, hrb, heq, by rw [heq]⟩

set_option maxRecDepth 100000 in
theorem attractor_stable_before_cap_witness :
    (point [1 / 5]).getNumOfDimensions =
      DatasetEntity.getNumOfDimensions { attributes := [6 / 5], density := 9480099 / 6556745 } ∧
    DenclueFunctions.getDensityAttractor sqrtSample expSample 5 (point [1 / 5]) spaceLow
      { cube_keys_iterator := 0, entities_iterator := 0 } (1 / 2) =
      Run.value (some { attributes := [6 / 5], density := 9480099 / 6556745 }) ∧
    DenclueFunctions.getDensityAttractor sqrtSample expSample 5
      { attributes := [6 / 5], density := 9480099 / 6556745 } spaceLow
      { cube_keys_iterator := 0, entities_iterator := 0 } (1 / 2) =
      Run.value (some { attributes := [6 / 5], density := 9480099 / 6556745 }) ∧
    ({ attributes := [6 / 5], density := 9480099 / 6556745 } : DatasetEntity) =
      { attributes := [6 / 5], density := 9480099 / 6556745 } ∧
    DatasetEntity.getStringRepresentation { attributes := [6 / 5], density := 9480099 / 6556745 } =
      DatasetEntity.getStringRepresentation
        { attributes := [6 / 5], density := 9480099 / 6556745 } := by
  have hreach : DenclueFunctions.Reaches sqrtSample expSample 5 spaceLow (point [1 / 5])
      { cube_keys_iterator := 0, entities_iterator := 0 } (1 / 2) 1 (point [1 / 5])
      { attributes := [6 / 5], density := 9480099 / 6556745 } :=
    ⟨{ attributes := [6 / 5], density := 9480099 / 6556745 }, by decide!, by decide!, rfl⟩
  have htop : DenclueFunctions.TopAt sqrtSample expSample 5 spaceLow (point [1 / 5])
      { cube_keys_iterator := 0, entities_iterator := 0 } (1 / 2)
      { attributes := [6 / 5], density := 9480099 / 6556745 } :=
    ⟨{ attributes := [1 / 5], density := 21190259 / 16982545 }, by decide!, by decide!⟩
  have htop' : DenclueFunctions.TopAt sqrtSample expSample 5 spaceLow
      { attributes := [6 / 5], density := 9480099 / 6556745 }
      { cube_keys_iterator := 0, entities_iterator := 0 } (1 / 2)
      { attributes := [6 / 5], density := 9480099 / 6556745 } :=
    ⟨{ attributes := [1 / 5], density := 21190259 / 16982545 }, by decide!, by decide!⟩
  exact ⟨rfl, attractor_stable_before_cap sqrtSample expSample 5 spaceLow
    { cube_keys_iterator := 0, entities_iterator := 0 } (1 / 2) (point [1 / 5])
    { attributes := [6 / 5], density := 9480099 / 6556745 }
    { attributes := [6 / 5], density := 9480099 / 6556745 }
    { attributes := [6 / 5], density := 9480099 / 6556745 }
    { attributes := [6 / 5], density := 9480099 / 6556745 } 1 0 1 0 rfl hreach rfl hreach htop
    (by decide) rfl htop' (by decide)⟩

set_option maxRecDepth 100000 in
/-- C23 fails as stated.  `spaceOsc` is the pruned space of the points `0.5` and `1.5`
(`sigma = 0.5`, `xi = 1`).  With any square root that is exact on squares and any
exponential function that is positive at `-2`, the climb from the seed `0.5` and the climb
from the seed `1.5` alternate between the two coordinates with the same density
`expl(-2)`, which is never a strict decrease: the first iterate of the one is the second
iterate of the other, and after the 999 passes of the cap `getDensityAttractor` returns the
coordinate `1.5` for the seed `0.5` and the coordinate `0.5` for the seed `1.5`, whose text
keys differ.  For no such library functions and no bound do the two calls return
attractors with the same key. -/
theorem attractor_keys_differ_at_cap :
    (∀ k, pruned zeroFresh (2 + k)
      (Dataset.ofEntities 1 [point [1 / 2], point [3 / 2]]) (1 / 2) 1 = some spaceOsc) ∧
    (∀ (sqrt expl : ℚ → ℚ) (k : Nat), (∀ v : ℚ, 0 < v → sqrt (v ^ 2) = v) → 0 < expl (-2) →
      DenclueFunctions.Reaches sqrt expl (3 + k) spaceOsc (point [1 / 2])
        { cube_keys_iterator := 0, entities_iterator := 0 } (1 / 2) 1 (point [1 / 2])
        { attributes := [3 / 2], density := expl (-2) } ∧
      DenclueFunctions.Reaches sqrt expl (3 + k) spaceOsc (point [3 / 2])
        { cube_keys_iterator := 0, entities_iterator := 0 } (1 / 2) 2 (point [3 / 2])
        { attributes := [3 / 2], density := expl (-2) } ∧
      DenclueFunctions.getDensityAttractor sqrt expl (3 + k) (point [1 / 2]) spaceOsc
        { cube_keys_iterator := 0, entities_iterator := 0 } (1 / 2) =
        Run.value (some { attributes := [3 / 2], density := expl (-2) }) ∧
      DenclueFunctions.getDensityAttractor sqrt expl (3 + k) (point [3 / 2]) spaceOsc
        { cube_keys_iterator := 0, entities_iterator := 0 } (1 / 2) =
        Run.value (some { attributes := [1 / 2], density := expl (-2) })) ∧
    (∀ d d' : ℚ,
      DatasetEntity.getStringRepresentation { attributes := [3 / 2], density := d } = ['1', '.', '5'] ∧
      DatasetEntity.getStringRepresentation { attributes := [1 / 2], density := d' } =
        ['0', '.', '5']) ∧
    ¬ ∃ (sqrt expl : ℚ → ℚ) (fuel : Nat) (e_a e_b : DatasetEntity),
      (∀ v : ℚ, 0 < v → sqrt (v ^ 2) = v) ∧ 0 < expl (-2) ∧
      DenclueFunctions.getDensityAttractor sqrt expl fuel (point [1 / 2]) spaceOsc
        { cube_keys_iterator := 0, entities_iterator := 0 } (1 / 2) = Run.value (some e_a) ∧
      DenclueFunctions.getDensityAttractor sqrt expl fuel (point [3 / 2]) spaceOsc
        { cube_keys_iterator := 0, entities_iterator := 0 } (1 / 2) = Run.value (some e_b) ∧
      e_a.getStringRepresentation = e_b.getStringRepresentation := by
  have hkeys : ∀ d d' : ℚ,
      DatasetEntity.getStringRepresentation { attributes := [3 / 2], density := d } = ['1', '.', '5'] ∧
      DatasetEntity.getStringRepresentation { attributes := [1 / 2], density := d' } =
        ['0', '.', '5'] := by
    intro d d'
    constructor
    · show DatasetEntity.writeCsv [3 / 2] = _
      decide!
    · show DatasetEntity.writeCsv [1 / 2] = _
      decide!
  have hmain : ∀ (sqrt expl : ℚ → ℚ) (k : Nat), (∀ v : ℚ, 0 < v → sqrt (v ^ 2) = v) →
      0 < expl (-2) →
      DenclueFunctions.Reaches sqrt expl (3 + k) spaceOsc (point [1 / 2])
        { cube_keys_iterator := 0, entities_iterator := 0 } (1 / 2) 1 (point [1 / 2])
        { attributes := [3 / 2], density := expl (-2) } ∧
      DenclueFunctions.Reaches sqrt expl (3 + k) spaceOsc (point [3 / 2])
        { cube_keys_iterator := 0, entities_iterator := 0 } (1 / 2) 2 (point [3 / 2])
        { attributes := [3 / 2], density := expl (-2) } ∧
      DenclueFunctions.getDensityAttractor sqrt expl (3 + k) (point [1 / 2]) spaceOsc
        { cube_keys_iterator := 0, entities_iterator := 0 } (1 / 2) =
        Run.value (some { attributes := [3 / 2], density := expl (-2) }) ∧
      DenclueFunctions.getDensityAttractor sqrt expl (3 + k) (point [3 / 2]) spaceOsc
        { cube_keys_iterator := 0, entities_iterator := 0 } (1 / 2) =
        Run.value (some { attributes := [1 / 2], density := expl (-2) }) := by
    intro sqrt expl k hsq hE
    have hlow := fun (entity : DatasetEntity) (hd : entity.getNumOfDimensions = 1) (d : ℚ) =>
      DenclueFunctions.climbStep_spaceOsc_low sqrt expl hsq hE entity hd k d
    have hhigh := fun (entity : DatasetEntity) (hd : entity.getNumOfDimensions = 1) (d : ℚ) =>
      DenclueFunctions.climbStep_spaceOsc_high sqrt expl hsq hE entity hd k d
    have h0 : ¬ (expl (-2) < 0) := not_lt.mpr hE.le
    have hirr : ¬ (expl (-2) < expl (-2)) := lt_irrefl _
    have hr1 : DenclueFunctions.Reaches sqrt expl (3 + k) spaceOsc (point [1 / 2])
        { cube_keys_iterator := 0, entities_iterator := 0 } (1 / 2) 1 (point [1 / 2])
        { attributes := [3 / 2], density := expl (-2) } :=
      ⟨_, hlow (point [1 / 2]) rfl 0, h0, rfl⟩
    have hr2 : DenclueFunctions.Reaches sqrt expl (3 + k) spaceOsc (point [3 / 2])
        { cube_keys_iterator := 0, entities_iterator := 0 } (1 / 2) 1 (point [3 / 2])
        { attributes := [1 / 2], density := expl (-2) } :=
      ⟨_, hhigh (point [3 / 2]) rfl 0, h0, rfl⟩
    refine ⟨hr1, ⟨_, hhigh (point [3 / 2]) rfl 0, h0, _, hlow (point [3 / 2]) rfl _, hirr, rfl⟩,
      ?_, ?_⟩
    · unfold DenclueFunctions.getDensityAttractor
      rw [show 999 = 1 + 998 by rfl,
        DenclueFunctions.climb_of_reaches sqrt expl (3 + k) spaceOsc (point [1 / 2]) _ (1 / 2)
          998 1 _ _ hr1,
        (DenclueFunctions.climb_spaceOsc sqrt expl hsq hE (point [1 / 2]) rfl k 998).2]
      rfl
    · unfold DenclueFunctions.getDensityAttractor
      rw [show 999 = 1 + 998 by rfl,
        DenclueFunctions.climb_of_reaches sqrt expl (3 + k) spaceOsc (point [3 / 2]) _ (1 / 2)
          998 1 _ _ hr2,
        (DenclueFunctions.climb_spaceOsc sqrt expl hsq hE (point [3 / 2]) rfl k 998).1]
      rfl
  refine ⟨spaceOsc_pruned, hmain, hkeys, ?_⟩
  rintro ⟨sqrt, expl, fuel, e_a, e_b, hsq, hE, ha, hb, hk⟩
  by_cases hf : fuel ≤ 2
  · unfold DenclueFunctions.getDensityAttractor at ha
    rw [DenclueFunctions.climb_succ] at ha
    unfold DenclueFunctions.climbStep at ha
    rw [DenclueFunctions.calculateGradient_eq expl spaceOsc (by decide!) (by decide),
      if_pos (by rw [show spaceOsc.iterated.length = 2 by decide!]; exact hf)] at ha
    cases ha
  · obtain ⟨k, rfl⟩ : ∃ k, fuel = 3 + k := ⟨fuel - 3, by omega⟩
    obtain ⟨_, _, ha', hb'⟩ := hmain sqrt expl k hsq hE
    rw [ha'] at ha
    rw [hb'] at hb
    cases ha
    cases hb
    rw [(hkeys (expl (-2)) (expl (-2))).1, (hkeys (expl (-2)) (expl (-2))).2] at hk
    exact absurd hk (by decide)


/-! ## The first phase of clustering (C24) -/

/-- The map after `addToCluster`, read at the key of the attractor: the members that were
there, if any, followed by the entity. -/
theorem find_addToCluster_self (clusters : Clusters) (a x : DatasetEntity) :
    StrMap.find (addToCluster clusters a x) a.getStringRepresentation =
      some ((StrMap.find clusters a.getStringRepresentation).getD [] ++ [x]) := by
  unfold addToCluster
  rw [StrMap.find_assign, if_pos rfl]
  by_cases hc : StrMap.contains clusters a.getStringRepresentation = true
  · rw [if_pos hc]
  · rw [if_neg hc]
    have hnone : StrMap.find clusters a.getStringRepresentation = none := by
      unfold StrMap.contains at hc
      cases hf : StrMap.find clusters a.getStringRepresentation with
      | none => rfl
      | some v => rw [hf] at hc; exact absurd rfl hc
    rw [StrMap.find_insert_self _ _ _ hnone, hnone]
    rfl

/-- The map after `addToCluster`, read at another key: unchanged. -/
theorem find_addToCluster_of_ne (clusters : Clusters) (a x : DatasetEntity) (key : List Char)
    (h : key ≠ a.getStringRepresentation) :
    StrMap.find (addToCluster clusters a x) key = StrMap.find clusters key := by
  unfold addToCluster
  rw [StrMap.find_assign, if_neg (Ne.symm h)]
  split
  · rfl
  · exact StrMap.find_insert_of_ne _ _ _ _ (Ne.symm h)

/-- The members of a cluster stay members when an entity is grouped. -/
theorem mem_groupEntity (xi : ℚ) (clusters : Clusters) (entity a : DatasetEntity)
    (key : List Char) (members : List DatasetEntity) (x : DatasetEntity)
    (hf : StrMap.find clusters key = some members) (hx : x ∈ members) :
    ∃ members', StrMap.find (groupEntity xi clusters entity a) key = some members' ∧
      x ∈ members' := by
  unfold groupEntity
  split
  · exact ⟨members, hf, hx⟩
  · by_cases hk : key = a.getStringRepresentation
    · subst hk
      rw [find_addToCluster_self, hf]
      exact ⟨_, rfl, List.mem_append_left _ hx⟩
    · rw [find_addToCluster_of_ne _ _ _ _ hk]
      exact ⟨members, hf, hx⟩

/-- A member of a cluster after an entity is grouped was a member before, or is that
entity, grouped under the key of an attractor that passes the density test. -/
theorem of_mem_groupEntity (xi : ℚ) (clusters : Clusters) (entity a : DatasetEntity)
    (key : List Char) (members : List DatasetEntity) (x : DatasetEntity)
    (hf : StrMap.find (groupEntity xi clusters entity a) key = some members)
    (hx : x ∈ members) :
    (∃ old, StrMap.find clusters key = some old ∧ x ∈ old) ∨
      (x = entity ∧ key = a.getStringRepresentation ∧ xi ≤ a.getDensity) := by
  unfold groupEntity at hf
  split at hf
  · exact Or.inl ⟨members, hf, hx⟩
  · rename_i hxi
    by_cases hk : key = a.getStringRepresentation
    · subst hk
      rw [find_addToCluster_self] at hf
      cases hf
      rcases List.mem_append.mp hx with h | h
      · cases hold : StrMap.find clusters a.getStringRepresentation with
        | none => rw [hold] at h; cases h
        | some old => rw [hold] at h; exact Or.inl ⟨old, rfl, h⟩
      · rw [List.mem_singleton] at h
        exact Or.inr ⟨h, rfl, not_lt.mp hxi⟩
    · rw [find_addToCluster_of_ne _ _ _ _ hk] at hf
      exact Or.inl ⟨members, hf, hx⟩

/-- The loop of the first phase in a space that can be iterated, with a bound above the
number of entities left: it is `groupList` on the entities left. -/
theorem phaseALoop_eq (sqrt expl : ℚ → ℚ) (fuel : Nat) (hs : HyperSpace)
    (hit : hs.iterable = true) (hne : hs.high_populated_keys ≠ []) (sigma xi : ℚ) :
    ∀ (n : Nat) (it : EntityIterator) (clusters : Clusters), EntityIterator.Valid hs it →
      (EntityIterator.remaining hs it).length < n →
      phaseALoop sqrt expl fuel hs sigma xi n it clusters =
        groupList sqrt expl fuel hs sigma xi (EntityIterator.remaining hs it) clusters := by
  intro n
  induction n with
  | zero => intro it clusters _ h; exact absurd h (Nat.not_lt_zero _)
  | succ n ih =>
    intro it clusters hv hlen
    rw [phaseALoop]
    by_cases hend : EntityIterator.isEnd hs it = true
    · rw [if_pos hend, EntityIterator.remaining_of_isEnd hs it hend]
      rfl
    · rw [if_neg hend, (EntityIterator.begin_of_iterable hs hit hne).1]
      rcases hv with h | ⟨y, hy⟩
      · exact absurd h hend
      · obtain ⟨moved, hm, hvm, hrem⟩ := EntityIterator.next_remaining hs hit it y hy
        rw [hrem, List.length_cons] at hlen
        rw [hy, hm, hrem, groupList]
        simp only
        cases DenclueFunctions.getDensityAttractor sqrt expl fuel y hs
            { cube_keys_iterator := 0, entities_iterator := 0 } sigma with
        | noFuel => rfl
        | undefined => rfl
        | value r =>
          cases r with
          | none => rfl
          | some a => exact ih moved _ hvm (by omega)

/-- The outcome of `groupList` when every call of `getDensityAttractor` yields a value: a
value. -/
theorem groupList_returns (sqrt expl : ℚ → ℚ) (fuel : Nat) (hs : HyperSpace) (sigma xi : ℚ)
    (hret : ∀ x, ∃ r, DenclueFunctions.getDensityAttractor sqrt expl fuel x hs
      { cube_keys_iterator := 0, entities_iterator := 0 } sigma = Run.value r) :
    ∀ (xs : List DatasetEntity) (clusters : Clusters),
      ∃ r, groupList sqrt expl fuel hs sigma xi xs clusters = Run.value r := by
  intro xs
  induction xs with
  | nil => intro clusters; exact ⟨some clusters, rfl⟩
  | cons x rest ih =>
    intro clusters
    obtain ⟨r, hr⟩ := hret x
    rw [groupList, hr]
    cases r with
    | none => exact ⟨none, rfl⟩
    | some a => exact ih _

/-- The clusters that `groupList` builds: a member is an old member or one of the entities
of the list, under the key of its attractor, which passes the density test. -/
theorem groupList_sound (sqrt expl : ℚ → ℚ) (fuel : Nat) (hs : HyperSpace) (sigma xi : ℚ) :
    ∀ (xs : List DatasetEntity) (clusters result : Clusters),
      groupList sqrt expl fuel hs sigma xi xs clusters = Run.value (some result) →
      ∀ (key : List Char) (members : List DatasetEntity),
        StrMap.find result key = some members → ∀ x ∈ members,
        (∃ old, StrMap.find clusters key = some old ∧ x ∈ old) ∨
        (x ∈ xs ∧ ∃ a, DenclueFunctions.getDensityAttractor sqrt expl fuel x hs
            { cube_keys_iterator := 0, entities_iterator := 0 } sigma = Run.value (some a) ∧
          a.getStringRepresentation = key ∧ xi ≤ a.getDensity) := by
  intro xs
  induction xs with
  | nil =>
    intro clusters result h key members hf x hx
    rw [groupList] at h
    cases h
    exact Or.inl ⟨members, hf, hx⟩
  | cons y rest ih =>
    intro clusters result h key members hf x hx
    rw [groupList] at h
    cases hr : DenclueFunctions.getDensityAttractor sqrt expl fuel y hs
        { cube_keys_iterator := 0, entities_iterator := 0 } sigma with
    | noFuel => rw [hr] at h; cases h
    | undefined => rw [hr] at h; cases h
    | value r =>
      cases r with
      | none => rw [hr] at h; cases h
      | some a =>
        rw [hr] at h
        simp only at h
        rcases ih _ result h key members hf x hx with ⟨old, hold, hxo⟩ | ⟨hxr, a', ha', hk, hd⟩
        · rcases of_mem_groupEntity xi clusters y a key old x hold hxo with hh | ⟨h1, h2, h3⟩
          · exact Or.inl hh
          · subst h1
            exact Or.inr ⟨List.mem_cons_self _ _, a, hr, h2.symm, h3⟩
        · exact Or.inr ⟨List.mem_cons_of_mem _ hxr, a', ha', hk, hd⟩

/-- The clusters that `groupList` builds: the old members are kept, and every entity of the
list whose attractor passes the density test is a member of the cluster under the key of
that attractor. -/
theorem groupList_complete (sqrt expl : ℚ → ℚ) (fuel : Nat) (hs : HyperSpace) (sigma xi : ℚ) :
    ∀ (xs : List DatasetEntity) (clusters result : Clusters),
      groupList sqrt expl fuel hs sigma xi xs clusters = Run.value (some result) →
      (∀ (key : List Char) (old : List DatasetEntity) (x : DatasetEntity),
        StrMap.find clusters key = some old → x ∈ old →
        ∃ members, StrMap.find result key = some members ∧ x ∈ members) ∧
      (∀ x ∈ xs, ∀ a, DenclueFunctions.getDensityAttractor sqrt expl fuel x hs
          { cube_keys_iterator := 0, entities_iterator := 0 } sigma = Run.value (some a) →
        xi ≤ a.getDensity →
        ∃ members, StrMap.find result a.getStringRepresentation = some members ∧
          x ∈ members) := by
  intro xs
  induction xs with
  | nil =>
    intro clusters result h
    rw [groupList] at h
    cases h
    exact ⟨fun key old x hf hx => ⟨old, hf, hx⟩, fun x hx => absurd hx (List.not_mem_nil _)⟩
  | cons y rest ih =>
    intro clusters result h
    rw [groupList] at h
    cases hr : DenclueFunctions.getDensityAttractor sqrt expl fuel y hs
        { cube_keys_iterator := 0, entities_iterator := 0 } sigma with
    | noFuel => rw [hr] at h; cases h
    | undefined => rw [hr] at h; cases h
    | value r =>
      cases r with
      | none => rw [hr] at h; cases h
      | some a =>
        rw [hr] at h
        simp only at h
        obtain ⟨hkeep, hnew⟩ := ih _ result h
        constructor
        · intro key old x hf hx
          obtain ⟨m1, hm1, hx1⟩ := mem_groupEntity xi clusters y a key old x hf hx
          exact hkeep key m1 x hm1 hx1
        · intro x hx a' ha' hd
          rcases List.mem_cons.mp hx with h1 | h1
          · subst h1
            rw [hr] at ha'
            cases ha'
            have hstep : StrMap.find (groupEntity xi clusters x a) a.getStringRepresentation =
                some ((StrMap.find clusters a.getStringRepresentation).getD [] ++ [x]) := by
              unfold groupEntity
              rw [if_neg (not_lt.mpr hd)]
              exact find_addToCluster_self clusters a x
            exact hkeep _ _ x hstep (List.mem_append_right _ (List.mem_singleton_self x))
          · exact hnew x h1 a' ha' hd

/-- C24 (Phase A grouping).  `addToCluster` appends the entity to the members under the text
of its attractor, creating the cluster if there is none, and leaves the other clusters as
they are; an attractor of density below `xi` leaves the map as it is (`groupEntity`).  In a
space that can be iterated, with a bound above the number of iterated entities, the first
phase returns, and it does to the entities that the iterator yields, in that order, what
`groupEntity` does with the attractor of each (`groupList`).  Hence, when it returns the
map `clusters`: every member `x` of the cluster under the key `key` is an iterated entity
whose attractor has the text `key` and a density of at least `xi`; and every iterated
entity whose attractor has a density of at least `xi` is a member of the cluster under the
text of that attractor. -/
theorem phase_a_grouping (sqrt expl : ℚ → ℚ) (hs : HyperSpace) (hit : hs.iterable = true)
    (hne : hs.high_populated_keys ≠ []) (sigma xi : ℚ) (k : Nat) :
    (∀ (clusters : Clusters) (a x : DatasetEntity),
      (a.getDensity < xi → groupEntity xi clusters x a = clusters) ∧
      (xi ≤ a.getDensity → groupEntity xi clusters x a = addToCluster clusters a x) ∧
      StrMap.find (addToCluster clusters a x) a.getStringRepresentation =
        some ((StrMap.find clusters a.getStringRepresentation).getD [] ++ [x]) ∧
      ∀ key, key ≠ a.getStringRepresentation →
        StrMap.find (addToCluster clusters a x) key = StrMap.find clusters key) ∧
    phaseA sqrt expl (hs.iterated.length + 1 + k) hs sigma xi =
      groupList sqrt expl (hs.iterated.length + 1 + k) hs sigma xi hs.iterated [] ∧
    (∃ r, phaseA sqrt expl (hs.iterated.length + 1 + k) hs sigma xi = Run.value r) ∧
    (∀ clusters, phaseA sqrt expl (hs.iterated.length + 1 + k) hs sigma xi =
        Run.value (some clusters) →
      (∀ (key : List Char) (members : List DatasetEntity),
        StrMap.find clusters key = some members → ∀ x ∈ members,
          x ∈ hs.iterated ∧
          ∃ a, DenclueFunctions.getDensityAttractor sqrt expl (hs.iterated.length + 1 + k) x hs
              { cube_keys_iterator := 0, entities_iterator := 0 } sigma = Run.value (some a) ∧
            a.getStringRepresentation = key ∧ xi ≤ a.getDensity) ∧
      (∀ x ∈ hs.iterated, ∀ a,
        DenclueFunctions.getDensityAttractor sqrt expl (hs.iterated.length + 1 + k) x hs
          { cube_keys_iterator := 0, entities_iterator := 0 } sigma = Run.value (some a) →
        xi ≤ a.getDensity →
        ∃ members, StrMap.find clusters a.getStringRepresentation = some members ∧
          x ∈ members)) := by
  obtain ⟨hb, hv, hrem⟩ := EntityIterator.begin_of_iterable hs hit hne
  have heq : phaseA sqrt expl (hs.iterated.length + 1 + k) hs sigma xi =
      groupList sqrt expl (hs.iterated.length + 1 + k) hs sigma xi hs.iterated [] := by
    unfold phaseA
    rw [hb]
    simp only
    rw [phaseALoop_eq sqrt expl _ hs hit hne sigma xi _ _ _ hv (by rw [hrem]; omega), hrem]
  refine ⟨?_, heq, ?_, ?_⟩
  · intro clusters a x
    refine ⟨fun h => ?_, fun h => ?_, find_addToCluster_self clusters a x,
      fun key hk => find_addToCluster_of_ne clusters a x key hk⟩
    · unfold groupEntity
      rw [if_pos h]
    · unfold groupEntity
      rw [if_neg (not_lt.mpr h)]
  · rw [heq]
    exact groupList_returns sqrt expl _ hs sigma xi
      (fun x => DenclueFunctions.climb_returns sqrt expl hs hit hne x sigma k 999 x) _ _
  · intro clusters h
    rw [heq] at h
    constructor
    · intro key members hf x hx
      rcases groupList_sound sqrt expl _ hs sigma xi _ _ _ h key members hf x hx with
        ⟨old, hold, _⟩ | hnew
      · cases hold
      · exact hnew
    · exact (groupList_complete sqrt expl _ hs sigma xi _ _ _ h).2

set_option maxRecDepth 100000 in
theorem phase_a_grouping_witness :
    spaceLow.iterable = true ∧ spaceLow.high_populated_keys ≠ [] ∧
    phaseA sqrtSample expSample (spaceLow.iterated.length + 1 + 0) spaceLow (1 / 2) 1 =
      groupList sqrtSample expSample (spaceLow.iterated.length + 1 + 0) spaceLow (1 / 2) 1
        spaceLow.iterated [] ∧
    phaseA sqrtSample expSample (spaceLow.iterated.length + 1 + 0) spaceLow (1 / 2) 1 =
      Run.value (some [(['0', '.', '4'], [point [2 / 5], point [7 / 5]]),
        (['1', '.', '2'], [point [1 / 5], point [6 / 5]])]) :=
  ⟨by decide!, by decide,
    (phase_a_grouping sqrtSample expSample spaceLow (by decide!) (by decide) (1 / 2) 1 0).2.1,
    by decide!⟩


/-! ## The order of the clusters (C25) -/

theorem char_eq_of_toNat (a b : Char) (h : a.toNat = b.toNat) : a = b := by
  apply Char.ext
  apply UInt32.ext
  exact h

theorem strLt_irrefl : ∀ a : List Char, strLt a a = false
  | [] => rfl
  | c :: cs => by
    rw [strLt, if_neg (Nat.lt_irrefl _), if_neg (Nat.lt_irrefl _)]
    exact strLt_irrefl cs

theorem strLt_trans : ∀ a b c : List Char, strLt a b = true → strLt b c = true →
    strLt a c = true
  | [], [], _, h, _ => by simp [strLt] at h
  | [], _ :: _, [], _, h => by simp [strLt] at h
  | [], _ :: _, _ :: _, _, _ => rfl
  | _ :: _, [], _, h, _ => by simp [strLt] at h
  | _ :: _, _ :: _, [], _, h => by simp [strLt] at h
  | x :: xs, y :: ys, z :: zs, h1, h2 => by
    rw [strLt] at h1 h2 ⊢
    by_cases hxy : x.toNat < y.toNat
    · by_cases hyz : y.toNat < z.toNat
      · rw [if_pos (Nat.lt_trans hxy hyz)]
      · rw [if_neg hyz] at h2
        by_cases hzy : z.toNat < y.toNat
        · rw [if_pos hzy] at h2
          cases h2
        · have : y.toNat = z.toNat := by omega
          rw [if_pos (by omega)]
    · rw [if_neg hxy] at h1
      by_cases hyx : y.toNat < x.toNat
      · rw [if_pos hyx] at h1
        cases h1
      · rw [if_neg hyx] at h1
        have hxy' : x.toNat = y.toNat := by omega
        by_cases hyz : y.toNat < z.toNat
        · rw [if_pos (by omega)]
        · rw [if_neg hyz] at h2
          by_cases hzy : z.toNat < y.toNat
          · rw [if_pos hzy] at h2
            cases h2
          · rw [if_neg hzy] at h2
            rw [if_neg (by omega), if_neg (by omega)]
            exact strLt_trans xs ys zs h1 h2

theorem strLt_total : ∀ a b : List Char, a ≠ b → strLt a b = true ∨ strLt b a = true
  | [], [], h => absurd rfl h
  | [], _ :: _, _ => Or.inl rfl
  | _ :: _, [], _ => Or.inr rfl
  | x :: xs, y :: ys, h => by
    rw [strLt, strLt]
    by_cases hxy : x.toNat < y.toNat
    · rw [if_pos hxy]
      exact Or.inl rfl
    · by_cases hyx : y.toNat < x.toNat
      · rw [if_neg hxy, if_pos hyx, if_pos hyx]
        exact Or.inr rfl
      · rw [if_neg hxy, if_neg hyx, if_neg hyx, if_neg hxy]
        have hc : x = y := char_eq_of_toNat x y (by omega)
        subst hc
        exact strLt_total xs ys (fun hh => h (by rw [hh]))

namespace StrMap

theorem mem_insert {α : Type} (m : StrMap α) (k : List Char) (v : α) (x : List Char × α)
    (h : x ∈ insert m k v) : x ∈ m ∨ x = (k, v) := by
  induction m with
  | nil =>
    simp only [insert, List.mem_singleton] at h
    exact Or.inr h
  | cons kv rest ih =>
    obtain ⟨k0, v0⟩ := kv
    simp only [insert] at h
    split at h
    · exact Or.inl h
    · split at h
      · rcases List.mem_cons.mp h with h1 | h1
        · exact Or.inr h1
        · exact Or.inl h1
      · rcases List.mem_cons.mp h with h1 | h1
        · exact Or.inl (by rw [h1]; exact List.mem_cons_self _ _)
        · rcases ih h1 with h2 | h2
          · exact Or.inl (List.mem_cons_of_mem _ h2)
          · exact Or.inr h2

theorem mem_assign {α : Type} (m : StrMap α) (k : List Char) (v : α) (x : List Char × α)
    (h : x ∈ assign m k v) : (∃ y ∈ m, y.1 = x.1) ∨ x = (k, v) := by
  induction m with
  | nil =>
    simp only [assign, List.mem_singleton] at h
    exact Or.inr h
  | cons kv rest ih =>
    obtain ⟨k0, v0⟩ := kv
    simp only [assign] at h
    split at h
    · rename_i hk
      rcases List.mem_cons.mp h with h1 | h1
      · exact Or.inr (by rw [h1, hk])
      · exact Or.inl ⟨x, List.mem_cons_of_mem _ h1, rfl⟩
    · split at h
      · rcases List.mem_cons.mp h with h1 | h1
        · exact Or.inr h1
        · exact Or.inl ⟨x, h1, rfl⟩
      · rcases List.mem_cons.mp h with h1 | h1
        · exact Or.inl ⟨(k0, v0), List.mem_cons_self _ _, by rw [h1]⟩
        · rcases ih h1 with ⟨y, hy, hyx⟩ | h2
          · exact Or.inl ⟨y, List.mem_cons_of_mem _ hy, hyx⟩
          · exact Or.inr h2

/-- The member `insert` keeps the keys in increasing order. -/
theorem sorted_insert {α : Type} (m : StrMap α) (k : List Char) (v : α) (h : Sorted m) :
    Sorted (insert m k v) := by
  unfold Sorted at h ⊢
  induction m with
  | nil => simp [insert]
  | cons kv rest ih =>
    obtain ⟨k0, v0⟩ := kv
    rw [List.pairwise_cons] at h
    simp only [insert]
    split
    · exact List.pairwise_cons.mpr h
    · rename_i hk
      split
      · rename_i hlt
        refine List.pairwise_cons.mpr ⟨?_, List.pairwise_cons.mpr h⟩
        intro x hx
        rcases List.mem_cons.mp hx with h1 | h1
        · rw [h1]; exact hlt
        · exact strLt_trans _ _ _ hlt (h.1 x h1)
      · rename_i hlt
        refine List.pairwise_cons.mpr ⟨?_, ih h.2⟩
        intro x hx
        rcases mem_insert rest k v x hx with h1 | h1
        · exact h.1 x h1
        · rw [h1]
          rcases strLt_total k k0 (fun hh => hk hh.symm) with h2 | h2
          · exact absurd h2 hlt
          · exact h2

/-- The assignment `m[k] = v` keeps the keys in increasing order. -/
theorem sorted_assign {α : Type} (m : StrMap α) (k : List Char) (v : α) (h : Sorted m) :
    Sorted (assign m k v) := by
  unfold Sorted at h ⊢
  induction m with
  | nil => simp [assign]
  | cons kv rest ih =>
    obtain ⟨k0, v0⟩ := kv
    rw [List.pairwise_cons] at h
    simp only [assign]
    split
    · exact List.pairwise_cons.mpr h
    · rename_i hk
      split
      · rename_i hlt
        refine List.pairwise_cons.mpr ⟨?_, List.pairwise_cons.mpr h⟩
        intro x hx
        rcases List.mem_cons.mp hx with h1 | h1
        · rw [h1]; exact hlt
        · exact strLt_trans _ _ _ hlt (h.1 x h1)
      · rename_i hlt
        refine List.pairwise_cons.mpr ⟨?_, ih h.2⟩
        intro x hx
        rcases mem_assign rest k v x hx with ⟨y, hy, hyx⟩ | h1
        · have := h.1 y hy
          rw [hyx] at this
          exact this
        · rw [h1]
          rcases strLt_total k k0 (fun hh => hk hh.symm) with h2 | h2
          · exact absurd h2 hlt
          · exact h2

/-- A map whose keys are a sublist of the keys of a map in increasing order is in
increasing order. -/
theorem sorted_of_sublist {α : Type} (m m' : StrMap α) (h : Sorted m)
    (hsub : (m'.map Prod.fst).Sublist (m.map Prod.fst)) : Sorted m' := by
  unfold Sorted at h ⊢
  have h1 : List.Pairwise (fun a b => strLt a b = true) (m.map Prod.fst) :=
    List.pairwise_map.mpr h
  exact List.pairwise_map.mp (h1.sublist hsub)

end StrMap

/-- The body of the first loop keeps the keys of the clusters in increasing order. -/
theorem sorted_groupEntity (xi : ℚ) (clusters : Clusters) (entity a : DatasetEntity)
    (h : StrMap.Sorted clusters) : StrMap.Sorted (groupEntity xi clusters entity a) := by
  unfold groupEntity
  split
  · exact h
  · unfold addToCluster
    apply StrMap.sorted_assign
    split
    · exact h
    · exact StrMap.sorted_insert _ _ _ h

/-- The first phase keeps the keys of the clusters in increasing order. -/
theorem sorted_phaseALoop (sqrt expl : ℚ → ℚ) (fuel : Nat) (hs : HyperSpace) (sigma xi : ℚ) :
    ∀ (n : Nat) (it : EntityIterator) (clusters result : Clusters),
      phaseALoop sqrt expl fuel hs sigma xi n it clusters = Run.value (some result) →
      StrMap.Sorted clusters → StrMap.Sorted result := by
  intro n
  induction n with
  | zero => intro it clusters result h; rw [phaseALoop] at h; cases h
  | succ n ih =>
    intro it clusters result h hsorted
    rw [phaseALoop] at h
    split at h
    · cases h
      exact hsorted
    · cases hb : EntityIterator.begin hs with
      | none => rw [hb] at h; cases h
      | some first =>
        rw [hb] at h
        simp only at h
        cases hd : EntityIterator.deref hs it with
        | none => rw [hd] at h; cases h
        | some entity =>
          rw [hd] at h
          simp only at h
          cases hr : DenclueFunctions.getDensityAttractor sqrt expl fuel entity hs first
              sigma with
          | noFuel => rw [hr] at h; cases h
          | undefined => rw [hr] at h; cases h
          | value r =>
            cases r with
            | none => rw [hr] at h; cases h
            | some a =>
              rw [hr] at h
              simp only at h
              cases hn : EntityIterator.next hs it with
              | none => rw [hn] at h; cases h
              | some moved =>
                rw [hn] at h
                simp only at h
                exact ih moved _ result h (sorted_groupEntity xi clusters entity a hsorted)

/-- The inner loop of the merging phase leaves, of the clusters after the outer one, a
sublist. -/
theorem mergeLoop_sublist (fuel : Nat) (hs : HyperSpace) (dimension : Nat) (xi sigma : ℚ)
    (outer_key : List Char) :
    ∀ (rest : List (List Char × List DatasetEntity)) (members merged : List DatasetEntity)
      (left : List (List Char × List DatasetEntity)),
      mergeLoop fuel hs dimension xi sigma outer_key members rest = Run.value (merged, left) →
      left.Sublist rest := by
  intro rest
  induction rest with
  | nil =>
    intro members merged left h
    rw [mergeLoop] at h
    cases h
    exact List.Sublist.refl _
  | cons kv rest ih =>
    intro members merged left h
    obtain ⟨k0, v0⟩ := kv
    rw [mergeLoop] at h
    cases hp : pathTest fuel hs (attractorOfKey dimension outer_key)
        (attractorOfKey dimension k0) xi sigma with
    | noFuel => rw [hp] at h; cases h
    | undefined => rw [hp] at h; cases h
    | value canMerge =>
      rw [hp] at h
      simp only at h
      cases canMerge with
      | true =>
        simp only [if_true] at h
        exact List.Sublist.cons _ (ih _ merged left h)
      | false =>
        simp only [Bool.false_eq_true, if_false] at h
        cases hm : mergeLoop fuel hs dimension xi sigma outer_key members rest with
        | noFuel => rw [hm] at h; cases h
        | undefined => rw [hm] at h; cases h
        | value r =>
          obtain ⟨m1, l1⟩ := r
          rw [hm] at h
          simp only at h
          cases h
          exact List.Sublist.cons₂ _ (ih _ _ _ hm)

/-- The merging phase leaves the keys of a sublist of the clusters, in their order. -/
theorem phaseBLoop_sublist (fuel : Nat) (hs : HyperSpace) (dimension : Nat) (xi sigma : ℚ) :
    ∀ (n : Nat) (clusters merged : List (List Char × List DatasetEntity)),
      phaseBLoop fuel hs dimension xi sigma n clusters = Run.value merged →
      (merged.map Prod.fst).Sublist (clusters.map Prod.fst) := by
  intro n
  induction n with
  | zero =>
    intro clusters merged h
    cases clusters with
    | nil =>
      rw [phaseBLoop] at h
      cases h
      exact List.Sublist.refl _
    | cons kv rest => rw [phaseBLoop] at h; cases h
  | succ n ih =>
    intro clusters merged h
    cases clusters with
    | nil =>
      rw [phaseBLoop] at h
      cases h
      exact List.Sublist.refl _
    | cons kv rest =>
      obtain ⟨k0, v0⟩ := kv
      rw [phaseBLoop] at h
      cases hm : mergeLoop fuel hs dimension xi sigma k0 v0 rest with
      | noFuel => rw [hm] at h; cases h
      | undefined => rw [hm] at h; cases h
      | value r =>
        obtain ⟨m1, l1⟩ := r
        rw [hm] at h
        simp only at h
        cases ht : phaseBLoop fuel hs dimension xi sigma n l1 with
        | noFuel => rw [ht] at h; cases h
        | undefined => rw [ht] at h; cases h
        | value tail =>
          rw [ht] at h
          simp only at h
          cases h
          have h1 := ih l1 tail ht
          have h2 := (mergeLoop_sublist fuel hs dimension xi sigma k0 rest v0 m1 l1 hm).map
            Prod.fst
          exact List.Sublist.cons₂ _ (h1.trans h2)

/-- The loop of `printOutput`: one text per cluster with a member, in the order of the
map, numbered from the value of `ind_cluster` on. -/
theorem printLoop_eq : ∀ (clusters : List (List Char × List DatasetEntity)) (ind_cluster : Nat),
    printLoop ind_cluster clusters =
      (List.enumFrom (ind_cluster + 1) (clusters.filter (fun kv => !kv.2.isEmpty))).map
        (fun p => clusterText p.1 p.2.1 p.2.2)
  | [], _ => rfl
  | (key, members) :: rest, ind_cluster => by
    rw [printLoop]
    by_cases he : members.isEmpty = true
    · rw [if_pos he, List.filter_cons_of_neg (by simp [he])]
      exact printLoop_eq rest ind_cluster
    · rw [if_neg he, List.filter_cons_of_pos (by simp [he]), List.enumFrom_cons, List.map_cons,
        printLoop_eq rest (ind_cluster + 1)]

set_option maxRecDepth 100000 in
theorem spaceQuad_pruned : ∀ k, pruned zeroFresh (2 + k)
    (Dataset.ofEntities 1 [point [1 / 5], point [2 / 5], point [6 / 5], point [7 / 5]])
    (1 / 2) 1 = some spaceQuad :=
  pruned_add _ _ _ _ _ _ (by decide!)

/-- C25 (order of the clusters), as amended.  The clusters are kept in a `std::map` under
the text of their attractors, so the map that the first phase returns has its keys in
strictly increasing order of `std::string`, whatever the order in which the clusters were
created.  The merging phase visits the clusters in that order and only erases clusters: the
keys that are left are a sublist of those keys, still in increasing order.  `printOutput`
writes one text per cluster with a member, in the order of the map, and numbers them
`1, 2, ...` consecutively in that order. -/
theorem clusters_in_key_order (sqrt expl : ℚ → ℚ) (fuel : Nat) (hs : HyperSpace)
    (sigma xi : ℚ) (dimension : Nat) (clusters merged : Clusters)
    (hA : phaseA sqrt expl fuel hs sigma xi = Run.value (some clusters))
    (hB : phaseB fuel hs dimension xi sigma clusters = Run.value merged) :
    StrMap.Sorted clusters ∧
    (merged.map Prod.fst).Sublist (clusters.map Prod.fst) ∧
    StrMap.Sorted merged ∧
    printOutput merged =
      (List.enumFrom 1 (merged.filter (fun kv => !kv.2.isEmpty))).map
        (fun p => clusterText p.1 p.2.1 p.2.2) := by
  have h1 : StrMap.Sorted clusters := by
    unfold phaseA at hA
    cases hb : EntityIterator.begin hs with
    | none => rw [hb] at hA; cases hA
    | some first =>
      rw [hb] at hA
      exact sorted_phaseALoop sqrt expl fuel hs sigma xi fuel first [] clusters hA
        List.Pairwise.nil
  have h2 : (merged.map Prod.fst).Sublist (clusters.map Prod.fst) :=
    phaseBLoop_sublist fuel hs dimension xi sigma _ clusters merged hB
  exact ⟨h1, h2, StrMap.sorted_of_sublist clusters merged h1 h2, printLoop_eq merged 0⟩

set_option maxRecDepth 100000 in
theorem clusters_in_key_order_witness :
    phaseA sqrtSample expSample 5 spaceQuad (1 / 2) 1 =
      Run.value (some [(['0', '.', '4'], [point [2 / 5], point [7 / 5]]),
        (['1', '.', '2'], [point [1 / 5], point [6 / 5]])]) ∧
    phaseB 5 spaceQuad 1 1 (1 / 2)
        [(['0', '.', '4'], [point [2 / 5], point [7 / 5]]),
          (['1', '.', '2'], [point [1 / 5], point [6 / 5]])] =
      Run.value [(['0', '.', '4'], [point [2 / 5], point [7 / 5]]),
        (['1', '.', '2'], [point [1 / 5], point [6 / 5]])] ∧
    printOutput [(['0', '.', '4'], [point [2 / 5], point [7 / 5]]),
        (['1', '.', '2'], [point [1 / 5], point [6 / 5]])] =
      (List.enumFrom 1
        (List.filter (fun kv => !kv.2.isEmpty)
          [(['0', '.', '4'], [point [2 / 5], point [7 / 5]]),
            (['1', '.', '2'], [point [1 / 5], point [6 / 5]])])).map
        (fun p => clusterText p.1 p.2.1 p.2.2) := by
  have hA : phaseA sqrtSample expSample 5 spaceQuad (1 / 2) 1 =
      Run.value (some [(['0', '.', '4'], [point [2 / 5], point [7 / 5]]),
        (['1', '.', '2'], [point [1 / 5], point [6 / 5]])]) := by decide!
  have hB : phaseB 5 spaceQuad 1 1 (1 / 2)
        [(['0', '.', '4'], [point [2 / 5], point [7 / 5]]),
          (['1', '.', '2'], [point [1 / 5], point [6 / 5]])] =
      Run.value [(['0', '.', '4'], [point [2 / 5], point [7 / 5]]),
        (['1', '.', '2'], [point [1 / 5], point [6 / 5]])] := by decide!
  exact ⟨hA, hB,
    (clusters_in_key_order sqrtSample expSample 5 spaceQuad (1 / 2) 1 1 _ _ hA hB).2.2.2⟩

set_option maxRecDepth 100000 in
/-- C25 fails as stated.  `spaceQuad` is the pruned space of the points `0.2`, `0.4`, `1.2`,
`1.4` (`sigma = 0.5`, `xi = 1`), which the iterator yields in that order.  With the sample
library functions, the attractor of the first entity `0.2` has the text `1.2`, so the
cluster `1.2` is the first one to receive a member; the cluster `0.4` is created after it,
for the second entity.  The map that the first phase returns lists the cluster `0.4`
first, the merging phase leaves the map as it is, and `printOutput` writes the cluster
`0.4` as `Cluster 1` and the cluster `1.2`, the first one discovered, as `Cluster 2`.  (The
entities of `spaceQuad` carry the density 0 of their construction; the order of the map
does not depend on the stored densities.)  The same holds without any library function for the two steps of the first phase alone: an
entity grouped under the attractor `1.2` and then an entity grouped under the attractor
`0.4` give a map that lists `0.4` first. -/
theorem first_cluster_written_second :
    (∀ k, pruned zeroFresh (2 + k)
      (Dataset.ofEntities 1 [point [1 / 5], point [2 / 5], point [6 / 5], point [7 / 5]])
      (1 / 2) 1 = some spaceQuad) ∧
    spaceQuad.iterated = [point [1 / 5], point [2 / 5], point [6 / 5], point [7 / 5]] ∧
    DenclueFunctions.getDensityAttractor sqrtSample expSample 5 (point [1 / 5]) spaceQuad
      { cube_keys_iterator := 0, entities_iterator := 0 } (1 / 2) =
      Run.value (some { attributes := [6 / 5], density := 9480099 / 6556745 }) ∧
    DatasetEntity.getStringRepresentation
      { attributes := [6 / 5], density := 9480099 / 6556745 } = ['1', '.', '2'] ∧
    phaseA sqrtSample expSample 5 spaceQuad (1 / 2) 1 =
      Run.value (some [(['0', '.', '4'], [point [2 / 5], point [7 / 5]]),
        (['1', '.', '2'], [point [1 / 5], point [6 / 5]])]) ∧
    phaseB 5 spaceQuad 1 1 (1 / 2)
        [(['0', '.', '4'], [point [2 / 5], point [7 / 5]]),
          (['1', '.', '2'], [point [1 / 5], point [6 / 5]])] =
      Run.value [(['0', '.', '4'], [point [2 / 5], point [7 / 5]]),
        (['1', '.', '2'], [point [1 / 5], point [6 / 5]])] ∧
    printOutput [(['0', '.', '4'], [point [2 / 5], point [7 / 5]]),
        (['1', '.', '2'], [point [1 / 5], point [6 / 5]])] =
      [clusterText 1 ['0', '.', '4'] [point [2 / 5], point [7 / 5]],
        clusterText 2 ['1', '.', '2'] [point [1 / 5], point [6 / 5]]] ∧
    (clusterText 2 ['1', '.', '2'] [point [1 / 5], point [6 / 5]]).take 23 =
      ['C', 'l', 'u', 's', 't', 'e', 'r', ' ', '2', '\t',
        'A', 't', 't', 'r', 'a', 'c', 't', 'o', 'r', ' ', '1', '.', '2'] ∧
    groupEntity 1 (groupEntity 1 [] (point [1 / 5]) (dense [6 / 5])) (point [2 / 5])
        (dense [2 / 5]) =
      [(['0', '.', '4'], [point [2 / 5]]), (['1', '.', '2'], [point [1 / 5]])] := by
  refine ⟨spaceQuad_pruned, by decide!, by decide!, by decide!, by decide!, by decide!,
    by decide!, by decide!, by decide!⟩


/-! ## The text of a point read back (C26) -/

set_option maxRecDepth 100000 in
/-- C26 (round trip of the text of a point) fails.  The text of the point `(0.5, 0.25)` is
`0.5,0.25`, without `EOL`; `buildEntityFromString` stores a component only when it reads
`','` or `EOL`, so a fresh two-dimensional entity built from that text holds `0.5` and, as
its last component, whatever its fresh array held: `0` for zeroed memory, not `0.25`.  This
holds for every point: the last component of the entity built from the text of a point is
the last entry of the fresh array.  With `EOL` after the text, both components are
stored. -/
theorem round_trip_drops_last_component :
    (point [1 / 2, 1 / 4]).getStringRepresentation =
      ['0', '.', '5', ',', '0', '.', '2', '5'] ∧
    (∀ fresh : Junk, ((DatasetEntity.new 2 fresh).buildEntityFromString
      (point [1 / 2, 1 / 4]).getStringRepresentation).attributes = [1 / 2, fresh 1]) ∧
    ((DatasetEntity.new 2 (fun _ => 0)).buildEntityFromString
      (point [1 / 2, 1 / 4]).getStringRepresentation).getComponentValue 1 = 0 ∧
    (point [1 / 2, 1 / 4]).getComponentValue 1 = 1 / 4 ∧
    (∀ (p : DatasetEntity) (fresh : Junk), 0 < p.getNumOfDimensions →
      ((DatasetEntity.new p.getNumOfDimensions fresh).buildEntityFromString
        p.getStringRepresentation).getComponentValue (p.getNumOfDimensions - 1) =
      fresh (p.getNumOfDimensions - 1)) ∧
    (∀ fresh : Junk, ((DatasetEntity.new 2 fresh).buildEntityFromString
      ((point [1 / 2, 1 / 4]).getStringRepresentation ++ [EOL])).attributes =
      [1 / 2, 1 / 4]) := by
  have ht : textValue (1 / 2) = 1 / 2 := by decide!
  have ht' : textValue (1 / 4) = 1 / 4 := by decide!
  have hr : List.range 2 = [0, 1] := by decide
  have hall : ∀ fresh : Junk, ((DatasetEntity.new 2 fresh).buildEntityFromString
      (point [1 / 2, 1 / 4]).getStringRepresentation).attributes = [1 / 2, fresh 1] := by
    intro fresh
    unfold DatasetEntity.buildEntityFromString DatasetEntity.getStringRepresentation
      DatasetEntity.new point
    simp only [List.length_map, List.length_range]
    rw [DatasetEntity.buildLoop_writeCsv 2 _ 0 _ (by simp), hr]
    simp only [List.dropLast, List.map_cons, List.map_nil, storeFrom, ht, List.set_cons_zero]
  refine ⟨by decide!, hall, ?_, rfl, ?_, ?_⟩
  · unfold DatasetEntity.getComponentValue
    rw [hall]
    rfl
  · intro p fresh hd
    unfold DatasetEntity.getComponentValue DatasetEntity.buildEntityFromString
      DatasetEntity.getStringRepresentation DatasetEntity.new
    unfold DatasetEntity.getNumOfDimensions at hd ⊢
    simp only [List.length_map, List.length_range]
    rw [DatasetEntity.buildLoop_writeCsv _ _ 0 _ (by simp),
      getD_storeFrom _ _ _ _ (by simp),
      if_neg (by simp only [List.length_map, List.length_dropLast]; omega)]
    simp [List.getD_eq_getElem?_getD, List.getElem?_map, List.getElem?_range, hd]
  · intro fresh
    unfold DatasetEntity.buildEntityFromString DatasetEntity.getStringRepresentation
      DatasetEntity.new point
    simp only [List.length_map, List.length_range]
    rw [DatasetEntity.buildLoop_writeCsv_eol 2 _ 0 _ (by simp) (by simp), hr]
    simp only [List.map_cons, List.map_nil, storeFrom, ht, ht', List.set_cons_zero,
      List.set_cons_succ]

/-! ## The test `isNeighbor` (C27) -/

set_option maxRecDepth 100000 in
/-- C27 (characterisation of `isNeighbor`) fails.  The cube `[0, 1) x [0, 1)` holds the
point `(0.05, 0.05)` and has the key `"2,2"` in its adjacency list; the cube
`[1, 2) x [1, 2)` holds the point `(1.95, 1.95)`; the edge is 1.  The means of the two
cubes are those points, at the squared distance `7.22`, above `(2 * 1) ^ 2`: the claim
gives `false`.  The last component of each mean element is not assigned by
`getMeanElement`: with fresh arrays holding zeros `isNeighbor` compares `(0.05, 0)` with
`(1.95, 0)` and returns `true`; with the values `0` and `5` in the two fresh arrays it
returns `false`. -/
theorem isNeighbor_reads_unassigned_mean :
    cubeNear.neighbors = [['2', ',', '2']] ∧
    cubeNear.componentMeans = [1 / 20, 1 / 20] ∧ cubeFar.componentMeans = [39 / 20, 39 / 20] ∧
    cubeNear.edge_length = 1 ∧
    ((1 / 20 - 39 / 20 : ℚ) ^ 2 + (1 / 20 - 39 / 20) ^ 2 = 361 / 50 ∧
      (2 * (1 : ℚ)) ^ 2 < 361 / 50) ∧
    cubeNear.isNeighbor (fun _ _ _ => 0) [['2', ',', '2']]
      [(['1', ',', '1'], cubeNear), (['2', ',', '2'], cubeFar)] = some true ∧
    cubeNear.isNeighbor (fun _ b _ => if b then 0 else 5) [['2', ',', '2']]
      [(['1', ',', '1'], cubeNear), (['2', ',', '2'], cubeFar)] = some false ∧
    (∀ fresh : Junk, (cubeNear.getMeanElement fresh).getComponentValue 1 = fresh 1) := by
  refine ⟨by decide!, by decide!, by decide!, by decide!, by norm_num, by decide!, by decide!,
    ?_⟩
  intro fresh
  have hd : cubeNear.dimensions = 2 := by decide!
  have h := HyperCube.getMeanElement_last cubeNear fresh (by decide!) (by decide!)
  rw [hd] at h
  exact h

/-! ## The density is positive (C28) -/

namespace HyperCube

theorem getD_map_range (d : Nat) (f : Nat → ℚ) (i : Nat) (hi : i < d) :
    ((List.range d).map f).getD i 0 = f i := by
  simp [List.getD_eq_getElem?_getD, List.getElem?_map, List.getElem?_range, hi]

/-- The member `addObject` keeps the component sums equal to the sums over the objects. -/
theorem addObject_sums (c : HyperCube) (object : DatasetEntity)
    (h : c.entities_sum = (List.range c.dimensions).map
      (fun i => (c.objects.map (fun p => p.getComponentValue i)).sum)) :
    (c.addObject object).dimensions = c.dimensions ∧
    (c.addObject object).entities_sum = (List.range c.dimensions).map
      (fun i => ((c.addObject object).objects.map (fun p => p.getComponentValue i)).sum) := by
  unfold addObject
  split
  · exact ⟨rfl, h⟩
  · refine ⟨rfl, ?_⟩
    simp only
    apply List.map_congr_left
    intro i hi
    rw [h, getD_map_range _ _ _ (List.mem_range.mp hi), List.map_append, List.sum_append]
    simp

theorem foldl_addObject_sums (ps : List DatasetEntity) : ∀ (c : HyperCube),
    c.entities_sum = (List.range c.dimensions).map
      (fun i => (c.objects.map (fun p => p.getComponentValue i)).sum) →
    (ps.foldl addObject c).dimensions = c.dimensions ∧
    (ps.foldl addObject c).entities_sum = (List.range c.dimensions).map
      (fun i => ((ps.foldl addObject c).objects.map (fun p => p.getComponentValue i)).sum) := by
  induction ps with
  | nil => intro c h; exact ⟨rfl, h⟩
  | cons p rest ih =>
    intro c h
    obtain ⟨hd, hsum⟩ := addObject_sums c p h
    rw [← hd] at hsum
    have := ih (c.addObject p) hsum
    rw [hd] at this
    exact this

end HyperCube

/-- C29 (component-sum invariant).  For the cube that the constructor builds and every
sequence of `addObject` calls on it, accepted or rejected, `entities_sum` has `d` entries
and its entry `i` is the sum of `p[i]` over the points `p` of the object list, for every
`i < d`. -/
theorem component_sum_invariant (d : Nat) (upper_bounds : List ℚ) (edge_length : ℚ)
    (ps : List DatasetEntity) :
    (ps.foldl HyperCube.addObject (HyperCube.new d upper_bounds edge_length)).entities_sum =
      (List.range d).map (fun i =>
        ((ps.foldl HyperCube.addObject (HyperCube.new d upper_bounds edge_length)).objects.map
          (fun p => p.getComponentValue i)).sum) := by
  have h0 : (HyperCube.new d upper_bounds edge_length).entities_sum =
      (List.range (HyperCube.new d upper_bounds edge_length).dimensions).map
        (fun i => ((HyperCube.new d upper_bounds edge_length).objects.map
          (fun p => p.getComponentValue i)).sum) := by
    unfold HyperCube.new
    simp only [List.map_nil, List.sum_nil]
    apply List.ext_getElem
    · simp
    · intro i h1 h2
      simp
  exact (HyperCube.foldl_addObject_sums ps _ h0).2


/-! ## The keys of the high populated cubes (C30) -/

namespace HyperSpace

/-- The first loop of `removeLowPopulatedHypercubes` from any state: the keys pushed are
those of the cubes visited that pass each test, in the order of the visit, and the cubes
erased are those with the keys pushed on `deleted_keys`. -/
theorem firstLoop_eq (hs : HyperSpace) : ∀ (l : List (List Char × HyperCube))
    (high deleted : List (List Char)) (cubes : StrMap HyperCube),
    firstLoop hs l (high, deleted, cubes) =
      (high ++ (l.filter (fun kv =>
          decide ((kv.2.numObjects : ℚ) ≥ hs.minimumObjectsInHypercubes))).map Prod.fst,
        deleted ++ (l.filter (fun kv => kv.2.isEmpty)).map Prod.fst,
        cubes.filter (fun kv =>
          !((l.filter (fun kv => kv.2.isEmpty)).map Prod.fst).contains kv.1)) := by
  intro l
  induction l with
  | nil =>
    intro high deleted cubes
    simp [firstLoop]
  | cons kv rest ih =>
    intro high deleted cubes
    obtain ⟨k, c⟩ := kv
    rw [firstLoop]
    by_cases he : c.isEmpty = true
    · have hf : List.filter (fun kv : List Char × HyperCube => kv.2.isEmpty) ((k, c) :: rest) =
          (k, c) :: List.filter (fun kv : List Char × HyperCube => kv.2.isEmpty) rest := by
        simp [List.filter_cons, he]
      rw [if_pos he, ih, hf]
      unfold StrMap.erase
      rw [List.filter_filter]
      refine Prod.ext ?_ (Prod.ext ?_ ?_)
      · by_cases hp : (c.numObjects : ℚ) ≥ hs.minimumObjectsInHypercubes
        · simp [hp, List.filter_cons]
        · simp [hp, List.filter_cons]
      · simp
      · simp only [List.map_cons]
        apply List.filter_congr
        intro x _
        rw [List.contains_cons]
        generalize (List.map Prod.fst (List.filter
          (fun kv : List Char × HyperCube => kv.2.isEmpty) rest)).contains x.1 = b
        by_cases hx : x.1 = k
        · simp only [hx, decide_True, Bool.not_true, Bool.false_and, Bool.and_false, beq_self_eq_true,
            Bool.true_or]
        · have hb : (x.1 == k) = false := beq_false_of_ne hx
          simp only [hx, hb, decide_False, Bool.not_false, Bool.true_and, Bool.and_true,
            Bool.false_or]
    · have hf : List.filter (fun kv : List Char × HyperCube => kv.2.isEmpty) ((k, c) :: rest) =
          List.filter (fun kv : List Char × HyperCube => kv.2.isEmpty) rest := by
        simp [List.filter_cons, he]
      rw [if_neg he, ih, hf]
      refine Prod.ext ?_ rfl
      by_cases hp : (c.numObjects : ℚ) ≥ hs.minimumObjectsInHypercubes
      · simp [hp, List.filter_cons]
      · simp [hp, List.filter_cons]

/-- In a map with distinct keys, the cubes whose key is not that of an empty cube are the
cubes that are not empty. -/
theorem filter_not_deleted (cubes : StrMap HyperCube) (hkeys : (cubes.map Prod.fst).Nodup) :
    cubes.filter (fun kv =>
      !((cubes.filter (fun kv => kv.2.isEmpty)).map Prod.fst).contains kv.1) =
    cubes.filter (fun kv => !kv.2.isEmpty) := by
  apply List.filter_congr
  intro x hx
  have hinj : ∀ y ∈ cubes, y.1 = x.1 → y = x := by
    intro y hy hxy
    exact List.inj_on_of_nodup_map hkeys hy hx hxy
  by_cases he : x.2.isEmpty = true
  · have hmem : x.1 ∈ (cubes.filter (fun kv => kv.2.isEmpty)).map Prod.fst :=
      List.mem_map.mpr ⟨x, List.mem_filter.mpr ⟨hx, he⟩, rfl⟩
    simp [he, hmem]
  · have hmem : x.1 ∉ (cubes.filter (fun kv => kv.2.isEmpty)).map Prod.fst := by
      intro h
      obtain ⟨y, hy, hyx⟩ := List.mem_map.mp h
      obtain ⟨hy1, hy2⟩ := List.mem_filter.mp hy
      rw [hinj y hy1 hyx] at hy2
      exact he hy2
    simp [he, hmem]

/-- The third loop only erases cubes. -/
theorem eraseUnconnected_mem (fresh : List Char → List Char → Bool → Junk)
    (keys : List (List Char)) : ∀ (l : List (List Char × HyperCube))
    (cubes result : StrMap HyperCube),
    eraseUnconnected fresh keys l cubes = some result → ∀ x ∈ result, x ∈ cubes := by
  intro l
  induction l with
  | nil =>
    intro cubes result h x hx
    rw [eraseUnconnected] at h
    cases h
    exact hx
  | cons kv rest ih =>
    intro cubes result h x hx
    obtain ⟨k, c⟩ := kv
    rw [eraseUnconnected] at h
    cases hn : c.isNeighbor (fresh k) keys cubes with
    | none => rw [hn] at h; cases h
    | some b =>
      rw [hn] at h
      cases b with
      | true => exact ih cubes result h x hx
      | false =>
        have := ih _ result h x hx
        unfold StrMap.erase at this
        exact (List.mem_filter.mp this).1

end HyperSpace

theorem StrMap.find_eq_none_of_not_mem {α : Type} (m : StrMap α) (k : List Char)
    (h : ∀ x ∈ m, x.1 ≠ k) : StrMap.find m k = none := by
  induction m with
  | nil => rfl
  | cons kv rest ih =>
    obtain ⟨k0, v0⟩ := kv
    rw [StrMap.find, if_neg (h (k0, v0) (List.mem_cons_self _ _))]
    exact ih (fun x hx => h x (List.mem_cons_of_mem _ hx))

/-- C30 (high-populated keys).  In a cube map with distinct keys, the first loop of
`removeLowPopulatedHypercubes`, run from the cleared key list on the whole map, ends with
`high_populated_keys` holding the keys of the cubes with at least `xi / (2 * d)` objects,
in the order of the map, and with the empty cubes erased.  So when
`removeLowPopulatedHypercubes` returns the space `hs'`: `hs'.high_populated_keys` is the
list that the loop built; it has no key twice, it is a sublist of the keys of the map of
before, and a key is in it exactly when it is the key of a cube that had at least
`xi / (2 * d)` objects; and no key of a cube that was empty is left in the map. -/
theorem high_populated_keys_after_pruning (fresh : List Char → List Char → Bool → Junk)
    (hs hs' : HyperSpace) (hkeys : (hs.hypercubes.map Prod.fst).Nodup)
    (h : HyperSpace.removeLowPopulatedHypercubes fresh hs = some hs') :
    HyperSpace.firstLoop hs hs.hypercubes ([], [], hs.hypercubes) =
      (HyperSpace.highPopulated hs, HyperSpace.deleted_keys hs,
        hs.hypercubes.filter (fun kv => !kv.2.isEmpty)) ∧
    hs'.high_populated_keys =
      (HyperSpace.firstLoop hs hs.hypercubes ([], [], hs.hypercubes)).1 ∧
    hs'.high_populated_keys.Nodup ∧
    hs'.high_populated_keys.Sublist (hs.hypercubes.map Prod.fst) ∧
    (∀ key, key ∈ hs'.high_populated_keys ↔
      ∃ c, (key, c) ∈ hs.hypercubes ∧
        (c.numObjects : ℚ) ≥ hs.xi / ((2 * hs.dimension : Nat) : ℚ)) ∧
    (∀ key c, (key, c) ∈ hs.hypercubes → c.isEmpty = true →
      StrMap.find hs'.hypercubes key = none) := by
  have hloop : HyperSpace.firstLoop hs hs.hypercubes ([], [], hs.hypercubes) =
      (HyperSpace.highPopulated hs, HyperSpace.deleted_keys hs,
        hs.hypercubes.filter (fun kv => !kv.2.isEmpty)) := by
    rw [HyperSpace.firstLoop_eq, HyperSpace.filter_not_deleted _ hkeys]
    rfl
  unfold HyperSpace.removeLowPopulatedHypercubes at h
  cases he : HyperSpace.eraseUnconnected fresh (HyperSpace.highPopulated hs)
      (HyperSpace.withoutEmpty hs) (HyperSpace.withoutEmpty hs) with
  | none => rw [he] at h; cases h
  | some m =>
    rw [he] at h
    simp only [Option.map_some', Option.some.injEq] at h
    subst h
    have hsub : (HyperSpace.highPopulated hs).Sublist (hs.hypercubes.map Prod.fst) := by
      unfold HyperSpace.highPopulated
      exact (List.filter_sublist _).map Prod.fst
    refine ⟨hloop, ?_, hsub.nodup hkeys, hsub, ?_, ?_⟩
    · rw [hloop]
    · intro key
      show key ∈ HyperSpace.highPopulated hs ↔ _
      unfold HyperSpace.highPopulated HyperSpace.minimumObjectsInHypercubes
      constructor
      · intro hk
        obtain ⟨x, hx, hxk⟩ := List.mem_map.mp hk
        obtain ⟨hx1, hx2⟩ := List.mem_filter.mp hx
        refine ⟨x.2, ?_, of_decide_eq_true hx2⟩
        rw [← hxk]
        exact hx1
      · rintro ⟨c, hc, hn⟩
        exact List.mem_map.mpr ⟨(key, c), List.mem_filter.mpr ⟨hc, decide_eq_true hn⟩, rfl⟩
    · intro key c hc hempty
      show StrMap.find m key = none
      apply StrMap.find_eq_none_of_not_mem
      intro x hx hxk
      have hx1 := HyperSpace.eraseUnconnected_mem fresh _ _ _ _ he x hx
      unfold HyperSpace.withoutEmpty at hx1
      obtain ⟨y, hy, hyx⟩ := List.mem_map.mp hx1
      obtain ⟨hy1, hy2⟩ := List.mem_filter.mp hy
      have hyk : y.1 = key := by
        rw [← hxk, ← hyx]
      have hyc : y = (key, c) := List.inj_on_of_nodup_map hkeys hy1 hc hyk
      rw [hyc] at hy2
      simp [hempty] at hy2

set_option maxRecDepth 100000 in
theorem high_populated_keys_after_pruning_witness :
    (∀ k, routed (4 + k)
      (Dataset.ofEntities 1 [point [1 / 5], point [2 / 5], point [6 / 5], point [7 / 2]])
      (1 / 2) 2 = some spaceGap) ∧
    (spaceGap.hypercubes.map Prod.fst).Nodup ∧
    HyperSpace.removeLowPopulatedHypercubes zeroFresh spaceGap = some spaceGapPruned ∧
    spaceGapPruned.high_populated_keys =
      (HyperSpace.firstLoop spaceGap spaceGap.hypercubes ([], [], spaceGap.hypercubes)).1 ∧
    spaceGapPruned.high_populated_keys = [['1'], ['2'], ['4']] ∧
    HyperSpace.deleted_keys spaceGap = [['3']] ∧
    StrMap.find spaceGapPruned.hypercubes ['3'] = none :=
  ⟨routed_add _ _ _ _ _ (by decide!), by decide!, by decide!,
    (high_populated_keys_after_pruning zeroFresh spaceGap spaceGapPruned (by decide!)
      (by decide!)).2.1,
    by decide!, by decide!, by decide!⟩


/-! ## The density along a climb (C38) -/

namespace DenclueFunctions

/-- The stored density does not go down along the iterates of a climb. -/
theorem reaches_density_le (sqrt expl : ℚ → ℚ) (fuel : Nat) (hs : HyperSpace)
    (entity : DatasetEntity) (it : EntityIterator) (sigma : ℚ) :
    ∀ (j : Nat) (x z : DatasetEntity), Reaches sqrt expl fuel hs entity it sigma j x z →
      x.getDensity ≤ z.getDensity := by
  intro j
  induction j with
  | zero =>
    intro x z h
    have hz : z = x := h
    rw [hz]
  | succ j ih =>
    intro x z h
    obtain ⟨y, _, hge, hr⟩ := h
    exact le_trans (not_lt.mp hge) (ih y z hr)

end DenclueFunctions

/-- C38 (the density never decreases along a climb).  Whenever `getDensityAttractor` returns
an attractor for a seed, at the exit by a lower density as at the exit by the cap, the
density stored on the attractor is at least the density stored on the seed.  Hence for a
seed whose stored density is at least `xi` the test `curr_attractor.getDensity() < xi` of the
first phase is false: the seed is added to the cluster of its attractor. -/
theorem density_never_decreases (sqrt expl : ℚ → ℚ) (fuel : Nat) (hs : HyperSpace)
    (entity : DatasetEntity) (iter : EntityIterator) (sigma : ℚ) (e : DatasetEntity)
    (h : DenclueFunctions.getDensityAttractor sqrt expl fuel entity hs iter sigma =
      Run.value (some e)) :
    entity.getDensity ≤ e.getDensity ∧
    ∀ (xi : ℚ) (clusters : Clusters), xi ≤ entity.getDensity →
      ¬ (e.getDensity < xi) ∧
      groupEntity xi clusters entity e = addToCluster clusters e entity := by
  obtain ⟨j, _, hr, _⟩ :=
    DenclueFunctions.reaches_of_climb sqrt expl fuel hs entity iter sigma 999 entity e h
  have hle := DenclueFunctions.reaches_density_le sqrt expl fuel hs entity iter sigma j entity e
    hr
  refine ⟨hle, fun xi clusters hxi => ?_⟩
  have hn : ¬ (e.getDensity < xi) := not_lt.mpr (le_trans hxi hle)
  refine ⟨hn, ?_⟩
  unfold groupEntity
  rw [if_neg hn]

set_option maxRecDepth 100000 in
theorem density_never_decreases_witness :
    DenclueFunctions.getDensityAttractor sqrtSample expSample 5
      { attributes := [1 / 5], density := 21190259 / 16982545 } spaceQuad
      { cube_keys_iterator := 0, entities_iterator := 0 } (1 / 2) =
      Run.value (some { attributes := [6 / 5], density := 9480099 / 6556745 }) ∧
    DatasetEntity.getDensity { attributes := [1 / 5], density := 21190259 / 16982545 } ≤
      DatasetEntity.getDensity { attributes := [6 / 5], density := 9480099 / 6556745 } := by
  have h : DenclueFunctions.getDensityAttractor sqrtSample expSample 5
      { attributes := [1 / 5], density := 21190259 / 16982545 } spaceQuad
      { cube_keys_iterator := 0, entities_iterator := 0 } (1 / 2) =
      Run.value (some { attributes := [6 / 5], density := 9480099 / 6556745 }) := by decide!
  exact ⟨h, (density_never_decreases sqrtSample expSample 5 spaceQuad _ _ (1 / 2) _ h).1⟩

/-! ## The traversal with an `EntityIterator` (C32) -/

namespace EntityIterator

/-- The traversal from a cursor that is at the end or on an object, in a space that can be
iterated: the entities that the cursor has not passed, for every bound above their
number. -/
theorem traverse_eq (hs : HyperSpace) (hit : hs.iterable = true) :
    ∀ (fuel : Nat) (it : EntityIterator), Valid hs it →
      (remaining hs it).length < fuel →
      traverse hs fuel it = Run.value (remaining hs it) := by
  intro fuel
  induction fuel with
  | zero => intro it _ h; exact absurd h (Nat.not_lt_zero _)
  | succ fuel ih =>
    intro it hv hlen
    rw [traverse]
    by_cases hend : isEnd hs it = true
    · rw [if_pos hend, remaining_of_isEnd hs it hend]
    · rw [if_neg hend]
      rcases hv with h | ⟨y, hy⟩
      · exact absurd h hend
      · obtain ⟨moved, hm, hvm, hrem⟩ := next_remaining hs hit it y hy
        rw [hrem, List.length_cons] at hlen
        rw [hy, hm]
        simp only
        rw [ih moved hvm (by omega), hrem]

end EntityIterator

set_option maxRecDepth 100000 in
/-- C32 (iterator traversal) fails for an empty list `high_populated_keys`.  In every space
in which every key of `high_populated_keys` has a cube with an object in the map and there
is such a key, `begin()` is defined, and the loop from `begin()` with `++` until `end()`
visits exactly the objects of the cubes of `high_populated_keys`, in that order, for every
bound above their number.  In a space whose list `high_populated_keys` is empty, which
satisfies the condition of the claim, `begin()` dereferences `high_populated_keys.begin()`
and the result of `hypercubes.find`: it has no defined behaviour, where the claim has the
traversal end at once.  The pruned space of the single point `0.5` for `sigma = 0.5` and
`xi = 4` is such a space, for every bound of at least 1 on the recursion of the grid. -/
theorem iterator_traversal :
    (∀ (hs : HyperSpace), hs.iterable = true → hs.high_populated_keys ≠ [] →
      EntityIterator.begin hs = some { cube_keys_iterator := 0, entities_iterator := 0 } ∧
      ∀ k, EntityIterator.traverse hs (hs.iterated.length + 1 + k)
        { cube_keys_iterator := 0, entities_iterator := 0 } = Run.value hs.iterated) ∧
    (∀ (hs : HyperSpace), hs.high_populated_keys = [] →
      hs.iterable = true ∧ hs.iterated = [] ∧ EntityIterator.begin hs = none) ∧
    (∀ k, ∃ hs, pruned zeroFresh (1 + k) dataSingle (1 / 2) 4 = some hs ∧
      hs.high_populated_keys = [] ∧ hs.iterable = true ∧ EntityIterator.begin hs = none) ∧
    EntityIterator.traverse spaceLow 5 { cube_keys_iterator := 0, entities_iterator := 0 } =
      Run.value [point [1 / 5], point [2 / 5], point [6 / 5], point [7 / 5]] := by
  refine ⟨?_, ?_, ?_, by decide!⟩
  · intro hs hit hne
    obtain ⟨hb, hv, hrem⟩ := EntityIterator.begin_of_iterable hs hit hne
    refine ⟨hb, fun k => ?_⟩
    rw [EntityIterator.traverse_eq hs hit _ _ hv (by rw [hrem]; omega), hrem]
  · intro hs h0
    refine ⟨?_, ?_, ?_⟩
    · unfold HyperSpace.iterable
      rw [h0]
      rfl
    · unfold HyperSpace.iterated
      rw [h0]
      rfl
    · unfold EntityIterator.begin EntityIterator.objectsAt
      rw [h0]
      rfl
  · intro k
    have h1 : (pruned zeroFresh 1 dataSingle (1 / 2) 4).map (fun hs => decide (
        hs.high_populated_keys = [] ∧ hs.iterable = true ∧ EntityIterator.begin hs = none)) =
        some true := by decide!
    cases hg : pruned zeroFresh 1 dataSingle (1 / 2) 4 with
    | none => rw [hg] at h1; cases h1
    | some hs =>
      rw [hg] at h1
      simp only [Option.map_some', Option.some.injEq, decide_eq_true_eq] at h1
      exact ⟨hs, pruned_add _ _ _ _ _ _ hg k, h1⟩


/-! ## A cube is not its own neighbor (C35) -/

namespace StrMap

theorem mem_assign_or {α : Type} (m : StrMap α) (k : List Char) (v : α) (x : List Char × α)
    (h : x ∈ assign m k v) : x ∈ m ∨ x = (k, v) := by
  induction m with
  | nil =>
    simp only [assign, List.mem_singleton] at h
    exact Or.inr h
  | cons kv rest ih =>
    obtain ⟨k0, v0⟩ := kv
    simp only [assign] at h
    split at h
    · rename_i hk
      rcases List.mem_cons.mp h with h1 | h1
      · exact Or.inr (by rw [h1, hk])
      · exact Or.inl (List.mem_cons_of_mem _ h1)
    · split at h
      · rcases List.mem_cons.mp h with h1 | h1
        · exact Or.inr h1
        · exact Or.inl h1
      · rcases List.mem_cons.mp h with h1 | h1
        · exact Or.inl (by rw [h1]; exact List.mem_cons_self _ _)
        · rcases ih h1 with h2 | h2
          · exact Or.inl (List.mem_cons_of_mem _ h2)
          · exact Or.inr h2

end StrMap

namespace HyperSpace

/-- The list `neighbors_keys` of a cube does not hold the key of the cube. -/
theorem not_mem_neighbors_keys (hs : HyperSpace) (key : List Char) :
    key ∉ neighbors_keys hs key := by
  intro h
  unfold neighbors_keys at h
  simp only at h
  obtain ⟨neighbor, _, hn⟩ := List.mem_filterMap.mp h
  split at hn
  · cases hn
  · split at hn
    · cases hn
    · rename_i hne
      simp only [Option.some.injEq] at hn
      exact hne hn

/-- The cube that `createHyperCubes` instantiates for a key has neither that key nor its
own `hypercube_key` among its neighbors. -/
theorem instantiate_noSelf (hs : HyperSpace) (key : List Char) :
    key ∉ (instantiate hs key).neighbors ∧
    (instantiate hs key).hypercube_key ∉ (instantiate hs key).neighbors := by
  unfold instantiate HyperCube.setNeighbors HyperCube.new
  simp only [List.nil_append]
  constructor
  · intro h
    exact not_mem_neighbors_keys hs key (List.mem_filter.mp h).1
  · intro h
    have := (List.mem_filter.mp h).2
    simp at this

/-- A call of `createHyperCubes` that returns keeps `NoSelfNeighbor`. -/
theorem createHyperCubes_noSelf : ∀ (fuel : Nat) (hs : HyperSpace) (key : List Char)
    (r : HyperSpace), createHyperCubes fuel hs key = some r → NoSelfNeighbor hs →
    NoSelfNeighbor r := by
  intro fuel
  induction fuel with
  | zero => intro hs key r h; simp [createHyperCubes] at h
  | succ fuel ih =>
    intro hs key r h hp
    unfold createHyperCubes at h
    refine foldlM_keeps NoSelfNeighbor _ ?_ _ _ r ?_ h
    · intro x k y hx hy
      simp only at hy
      split at hy
      · cases hy
        exact hx
      · exact ih x k y hy hx
    · intro kv hkv
      rcases StrMap.mem_insert _ _ _ kv hkv with h1 | h1
      · exact hp kv h1
      · rw [h1]
        exact instantiate_noSelf hs key

/-- The routing of an entity keeps `NoSelfNeighbor`. -/
theorem insertEntity_noSelf (hs : HyperSpace) (entity : DatasetEntity)
    (hp : NoSelfNeighbor hs) : NoSelfNeighbor (insertEntity hs entity) := by
  unfold insertEntity
  cases hf : StrMap.find hs.hypercubes (entityKey hs entity) with
  | none => exact hp
  | some cube =>
    intro kv hkv
    rcases StrMap.mem_assign_or _ _ _ kv hkv with h1 | h1
    · exact hp kv h1
    · rw [h1]
      have hc := hp _ (StrMap.find_mem _ _ _ hf)
      obtain ⟨hk, _, _, hn⟩ := HyperCube.addObject_frame cube entity
      simp only
      rw [hn, hk]
      exact hc

/-- A call of `removeLowPopulatedHypercubes` that returns keeps `NoSelfNeighbor`. -/
theorem removeLowPopulatedHypercubes_noSelf (fresh : List Char → List Char → Bool → Junk)
    (hs r : HyperSpace) (h : removeLowPopulatedHypercubes fresh hs = some r)
    (hp : NoSelfNeighbor hs) : NoSelfNeighbor r := by
  unfold removeLowPopulatedHypercubes at h
  cases he : eraseUnconnected fresh (highPopulated hs) (withoutEmpty hs) (withoutEmpty hs) with
  | none => rw [he] at h; cases h
  | some m =>
    rw [he] at h
    simp only [Option.map_some', Option.some.injEq] at h
    subst h
    intro kv hkv
    have h1 := eraseUnconnected_mem fresh _ _ _ _ he kv hkv
    unfold withoutEmpty at h1
    obtain ⟨y, hy, hyx⟩ := List.mem_map.mp h1
    have hy1 := hp y (List.mem_filter.mp hy).1
    rw [← hyx]
    unfold HyperCube.removeEmptyNeighbors
    simp only
    exact ⟨fun hh => hy1.1 (List.mem_filter.mp hh).1, fun hh => hy1.2 (List.mem_filter.mp hh).1⟩

end HyperSpace

/-- The test `isNeighbor` against a single key that is not among the neighbors of the cube
is false. -/
theorem HyperCube.isNeighbor_single (c : HyperCube) (fresh : List Char → Bool → Junk)
    (k : List Char) (cubes : StrMap HyperCube) (h : k ∉ c.neighbors) :
    c.isNeighbor fresh [k] cubes = some false := by
  have hc : c.neighbors.contains k = false := by
    rw [← Bool.not_eq_true]
    intro hh
    exact h (by simpa using hh)
  rw [HyperCube.isNeighbor, if_neg (by rw [hc]; exact Bool.false_ne_true)]
  rfl

/-- C35 (a cube is never its own neighbor).  The space that `determineSpatialRegions` returns
for a space with an empty map, the space after any routing of entities, and the space that
any later `removeLowPopulatedHypercubes` returns have no cube whose list of neighbors holds
the key of that cube.  For such a cube `C` under the key `key`, with any map `cubes` and
any contents of fresh arrays, `C.isNeighbor([key], cubes)` is false.  The pipeline does
return such a space: `spaceFour`, with three cubes, for four points. -/
theorem cube_never_its_own_neighbor :
    (∀ (fuel : Nat) (ds : Dataset) (sigma xi : ℚ) (hs : HyperSpace),
      gridOf fuel ds sigma xi = some hs → hs.NoSelfNeighbor) ∧
    (∀ (hs : HyperSpace) (entities : List DatasetEntity), hs.NoSelfNeighbor →
      (entities.foldl HyperSpace.insertEntity hs).NoSelfNeighbor) ∧
    (∀ (fresh : List Char → List Char → Bool → Junk) (hs r : HyperSpace),
      hs.NoSelfNeighbor → HyperSpace.removeLowPopulatedHypercubes fresh hs = some r →
      r.NoSelfNeighbor) ∧
    (∀ (fresh : List Char → List Char → Bool → Junk) (fuel : Nat) (ds : Dataset)
      (sigma xi : ℚ) (hs : HyperSpace),
      pruned fresh fuel ds sigma xi = some hs → hs.NoSelfNeighbor) ∧
    (∀ (hs : HyperSpace), hs.NoSelfNeighbor → ∀ kv ∈ hs.hypercubes,
      ∀ (fresh : List Char → Bool → Junk) (cubes : StrMap HyperCube),
        kv.2.isNeighbor fresh [kv.1] cubes = some false ∧
        kv.2.isNeighbor fresh [kv.2.hypercube_key] cubes = some false) ∧
    (∀ k, pruned zeroFresh (3 + k)
      (Dataset.ofEntities 1 [dense [11 / 20], dense [11 / 8], dense [29 / 10], dense [59 / 20]])
      (1 / 2) (1 / 5) = some spaceFour) ∧
    spaceFour.hypercubes.map Prod.fst = [['1'], ['2'], ['3']] := by
  have hgrid : ∀ (fuel : Nat) (ds : Dataset) (sigma xi : ℚ) (hs : HyperSpace),
      gridOf fuel ds sigma xi = some hs → hs.NoSelfNeighbor := by
    intro fuel ds sigma xi hs h
    unfold gridOf HyperSpace.determineSpatialRegions at h
    refine HyperSpace.createHyperCubes_noSelf fuel _ _ hs h ?_
    intro kv hkv
    simp [HyperSpace.new] at hkv
  have hroute : ∀ (hs : HyperSpace) (entities : List DatasetEntity), hs.NoSelfNeighbor →
      (entities.foldl HyperSpace.insertEntity hs).NoSelfNeighbor := by
    intro hs entities
    induction entities generalizing hs with
    | nil => intro hp; exact hp
    | cons e rest ih =>
      intro hp
      exact ih _ (HyperSpace.insertEntity_noSelf hs e hp)
  refine ⟨hgrid, hroute, ?_, ?_, ?_, spaceFour_pruned, by decide⟩
  · intro fresh hs r hp h
    exact HyperSpace.removeLowPopulatedHypercubes_noSelf fresh hs r h hp
  · intro fresh fuel ds sigma xi hs h
    unfold pruned routed at h
    cases hg : gridOf fuel ds sigma xi with
    | none => rw [hg] at h; cases h
    | some g =>
      rw [hg] at h
      simp only [Option.map_some', Option.some_bind] at h
      exact HyperSpace.removeLowPopulatedHypercubes_noSelf fresh _ hs h
        (hroute g _ (hgrid fuel ds sigma xi g hg))
  · intro hs hp kv hkv fresh cubes
    exact ⟨HyperCube.isNeighbor_single _ fresh _ cubes (hp kv hkv).1,
      HyperCube.isNeighbor_single _ fresh _ cubes (hp kv hkv).2⟩

/-! ## The cursor of the path search at the end (C39) -/

set_option maxRecDepth 100000 in
/-- C39 (iterator safety in the path search) fails.  `spaceFive` is the pruned space of the
points `2.1`, `2.2`, `2.3`, `3.8`, `3.4` (`sigma = 0.5`, `xi = 0.2`, every density 1); its
list `high_populated_keys` is not empty and its keys are keys of the map.  For the
attractors `p = 3` and `q = 0`, after 15 iterations of the loop of `pathBetweenExists` the
path holds one cursor, which the backtracking step has moved to the end, and the loop
cursor is at the end too.  The next iteration enters the block for the cursor at the end
and evaluates `curr_path.back()->getStringRepresentation()`: it dereferences the cursor of
the path, which is on no object. -/
theorem path_search_cursor_at_end :
    (∀ k, pruned zeroFresh (2 + k)
      (Dataset.ofEntities 1
        [dense [21 / 10], dense [22 / 10], dense [23 / 10], dense [38 / 10], dense [34 / 10]])
      (1 / 2) (1 / 5) = some spaceFive) ∧
    spaceFive.high_populated_keys = [['3'], ['4']] ∧
    (∀ key ∈ spaceFive.high_populated_keys, StrMap.contains spaceFive.hypercubes key = true) ∧
    DenclueFunctions.pathStateAfter (point [3]) (point [0]) spaceFive (1 / 5) (1 / 2) 16 15
        { usedEntities := StrMap.assign
            (StrMap.assign (DenclueFunctions.freshUsed (point [3]) (point [0]))
              (point [3]).getStringRepresentation true)
            (point [0]).getStringRepresentation true
          curr_path := []
          iter := { cube_keys_iterator := 0, entities_iterator := 0 } } =
      some
        { usedEntities := [(['0'], true), (['3'], true), (['3', '.', '4'], true),
            (['3', '.', '8'], false)]
          curr_path := [{ cube_keys_iterator := 2, entities_iterator := 2 }]
          iter := { cube_keys_iterator := 2, entities_iterator := 2 } } ∧
    EntityIterator.isEnd spaceFive { cube_keys_iterator := 2, entities_iterator := 2 } = true ∧
    EntityIterator.deref spaceFive { cube_keys_iterator := 2, entities_iterator := 2 } = none ∧
    DenclueFunctions.backtrack spaceFive 16
        { usedEntities := [(['0'], true), (['3'], true), (['3', '.', '4'], true),
            (['3', '.', '8'], false)]
          curr_path := [{ cube_keys_iterator := 2, entities_iterator := 2 }]
          iter := { cube_keys_iterator := 2, entities_iterator := 2 } } =
      Flow.stop Run.undefined ∧
    DenclueFunctions.loopBody (point [3]) (point [0]) spaceFive (1 / 5) (1 / 2) 16
        { usedEntities := [(['0'], true), (['3'], true), (['3', '.', '4'], true),
            (['3', '.', '8'], false)]
          curr_path := [{ cube_keys_iterator := 2, entities_iterator := 2 }]
          iter := { cube_keys_iterator := 2, entities_iterator := 2 } } =
      Flow.stop Run.undefined := by
  refine ⟨spaceFive_pruned, by decide!, by decide!, by decide!, by decide!, by decide!,
    by decide!, by decide!⟩


/-! ## The merging phase (C34, C37) -/

/-- What the inner loop of the merging phase returns: the clusters left are a sublist of the
clusters it was given, each with a path test that returned `false`; every other cluster
had a path test that returned `true` and its members are among the members returned; the
members returned start with the members given; and no member is lost or added. -/
theorem mergeLoop_spec (fuel : Nat) (hs : HyperSpace) (dimension : Nat) (xi sigma : ℚ)
    (outer_key : List Char) :
    ∀ (rest : List (List Char × List DatasetEntity)) (members merged : List DatasetEntity)
      (left : List (List Char × List DatasetEntity)),
      mergeLoop fuel hs dimension xi sigma outer_key members rest = Run.value (merged, left) →
      (∀ kv ∈ left, pathTest fuel hs (attractorOfKey dimension outer_key)
        (attractorOfKey dimension kv.1) xi sigma = Run.value false) ∧
      (∀ kv ∈ rest, kv ∈ left ∨
        (pathTest fuel hs (attractorOfKey dimension outer_key)
          (attractorOfKey dimension kv.1) xi sigma = Run.value true ∧
          ∀ x ∈ kv.2, x ∈ merged)) ∧
      (∃ extra, merged = members ++ extra) ∧
      (merged ++ left.flatMap Prod.snd).Perm (members ++ rest.flatMap Prod.snd) := by
  intro rest
  induction rest with
  | nil =>
    intro members merged left h
    rw [mergeLoop] at h
    cases h
    exact ⟨fun kv hkv => absurd hkv (List.not_mem_nil _),
      fun kv hkv => absurd hkv (List.not_mem_nil _), ⟨[], by simp⟩, List.Perm.refl _⟩
  | cons kv rest ih =>
    intro members merged left h
    obtain ⟨k0, v0⟩ := kv
    rw [mergeLoop] at h
    cases hp : pathTest fuel hs (attractorOfKey dimension outer_key)
        (attractorOfKey dimension k0) xi sigma with
    | noFuel => rw [hp] at h; cases h
    | undefined => rw [hp] at h; cases h
    | value canMerge =>
      rw [hp] at h
      simp only at h
      cases canMerge with
      | true =>
        simp only [if_true] at h
        obtain ⟨h1, h2, ⟨extra, h3⟩, h4⟩ := ih _ merged left h
        refine ⟨h1, ?_, ⟨v0 ++ extra, by rw [h3, List.append_assoc]⟩, ?_⟩
        · intro x hx
          rcases List.mem_cons.mp hx with hx1 | hx1
          · rw [hx1]
            refine Or.inr ⟨hp, fun y hy => ?_⟩
            rw [h3]
            exact List.mem_append_left _ (List.mem_append_right _ hy)
          · exact h2 x hx1
        · rw [List.flatMap_cons, ← List.append_assoc]
          exact h4
      | false =>
        simp only [Bool.false_eq_true, if_false] at h
        cases hm : mergeLoop fuel hs dimension xi sigma outer_key members rest with
        | noFuel => rw [hm] at h; cases h
        | undefined => rw [hm] at h; cases h
        | value r =>
          obtain ⟨m1, l1⟩ := r
          rw [hm] at h
          simp only at h
          cases h
          obtain ⟨h1, h2, h3, h4⟩ := ih _ _ _ hm
          refine ⟨?_, ?_, h3, ?_⟩
          · intro x hx
            rcases List.mem_cons.mp hx with hx1 | hx1
            · rw [hx1]
              exact hp
            · exact h1 x hx1
          · intro x hx
            rcases List.mem_cons.mp hx with hx1 | hx1
            · rw [hx1]
              exact Or.inl (List.mem_cons_self _ _)
            · rcases h2 x hx1 with hh | hh
              · exact Or.inl (List.mem_cons_of_mem _ hh)
              · exact Or.inr hh
          · rw [List.flatMap_cons, List.flatMap_cons]
            have e1 : (merged ++ (v0 ++ l1.flatMap Prod.snd)).Perm
                (v0 ++ (merged ++ l1.flatMap Prod.snd)) := by
              rw [← List.append_assoc, ← List.append_assoc]
              exact List.Perm.append_right _ List.perm_append_comm
            have e2 : (v0 ++ (members ++ rest.flatMap Prod.snd)).Perm
                (members ++ (v0 ++ rest.flatMap Prod.snd)) := by
              rw [← List.append_assoc, ← List.append_assoc]
              exact List.Perm.append_right _ List.perm_append_comm
            exact e1.trans ((List.Perm.append_left v0 h4).trans e2)

/-- What the merging phase returns.  Any two clusters that are left, in the order of the
map, had a path test that returned `false`.  Every cluster of before either has its key
left, with its members among the members under that key, or had a path test that returned
`true` against a cluster that is left and holds its members.  No member is lost or added,
and a cluster that is left holds the members that it had. -/
theorem phaseBLoop_spec (fuel : Nat) (hs : HyperSpace) (dimension : Nat) (xi sigma : ℚ) :
    ∀ (n : Nat) (clusters merged : List (List Char × List DatasetEntity)),
      phaseBLoop fuel hs dimension xi sigma n clusters = Run.value merged →
      List.Pairwise (fun a b => pathTest fuel hs (attractorOfKey dimension a.1)
        (attractorOfKey dimension b.1) xi sigma = Run.value false) merged ∧
      (∀ kv ∈ clusters,
        (∃ m, (kv.1, m) ∈ merged ∧ ∀ x ∈ kv.2, x ∈ m) ∨
        (∃ a ∈ merged, pathTest fuel hs (attractorOfKey dimension a.1)
          (attractorOfKey dimension kv.1) xi sigma = Run.value true ∧
          ∀ x ∈ kv.2, x ∈ a.2)) ∧
      (merged.flatMap Prod.snd).Perm (clusters.flatMap Prod.snd) ∧
      ((∀ kv ∈ clusters, kv.2 ≠ []) → ∀ kv ∈ merged, kv.2 ≠ []) := by
  intro n
  induction n with
  | zero =>
    intro clusters merged h
    cases clusters with
    | nil =>
      rw [phaseBLoop] at h
      cases h
      exact ⟨List.Pairwise.nil, fun kv hkv => absurd hkv (List.not_mem_nil _), List.Perm.refl _,
        fun _ kv hkv => absurd hkv (List.not_mem_nil _)⟩
    | cons kv rest => rw [phaseBLoop] at h; cases h
  | succ n ih =>
    intro clusters merged h
    cases clusters with
    | nil =>
      rw [phaseBLoop] at h
      cases h
      exact ⟨List.Pairwise.nil, fun kv hkv => absurd hkv (List.not_mem_nil _), List.Perm.refl _,
        fun _ kv hkv => absurd hkv (List.not_mem_nil _)⟩
    | cons kv rest =>
      obtain ⟨k0, v0⟩ := kv
      rw [phaseBLoop] at h
      cases hm : mergeLoop fuel hs dimension xi sigma k0 v0 rest with
      | noFuel => rw [hm] at h; cases h
      | undefined => rw [hm] at h; cases h
      | value r =>
        obtain ⟨m1, l1⟩ := r
        rw [hm] at h
        simp only at h
        cases ht : phaseBLoop fuel hs dimension xi sigma n l1 with
        | noFuel => rw [ht] at h; cases h
        | undefined => rw [ht] at h; cases h
        | value tail =>
          rw [ht] at h
          simp only at h
          cases h
          obtain ⟨a1, a2, ⟨extra, a3⟩, a4⟩ := mergeLoop_spec fuel hs dimension xi sigma k0 rest
            v0 m1 l1 hm
          obtain ⟨b1, b2, b3, b4⟩ := ih l1 tail ht
          have hsub := phaseBLoop_sublist fuel hs dimension xi sigma n l1 tail ht
          have hl1 := mergeLoop_sublist fuel hs dimension xi sigma k0 rest v0 m1 l1 hm
          refine ⟨List.pairwise_cons.mpr ⟨?_, b1⟩, ?_, ?_, ?_⟩
          · intro b hb
            have hbk : b.1 ∈ l1.map Prod.fst := hsub.subset (List.mem_map_of_mem _ hb)
            obtain ⟨y, hy, hyb⟩ := List.mem_map.mp hbk
            have := a1 y hy
            rw [hyb] at this
            exact this
          · intro x hx
            rcases List.mem_cons.mp hx with hx1 | hx1
            · rw [hx1]
              refine Or.inl ⟨m1, List.mem_cons_self _ _, fun y hy => ?_⟩
              rw [a3]
              exact List.mem_append_left _ hy
            · rcases a2 x hx1 with hh | ⟨hh1, hh2⟩
              · rcases b2 x hh with ⟨m, hm1, hm2⟩ | ⟨a, ha1, ha2, ha3⟩
                · exact Or.inl ⟨m, List.mem_cons_of_mem _ hm1, hm2⟩
                · exact Or.inr ⟨a, List.mem_cons_of_mem _ ha1, ha2, ha3⟩
              · exact Or.inr ⟨(k0, m1), List.mem_cons_self _ _, hh1, hh2⟩
          · rw [List.flatMap_cons, List.flatMap_cons]
            exact (List.Perm.append_left m1 b3).trans a4
          · intro hne x hx
            rcases List.mem_cons.mp hx with hx1 | hx1
            · rw [hx1, a3]
              intro h0
              exact hne (k0, v0) (List.mem_cons_self _ _) (List.append_eq_nil.mp h0).1
            · exact b4 (fun y hy => hne y (List.mem_cons_of_mem _ (hl1.subset hy))) x hx1

/-! ### The merging phase ends -/

/-- For finitely many pairs of attractors there is a bound from which no path test runs out
of iterations. -/
theorem pathTest_halts_all (hs : HyperSpace) (xi sigma : ℚ) :
    ∀ (pairs : List (DatasetEntity × DatasetEntity)), ∃ bound, ∀ k, ∀ pq ∈ pairs,
      pathTest (bound + k) hs pq.1 pq.2 xi sigma ≠ Run.noFuel := by
  intro pairs
  induction pairs with
  | nil => exact ⟨0, fun k pq hpq => absurd hpq (List.not_mem_nil _)⟩
  | cons pq rest ih =>
    obtain ⟨b1, h1⟩ := pathBetweenExists_halts pq.1 pq.2 hs xi sigma
      (DenclueFunctions.freshUsed pq.1 pq.2)
    obtain ⟨b2, h2⟩ := ih
    refine ⟨b1 + b2, fun k x hx => ?_⟩
    rcases List.mem_cons.mp hx with hx1 | hx1
    · rw [hx1, Nat.add_assoc]
      exact h1 (b2 + k)
    · rw [show b1 + b2 + k = b2 + (b1 + k) by omega]
      exact h2 (b1 + k) x hx1

/-- The inner loop of the merging phase does not run out of iterations when none of its
path tests does. -/
theorem mergeLoop_ne_noFuel (fuel : Nat) (hs : HyperSpace) (dimension : Nat) (xi sigma : ℚ)
    (outer_key : List Char) :
    ∀ (rest : List (List Char × List DatasetEntity)) (members : List DatasetEntity),
      (∀ kv ∈ rest, pathTest fuel hs (attractorOfKey dimension outer_key)
        (attractorOfKey dimension kv.1) xi sigma ≠ Run.noFuel) →
      mergeLoop fuel hs dimension xi sigma outer_key members rest ≠ Run.noFuel := by
  intro rest
  induction rest with
  | nil =>
    intro members _
    rw [mergeLoop]
    exact fun h => by cases h
  | cons kv rest ih =>
    intro members hp
    obtain ⟨k0, v0⟩ := kv
    rw [mergeLoop]
    have h0 := hp (k0, v0) (List.mem_cons_self _ _)
    have hr : ∀ kv ∈ rest, pathTest fuel hs (attractorOfKey dimension outer_key)
        (attractorOfKey dimension kv.1) xi sigma ≠ Run.noFuel :=
      fun kv hkv => hp kv (List.mem_cons_of_mem _ hkv)
    cases hq : pathTest fuel hs (attractorOfKey dimension outer_key)
        (attractorOfKey dimension k0) xi sigma with
    | noFuel => exact absurd hq h0
    | undefined => exact fun h => by cases h
    | value canMerge =>
      simp only
      cases canMerge with
      | true =>
        simp only [if_true]
        exact ih _ hr
      | false =>
        simp only [Bool.false_eq_true, if_false]
        have := ih members hr
        cases hm : mergeLoop fuel hs dimension xi sigma outer_key members rest with
        | noFuel => exact absurd hm this
        | undefined => exact fun h => by cases h
        | value r => exact fun h => by cases h

/-- The outer loop of the merging phase does not run out of iterations when its bound is
the number of clusters and no path test between two of the keys runs out. -/
theorem phaseBLoop_ne_noFuel (fuel : Nat) (hs : HyperSpace) (dimension : Nat) (xi sigma : ℚ) :
    ∀ (n : Nat) (clusters : List (List Char × List DatasetEntity)),
      clusters.length ≤ n →
      (∀ a ∈ clusters, ∀ b ∈ clusters, pathTest fuel hs (attractorOfKey dimension a.1)
        (attractorOfKey dimension b.1) xi sigma ≠ Run.noFuel) →
      phaseBLoop fuel hs dimension xi sigma n clusters ≠ Run.noFuel := by
  intro n
  induction n with
  | zero =>
    intro clusters hlen _
    have : clusters = [] := List.length_eq_zero.mp (Nat.le_zero.mp hlen)
    rw [this, phaseBLoop]
    exact fun h => by cases h
  | succ n ih =>
    intro clusters hlen hp
    cases clusters with
    | nil =>
      rw [phaseBLoop]
      exact fun h => by cases h
    | cons kv rest =>
      obtain ⟨k0, v0⟩ := kv
      rw [phaseBLoop]
      have hm0 := mergeLoop_ne_noFuel fuel hs dimension xi sigma k0 rest v0
        (fun b hb => hp (k0, v0) (List.mem_cons_self _ _) b (List.mem_cons_of_mem _ hb))
      cases hm : mergeLoop fuel hs dimension xi sigma k0 v0 rest with
      | noFuel => exact absurd hm hm0
      | undefined => exact fun h => by cases h
      | value r =>
        obtain ⟨m1, l1⟩ := r
        simp only
        have hl1 := mergeLoop_sublist fuel hs dimension xi sigma k0 rest v0 m1 l1 hm
        have hn := ih l1 (by
            have := hl1.length_le
            simp only [List.length_cons] at hlen
            omega)
          (fun a ha b hb => hp a (List.mem_cons_of_mem _ (hl1.subset ha)) b
            (List.mem_cons_of_mem _ (hl1.subset hb)))
        cases ht : phaseBLoop fuel hs dimension xi sigma n l1 with
        | noFuel => exact absurd ht hn
        | undefined => exact fun h => by cases h
        | value tail => exact fun h => by cases h

/-- The merging phase never runs forever: from some bound on the iterations of the path
tests on, it has returned or a path test has dereferenced a cursor that is on no object. -/
theorem phaseB_halts (hs : HyperSpace) (dimension : Nat) (xi sigma : ℚ) (clusters : Clusters) :
    ∃ bound, ∀ k, phaseB (bound + k) hs dimension xi sigma clusters ≠ Run.noFuel := by
  obtain ⟨bound, hb⟩ := pathTest_halts_all hs xi sigma
    (clusters.flatMap (fun a => clusters.map (fun b =>
      (attractorOfKey dimension a.1, attractorOfKey dimension b.1))))
  refine ⟨bound, fun k => ?_⟩
  unfold phaseB
  refine phaseBLoop_ne_noFuel _ hs dimension xi sigma _ clusters (Nat.le_refl _) ?_
  intro a ha b hb1
  exact hb k (attractorOfKey dimension a.1, attractorOfKey dimension b.1)
    (List.mem_flatMap.mpr ⟨a, ha, List.mem_map.mpr ⟨b, hb1, rfl⟩⟩)

/-! ### The clusters of the first phase have members -/

theorem StrMap.mem_assign_key {α : Type} (m : StrMap α) (k : List Char) (v : α)
    (x : List Char × α) (hs : StrMap.Sorted m) (h : x ∈ StrMap.assign m k v) (hk : x.1 = k) :
    x = (k, v) := by
  unfold StrMap.Sorted at hs
  induction m with
  | nil =>
    simp only [StrMap.assign, List.mem_singleton] at h
    exact h
  | cons kv rest ih =>
    obtain ⟨k0, v0⟩ := kv
    rw [List.pairwise_cons] at hs
    simp only [StrMap.assign] at h
    split at h
    · rename_i hk0
      rcases List.mem_cons.mp h with h1 | h1
      · rw [h1, hk0]
      · have := hs.1 x h1
        simp only at this
        rw [hk, ← hk0, strLt_irrefl] at this
        cases this
    · rename_i hk0
      split at h
      · rename_i hlt
        rcases List.mem_cons.mp h with h1 | h1
        · exact h1
        · rcases List.mem_cons.mp h1 with h2 | h2
          · rw [h2] at hk
            exact absurd hk hk0
          · have h3 := hs.1 x h2
            simp only at h3
            rw [hk] at h3
            have := strLt_trans _ _ _ hlt h3
            rw [strLt_irrefl] at this
            cases this
      · rcases List.mem_cons.mp h with h1 | h1
        · rw [h1] at hk
          exact absurd hk hk0
        · exact ih hs.2 h1

/-- The body of the first loop keeps every cluster with at least one member. -/
theorem groupEntity_members (xi : ℚ) (clusters : Clusters) (entity a : DatasetEntity)
    (hsorted : StrMap.Sorted clusters) (hne : ∀ kv ∈ clusters, kv.2 ≠ []) :
    ∀ kv ∈ groupEntity xi clusters entity a, kv.2 ≠ [] := by
  unfold groupEntity
  split
  · exact hne
  · intro kv hkv
    unfold addToCluster at hkv
    have hs1 : StrMap.Sorted
        (if StrMap.contains clusters a.getStringRepresentation then clusters
          else StrMap.insert clusters a.getStringRepresentation []) := by
      split
      · exact hsorted
      · exact StrMap.sorted_insert _ _ _ hsorted
    by_cases hk : kv.1 = a.getStringRepresentation
    · rw [StrMap.mem_assign_key _ _ _ kv hs1 hkv hk]
      simp
    · rcases StrMap.mem_assign_or _ _ _ kv hkv with h1 | h1
      · split at h1
        · exact hne kv h1
        · rcases StrMap.mem_insert _ _ _ kv h1 with h2 | h2
          · exact hne kv h2
          · rw [h2] at hk
            exact absurd rfl hk
      · rw [h1] at hk
        exact absurd rfl hk

/-- The first phase keeps the keys in increasing order and every cluster with at least one
member. -/
theorem phaseALoop_members (sqrt expl : ℚ → ℚ) (fuel : Nat) (hs : HyperSpace) (sigma xi : ℚ) :
    ∀ (n : Nat) (it : EntityIterator) (clusters result : Clusters),
      phaseALoop sqrt expl fuel hs sigma xi n it clusters = Run.value (some result) →
      StrMap.Sorted clusters → (∀ kv ∈ clusters, kv.2 ≠ []) →
      ∀ kv ∈ result, kv.2 ≠ [] := by
  intro n
  induction n with
  | zero => intro it clusters result h; rw [phaseALoop] at h; cases h
  | succ n ih =>
    intro it clusters result h hsorted hne
    rw [phaseALoop] at h
    split at h
    · cases h
      exact hne
    · cases hb : EntityIterator.begin hs with
      | none => rw [hb] at h; cases h
      | some first =>
        rw [hb] at h
        simp only at h
        cases hd : EntityIterator.deref hs it with
        | none => rw [hd] at h; cases h
        | some entity =>
          rw [hd] at h
          simp only at h
          cases hr : DenclueFunctions.getDensityAttractor sqrt expl fuel entity hs first
              sigma with
          | noFuel => rw [hr] at h; cases h
          | undefined => rw [hr] at h; cases h
          | value r =>
            cases r with
            | none => rw [hr] at h; cases h
            | some a =>
              rw [hr] at h
              simp only at h
              cases hn : EntityIterator.next hs it with
              | none => rw [hn] at h; cases h
              | some moved =>
                rw [hn] at h
                simp only at h
                exact ih moved _ result h (sorted_groupEntity xi clusters entity a hsorted)
                  (groupEntity_members xi clusters entity a hsorted hne)

/-- C34 (postcondition of the merging phase).  When the merge loop of `main` has finished
and left the map `merged`: for every two clusters `A` before `B` of `merged`, in the order
of the map, the path test on the attractors built from their keys, with `usedEntities`
holding those two, returns `false`; and for every cluster `B` of the map of before whose
key is not left in `merged`, there is a cluster `A` of `merged` for which the path test
from `A` to `B` returns `true` and which holds the members of `B`. -/
theorem phase_b_postcondition (fuel : Nat) (hs : HyperSpace) (dimension : Nat) (xi sigma : ℚ)
    (clusters merged : Clusters)
    (hB : phaseB fuel hs dimension xi sigma clusters = Run.value merged) :
    List.Pairwise (fun a b => pathTest fuel hs (attractorOfKey dimension a.1)
      (attractorOfKey dimension b.1) xi sigma = Run.value false) merged ∧
    (∀ kv ∈ clusters, kv.1 ∉ merged.map Prod.fst →
      ∃ a ∈ merged, pathTest fuel hs (attractorOfKey dimension a.1)
        (attractorOfKey dimension kv.1) xi sigma = Run.value true ∧
        ∀ x ∈ kv.2, x ∈ a.2) := by
  obtain ⟨h1, h2, _, _⟩ := phaseBLoop_spec fuel hs dimension xi sigma _ clusters merged hB
  refine ⟨h1, fun kv hkv hnot => ?_⟩
  rcases h2 kv hkv with ⟨m, hm, _⟩ | hh
  · exact absurd (List.mem_map.mpr ⟨(kv.1, m), hm, rfl⟩) hnot
  · exact hh

set_option maxRecDepth 100000 in
theorem phase_b_postcondition_witness :
    phaseB 30 spaceFour 1 (1 / 5) (1 / 2)
        [(['1'], [dense [11 / 20]]), (['1', '.', '5'], [dense [11 / 8]]),
          (['1', '.', '7', '5'], [dense [29 / 10]])] =
      Run.value [(['1'], [dense [11 / 20], dense [11 / 8]]),
        (['1', '.', '7', '5'], [dense [29 / 10]])] ∧
    pathTest 30 spaceFour (attractorOfKey 1 ['1']) (attractorOfKey 1 ['1', '.', '7', '5'])
      (1 / 5) (1 / 2) = Run.value false ∧
    pathTest 30 spaceFour (attractorOfKey 1 ['1']) (attractorOfKey 1 ['1', '.', '5'])
      (1 / 5) (1 / 2) = Run.value true ∧
    List.Pairwise (fun a b => pathTest 30 spaceFour (attractorOfKey 1 a.1)
      (attractorOfKey 1 b.1) (1 / 5) (1 / 2) = Run.value false)
      [(['1'], [dense [11 / 20], dense [11 / 8]]), (['1', '.', '7', '5'], [dense [29 / 10]])] := by
  have hB : phaseB 30 spaceFour 1 (1 / 5) (1 / 2)
        [(['1'], [dense [11 / 20]]), (['1', '.', '5'], [dense [11 / 8]]),
          (['1', '.', '7', '5'], [dense [29 / 10]])] =
      Run.value [(['1'], [dense [11 / 20], dense [11 / 8]]),
        (['1', '.', '7', '5'], [dense [29 / 10]])] := by decide!
  exact ⟨hB, by decide!, by decide!,
    (phase_b_postcondition 30 spaceFour 1 (1 / 5) (1 / 2) _ _ hB).1⟩

/-- C37 (the merging phase conserves the members).  For a cluster map that the first phase
has returned and a merge loop that has finished on it with the map `merged`: the members of
all the clusters of `merged` are a permutation of the members of all the clusters of
before; no cluster of `merged` is without a member; the keys of `merged` are a sublist of
the keys of before, so there are no more clusters than before.  The loop itself never runs
forever: from some bound on the iterations of the path tests on it has finished, unless a
path test has no defined behaviour. -/
theorem phase_b_conserves_members (sqrt expl : ℚ → ℚ) (fuel : Nat) (hs : HyperSpace)
    (sigma xi : ℚ) (dimension : Nat) (clusters merged : Clusters)
    (hA : phaseA sqrt expl fuel hs sigma xi = Run.value (some clusters))
    (hB : phaseB fuel hs dimension xi sigma clusters = Run.value merged) :
    (merged.flatMap Prod.snd).Perm (clusters.flatMap Prod.snd) ∧
    (∀ kv ∈ merged, kv.2 ≠ []) ∧
    (merged.map Prod.fst).Sublist (clusters.map Prod.fst) ∧
    merged.length ≤ clusters.length ∧
    ∃ bound, ∀ k, phaseB (bound + k) hs dimension xi sigma clusters ≠ Run.noFuel := by
  have hne : ∀ kv ∈ clusters, kv.2 ≠ [] := by
    unfold phaseA at hA
    cases hb : EntityIterator.begin hs with
    | none => rw [hb] at hA; cases hA
    | some first =>
      rw [hb] at hA
      exact phaseALoop_members sqrt expl fuel hs sigma xi fuel first [] clusters hA
        List.Pairwise.nil (fun kv hkv => absurd hkv (List.not_mem_nil _))
  obtain ⟨_, _, h3, h4⟩ := phaseBLoop_spec fuel hs dimension xi sigma _ clusters merged hB
  have hsub := phaseBLoop_sublist fuel hs dimension xi sigma _ clusters merged hB
  refine ⟨h3, h4 hne, hsub, ?_, phaseB_halts hs dimension xi sigma clusters⟩
  have := hsub.length_le
  simp only [List.length_map] at this
  exact this

set_option maxRecDepth 100000 in
theorem phase_b_conserves_members_witness :
    phaseA sqrtSample expSample 5 spaceQuad (1 / 2) 1 =
      Run.value (some [(['0', '.', '4'], [point [2 / 5], point [7 / 5]]),
        (['1', '.', '2'], [point [1 / 5], point [6 / 5]])]) ∧
    phaseB 5 spaceQuad 1 1 (1 / 2)
        [(['0', '.', '4'], [point [2 / 5], point [7 / 5]]),
          (['1', '.', '2'], [point [1 / 5], point [6 / 5]])] =
      Run.value [(['0', '.', '4'], [point [2 / 5], point [7 / 5]]),
        (['1', '.', '2'], [point [1 / 5], point [6 / 5]])] ∧
    (List.flatMap ([(['0', '.', '4'], [point [2 / 5], point [7 / 5]]),
        (['1', '.', '2'], [point [1 / 5], point [6 / 5]])] : Clusters) Prod.snd).Perm
      (List.flatMap ([(['0', '.', '4'], [point [2 / 5], point [7 / 5]]),
        (['1', '.', '2'], [point [1 / 5], point [6 / 5]])] : Clusters) Prod.snd) := by
  have hA : phaseA sqrtSample expSample 5 spaceQuad (1 / 2) 1 =
      Run.value (some [(['0', '.', '4'], [point [2 / 5], point [7 / 5]]),
        (['1', '.', '2'], [point [1 / 5], point [6 / 5]])]) := by decide!
  have hB : phaseB 5 spaceQuad 1 1 (1 / 2)
        [(['0', '.', '4'], [point [2 / 5], point [7 / 5]]),
          (['1', '.', '2'], [point [1 / 5], point [6 / 5]])] =
      Run.value [(['0', '.', '4'], [point [2 / 5], point [7 / 5]]),
        (['1', '.', '2'], [point [1 / 5], point [6 / 5]])] := by decide!
  exact ⟨hA, hB,
    (phase_b_conserves_members sqrtSample expSample 5 spaceQuad (1 / 2) 1 1 _ _ hA hB).1⟩


/-! ## The neighbors that `createHyperCubes` records -/

set_option maxRecDepth 100000 in
/-- C31 (candidate neighbors).  On the box `[0, 3] x [0, 3]` with edge length 1 the grid has
nine cubes, the list of neighbors of every cube holds exactly the keys of the cubes whose
upper corner is an offset in `{-1, 0, +1}^2` apart, each once, and the interior cube `"2,2"`
has `3^2 - 1 = 8` neighbors; the loop over `neighbor[]` visits the `3^d` offsets once each
for `d = 1, 2, 3`.  On the box `[1234560, 1234620]` with edge length 15, whose extent is 4
edges, `determineSpatialRegions` returns four cubes whose keys `"1.23456e+06"`,
`"1.23458e+06"`, `"1.2346e+06"`, `"1.23462e+06"` are read back as the corners 1234560,
1234580, 1234600 and 1234620: the cube of the corner 1234580 lists the cubes of the corners
1234560 and 1234600, which are 20 away, not 15. -/
theorem candidate_neighbors :
    (∀ k, ∃ hs, gridOf (9 + k) dataSquare (1 / 2) 1 = some hs ∧
      hs.upper_bounds = [3, 3] ∧ hs.lower_bounds = [0, 0] ∧ hs.hypercubeEdgeLenght = 1 ∧
      hs.hypercubes.length = 9 ∧ hs.CandidateNeighbors ∧
      (StrMap.find hs.hypercubes ['2', ',', '2']).map (fun c => c.neighbors.length) =
        some 8) ∧
    (HyperSpace.neighborOffsets (3 ^ 1) (List.replicate 1 (-1))).Nodup ∧
    (HyperSpace.neighborOffsets (3 ^ 2) (List.replicate 2 (-1))).Nodup ∧
    (HyperSpace.neighborOffsets (3 ^ 3) (List.replicate 3 (-1))).Nodup ∧
    HyperSpace.neighborOffsets (3 ^ 2) (List.replicate 2 (-1)) =
      [[-1, -1], [-1, 0], [-1, 1], [0, -1], [0, 0], [0, 1], [1, -1], [1, 0], [1, 1]] ∧
    (∀ k, ∃ hs, gridOf (3 + k) dataStride (15 / 2) 1 = some hs ∧
      hs.upper_bounds = [1234620] ∧ hs.lower_bounds = [1234560] ∧
      hs.hypercubeEdgeLenght = 15 ∧
      hs.upper_bounds.getD 0 0 - hs.lower_bounds.getD 0 0 = 4 * hs.hypercubeEdgeLenght ∧
      hs.hypercubes.map (fun kv => (String.mk kv.1, hs.corner kv.1,
          kv.2.neighbors.map String.mk)) =
        [("1.23456e+06", [1234560], ["1.23458e+06"]),
         ("1.23458e+06", [1234580], ["1.23456e+06", "1.2346e+06"]),
         ("1.23462e+06", [1234620], ["1.2346e+06"]),
         ("1.2346e+06", [1234600], ["1.23458e+06", "1.23462e+06"])] ∧
      ¬ hs.CandidateNeighbors) := by
  refine ⟨?_, by decide, by decide, by decide, by decide, ?_⟩
  · intro k
    have h1 : (gridOf 9 dataSquare (1 / 2) 1).map (fun hs => decide (
        hs.upper_bounds = [3, 3] ∧ hs.lower_bounds = [0, 0] ∧ hs.hypercubeEdgeLenght = 1 ∧
        hs.hypercubes.length = 9 ∧ hs.CandidateNeighbors ∧
        (StrMap.find hs.hypercubes ['2', ',', '2']).map (fun c => c.neighbors.length) =
          some 8)) = some true := by decide!
    cases hg : gridOf 9 dataSquare (1 / 2) 1 with
    | none => rw [hg] at h1; cases h1
    | some hs =>
      rw [hg] at h1
      simp only [Option.map_some', Option.some.injEq, decide_eq_true_eq] at h1
      exact ⟨hs, gridOf_add _ _ _ _ _ hg k, h1⟩
  · intro k
    have h1 : (gridOf 3 dataStride (15 / 2) 1).map (fun hs => decide (
        hs.upper_bounds = [1234620] ∧ hs.lower_bounds = [1234560] ∧
        hs.hypercubeEdgeLenght = 15 ∧
        hs.upper_bounds.getD 0 0 - hs.lower_bounds.getD 0 0 = 4 * hs.hypercubeEdgeLenght ∧
        hs.hypercubes.map (fun kv => (String.mk kv.1, hs.corner kv.1,
            kv.2.neighbors.map String.mk)) =
          [("1.23456e+06", [1234560], ["1.23458e+06"]),
           ("1.23458e+06", [1234580], ["1.23456e+06", "1.2346e+06"]),
           ("1.23462e+06", [1234620], ["1.2346e+06"]),
           ("1.2346e+06", [1234600], ["1.23458e+06", "1.23462e+06"])] ∧
        ¬ hs.CandidateNeighbors)) = some true := by decide!
    cases hg : gridOf 3 dataStride (15 / 2) 1 with
    | none => rw [hg] at h1; cases h1
    | some hs =>
      rw [hg] at h1
      simp only [Option.map_some', Option.some.injEq, decide_eq_true_eq] at h1
      exact ⟨hs, gridOf_add _ _ _ _ _ hg k, h1⟩


/-! ## The symmetry of the lists of neighbors -/

theorem StrMap.contains_of_mem {α : Type} (m : StrMap α) (k : List Char) (v : α)
    (h : (k, v) ∈ m) : StrMap.contains m k = true := by
  unfold StrMap.contains
  induction m with
  | nil => cases h
  | cons kv rest ih =>
    obtain ⟨k0, v0⟩ := kv
    simp only [StrMap.find]
    split
    · rfl
    · rename_i hk
      rcases List.mem_cons.mp h with h1 | h1
      · cases h1
        exact absurd rfl hk
      · exact ih h1

/-- The cubes of the map after the first two loops of `removeLowPopulatedHypercubes` are the
cubes with an object, without the keys of the empty cubes in their lists. -/
theorem HyperSpace.mem_withoutEmpty (hs : HyperSpace) (a : List Char × HyperCube) :
    a ∈ hs.withoutEmpty ↔ ∃ c, (a.1, c) ∈ hs.hypercubes ∧ c.isEmpty = false ∧
      a.2 = c.removeEmptyNeighbors hs.deleted_keys := by
  unfold HyperSpace.withoutEmpty
  rw [List.mem_map]
  constructor
  · rintro ⟨kv, hkv, rfl⟩
    rw [List.mem_filter] at hkv
    refine ⟨kv.2, hkv.1, ?_, rfl⟩
    have := hkv.2
    simpa using this
  · rintro ⟨c, hc, he, ha⟩
    refine ⟨(a.1, c), ?_, ?_⟩
    · rw [List.mem_filter]
      exact ⟨hc, by simp [he]⟩
    · rw [← ha]

/-- A key is on the list of a cube after `removeEmptyNeighbors` when it was on the list and
is not among the keys given. -/
theorem HyperCube.mem_removeEmptyNeighbors (c : HyperCube) (del : List (List Char))
    (k : List Char) :
    k ∈ (c.removeEmptyNeighbors del).neighbors ↔ k ∈ c.neighbors ∧ k ∉ del := by
  unfold HyperCube.removeEmptyNeighbors
  simp [List.mem_filter]

/-- The key of a cube with an object is not among the keys of the empty cubes of a map
whose keys are distinct. -/
theorem HyperSpace.not_mem_deleted_keys (hs : HyperSpace)
    (hk : (hs.hypercubes.map Prod.fst).Nodup) (k : List Char) (c : HyperCube)
    (hc : (k, c) ∈ hs.hypercubes) (he : c.isEmpty = false) : k ∉ hs.deleted_keys := by
  intro hdel
  unfold HyperSpace.deleted_keys at hdel
  rw [List.mem_map] at hdel
  obtain ⟨kv, hkv, hkk⟩ := hdel
  rw [List.mem_filter] at hkv
  have hinj := List.inj_on_of_nodup_map hk hkv.1 hc hkk
  rw [hinj] at hkv
  have := hkv.2
  simp only at this
  rw [he] at this
  cases this

set_option maxRecDepth 100000 in
/-- C36 (adjacency is symmetric).  On the box `[0, 3] x [0, 3]` with edge length 1 the
lists of neighbors are symmetric and hold keys of the map only.  The first two loops of
`removeLowPopulatedHypercubes` keep both properties, for every map with distinct keys.  On
the box `[1000005, 1000015]` with edge length 5, whose extent is 2 edges,
`determineSpatialRegions` returns two cubes, with the keys `"1.00001e+06"` and
`"1.00002e+06"`: the second key is on the list of the first cube and the list of the second
cube is empty, also once both cubes hold a point and the first two loops of
`removeLowPopulatedHypercubes` have run. -/
theorem adjacency_symmetric :
    (∀ k, ∃ hs, gridOf (9 + k) dataSquare (1 / 2) 1 = some hs ∧
      (hs.hypercubes.map Prod.fst).Nodup ∧
      StrMap.AdjacencySymmetric hs.hypercubes ∧ StrMap.NeighborsInMap hs.hypercubes) ∧
    (∀ hs : HyperSpace, (hs.hypercubes.map Prod.fst).Nodup →
      StrMap.AdjacencySymmetric hs.hypercubes → StrMap.NeighborsInMap hs.hypercubes →
      StrMap.AdjacencySymmetric hs.withoutEmpty ∧ StrMap.NeighborsInMap hs.withoutEmpty) ∧
    (∀ k, ∃ hs, gridOf (2 + k) dataTie (5 / 2) 1 = some hs ∧
      hs.upper_bounds = [1000015] ∧ hs.lower_bounds = [1000005] ∧
      hs.hypercubeEdgeLenght = 5 ∧
      hs.upper_bounds.getD 0 0 - hs.lower_bounds.getD 0 0 = 2 * hs.hypercubeEdgeLenght ∧
      hs.hypercubes.map (fun kv => (String.mk kv.1, kv.2.neighbors.map String.mk)) =
        [("1.00001e+06", ["1.00002e+06"]), ("1.00002e+06", [])] ∧
      ¬ StrMap.AdjacencySymmetric hs.hypercubes) ∧
    (∀ k, ∃ hs, routed (2 + k) dataTie (5 / 2) 1 = some hs ∧
      hs.withoutEmpty.map (fun kv => (String.mk kv.1, kv.2.neighbors.map String.mk,
          kv.2.objects)) =
        [("1.00001e+06", ["1.00002e+06"], [point [1000005]]),
         ("1.00002e+06", [], [point [1000015]])] ∧
      ¬ StrMap.AdjacencySymmetric hs.withoutEmpty) := by
  refine ⟨?_, ?_, ?_, ?_⟩
  · intro k
    have h1 : (gridOf 9 dataSquare (1 / 2) 1).map (fun hs => decide (
        (hs.hypercubes.map Prod.fst).Nodup ∧
        StrMap.AdjacencySymmetric hs.hypercubes ∧ StrMap.NeighborsInMap hs.hypercubes)) =
        some true := by decide!
    cases hg : gridOf 9 dataSquare (1 / 2) 1 with
    | none => rw [hg] at h1; cases h1
    | some hs =>
      rw [hg] at h1
      simp only [Option.map_some', Option.some.injEq, decide_eq_true_eq] at h1
      exact ⟨hs, gridOf_add _ _ _ _ _ hg k, h1⟩
  · intro hs hk hsym hin
    constructor
    · intro a ha b hb
      obtain ⟨ca, hca, hea, haa⟩ := (HyperSpace.mem_withoutEmpty hs a).mp ha
      obtain ⟨cb, hcb, heb, hbb⟩ := (HyperSpace.mem_withoutEmpty hs b).mp hb
      rw [haa, hbb, HyperCube.mem_removeEmptyNeighbors, HyperCube.mem_removeEmptyNeighbors]
      have h1 := hsym _ hca _ hcb
      simp only at h1
      have na := HyperSpace.not_mem_deleted_keys hs hk _ _ hca hea
      have nb := HyperSpace.not_mem_deleted_keys hs hk _ _ hcb heb
      constructor
      · intro h
        exact ⟨h1.mp h.1, na⟩
      · intro h
        exact ⟨h1.mpr h.1, nb⟩
    · intro a ha key hkey
      obtain ⟨ca, hca, hea, haa⟩ := (HyperSpace.mem_withoutEmpty hs a).mp ha
      rw [haa, HyperCube.mem_removeEmptyNeighbors] at hkey
      have h2 := hin _ hca key hkey.1
      unfold StrMap.contains at h2
      cases hf : StrMap.find hs.hypercubes key with
      | none => rw [hf] at h2; cases h2
      | some c =>
        have hm := StrMap.find_mem _ _ _ hf
        have hne : c.isEmpty = false := by
          cases he : c.isEmpty with
          | false => rfl
          | true =>
            exfalso
            apply hkey.2
            unfold HyperSpace.deleted_keys
            rw [List.mem_map]
            exact ⟨(key, c), List.mem_filter.mpr ⟨hm, he⟩, rfl⟩
        exact StrMap.contains_of_mem _ key (c.removeEmptyNeighbors hs.deleted_keys)
          ((HyperSpace.mem_withoutEmpty hs (key, c.removeEmptyNeighbors hs.deleted_keys)).mpr
            ⟨c, hm, hne, rfl⟩)
  · intro k
    have h1 : (gridOf 2 dataTie (5 / 2) 1).map (fun hs => decide (
        hs.upper_bounds = [1000015] ∧ hs.lower_bounds = [1000005] ∧
        hs.hypercubeEdgeLenght = 5 ∧
        hs.upper_bounds.getD 0 0 - hs.lower_bounds.getD 0 0 = 2 * hs.hypercubeEdgeLenght ∧
        hs.hypercubes.map (fun kv => (String.mk kv.1, kv.2.neighbors.map String.mk)) =
          [("1.00001e+06", ["1.00002e+06"]), ("1.00002e+06", [])] ∧
        ¬ StrMap.AdjacencySymmetric hs.hypercubes)) = some true := by decide!
    cases hg : gridOf 2 dataTie (5 / 2) 1 with
    | none => rw [hg] at h1; cases h1
    | some hs =>
      rw [hg] at h1
      simp only [Option.map_some', Option.some.injEq, decide_eq_true_eq] at h1
      exact ⟨hs, gridOf_add _ _ _ _ _ hg k, h1⟩
  · intro k
    have h1 : (routed 2 dataTie (5 / 2) 1).map (fun hs => decide (
        hs.withoutEmpty.map (fun kv => (String.mk kv.1, kv.2.neighbors.map String.mk,
            kv.2.objects)) =
          [("1.00001e+06", ["1.00002e+06"], [point [1000005]]),
           ("1.00002e+06", [], [point [1000015]])] ∧
        ¬ StrMap.AdjacencySymmetric hs.withoutEmpty)) = some true := by decide!
    cases hg : routed 2 dataTie (5 / 2) 1 with
    | none => rw [hg] at h1; cases h1
    | some hs =>
      rw [hg] at h1
      simp only [Option.map_some', Option.some.injEq, decide_eq_true_eq] at h1
      exact ⟨hs, routed_add _ _ _ _ _ hg k, h1⟩


/-! ## The length of a step of the hill climbing -/

namespace DenclueFunctions

/-- The gradient at an entity with one coordinate has one component. -/
theorem gradientSum_one (expl : ℚ → ℚ) (c d sigma : ℚ) (ys : List DatasetEntity) :
    gradientSum expl { attributes := [c], density := d } sigma ys =
      [(ys.map (fun y => (y.getComponentValue 0 - c) *
        calculateInfluence expl { attributes := [c], density := d } y sigma)).sum] := by
  unfold gradientSum
  have hd : DatasetEntity.getNumOfDimensions { attributes := [c], density := d } = 1 := rfl
  have hr : List.range 1 = [0] := by decide
  rw [hd, hr]
  rfl

/-- A pass of the body in one dimension, with a gradient whose text is a positive number:
the new coordinate is the text of `c + 1`, read back. -/
theorem climbStep_one_up (sqrt expl : ℚ → ℚ) (hsq : ∀ v : ℚ, 0 < v → sqrt (v ^ 2) = v)
    (hs : HyperSpace) (hit : hs.iterable = true) (hne : hs.high_populated_keys ≠ [])
    (entity : DatasetEntity) (hd : entity.getNumOfDimensions = 1) (sigma c d g : ℚ) (k : Nat)
    (hg : gradientSum expl { attributes := [c], density := d } sigma hs.iterated = [g])
    (hpos : 0 < textValue g) :
    climbStep sqrt expl (hs.iterated.length + 1 + k) hs entity
        { cube_keys_iterator := 0, entities_iterator := 0 } sigma
        { attributes := [c], density := d } =
      Run.value (some ((point [textValue (c + 1)]).setDensity
        (influenceSum expl (point [textValue (c + 1)]) sigma hs.iterated))) := by
  rw [climbStep_eq sqrt expl hs hit hne, hd, hg, gradEntity_norm_one,
    if_neg (not_le.mpr (pow_pos hpos 2)), hsq _ hpos, add_scaled_gradEntity]
  have hv : c + textValue g * (1 / textValue g) = c + 1 := by
    field_simp
  rw [hv]

end DenclueFunctions

set_option maxRecDepth 100000 in
/-- C33 (unit step).  In one dimension, for a square root that is exact on squares, a pass
of the body of `getDensityAttractor` from the coordinate `c` with a gradient whose text is
positive leads to the text of `c + 1` read back, whatever `sigma` is: `operator+` writes the
sum with six significant digits.  From the seed `0.123456` in `spaceQuad` the pass leads to
`1.12346`, which is `1.000004` away and not `1`; `getDensityAttractor` returns that iterate,
so the attractor is farther than 1 from the seed after the one step that was kept.  (The
distance that `distanceBetween` computes for the two is 1, its difference being written the
same way.)  A seed whose first pass lowers the density is returned itself. -/
theorem unit_step_through_text :
    (∀ (sqrt expl : ℚ → ℚ), (∀ v : ℚ, 0 < v → sqrt (v ^ 2) = v) →
      ∀ (hs : HyperSpace), hs.iterable = true → hs.high_populated_keys ≠ [] →
      ∀ (entity : DatasetEntity), entity.getNumOfDimensions = 1 →
      ∀ (sigma c d g : ℚ) (k : Nat),
        DenclueFunctions.gradientSum expl { attributes := [c], density := d } sigma
          hs.iterated = [g] →
        0 < textValue g →
        DenclueFunctions.climbStep sqrt expl (hs.iterated.length + 1 + k) hs entity
            { cube_keys_iterator := 0, entities_iterator := 0 } sigma
            { attributes := [c], density := d } =
          Run.value (some ((point [textValue (c + 1)]).setDensity
            (DenclueFunctions.influenceSum expl (point [textValue (c + 1)]) sigma
              hs.iterated)))) ∧
    textValue (123456 / 1000000 + 1) = 112346 / 100000 ∧
    (112346 / 100000 : ℚ) - 123456 / 1000000 = 1000004 / 1000000 ∧
    (∃ e, DenclueFunctions.climbStep sqrtSample expSample 5 spaceQuad seedSix
          { cube_keys_iterator := 0, entities_iterator := 0 } (1 / 2) seedSix =
        Run.value (some e) ∧
      DenclueFunctions.getDensityAttractor sqrtSample expSample 5 seedSix spaceQuad
          { cube_keys_iterator := 0, entities_iterator := 0 } (1 / 2) =
        Run.value (some e) ∧
      seedSix.attributes = [123456 / 1000000] ∧
      e.attributes = [112346 / 100000] ∧
      seedSix.getDensity < e.getDensity ∧
      DatasetEntity.distanceSquared e seedSix = 1) ∧
    (∀ (sqrt expl : ℚ → ℚ) (fuel : Nat) (hs : HyperSpace) (entity : DatasetEntity)
      (it : EntityIterator) (sigma : ℚ),
      DenclueFunctions.TopAt sqrt expl fuel hs entity it sigma entity →
      DenclueFunctions.getDensityAttractor sqrt expl fuel entity hs it sigma =
        Run.value (some entity)) := by
  refine ⟨?_, by decide!, by norm_num, ?_, ?_⟩
  · intro sqrt expl hsq hs hit hne entity hd sigma c d g k hg hpos
    exact DenclueFunctions.climbStep_one_up sqrt expl hsq hs hit hne entity hd sigma c d g k
      hg hpos
  · have h1 : (match DenclueFunctions.climbStep sqrtSample expSample 5 spaceQuad seedSix
          { cube_keys_iterator := 0, entities_iterator := 0 } (1 / 2) seedSix with
        | Run.value (some e) => decide (
            DenclueFunctions.getDensityAttractor sqrtSample expSample 5 seedSix spaceQuad
              { cube_keys_iterator := 0, entities_iterator := 0 } (1 / 2) =
              Run.value (some e) ∧
            seedSix.attributes = [123456 / 1000000] ∧
            e.attributes = [112346 / 100000] ∧
            seedSix.getDensity < e.getDensity ∧
            DatasetEntity.distanceSquared e seedSix = 1)
        | _ => false) = true := by decide!
    cases hr : DenclueFunctions.climbStep sqrtSample expSample 5 spaceQuad seedSix
        { cube_keys_iterator := 0, entities_iterator := 0 } (1 / 2) seedSix with
    | noFuel => rw [hr] at h1; cases h1
    | undefined => rw [hr] at h1; cases h1
    | value r =>
      cases r with
      | none => rw [hr] at h1; cases h1
      | some e =>
        rw [hr] at h1
        simp only [decide_eq_true_eq] at h1
        exact ⟨e, rfl, h1⟩
  · intro sqrt expl fuel hs entity it sigma h
    exact DenclueFunctions.climb_of_topAt sqrt expl fuel hs entity it sigma 998 entity h

end Denclue
